import Mathlib

/-!
# ncursespp: the cell grid and the box-drawing line-merging engine

A shallow embedding of `src/include/General.hpp` and `src/src/Window.cpp`.

Conventions of the embedding

* `unsigned short` and `unsigned char` values are natural numbers; wherever the source
  narrows the result of an `int` computation back to `unsigned short` the model reduces
  modulo `65536` explicitly.  Comparisons of the form `v < 0` on unsigned values are
  always false in the source and are dropped.
* `wchar_t` values are natural numbers (code points); `char` values are `Char`,
  `std::string` is `String` and `std::wstring` is `List Nat`.
* The window is passed explicitly: a member function that mutates the grid returns the
  new window (together with its C++ return value when it has one).
* The calls into ncurses (`wclear`, `wattron`, ...) have no effect on the cell grid and
  are not part of the state.
* A loop whose counter is an `unsigned short` compared with a larger bound may fail to
  end in the source.  Such a loop is a recursion on a fuel that exceeds the number of
  control states of the loop, and the operation returns an `Option`: `none` stands for a
  run that does not return.
-/

namespace npp

/-! ## Constants of `General.hpp` -/

def LIGHT_HARD : Nat := 0
def LIGHT_SOFT : Nat := 1
def HEAVY_BOTH : Nat := 2
def HEAVY_HORIZONTAL : Nat := 3
def HEAVY_VERTICAL : Nat := 4
def DOUBLED_BOTH : Nat := 5
def DOUBLED_HORIZTONAL : Nat := 6
def DOUBLED_VERTICAL : Nat := 7

def DASHED_NONE : Nat := 0
def DASHED_DOUBLE : Nat := 1
def DASHED_TRIPLE : Nat := 2
def DASHED_QUADRUPLE : Nat := 3
def DASHED_SINGLE_1 : Nat := 4
def DASHED_SINGLE_2 : Nat := 5

def STYLE_NONE : Nat := 0
def STYLE_LIGHT : Nat := 1
def STYLE_HEAVY : Nat := 2
def STYLE_DOUBLED : Nat := 3

def DIR_UP : Nat := 0
def DIR_DOWN : Nat := 1
def DIR_LEFT : Nat := 2
def DIR_RIGHT : Nat := 3

/-- The blank `L' '`. -/
def BLANK : Nat := 0x20

/-- Narrowing of an `int` value to `unsigned short`. -/
def toUShort (v : Int) : Nat := (v % 65536).toNat

/-- The struct `Defaults` of `General.hpp`, a mutable global in the source. -/
structure DefaultsT where
  Color : Nat
  Attributes : String
  Offset : Nat × Nat
  Wrap : Bool
  MinWidth : Nat
  DanglingLetters : Bool
  Kerning : Nat
  Leading : Nat
  Style : Nat × Nat
  Mergeable : Bool
  CanMerge : Bool

/-- The values `Defaults` is initialised with; the model reads the defaults at these
values (no function of the library assigns to them). -/
def Defaults : DefaultsT where
  Color := 1
  Attributes := ""
  Offset := (0, 1)
  Wrap := true
  MinWidth := 0
  DanglingLetters := true
  Kerning := 1
  Leading := 1
  Style := (LIGHT_HARD, DASHED_NONE)
  Mergeable := true
  CanMerge := true

/-! ## The keys of `General.hpp` -/

namespace Keys

/-- The key that matches box drawing characters to the directions/styles that make them
up: `(glyph, [up, down, left, right])`, in the order of the source. -/
def LineDrawing : List (Nat × List Nat) := [
  -- Horizontal and vertical lines off all 6 dash styles (none, single 1, single 2, double, triple, quadruple)
  (0x2500, [0, 0, 1, 1]), (0x254C, [0, 0, 1, 1]), (0x2504, [0, 0, 1, 1]), (0x2508, [0, 0, 1, 1]), (0x2574, [0, 0, 1, 1]), (0x2576, [0, 0, 1, 1]),  -- ─ ╌ ┄ ┈ ╴ ╶
  (0x2501, [0, 0, 2, 2]), (0x254D, [0, 0, 2, 2]), (0x2505, [0, 0, 2, 2]), (0x2509, [0, 0, 2, 2]), (0x2578, [0, 0, 2, 2]), (0x257A, [0, 0, 2, 2]),  -- ━ ╍ ┅ ┉ ╸ ╺
  (0x2502, [1, 1, 0, 0]), (0x254E, [1, 1, 0, 0]), (0x2506, [1, 1, 0, 0]), (0x250A, [1, 1, 0, 0]), (0x2575, [1, 1, 0, 0]), (0x2577, [1, 1, 0, 0]),  -- │ ╎ ┆ ┊ ╵ ╷
  (0x2503, [2, 2, 0, 0]), (0x254F, [2, 2, 0, 0]), (0x2507, [2, 2, 0, 0]), (0x250B, [2, 2, 0, 0]), (0x2579, [2, 2, 0, 0]), (0x257B, [2, 2, 0, 0]),  -- ┃ ╏ ┇ ┋ ╹ ╻
  (0x2550, [0, 0, 3, 3]), (0x2551, [3, 3, 0, 0]),  -- ═ ║
  -- Corners
  (0x250C, [0, 1, 0, 1]), (0x256D, [0, 1, 0, 1]), (0x2510, [0, 1, 1, 0]), (0x256E, [0, 1, 1, 0]), (0x2514, [1, 0, 0, 1]), (0x2570, [1, 0, 0, 1]), (0x2518, [1, 0, 1, 0]), (0x256F, [1, 0, 1, 0]),  -- ┌ ╭ ┐ ╮ └ ╰ ┘ ╯
  (0x250D, [0, 1, 0, 2]), (0x250E, [0, 2, 0, 1]), (0x250F, [0, 2, 0, 2]), (0x2552, [0, 1, 0, 3]), (0x2553, [0, 3, 0, 1]), (0x2554, [0, 3, 0, 3]),  -- ┍ ┎ ┏ ╒ ╓ ╔
  (0x2511, [0, 1, 2, 0]), (0x2512, [0, 2, 1, 0]), (0x2513, [0, 2, 2, 0]), (0x2555, [0, 1, 3, 0]), (0x2556, [0, 3, 1, 0]), (0x2557, [0, 3, 3, 0]),  -- ┑ ┒ ┓ ╕ ╖ ╗
  (0x2515, [1, 0, 0, 2]), (0x2516, [2, 0, 0, 1]), (0x2517, [2, 0, 0, 2]), (0x2558, [1, 0, 0, 3]), (0x2559, [3, 0, 0, 1]), (0x255A, [3, 0, 0, 3]),  -- ┕ ┖ ┗ ╘ ╙ ╚
  (0x2519, [1, 0, 2, 0]), (0x251A, [2, 0, 1, 0]), (0x251B, [2, 0, 2, 0]), (0x255B, [1, 0, 3, 0]), (0x255C, [3, 0, 1, 0]), (0x255D, [3, 0, 3, 0]),  -- ┙ ┚ ┛ ╛ ╜ ╝
  -- Tees
  (0x251C, [1, 1, 0, 1]), (0x251D, [1, 1, 0, 2]), (0x251E, [2, 1, 0, 1]), (0x251F, [1, 2, 0, 1]), (0x2520, [2, 2, 0, 1]), (0x2521, [2, 1, 0, 2]), (0x2522, [1, 2, 0, 2]), (0x2523, [2, 2, 0, 2]), (0x255E, [1, 1, 0, 3]), (0x255F, [3, 3, 0, 1]), (0x2560, [3, 3, 0, 3]),  -- ├ ┝ ┞ ┟ ┠ ┡ ┢ ┣ ╞ ╟ ╠
  (0x2524, [1, 1, 1, 0]), (0x2525, [1, 1, 2, 0]), (0x2526, [2, 1, 1, 0]), (0x2527, [1, 2, 1, 0]), (0x2528, [2, 2, 1, 0]), (0x2529, [2, 1, 2, 0]), (0x252A, [1, 2, 2, 0]), (0x252B, [2, 2, 2, 0]), (0x2561, [1, 1, 3, 0]), (0x2562, [3, 3, 1, 0]), (0x2563, [3, 3, 3, 0]),  -- ┤ ┥ ┦ ┧ ┨ ┩ ┪ ┫ ╡ ╢ ╣
  (0x252C, [0, 1, 1, 1]), (0x252D, [0, 1, 2, 1]), (0x252E, [0, 1, 1, 2]), (0x252F, [0, 1, 2, 2]), (0x2530, [0, 2, 1, 1]), (0x2531, [0, 2, 2, 1]), (0x2532, [0, 2, 1, 2]), (0x2533, [0, 2, 2, 2]), (0x2564, [0, 1, 3, 3]), (0x2565, [0, 3, 1, 1]), (0x2566, [0, 3, 3, 3]),  -- ┬ ┭ ┮ ┯ ┰ ┱ ┲ ┳ ╤ ╥ ╦
  (0x2534, [1, 0, 1, 1]), (0x2535, [1, 0, 2, 1]), (0x2536, [1, 0, 1, 2]), (0x2537, [1, 0, 2, 2]), (0x2538, [2, 0, 1, 1]), (0x2539, [2, 0, 2, 1]), (0x253A, [2, 0, 1, 2]), (0x253B, [2, 0, 2, 2]), (0x2567, [1, 0, 3, 3]), (0x2568, [3, 0, 1, 1]), (0x2569, [3, 0, 3, 3]),  -- ┴ ┵ ┶ ┷ ┸ ┹ ┺ ┻ ╧ ╨ ╩
  -- Crosses
  (0x253C, [1, 1, 1, 1]), (0x253D, [1, 1, 2, 1]), (0x253E, [1, 1, 1, 2]), (0x253F, [1, 1, 2, 2]), (0x2540, [2, 1, 1, 1]), (0x2541, [1, 2, 1, 1]), (0x2542, [2, 2, 1, 1]), (0x2543, [2, 1, 2, 1]),  -- ┼ ┽ ┾ ┿ ╀ ╁ ╂ ╃
  (0x2544, [2, 1, 1, 2]), (0x2545, [1, 2, 2, 1]), (0x2546, [1, 2, 1, 2]), (0x2547, [2, 2, 1, 2]), (0x2548, [1, 2, 2, 2]), (0x2549, [2, 2, 2, 1]), (0x254A, [2, 2, 1, 2]), (0x254B, [2, 2, 2, 2]),  -- ╄ ╅ ╆ ╇ ╈ ╉ ╊ ╋
  (0x256A, [1, 1, 3, 3]), (0x256B, [3, 3, 1, 1]), (0x256C, [3, 3, 3, 3]),  -- ╪ ╫ ╬
  -- Thickness transitions
  (0x257C, [0, 0, 1, 2]), (0x257D, [1, 2, 0, 0]), (0x257E, [0, 0, 2, 1]), (0x257F, [2, 1, 0, 0])  -- ╼ ╽ ╾ ╿
]

/-- The key that matches a character to its 3x3 set of block elements. -/
def MatrixText6x6 : List (Char × List (List Nat)) := [
  (Char.ofNat 32, [[0x0020, 0x0020, 0x0020], [0x0020, 0x0020, 0x0020], [0x0020, 0x0020, 0x0020]]),
  (Char.ofNat 97, [[0x0020, 0x0020, 0x0020], [0x259E, 0x2580, 0x259F], [0x259A, 0x2584, 0x259C]]),  -- a
  (Char.ofNat 98, [[0x258C, 0x0020, 0x0020], [0x2599, 0x2580, 0x259A], [0x259B, 0x2584, 0x259E]]),  -- b
  (Char.ofNat 99, [[0x0020, 0x0020, 0x0020], [0x259E, 0x2580, 0x2580], [0x259A, 0x2584, 0x2584]]),  -- c
  (Char.ofNat 100, [[0x0020, 0x0020, 0x2590], [0x259E, 0x2580, 0x259F], [0x259A, 0x2584, 0x259C]]),  -- d
  (Char.ofNat 101, [[0x0020, 0x0020, 0x0020], [0x259F, 0x2588, 0x2599], [0x259A, 0x2584, 0x2584]]),  -- e
  (Char.ofNat 102, [[0x0020, 0x259E, 0x2596], [0x2597, 0x2599, 0x2596], [0x0020, 0x258C, 0x0020]]),  -- f
  (Char.ofNat 103, [[0x259E, 0x2580, 0x259F], [0x259A, 0x2584, 0x259C], [0x2597, 0x2584, 0x259E]]),  -- g
  (Char.ofNat 104, [[0x258C, 0x0020, 0x0020], [0x2599, 0x2580, 0x259A], [0x258C, 0x0020, 0x2590]]),  -- h
  (Char.ofNat 105, [[0x0020, 0x2598, 0x0020], [0x0020, 0x258C, 0x0020], [0x0020, 0x259A, 0x0020]]),  -- i
  (Char.ofNat 106, [[0x0020, 0x259D, 0x0020], [0x0020, 0x2590, 0x0020], [0x259D, 0x259E, 0x0020]]),  -- j
  (Char.ofNat 107, [[0x258C, 0x0020, 0x0020], [0x2599, 0x2584, 0x2598], [0x258C, 0x0020, 0x258C]]),  -- k
  (Char.ofNat 108, [[0x0020, 0x258C, 0x0020], [0x0020, 0x258C, 0x0020], [0x0020, 0x259A, 0x0020]]),  -- l
  (Char.ofNat 109, [[0x0020, 0x0020, 0x0020], [0x259B, 0x259E, 0x2596], [0x258C, 0x258C, 0x258C]]),  -- m
  (Char.ofNat 110, [[0x0020, 0x0020, 0x0020], [0x259B, 0x2580, 0x259A], [0x258C, 0x0020, 0x2590]]),  -- n
  (Char.ofNat 111, [[0x0020, 0x0020, 0x0020], [0x259E, 0x2580, 0x259A], [0x259A, 0x2584, 0x259E]]),  -- o
  (Char.ofNat 112, [[0x259E, 0x2580, 0x259A], [0x2599, 0x2584, 0x259E], [0x258C, 0x0020, 0x0020]]),  -- p
  (Char.ofNat 113, [[0x259E, 0x2580, 0x259A], [0x259A, 0x2584, 0x259F], [0x0020, 0x0020, 0x2590]]),  -- q
  (Char.ofNat 114, [[0x0020, 0x0020, 0x0020], [0x2599, 0x2580, 0x259A], [0x258C, 0x0020, 0x0020]]),  -- r
  (Char.ofNat 115, [[0x2597, 0x2584, 0x2596], [0x259A, 0x2584, 0x2596], [0x2597, 0x2584, 0x259E]]),  -- s
  (Char.ofNat 116, [[0x0020, 0x258C, 0x0020], [0x2580, 0x259B, 0x2580], [0x0020, 0x259A, 0x0020]]),  -- t
  (Char.ofNat 117, [[0x0020, 0x0020, 0x0020], [0x258C, 0x0020, 0x2590], [0x259A, 0x2584, 0x259F]]),  -- u
  (Char.ofNat 118, [[0x0020, 0x0020, 0x0020], [0x258C, 0x0020, 0x2590], [0x259D, 0x2584, 0x2598]]),  -- v
  (Char.ofNat 119, [[0x0020, 0x0020, 0x0020], [0x2590, 0x2590, 0x2590], [0x259D, 0x259E, 0x259F]]),  -- w
  (Char.ofNat 120, [[0x0020, 0x0020, 0x0020], [0x259D, 0x2584, 0x2598], [0x2597, 0x2580, 0x2596]]),  -- x
  (Char.ofNat 121, [[0x258C, 0x0020, 0x2590], [0x259A, 0x2584, 0x259F], [0x2597, 0x2584, 0x259E]]),  -- y
  (Char.ofNat 122, [[0x2584, 0x2584, 0x2584], [0x2597, 0x2584, 0x259E], [0x2599, 0x2584, 0x2584]]),  -- z
  (Char.ofNat 65, [[0x259E, 0x2580, 0x259A], [0x2599, 0x2584, 0x259F], [0x258C, 0x0020, 0x2590]]),  -- A
  (Char.ofNat 66, [[0x259B, 0x2580, 0x259A], [0x259B, 0x2580, 0x259A], [0x2599, 0x2584, 0x259E]]),  -- B
  (Char.ofNat 67, [[0x259E, 0x2580, 0x259A], [0x258C, 0x0020, 0x0020], [0x259A, 0x2584, 0x259E]]),  -- C
  (Char.ofNat 68, [[0x259B, 0x2580, 0x259A], [0x258C, 0x0020, 0x2590], [0x2599, 0x2584, 0x259E]]),  -- D
  (Char.ofNat 69, [[0x259B, 0x2580, 0x2580], [0x259B, 0x2580, 0x2580], [0x2599, 0x2584, 0x2584]]),  -- E
  (Char.ofNat 70, [[0x259B, 0x2580, 0x2580], [0x259B, 0x2580, 0x2580], [0x258C, 0x0020, 0x0020]]),  -- F
  (Char.ofNat 71, [[0x259E, 0x2580, 0x259A], [0x258C, 0x0020, 0x2584], [0x259A, 0x2584, 0x259F]]),  -- G
  (Char.ofNat 72, [[0x258C, 0x0020, 0x2590], [0x259B, 0x2580, 0x259C], [0x258C, 0x0020, 0x2590]]),  -- H
  (Char.ofNat 73, [[0x2580, 0x259C, 0x2580], [0x0020, 0x2590, 0x0020], [0x2584, 0x259F, 0x2584]]),  -- I
  (Char.ofNat 74, [[0x2580, 0x259C, 0x2580], [0x0020, 0x2590, 0x0020], [0x259A, 0x259F, 0x0020]]),  -- J
  (Char.ofNat 75, [[0x258C, 0x0020, 0x259E], [0x259B, 0x2580, 0x2596], [0x258C, 0x0020, 0x2590]]),  -- K
  (Char.ofNat 76, [[0x258C, 0x0020, 0x0020], [0x258C, 0x0020, 0x0020], [0x2599, 0x2584, 0x2584]]),  -- L
  (Char.ofNat 77, [[0x2599, 0x0020, 0x259F], [0x258C, 0x2580, 0x2590], [0x258C, 0x0020, 0x2590]]),  -- M
  (Char.ofNat 78, [[0x2599, 0x0020, 0x2590], [0x258C, 0x259A, 0x2590], [0x258C, 0x0020, 0x259C]]),  -- N
  (Char.ofNat 79, [[0x259E, 0x2580, 0x259A], [0x258C, 0x0020, 0x2590], [0x259A, 0x2584, 0x259E]]),  -- O
  (Char.ofNat 80, [[0x259B, 0x2580, 0x259A], [0x2599, 0x2584, 0x259E], [0x258C, 0x0020, 0x0020]]),  -- P
  (Char.ofNat 81, [[0x259E, 0x2580, 0x259A], [0x258C, 0x2597, 0x2590], [0x259A, 0x2584, 0x259A]]),  -- Q
  (Char.ofNat 82, [[0x259B, 0x2580, 0x259A], [0x2599, 0x2584, 0x259E], [0x258C, 0x0020, 0x2590]]),  -- R
  (Char.ofNat 83, [[0x259E, 0x2580, 0x2598], [0x259D, 0x2580, 0x259A], [0x259A, 0x2584, 0x259E]]),  -- S
  (Char.ofNat 84, [[0x2580, 0x259C, 0x2580], [0x0020, 0x2590, 0x0020], [0x0020, 0x2590, 0x0020]]),  -- T
  (Char.ofNat 85, [[0x258C, 0x0020, 0x2590], [0x258C, 0x0020, 0x2590], [0x259A, 0x2584, 0x259E]]),  -- U
  (Char.ofNat 86, [[0x258C, 0x0020, 0x2590], [0x259A, 0x0020, 0x259E], [0x259D, 0x2584, 0x2598]]),  -- V
  (Char.ofNat 87, [[0x258C, 0x0020, 0x2590], [0x258C, 0x2584, 0x2590], [0x259B, 0x0020, 0x259C]]),  -- W
  (Char.ofNat 88, [[0x259A, 0x0020, 0x259E], [0x0020, 0x2588, 0x0020], [0x259E, 0x0020, 0x259A]]),  -- X
  (Char.ofNat 89, [[0x258C, 0x0020, 0x2590], [0x259D, 0x2584, 0x2598], [0x0020, 0x2588, 0x0020]]),  -- Y
  (Char.ofNat 90, [[0x2580, 0x2580, 0x259C], [0x2597, 0x259E, 0x2598], [0x2599, 0x2584, 0x2584]]),  -- Z
  (Char.ofNat 48, [[0x259E, 0x2580, 0x2599], [0x258C, 0x259E, 0x2590], [0x259C, 0x2584, 0x259E]]),  -- 0
  (Char.ofNat 49, [[0x0020, 0x259F, 0x0020], [0x0020, 0x2590, 0x0020], [0x0020, 0x259F, 0x2596]]),  -- 1
  (Char.ofNat 50, [[0x259E, 0x2580, 0x259A], [0x0020, 0x2597, 0x259E], [0x259F, 0x2599, 0x2584]]),  -- 2
  (Char.ofNat 51, [[0x259E, 0x2580, 0x259A], [0x0020, 0x2580, 0x259A], [0x259A, 0x2584, 0x259E]]),  -- 3
  (Char.ofNat 52, [[0x258C, 0x0020, 0x258C], [0x259D, 0x2580, 0x259B], [0x0020, 0x0020, 0x258C]]),  -- 4
  (Char.ofNat 53, [[0x259B, 0x2580, 0x2580], [0x2580, 0x2580, 0x259A], [0x259A, 0x2584, 0x259E]]),  -- 5
  (Char.ofNat 54, [[0x259E, 0x2580, 0x2580], [0x259B, 0x2580, 0x259A], [0x259A, 0x2584, 0x259E]]),  -- 6
  (Char.ofNat 55, [[0x2580, 0x2580, 0x259C], [0x0020, 0x2597, 0x2598], [0x0020, 0x258C, 0x0020]]),  -- 7
  (Char.ofNat 56, [[0x259E, 0x2580, 0x259A], [0x259E, 0x2580, 0x259A], [0x259A, 0x2584, 0x259E]]),  -- 8
  (Char.ofNat 57, [[0x259E, 0x2580, 0x259A], [0x259A, 0x2584, 0x259F], [0x2597, 0x2584, 0x259F]]),  -- 9
  (Char.ofNat 96, [[0x2597, 0x0020, 0x0020], [0x0020, 0x2598, 0x0020], [0x0020, 0x0020, 0x0020]]),
  (Char.ofNat 126, [[0x2597, 0x2596, 0x2597], [0x2598, 0x259D, 0x2598], [0x0020, 0x0020, 0x0020]]),
  (Char.ofNat 33, [[0x0020, 0x2588, 0x0020], [0x0020, 0x2588, 0x0020], [0x0020, 0x2584, 0x0020]]),
  (Char.ofNat 64, [[0x259E, 0x2580, 0x259A], [0x258C, 0x2588, 0x259F], [0x259A, 0x2584, 0x2584]]),
  (Char.ofNat 35, [[0x259F, 0x2584, 0x2599], [0x2590, 0x0020, 0x258C], [0x259C, 0x2580, 0x259B]]),
  (Char.ofNat 36, [[0x2597, 0x2599, 0x2596], [0x259A, 0x2599, 0x2596], [0x2597, 0x2599, 0x259E]]),
  (Char.ofNat 37, [[0x2588, 0x0020, 0x259E], [0x0020, 0x259E, 0x0020], [0x259E, 0x0020, 0x2588]]),
  (Char.ofNat 94, [[0x0020, 0x2584, 0x0020], [0x259D, 0x0020, 0x2598], [0x0020, 0x0020, 0x0020]]),
  (Char.ofNat 38, [[0x259E, 0x259A, 0x0020], [0x259E, 0x258C, 0x2596], [0x259A, 0x259E, 0x2596]]),
  (Char.ofNat 42, [[0x259D, 0x2584, 0x2598], [0x2597, 0x2580, 0x2596], [0x0020, 0x0020, 0x0020]]),
  (Char.ofNat 40, [[0x0020, 0x259E, 0x2598], [0x2590, 0x0020, 0x0020], [0x0020, 0x259A, 0x2596]]),
  (Char.ofNat 41, [[0x259D, 0x259A, 0x0020], [0x0020, 0x0020, 0x258C], [0x2597, 0x259E, 0x0020]]),
  (Char.ofNat 45, [[0x0020, 0x0020, 0x0020], [0x2597, 0x2584, 0x2596], [0x0020, 0x0020, 0x0020]]),
  (Char.ofNat 95, [[0x0020, 0x0020, 0x0020], [0x0020, 0x0020, 0x0020], [0x2584, 0x2584, 0x2584]]),
  (Char.ofNat 61, [[0x0020, 0x0020, 0x0020], [0x2584, 0x2588, 0x2584], [0x0020, 0x2580, 0x0020]]),
  (Char.ofNat 43, [[0x0020, 0x0020, 0x0020], [0x259D, 0x2580, 0x2598], [0x259D, 0x2580, 0x2598]]),
  (Char.ofNat 91, [[0x2590, 0x2580, 0x2598], [0x2590, 0x0020, 0x0020], [0x2590, 0x2584, 0x2596]]),
  (Char.ofNat 123, [[0x0020, 0x259B, 0x2598], [0x2588, 0x0020, 0x0020], [0x0020, 0x2599, 0x2596]]),
  (Char.ofNat 93, [[0x259D, 0x2580, 0x258C], [0x0020, 0x0020, 0x258C], [0x2597, 0x2584, 0x258C]]),
  (Char.ofNat 125, [[0x259D, 0x259C, 0x0020], [0x0020, 0x0020, 0x2588], [0x2597, 0x259F, 0x0020]]),
  (Char.ofNat 92, [[0x0020, 0x2588, 0x0020], [0x0020, 0x2588, 0x0020], [0x0020, 0x2588, 0x0020]]),
  (Char.ofNat 124, [[0x259A, 0x0020, 0x0020], [0x0020, 0x259A, 0x0020], [0x0020, 0x0020, 0x259A]]),
  (Char.ofNat 59, [[0x0020, 0x0020, 0x0020], [0x0020, 0x2580, 0x0020], [0x0020, 0x259C, 0x0020]]),
  (Char.ofNat 58, [[0x0020, 0x0020, 0x0020], [0x0020, 0x2580, 0x0020], [0x0020, 0x2584, 0x0020]]),
  (Char.ofNat 39, [[0x0020, 0x2597, 0x2596], [0x0020, 0x0020, 0x2598], [0x0020, 0x0020, 0x0020]]),
  (Char.ofNat 34, [[0x2597, 0x0020, 0x2596], [0x259D, 0x0020, 0x2598], [0x0020, 0x0020, 0x0020]]),
  (Char.ofNat 44, [[0x0020, 0x0020, 0x0020], [0x0020, 0x0020, 0x0020], [0x0020, 0x259C, 0x0020]]),
  (Char.ofNat 60, [[0x0020, 0x2597, 0x2596], [0x2590, 0x258C, 0x0020], [0x0020, 0x259D, 0x2598]]),
  (Char.ofNat 46, [[0x0020, 0x0020, 0x0020], [0x0020, 0x0020, 0x0020], [0x0020, 0x2584, 0x0020]]),
  (Char.ofNat 62, [[0x2597, 0x2596, 0x0020], [0x0020, 0x2590, 0x258C], [0x259D, 0x2598, 0x0020]]),
  (Char.ofNat 63, [[0x259E, 0x2580, 0x259A], [0x0020, 0x2584, 0x2598], [0x0020, 0x2584, 0x0020]]),
  (Char.ofNat 47, [[0x0020, 0x0020, 0x259E], [0x0020, 0x259E, 0x0020], [0x259E, 0x0020, 0x0020]])
]

end Keys

/-! ## The cell grid (`Window.hpp`) -/

/-- The struct `Window::Cell`, with the member initialisers of the source. -/
structure Cell where
  Char : Nat := 0x20
  Color : Nat := 1
  Bold : Bool := false
  Italic : Bool := false
  Under : Bool := false
  Rev : Bool := false
  Blink : Bool := false
  Dim : Bool := false
  Invis : Bool := false
  Stand : Bool := false
  Prot : Bool := false
  Alt : Bool := false
  CanMerge : Bool := false
deriving DecidableEq, Repr

/-- The data members of `Window` that the cell grid logic reads or writes. -/
structure Window where
  DimY : Nat
  DimX : Nat
  PosY : Nat := 0
  PosX : Nat := 0
  CanSkip : Bool := true
  Grid : List (List Cell)
deriving DecidableEq, Repr

namespace Window

/-- The shape every window built by the constructor has and every operation keeps:
`Grid` is `DimY` rows of `DimX` cells and both dimensions are `unsigned short`. -/
def WF (w : Window) : Prop :=
  w.DimY < 65536 ∧ w.DimX < 65536 ∧ w.Grid.length = w.DimY ∧ ∀ row ∈ w.Grid, row.length = w.DimX

instance instDecidableWF (w : Window) : Decidable w.WF := by
  unfold WF; infer_instance

/-- The constructor `Window(y, x, dimy, dimx)`; `LINES` and `COLS` are the ncurses
globals (non-negative `int`s).  The grid is filled with default cells. -/
def create (LINES COLS : Nat) (y x dimy dimx : Nat) : Window :=
  let y := if y ≥ LINES then 0 else y
  let x := if x ≥ COLS then 0 else x
  let dimy := if dimy < 1 ∨ (LINES : Int) - dimy - y < 0 then toUShort ((LINES : Int) - y) else dimy
  let dimx := if dimx < 1 ∨ (COLS : Int) - dimx - x < 0 then toUShort ((COLS : Int) - x) else dimx
  { DimY := dimy, DimX := dimx, PosY := y, PosX := x,
    Grid := List.replicate dimy (List.replicate dimx {}) }

/-- The element `Grid[y][x]`. -/
def cellAt (w : Window) (y x : Nat) : Cell := (w.Grid.getD y []).getD x {}

/-- Assignment to the element `Grid[y][x]`. -/
def setCell (w : Window) (y x : Nat) (c : Cell) : Window :=
  { w with Grid := w.Grid.set y ((w.Grid.getD y []).set x c) }

/-- Function `checkCoord`: whether the coordinate is inside the window. -/
def checkCoord (w : Window) (y x : Nat) : Bool :=
  !(decide (y ≥ w.DimY) || decide (x ≥ w.DimX))

/-! ### Readers -/

def schar (w : Window) (y x : Nat) : Nat := if !w.checkCoord y x then BLANK else (w.cellAt y x).Char
def scolor (w : Window) (y x : Nat) : Nat := if !w.checkCoord y x then 1 else (w.cellAt y x).Color
def sbold (w : Window) (y x : Nat) : Bool := if !w.checkCoord y x then false else (w.cellAt y x).Bold
def sitalic (w : Window) (y x : Nat) : Bool := if !w.checkCoord y x then false else (w.cellAt y x).Italic
def sunder (w : Window) (y x : Nat) : Bool := if !w.checkCoord y x then false else (w.cellAt y x).Under
def srev (w : Window) (y x : Nat) : Bool := if !w.checkCoord y x then false else (w.cellAt y x).Rev
def sblink (w : Window) (y x : Nat) : Bool := if !w.checkCoord y x then false else (w.cellAt y x).Blink
def sdim (w : Window) (y x : Nat) : Bool := if !w.checkCoord y x then false else (w.cellAt y x).Dim
def sinvis (w : Window) (y x : Nat) : Bool := if !w.checkCoord y x then false else (w.cellAt y x).Invis
def sstand (w : Window) (y x : Nat) : Bool := if !w.checkCoord y x then false else (w.cellAt y x).Stand
def sprot (w : Window) (y x : Nat) : Bool := if !w.checkCoord y x then false else (w.cellAt y x).Prot
def salt (w : Window) (y x : Nat) : Bool := if !w.checkCoord y x then false else (w.cellAt y x).Alt
def smerge (w : Window) (y x : Nat) : Bool := if !w.checkCoord y x then false else (w.cellAt y x).CanMerge

/-! ### Attribute strings -/

/-- The test `hay.find(needle) != std::string::npos`. -/
def strFind (needle hay : List Char) : Bool :=
  hay.tails.any (fun t => needle.isPrefixOf t)

/-- Function `extractAttributes`: lower-case the input, then one substring search per token. -/
def extractAttributes (input : String) : List Bool :=
  let input := input.toList.map Char.toLower
  [strFind "bo".toList input, strFind "it".toList input, strFind "un".toList input,
   strFind "re".toList input, strFind "bl".toList input, strFind "di".toList input,
   strFind "in".toList input, strFind "st".toList input, strFind "pr".toList input,
   strFind "al".toList input]

/-! ### Writing single characters -/

/-- Function `wcharp(pos, input, color, att, offset)`: the new window and the returned position. -/
def wcharp (w : Window) (pos : Nat × Nat) (input : Nat) (color : Nat := Defaults.Color)
    (att : String := Defaults.Attributes) (offset : Nat × Nat := Defaults.Offset) :
    Window × (Nat × Nat) :=
  if !w.checkCoord pos.1 pos.2 then (w, pos)
  else
    let attributes := extractAttributes att
    let c := w.cellAt pos.1 pos.2
    let c := { c with Char := input }
    let c := { c with Color := color }
    let c := { c with Bold := attributes.getD 0 false }
    let c := { c with Italic := attributes.getD 1 false }
    let c := { c with Under := attributes.getD 2 false }
    let c := { c with Rev := attributes.getD 3 false }
    let c := { c with Blink := attributes.getD 4 false }
    let c := { c with Dim := attributes.getD 5 false }
    let c := { c with Invis := attributes.getD 6 false }
    let c := { c with Stand := attributes.getD 7 false }
    let c := { c with Prot := attributes.getD 8 false }
    let c := { c with Alt := attributes.getD 9 false }
    let c := { c with CanMerge := false }
    (w.setCell pos.1 pos.2 c, ((pos.1 + offset.1) % 65536, (pos.2 + offset.2) % 65536))

/-- Function `wchary`: the row of the position `wcharp` returns. -/
def wchary (w : Window) (pos : Nat × Nat) (input : Nat) (color : Nat := Defaults.Color)
    (att : String := Defaults.Attributes) (offset : Nat × Nat := Defaults.Offset) : Window × Nat :=
  let r := w.wcharp pos input color att offset
  (r.1, r.2.1)

/-- Function `wcharx`: the column of the position `wcharp` returns. -/
def wcharx (w : Window) (pos : Nat × Nat) (input : Nat) (color : Nat := Defaults.Color)
    (att : String := Defaults.Attributes) (offset : Nat × Nat := Defaults.Offset) : Window × Nat :=
  let r := w.wcharp pos input color att offset
  (r.1, r.2.2)

/-- Function `wchar`: `wcharp` with offset `{0, 0}` and the result dropped. -/
def wchar (w : Window) (pos : Nat × Nat) (input : Nat) (color : Nat := Defaults.Color)
    (att : String := Defaults.Attributes) : Window :=
  (w.wcharp pos input color att (0, 0)).1

/-! ### Writing strings and integers -/

/-- Bound on the number of iterations of a terminating run of the loop of `wstrp`: the
loop's control state is the triple of `unsigned short`s `(i, yoffset, xoffset)`, the
dimensions never change and the grid contents do not influence the control flow, so a
run that visits more than `2 ^ 48` control states repeats one and never ends. -/
def wstrpFuel : Nat := 2 ^ 48 + 1

/-- The wrap test at the head of the loop body of `wstrp`: the pair `(yoffset, xoffset)`
after it. -/
def wstrpWrap (w : Window) (pos : Nat × Nat) (wrap : Bool) (i yoffset xoffset : Nat) : Nat × Nat :=
  -- Automatically wrap the string back to the starting x-pos
  if (pos.2 : Int) + i - xoffset ≥ w.DimX then
    ((yoffset + 1) % 65536,
     toUShort (xoffset + (if wrap then (w.DimX : Int) - pos.2 else w.DimX)))
  else (yoffset, xoffset)

/-- The `for` loop of `wstrp`, entered at the loop test with the counter at `i`; the
counter is an `unsigned short` and wraps.  The result is `none` when the fuel runs out. -/
def wstrpLoop (pos : Nat × Nat) (input : List Nat) (color : Nat) (att : String) (wrap : Bool) :
    Nat → Nat → Nat → Nat → Window → Option (Window × (Nat × Nat))
  | 0, _, _, _, _ => none
  | fuel + 1, i, yoffset, xoffset, w =>
    if i < input.length then
      let off := wstrpWrap w pos wrap i yoffset xoffset
      let cy := (pos.1 + off.1) % 65536
      let cx := toUShort ((pos.2 : Int) + i - off.2)
      -- Quit early if the string goes out of bounds
      if !w.checkCoord cy cx then some (w, off)
      else
        wstrpLoop pos input color att wrap fuel ((i + 1) % 65536) off.1 off.2
          (w.wchar (cy, cx) (input.getD i 0) color att)
    else some (w, (yoffset, xoffset))

/-- Function `wstrp(pos, input, color, att, offset, wrap)`; `none` when the source does not return. -/
def wstrp (w : Window) (pos : Nat × Nat) (input : List Nat) (color : Nat := Defaults.Color)
    (att : String := Defaults.Attributes) (offset : Nat × Nat := Defaults.Offset)
    (wrap : Bool := Defaults.Wrap) : Option (Window × (Nat × Nat)) :=
  if !w.checkCoord pos.1 pos.2 then some (w, pos)
  else
    (wstrpLoop pos input color att wrap wstrpFuel 0 0 0 w).map fun r =>
      (r.1, ((pos.1 + r.2.1 + offset.1) % 65536,
             toUShort ((pos.2 : Int) + input.length - 1 - r.2.2 + offset.2)))

/-- Function `wstr`: `wstrp` with offset `{0, 0}` and the result dropped. -/
def wstr (w : Window) (pos : Nat × Nat) (input : List Nat) (color : Nat := Defaults.Color)
    (att : String := Defaults.Attributes) (wrap : Bool := Defaults.Wrap) : Option Window :=
  (w.wstrp pos input color att (0, 0) wrap).map Prod.fst

/-- Function `wstry`: the row of the position `wstrp` returns. -/
def wstry (w : Window) (pos : Nat × Nat) (input : List Nat) (color : Nat := Defaults.Color)
    (att : String := Defaults.Attributes) (offset : Nat × Nat := Defaults.Offset)
    (wrap : Bool := Defaults.Wrap) : Option (Window × Nat) :=
  (w.wstrp pos input color att offset wrap).map fun r => (r.1, r.2.1)

/-- Function `wstrx`: the column of the position `wstrp` returns. -/
def wstrx (w : Window) (pos : Nat × Nat) (input : List Nat) (color : Nat := Defaults.Color)
    (att : String := Defaults.Attributes) (offset : Nat × Nat := Defaults.Offset)
    (wrap : Bool := Defaults.Wrap) : Option (Window × Nat) :=
  (w.wstrp pos input color att offset wrap).map fun r => (r.1, r.2.2)

/-- Library function `std::to_wstring(int)`: the decimal digits, preceded by `-` for a negative value. -/
def to_wstring (v : Int) : List Nat :=
  (if v < 0 then [0x2D] else []) ++ (Nat.toDigits 10 v.natAbs).map Char.toNat

/-- The loop of `wintp` that inserts `count` zeros, after the sign when `input < 0`. -/
def wintpPad (input : Int) : Nat → List Nat → List Nat
  | 0, num => num
  | count + 1, num =>
    wintpPad input count (if input < 0 then num.take 1 ++ 0x30 :: num.drop 1 else 0x30 :: num)

/-- Function `wintp(pos, input, minWidth, color, att, offset, wrap)`. -/
def wintp (w : Window) (pos : Nat × Nat) (input : Int) (minWidth : Nat := Defaults.MinWidth)
    (color : Nat := Defaults.Color) (att : String := Defaults.Attributes)
    (offset : Nat × Nat := Defaults.Offset) (wrap : Bool := Defaults.Wrap) :
    Option (Window × (Nat × Nat)) :=
  if !w.checkCoord pos.1 pos.2 then some (w, pos)
  else
    -- Convert number to a string that can be written to the window
    let num := to_wstring input
    let length := num.length % 65536
    -- Add leading zeros; negative numbers are accounted for by keeping the negative sign in front
    let num := wintpPad input ((minWidth : Int) - length).toNat num
    w.wstrp (pos.1, pos.2) num color att offset wrap

/-- Function `wint`: `wintp` with offset `{0, 0}` and the result dropped. -/
def wint (w : Window) (pos : Nat × Nat) (input : Int) (minWidth : Nat := Defaults.MinWidth)
    (color : Nat := Defaults.Color) (att : String := Defaults.Attributes)
    (wrap : Bool := Defaults.Wrap) : Option Window :=
  (w.wintp pos input minWidth color att (0, 0) wrap).map Prod.fst

/-! ### Matrix text -/

/-- The two innermost loops of `wmstrp`: the 3x3 glyph `rows` written at `(posy + k +
(dangling ? 1 : 0), posx + l)`. -/
def wmstrpBlock (w : Window) (posy posx : Nat) (dangling : Bool) (rows : List (List Nat))
    (color : Nat) : Window :=
  [0, 1, 2].foldl (fun w k =>
    [0, 1, 2].foldl (fun w l =>
      w.wchar ((posy + k + (if dangling then 1 else 0)) % 65536, (posx + l) % 65536)
        ((rows.getD k []).getD l 0) color) w) w

/-- The loop over `Keys.MatrixText6x6` inside `wmstrp` for the character `ch`: the first
entry whose key is `ch` is drawn and the loop is left; `dangling` is the local flag. -/
def wmstrpGlyph (posy posx : Nat) (ch : Char) (color : Nat) :
    List (Char × List (List Nat)) → Bool → Window → Window × Bool
  | [], dangling, w => (w, dangling)
  | e :: rest, dangling, w =>
    if ch = e.1 then
      let dangling :=
        if ch = Char.ofNat 103 ∨ ch = Char.ofNat 106 ∨ ch = Char.ofNat 112 ∨ ch = Char.ofNat 113
            ∨ ch = Char.ofNat 121 then true
        else dangling
      let w := wmstrpBlock w posy posx dangling e.2 color
      -- Lowercase j needs a bit of extra work to fit in with the other lowercase letters
      let w :=
        if ch = Char.ofNat 106 then
          let r := w.wcharp (posy, (posx + 1) % 65536) 0x259D color "" (1, 0)
          r.1.wchar r.2 0x2590 color
        else w
      (w, false)
    else wmstrpGlyph posy posx ch color rest dangling w

/-- Bound on the number of iterations of a terminating run of the outer loop of `wmstrp`,
whose control state is the four `unsigned short`s `(i, posy, posx, xoffset)`. -/
def wmstrpFuel : Nat := 2 ^ 64 + 1

/-- The wrap test at the head of the loop body of `wmstrp`: the pair `(posy, xoffset)`
after it; `posx` is the column of the previous character. -/
def wmstrpWrap (w : Window) (pos : Nat × Nat) (danglingLetters : Bool) (kerning leading : Nat)
    (wrap : Bool) (posy posx xoffset : Nat) : Nat × Nat :=
  -- Automatically wrap the string back to the starting x-pos
  if (posx : Int) + 3 > (w.DimX : Int) - 4 - kerning then
    ((posy + (3 + leading + (if danglingLetters && decide (leading < 2) then 1 else 0))) % 65536,
     toUShort (xoffset +
       (if wrap then (posx : Int) + 3 + kerning - pos.2 else (posx : Int) + 3 + kerning)))
  else (posy, xoffset)

/-- The outer `for` loop of `wmstrp`, entered at the loop test with the counter at `i`. -/
def wmstrpLoop (pos : Nat × Nat) (input : List Char) (color : Nat) (danglingLetters : Bool)
    (kerning leading : Nat) (wrap : Bool) :
    Nat → Nat → Nat → Nat → Nat → Bool → Window → Option (Window × (Nat × Nat))
  | 0, _, _, _, _, _, _ => none
  | fuel + 1, i, posy, posx, xoffset, dangling, w =>
    if i < input.length then
      let st := wmstrpWrap w pos danglingLetters kerning leading wrap posy posx xoffset
      let posx := toUShort ((pos.2 : Int) + i * (3 + kerning) - st.2)
      -- Quit early if the string goes out of bounds
      if !w.checkCoord ((st.1 + 2) % 65536) ((posx + 2) % 65536) then some (w, (st.1, posx))
      else
        let r := wmstrpGlyph st.1 posx (input.getD i (Char.ofNat 0)) color Keys.MatrixText6x6
          dangling w
        wmstrpLoop pos input color danglingLetters kerning leading wrap fuel ((i + 1) % 65536)
          st.1 posx st.2 r.2 r.1
    else some (w, (posy, posx))

/-- Function `wmstrp(pos, input, color, danglingLetters, kerning, leading, offset, wrap)`. -/
def wmstrp (w : Window) (pos : Nat × Nat) (input : String) (color : Nat := Defaults.Color)
    (danglingLetters : Bool := Defaults.DanglingLetters) (kerning : Nat := Defaults.Kerning)
    (leading : Nat := Defaults.Leading) (offset : Nat × Nat := Defaults.Offset)
    (wrap : Bool := Defaults.Wrap) : Option (Window × (Nat × Nat)) :=
  if !w.checkCoord pos.1 pos.2 then some (w, pos)
  else
    let kerning := if kerning < 1 then 1 else kerning
    let leading := if leading < 1 then 1 else leading
    (wmstrpLoop pos input.toList color danglingLetters kerning leading wrap wmstrpFuel
        0 pos.1 0 0 false w).map fun r =>
      (r.1, ((r.2.1 + 2 + offset.1) % 65536, (r.2.2 + 2 + offset.2) % 65536))

/-- Function `wmstr`: `wmstrp` with offset `{0, 0}` and the result dropped. -/
def wmstr (w : Window) (pos : Nat × Nat) (input : String) (color : Nat := Defaults.Color)
    (danglingLetters : Bool := Defaults.DanglingLetters) (kerning : Nat := Defaults.Kerning)
    (leading : Nat := Defaults.Leading) (wrap : Bool := Defaults.Wrap) : Option Window :=
  (w.wmstrp pos input color danglingLetters kerning leading (0, 0) wrap).map Prod.fst

/-- The overload `wmstrp(y, x, ...)`: `wmstrp({y, x}, ...)`. -/
def wmstrpYX (w : Window) (y x : Nat) (input : String) (color : Nat := Defaults.Color)
    (danglingLetters : Bool := Defaults.DanglingLetters) (kerning : Nat := Defaults.Kerning)
    (leading : Nat := Defaults.Leading) (offset : Nat × Nat := Defaults.Offset)
    (wrap : Bool := Defaults.Wrap) : Option (Window × (Nat × Nat)) :=
  w.wmstrp (y, x) input color danglingLetters kerning leading offset wrap

/-- Function `wmstry(pos, ...)`: the first component of what `wmstrp` returns. -/
def wmstry (w : Window) (pos : Nat × Nat) (input : String) (color : Nat := Defaults.Color)
    (danglingLetters : Bool := Defaults.DanglingLetters) (kerning : Nat := Defaults.Kerning)
    (leading : Nat := Defaults.Leading) (offset : Nat × Nat := Defaults.Offset)
    (wrap : Bool := Defaults.Wrap) : Option (Window × Nat) :=
  (w.wmstrp pos input color danglingLetters kerning leading offset wrap).map fun r => (r.1, r.2.1)

/-- The overload `wmstry(y, x, ...)`: `wmstry({y, x}, ...)`. -/
def wmstryYX (w : Window) (y x : Nat) (input : String) (color : Nat := Defaults.Color)
    (danglingLetters : Bool := Defaults.DanglingLetters) (kerning : Nat := Defaults.Kerning)
    (leading : Nat := Defaults.Leading) (offset : Nat × Nat := Defaults.Offset)
    (wrap : Bool := Defaults.Wrap) : Option (Window × Nat) :=
  w.wmstry (y, x) input color danglingLetters kerning leading offset wrap

/-- Function `wmstrx(pos, ...)`: the second component of what `wmstrp` returns. -/
def wmstrx (w : Window) (pos : Nat × Nat) (input : String) (color : Nat := Defaults.Color)
    (danglingLetters : Bool := Defaults.DanglingLetters) (kerning : Nat := Defaults.Kerning)
    (leading : Nat := Defaults.Leading) (offset : Nat × Nat := Defaults.Offset)
    (wrap : Bool := Defaults.Wrap) : Option (Window × Nat) :=
  (w.wmstrp pos input color danglingLetters kerning leading offset wrap).map fun r => (r.1, r.2.2)

/-- The overload `wmstrx(y, x, ...)`; its body in the source is
`return wmstry({y, x}, input, color, danglingLetters, kerning, leading, offset, wrap);`. -/
def wmstrxYX (w : Window) (y x : Nat) (input : String) (color : Nat := Defaults.Color)
    (danglingLetters : Bool := Defaults.DanglingLetters) (kerning : Nat := Defaults.Kerning)
    (leading : Nat := Defaults.Leading) (offset : Nat × Nat := Defaults.Offset)
    (wrap : Bool := Defaults.Wrap) : Option (Window × Nat) :=
  w.wmstry (y, x) input color danglingLetters kerning leading offset wrap

/-- Function `reset`: every `Grid[i][j]` with `i < DimY`, `j < DimX` becomes `Cell()`. -/
def reset (w : Window) : Window :=
  (List.range w.DimY).foldl (fun w i =>
    (List.range w.DimX).foldl (fun w j => w.setCell i j {}) w) w

/-! ### Line drawing helpers -/

/-- Function `getConnectStyle(y, x, dir)`: the connection style the cell at `(y, x)` offers in
direction `dir`. -/
def getConnectStyle (w : Window) (y x dir : Nat) : Nat :=
  if !w.checkCoord y x || decide (dir > 3) then 0
  -- If the targeted cell can't be merged with then there must not be something to connect with
  else if !w.smerge y x then 0
  else
    match Keys.LineDrawing.find? (fun e => w.schar y x == e.1) with
    | some e => e.2.getD dir 0
    | none => 0

/-- The glyph `Keys.LineDrawing[k].first`.  An index past the end of the key is undefined
behaviour in the source; it cannot occur for a style with shape below 8 and dash below 6,
and the model yields the blank there. -/
def glyphAt (k : Nat) : Nat := (Keys.LineDrawing.getD k (BLANK, [])).1

/-- The glyph `getPiece` returns once entry `i` of the key matched the directions. -/
def pieceAt (i : Nat) (style : Nat × Nat) : Nat :=
  -- Vertical and horizontal lines (except for the doubled styles)
  if i < 24 then
    if style.1 = HEAVY_HORIZONTAL then glyphAt (if i = 18 then 12 + style.2 else i + style.2)
    else if style.1 = HEAVY_VERTICAL then glyphAt (if i = 6 then style.2 else i + style.2)
    else glyphAt (i + style.2)
  -- Vertical and horizontal lines for the doubled styles
  else if i < 26 then
    if style.1 = DOUBLED_HORIZTONAL then glyphAt (if i = 24 then i else style.2)
    else if style.1 = DOUBLED_VERTICAL then glyphAt (if i = 24 then 12 + style.2 else i)
    else glyphAt i
  -- Corner pieces for the LIGHT_HARD and LIGHT_SOFT styles
  else if i < 33 then glyphAt (i + (if style.1 = LIGHT_SOFT then 1 else 0))
  else glyphAt i

/-- The `for` loop of `getPiece` from index `i` on, `rest` being the entries not yet
compared. -/
def getPieceLoop (dir : List Nat) (style : Nat × Nat) : Nat → List (Nat × List Nat) → Nat
  | _, [] => BLANK
  | i, e :: rest => if dir = e.2 then pieceAt i style else getPieceLoop dir style (i + 1) rest

/-- Function `getPiece(dir, style)`: the glyph for a set of four directions and a line style, a
space if no entry of the key has these directions. -/
def getPiece (dir : List Nat) (style : Nat × Nat) : Nat :=
  getPieceLoop dir style 0 Keys.LineDrawing

/-! ### Line drawing -/

/-- The `switch` of `dline` that fabricates a connection style from the (normalised)
shape; no other shape value reaches it. -/
def dlineCstyle (shape : Nat) (vertical : Bool) : Nat :=
  if shape = LIGHT_HARD ∨ shape = LIGHT_SOFT then STYLE_LIGHT
  else if shape = HEAVY_BOTH then STYLE_HEAVY
  else if shape = HEAVY_HORIZONTAL then (if vertical then STYLE_LIGHT else STYLE_HEAVY)
  else if shape = HEAVY_VERTICAL then (if vertical then STYLE_HEAVY else STYLE_LIGHT)
  else if shape = DOUBLED_BOTH then STYLE_DOUBLED
  else if shape = DOUBLED_HORIZTONAL then (if vertical then STYLE_LIGHT else STYLE_DOUBLED)
  else if shape = DOUBLED_VERTICAL then (if vertical then STYLE_DOUBLED else STYLE_LIGHT)
  else STYLE_NONE

/-- The directions of the surrounding characters, as `dline` collects them. -/
def dlineNeighbours (w : Window) (posy posx : Nat) (canMerge : Bool) : List Nat :=
  if canMerge then
    [w.getConnectStyle (toUShort ((posy : Int) - 1)) posx DIR_DOWN,
     w.getConnectStyle ((posy + 1) % 65536) posx DIR_UP,
     w.getConnectStyle posy (toUShort ((posx : Int) - 1)) DIR_RIGHT,
     w.getConnectStyle posy ((posx + 1) % 65536) DIR_LEFT]
  else [STYLE_NONE, STYLE_NONE, STYLE_NONE, STYLE_NONE]

/-- The directions `dline` asks a glyph for at step `i` of `length`: the neighbours'
directions with the in-line directions `tdir2` (trailing) and `tdir1` (leading)
fabricated. -/
def dlineDirs (dirs : List Nat) (i length : Nat) (vertical : Bool) (tdir1 tdir2 cstyle : Nat) :
    List Nat :=
  let offA := if vertical then DIR_LEFT else DIR_UP
  let offB := if vertical then DIR_RIGHT else DIR_DOWN
  let dirs :=
    if i = 0 then
      dirs.set tdir2
        (if dirs.getD tdir2 0 = STYLE_NONE ∧ dirs.getD offA 0 = STYLE_NONE
            ∧ dirs.getD offB 0 = STYLE_NONE then cstyle else dirs.getD tdir2 0)
    else dirs.set tdir2 cstyle
  let dirs :=
    if i = length - 1 then
      dirs.set tdir1
        (if dirs.getD tdir1 0 = STYLE_NONE ∧ dirs.getD offA 0 = STYLE_NONE
            ∧ dirs.getD offB 0 = STYLE_NONE then cstyle else dirs.getD tdir1 0)
    else dirs.set tdir1 cstyle
  dirs

/-- The replacement of directions `dline` makes when `getPiece` found no glyph. -/
def dlineFallback (dirs : List Nat) (shape : Nat) : List Nat :=
  dirs.map fun d =>
    if shape = HEAVY_BOTH ∨ shape = HEAVY_HORIZONTAL ∨ shape = HEAVY_VERTICAL then
      (if d = STYLE_DOUBLED then STYLE_HEAVY else d)
    else (if d = STYLE_HEAVY then STYLE_DOUBLED else d)

/-- The glyph `dline` writes for the directions `dirs`. -/
def dlinePiece (dirs : List Nat) (style : Nat × Nat) : Nat :=
  let piece := getPiece dirs style
  if piece = BLANK then getPiece (dlineFallback dirs style.1) style else piece

/-- One iteration of the loop of `dline` at counter `i` and in-bounds position
`(posy, posx)`: the glyph is chosen, written with `wchar`, and the cell's `CanMerge` is
set to `mergeable`. -/
def dlineStep (w : Window) (i length : Nat) (vertical : Bool) (style : Nat × Nat) (color : Nat)
    (mergeable canMerge : Bool) (tdir1 tdir2 cstyle : Nat) (posy posx : Nat) : Window :=
  let dirs := dlineNeighbours w posy posx canMerge
  let dirs := dlineDirs dirs i length vertical tdir1 tdir2 cstyle
  let piece := dlinePiece dirs style
  let w := w.wchar (posy, posx) piece color
  w.setCell posy posx { w.cellAt posy posx with CanMerge := mergeable }

/-- The position `dline` computes for counter value `k`:
`(y + (rev ? -1 : 1) * k * (vertical ? 1 : 0), x + (rev ? -1 : 1) * k * (vertical ? 0 : 1))`,
narrowed to `unsigned short`. -/
def dlinePos (y x : Nat) (vertical rev : Bool) (k : Nat) : Nat × Nat :=
  (toUShort ((y : Int) + (if rev then -1 else 1) * (k : Int) * (if vertical then 1 else 0)),
   toUShort ((x : Int) + (if rev then -1 else 1) * (k : Int) * (if vertical then 0 else 1)))

/-- The `for` loop of `dline` with `n` iterations left, at counter `i` and position
`(posy, posx)`; `style` is the normalised style. -/
def dlineLoop (y x length : Nat) (vertical rev : Bool) (style : Nat × Nat) (color : Nat)
    (mergeable canMerge : Bool) (tdir1 tdir2 cstyle : Nat) :
    Nat → Nat → Nat → Nat → Window → Window
  | 0, _, _, _, w => w
  | n + 1, i, posy, posx, w =>
    -- Quit early if the line starts to venture out of the window
    if !w.checkCoord posy posx then w
    else
      let w := dlineStep w i length vertical style color mergeable canMerge tdir1 tdir2 cstyle
        posy posx
      dlineLoop y x length vertical rev style color mergeable canMerge tdir1 tdir2 cstyle
        n (i + 1) (dlinePos y x vertical rev (i + 1)).1 (dlinePos y x vertical rev (i + 1)).2 w

/-- Function `dline(y, x, length, vertical, rev, style, color, mergeable, canMerge)`. -/
def dline (w : Window) (y x length : Nat) (vertical : Bool := false) (rev : Bool := false)
    (style : Nat × Nat := Defaults.Style) (color : Nat := Defaults.Color)
    (mergeable : Bool := Defaults.Mergeable) (canMerge : Bool := Defaults.CanMerge) : Window :=
  if !w.checkCoord y x || decide (length ≤ 0) || (decide (y ≥ w.DimY) && !rev)
      || (decide (x ≥ w.DimX) && !rev) then w
  else
    let style : Nat × Nat :=
      (if style.1 ≥ 8 then LIGHT_HARD else style.1, if style.2 ≥ 6 then DASHED_NONE else style.2)
    let tdir1 := if vertical then DIR_DOWN - (if rev then 1 else 0) else DIR_RIGHT - (if rev then 1 else 0)
    let tdir2 := if rev then tdir1 + 1 else tdir1 - 1
    let cstyle := dlineCstyle style.1 vertical
    dlineLoop y x length vertical rev style color mergeable canMerge tdir1 tdir2 cstyle
      length 0 y x w

/-! ### What a line leaves behind -/

/-- The style `dline` works with: each code outside its range replaced by the default. -/
def dlineStyle (style : Nat × Nat) : Nat × Nat :=
  (if style.1 ≥ 8 then LIGHT_HARD else style.1, if style.2 ≥ 6 then DASHED_NONE else style.2)

/-- The leading in-line direction `tdir1` of `dline`. -/
def dlineTdir1 (vertical rev : Bool) : Nat :=
  if vertical then DIR_DOWN - (if rev then 1 else 0) else DIR_RIGHT - (if rev then 1 else 0)

/-- The trailing in-line direction `tdir2` of `dline`. -/
def dlineTdir2 (vertical rev : Bool) : Nat :=
  if rev then dlineTdir1 vertical rev + 1 else dlineTdir1 vertical rev - 1

/-- The number of iterations the loop of `dline` performs before it leaves the window or
reaches `length`, for a start `(y, x)` inside the window. -/
def dlineCount (w : Window) (y x length : Nat) (vertical rev : Bool) : Nat :=
  min length
    (if vertical then (if rev then y + 1 else w.DimY - y)
     else (if rev then x + 1 else w.DimX - x))

/-- The glyph `dline` chooses at step `k`, computed from the neighbours in the window
`w` the line is drawn into. -/
def dlineGlyph (w : Window) (y x length : Nat) (vertical rev : Bool) (style : Nat × Nat)
    (canMerge : Bool) (k : Nat) : Nat :=
  dlinePiece
    (dlineDirs
      (dlineNeighbours w (dlinePos y x vertical rev k).1 (dlinePos y x vertical rev k).2 canMerge)
      k length vertical (dlineTdir1 vertical rev) (dlineTdir2 vertical rev)
      (dlineCstyle (dlineStyle style).1 vertical))
    (dlineStyle style)

/-- The cell a step of `dline` leaves: the glyph written by `wchar` with the default
(empty) attribute string, then `CanMerge` set. -/
def lineCell (glyph color : Nat) (mergeable : Bool) : Cell :=
  { Char := glyph, Color := color, CanMerge := mergeable }

/-- Function `dvline`: a vertical `dline`. -/
def dvline (w : Window) (y x length : Nat) (rev : Bool := false)
    (style : Nat × Nat := Defaults.Style) (color : Nat := Defaults.Color)
    (mergeable : Bool := Defaults.Mergeable) (canMerge : Bool := Defaults.CanMerge) : Window :=
  w.dline y x length true rev style color mergeable canMerge

/-- Function `dhline`: a horizontal `dline`. -/
def dhline (w : Window) (y x length : Nat) (rev : Bool := false)
    (style : Nat × Nat := Defaults.Style) (color : Nat := Defaults.Color)
    (mergeable : Bool := Defaults.Mergeable) (canMerge : Bool := Defaults.CanMerge) : Window :=
  w.dline y x length false rev style color mergeable canMerge

/-- Function `dbox(y, x, dimy, dimx, style, color, mergeable, canMerge)`. -/
def dbox (w : Window) (y x dimy dimx : Nat) (style : Nat × Nat := Defaults.Style)
    (color : Nat := Defaults.Color) (mergeable : Bool := Defaults.Mergeable)
    (canMerge : Bool := Defaults.CanMerge) : Option Window :=
  if !w.checkCoord y x || !w.checkCoord ((y + dimy) % 65536) ((x + dimx) % 65536)
      || decide (dimy < 1) || decide (dimx < 1) then some w
  -- Special cases for when the dimensions of the box are 1
  else if dimy = 1 ∧ dimx = 1 then w.wstr (y, x) [0x25A1] color
  else if dimy = 1 then some (w.dhline y x dimx false style color mergeable canMerge)
  else if dimx = 1 then some (w.dvline y x dimy false style color mergeable canMerge)
  else
    let w := w.dvline y x dimy false style color mergeable canMerge
    let w := w.dvline y (toUShort ((x : Int) + dimx - 1)) dimy false style color mergeable canMerge
    let w := w.dhline y x dimx false style color mergeable canMerge
    let w := w.dhline (toUShort ((y : Int) + dimy - 1)) x dimx false style color mergeable canMerge
    some w

/-- Function `gGridDims(rows, cols, celly, cellx)`. -/
def gGridDims (rows cols celly cellx : Nat) : Nat × Nat :=
  ((rows * celly + (rows + 1)) % 65536, (cols * cellx + (cols + 1)) % 65536)

/-- A loop `for (unsigned short i = 0; i <= count; i++)` of `dgrid`, entered at the loop
test with the counter at `i`; `body i` is the line drawn in iteration `i`.  The counter
wraps, so the loop never ends when `count = 65535`; the result is `none` when the fuel
runs out. -/
def dgridLoop (count : Nat) (body : Nat → Window → Window) : Nat → Nat → Window → Option Window
  | 0, _, _ => none
  | fuel + 1, i, w =>
    if i ≤ count then dgridLoop count body fuel ((i + 1) % 65536) (body i w) else some w

/-- Function `dgrid(y, x, rows, cols, celly, cellx, style, color, mergeable, canMerge)`; a loop
that ends takes at most 65536 iterations, so the fuel 65537 is never the reason for
`none`. -/
def dgrid (w : Window) (y x rows cols celly cellx : Nat) (style : Nat × Nat := Defaults.Style)
    (color : Nat := Defaults.Color) (mergeable : Bool := Defaults.Mergeable)
    (canMerge : Bool := true) : Option Window :=
  let dims := gGridDims rows cols celly cellx
  if !w.checkCoord y x || !w.checkCoord dims.1 dims.2 || decide (rows < 1) || decide (cols < 1)
  then some w
  else
    -- Vertical lines
    (dgridLoop cols (fun i w =>
        w.dvline y ((x + cellx * i + i) % 65536) dims.1 false style color mergeable canMerge)
      65537 0 w).bind fun w =>
    -- Horizontal lines
    dgridLoop rows (fun i w =>
        w.dhline ((y + celly * i + i) % 65536) x dims.2 false style color mergeable canMerge)
      65537 0 w

/-- The overload `dbox(style, color, mergeable, canMerge)` that draws the border of the
window; it passes `false` for both merge flags. -/
def dboxBorder (w : Window) (style : Nat × Nat := Defaults.Style) (color : Nat := Defaults.Color)
    (_mergeable : Bool := Defaults.Mergeable) (_canMerge : Bool := Defaults.CanMerge) :
    Option Window :=
  w.dbox 0 0 w.DimY w.DimX style color false false

/-- Function `dcbox(y, x, dimy, dimx, style, color, mergeable, canMerge)`. -/
def dcbox (w : Window) (y x dimy dimx : Nat) (style : Nat × Nat := Defaults.Style)
    (color : Nat := Defaults.Color) (mergeable : Bool := Defaults.Mergeable)
    (canMerge : Bool := Defaults.CanMerge) : Option Window :=
  w.dbox (toUShort ((y : Int) - (dimy / 2 : Nat))) (toUShort ((x : Int) - (dimx / 2 : Nat)))
    dimy dimx style color mergeable canMerge

/-- The overload `dgrid(y, x, cells, cellDim, style, color, mergeable, canMerge)` for a
square grid. -/
def dgridSquare (w : Window) (y x cells cellDim : Nat) (style : Nat × Nat := Defaults.Style)
    (color : Nat := Defaults.Color) (mergeable : Bool := Defaults.Mergeable)
    (canMerge : Bool := Defaults.CanMerge) : Option Window :=
  w.dgrid y x cells cells cellDim ((cellDim * 2) % 65536) style color mergeable canMerge

/-- Function `dcgrid(y, x, rows, cols, celly, cellx, style, color, mergeable, canMerge)`. -/
def dcgrid (w : Window) (y x rows cols celly cellx : Nat) (style : Nat × Nat := Defaults.Style)
    (color : Nat := Defaults.Color) (mergeable : Bool := Defaults.Mergeable)
    (canMerge : Bool := Defaults.CanMerge) : Option Window :=
  w.dgrid (toUShort ((y : Int) - (gGridDims rows cols celly cellx).1))
    (toUShort ((x : Int) - (gGridDims rows cols celly cellx).2))
    rows cols celly cellx style color mergeable canMerge

/-- The overload `dcgrid(y, x, cells, cellDim, style, color, mergeable, canMerge)` for a
square grid. -/
def dcgridSquare (w : Window) (y x cells cellDim : Nat) (style : Nat × Nat := Defaults.Style)
    (color : Nat := Defaults.Color) (mergeable : Bool := Defaults.Mergeable)
    (canMerge : Bool := Defaults.CanMerge) : Option Window :=
  w.dcgrid y x cells cells cellDim ((cellDim * 2) % 65536) style color mergeable canMerge

/-! ### Sequences of operations -/

/-- The writes between `w` and `w'` left every cell either as it was or not mergeable
unless `m` holds; the dimensions and the shape of the grid are kept. -/
def WritesWith (m : Bool) (w w' : Window) : Prop :=
  w'.DimY = w.DimY ∧ w'.DimX = w.DimX ∧ (w.WF → w'.WF)
  ∧ ∀ y x, w'.cellAt y x = w.cellAt y x ∨ ((w'.cellAt y x).CanMerge = true → m = true)

end Window

/-- The operations that write the grid, with their arguments.  The variants that differ
only in how the position is passed or in which part of the result they return
(`wchary`, `wstrx`, ...) have the grid effect of the operation listed here. -/
inductive Op where
  | wcharp (pos : Nat × Nat) (input color : Nat) (att : String) (offset : Nat × Nat)
  | wchar (pos : Nat × Nat) (input color : Nat) (att : String)
  | wstrp (pos : Nat × Nat) (input : List Nat) (color : Nat) (att : String) (offset : Nat × Nat)
      (wrap : Bool)
  | wstr (pos : Nat × Nat) (input : List Nat) (color : Nat) (att : String) (wrap : Bool)
  | wintp (pos : Nat × Nat) (input : Int) (minWidth color : Nat) (att : String)
      (offset : Nat × Nat) (wrap : Bool)
  | wint (pos : Nat × Nat) (input : Int) (minWidth color : Nat) (att : String) (wrap : Bool)
  | wmstrp (pos : Nat × Nat) (input : String) (color : Nat) (danglingLetters : Bool)
      (kerning leading : Nat) (offset : Nat × Nat) (wrap : Bool)
  | wmstr (pos : Nat × Nat) (input : String) (color : Nat) (danglingLetters : Bool)
      (kerning leading : Nat) (wrap : Bool)
  | reset
  | dline (y x length : Nat) (vertical rev : Bool) (style : Nat × Nat) (color : Nat)
      (mergeable canMerge : Bool)
  | dvline (y x length : Nat) (rev : Bool) (style : Nat × Nat) (color : Nat)
      (mergeable canMerge : Bool)
  | dhline (y x length : Nat) (rev : Bool) (style : Nat × Nat) (color : Nat)
      (mergeable canMerge : Bool)
  | dbox (y x dimy dimx : Nat) (style : Nat × Nat) (color : Nat) (mergeable canMerge : Bool)
  | dboxBorder (style : Nat × Nat) (color : Nat) (mergeable canMerge : Bool)
  | dcbox (y x dimy dimx : Nat) (style : Nat × Nat) (color : Nat) (mergeable canMerge : Bool)
  | dgrid (y x rows cols celly cellx : Nat) (style : Nat × Nat) (color : Nat)
      (mergeable canMerge : Bool)
  | dgridSquare (y x cells cellDim : Nat) (style : Nat × Nat) (color : Nat)
      (mergeable canMerge : Bool)
  | dcgrid (y x rows cols celly cellx : Nat) (style : Nat × Nat) (color : Nat)
      (mergeable canMerge : Bool)
  | dcgridSquare (y x cells cellDim : Nat) (style : Nat × Nat) (color : Nat)
      (mergeable canMerge : Bool)

namespace Op

/-- The window an operation leaves, `none` when the operation does not return. -/
def run : Op → Window → Option Window
  | .wcharp pos input color att offset, w => some (w.wcharp pos input color att offset).1
  | .wchar pos input color att, w => some (w.wchar pos input color att)
  | .wstrp pos input color att offset wrap, w =>
      (w.wstrp pos input color att offset wrap).map Prod.fst
  | .wstr pos input color att wrap, w => w.wstr pos input color att wrap
  | .wintp pos input minWidth color att offset wrap, w =>
      (w.wintp pos input minWidth color att offset wrap).map Prod.fst
  | .wint pos input minWidth color att wrap, w => w.wint pos input minWidth color att wrap
  | .wmstrp pos input color danglingLetters kerning leading offset wrap, w =>
      (w.wmstrp pos input color danglingLetters kerning leading offset wrap).map Prod.fst
  | .wmstr pos input color danglingLetters kerning leading wrap, w =>
      w.wmstr pos input color danglingLetters kerning leading wrap
  | .reset, w => some w.reset
  | .dline y x length vertical rev style color mergeable canMerge, w =>
      some (w.dline y x length vertical rev style color mergeable canMerge)
  | .dvline y x length rev style color mergeable canMerge, w =>
      some (w.dvline y x length rev style color mergeable canMerge)
  | .dhline y x length rev style color mergeable canMerge, w =>
      some (w.dhline y x length rev style color mergeable canMerge)
  | .dbox y x dimy dimx style color mergeable canMerge, w =>
      w.dbox y x dimy dimx style color mergeable canMerge
  | .dboxBorder style color mergeable canMerge, w =>
      w.dboxBorder style color mergeable canMerge
  | .dcbox y x dimy dimx style color mergeable canMerge, w =>
      w.dcbox y x dimy dimx style color mergeable canMerge
  | .dgrid y x rows cols celly cellx style color mergeable canMerge, w =>
      w.dgrid y x rows cols celly cellx style color mergeable canMerge
  | .dgridSquare y x cells cellDim style color mergeable canMerge, w =>
      w.dgridSquare y x cells cellDim style color mergeable canMerge
  | .dcgrid y x rows cols celly cellx style color mergeable canMerge, w =>
      w.dcgrid y x rows cols celly cellx style color mergeable canMerge
  | .dcgridSquare y x cells cellDim style color mergeable canMerge, w =>
      w.dcgridSquare y x cells cellDim style color mergeable canMerge

/-- Whether the operation is a `dline`, a `dbox` or a `dgrid` (directly or through one of
their wrappers) called with `mergeable = true`; the border overload of `dbox` never
draws mergeable lines. -/
def drawsMergeable : Op → Bool
  | .dline _ _ _ _ _ _ _ mergeable _ => mergeable
  | .dvline _ _ _ _ _ _ mergeable _ => mergeable
  | .dhline _ _ _ _ _ _ mergeable _ => mergeable
  | .dbox _ _ _ _ _ _ mergeable _ => mergeable
  | .dcbox _ _ _ _ _ _ mergeable _ => mergeable
  | .dgrid _ _ _ _ _ _ _ _ mergeable _ => mergeable
  | .dgridSquare _ _ _ _ _ _ mergeable _ => mergeable
  | .dcgrid _ _ _ _ _ _ _ _ mergeable _ => mergeable
  | .dcgridSquare _ _ _ _ _ _ mergeable _ => mergeable
  | _ => false

/-- The operations of a list run one after the other. -/
def runAll : List Op → Window → Option Window
  | [], w => some w
  | op :: rest, w => (op.run w).bind (runAll rest)

end Op

/-! ## Rendering -/

/-- What the rendering functions do, one event per call: `write y x c` stands for the
ncurses calls with which `write(y, x)` puts the cell `c = Grid[y][x]` on the screen,
`refresh` for `wrefresh(Win)`, and `wait millis skipped` for a call of `wait(millis)`
together with its result. -/
inductive Event where
  | write (y x : Nat) (c : Cell)
  | refresh
  | wait (millis : Nat) (skipped : Bool)
deriving DecidableEq, Repr

namespace Window

/-- Function `write(y, x)`: nothing for a position outside the window, otherwise the
cell is put on the screen. -/
def write (w : Window) (y x : Nat) : List Event :=
  -- No printing characters outside of the ncurses window
  if y ≥ w.DimY ∨ x ≥ w.DimX then [] else [Event.write y x (w.cellAt y x)]

/-- The loop of `wait(millis)` with `n` iterations left.  The input source is `keys`:
`keys p` tells whether call number `p` of `wgetch`, made through the non-blocking
`gchar(false, true, false)`, finds a key; `polls` counts the calls made so far.  The
result is whether the wait was skipped, and the new count. -/
def waitLoop (w : Window) (keys : Nat → Bool) : Nat → Nat → Bool × Nat
  | 0, polls => (false, polls)
  | n + 1, polls =>
    if w.CanSkip then
      if keys polls then (true, polls + 1) else waitLoop w keys n (polls + 1)
    else waitLoop w keys n polls

/-- Function `wait(millis)`. -/
def wait (w : Window) (keys : Nat → Bool) (millis polls : Nat) : Bool × Nat :=
  w.waitLoop keys millis polls

/-- Function `rinst`: every cell row by row, then one refresh. -/
def rinst (w : Window) : List Event :=
  (List.range w.DimY).flatMap (fun i => (List.range w.DimX).flatMap (fun j => w.write i j))
    ++ [Event.refresh]

/-- The `switch` in the loop body of `rline`: the cell written for the counters `i`, `j`. -/
def rlineWrite (w : Window) (dir : Nat) (rev : Bool) (i j : Nat) : List Event :=
  match dir with
  | 0 => w.write i (if rev then toUShort ((w.DimX : Int) - 1 - j) else j)
  | 1 => w.write (toUShort ((w.DimY : Int) - 1 - i))
      (if rev then toUShort ((w.DimX : Int) - 1 - j) else j)
  | 2 => w.write (if rev then toUShort ((w.DimY : Int) - 1 - j) else j) i
  | 3 => w.write (if rev then toUShort ((w.DimY : Int) - 1 - j) else j)
      (toUShort ((w.DimX : Int) - 1 - i))
  | _ => []

/-- The inner `for` loop of `rline` with `n` iterations left and the counter at `j`, in
the iteration `i` of the outer loop.  The result: the events, the count of polls, and
whether `rline` has returned through `return rinst()`. -/
def rlineInner (w : Window) (keys : Nat → Bool) (dir : Nat) (full rev : Bool) (millis i : Nat) :
    Nat → Nat → Nat → List Event × Nat × Bool
  | 0, _, polls => ([], polls, false)
  | n + 1, j, polls =>
    let ev := w.rlineWrite dir rev i j
    if !full then
      let r := w.wait keys millis polls
      if r.1 then (ev ++ [Event.refresh, Event.wait millis true] ++ w.rinst, r.2, true)
      else
        let rest := rlineInner w keys dir full rev millis i n (j + 1) r.2
        (ev ++ [Event.refresh, Event.wait millis false] ++ rest.1, rest.2.1, rest.2.2)
    else
      let rest := rlineInner w keys dir full rev millis i n (j + 1) polls
      (ev ++ rest.1, rest.2.1, rest.2.2)

/-- The outer `for` loop of `rline` with `n` iterations left and the counter at `i`;
`l2` is the bound of the inner loop.  The result: the events and the count of polls. -/
def rlineOuter (w : Window) (keys : Nat → Bool) (dir : Nat) (full rev : Bool) (millis l2 : Nat) :
    Nat → Nat → Nat → List Event × Nat
  | 0, _, polls => ([], polls)
  | n + 1, i, polls =>
    let inner := w.rlineInner keys dir full rev millis i l2 0 polls
    if inner.2.2 then (inner.1, inner.2.1)
    else
      let r := w.wait keys millis inner.2.1
      if r.1 then (inner.1 ++ [Event.refresh, Event.wait millis true] ++ w.rinst, r.2)
      else
        let rest := rlineOuter w keys dir full rev millis l2 n (i + 1) r.2
        (inner.1 ++ [Event.refresh, Event.wait millis false] ++ rest.1, rest.2)

/-- Function `rline(dir, full, rev, millis)`, run against the input source `keys` after
`polls` calls of `wgetch`: the events and the new count of polls. -/
def rline (w : Window) (keys : Nat → Bool) (dir : Nat := 0) (full : Bool := true)
    (rev : Bool := false) (millis : Nat := 20) (polls : Nat := 0) : List Event × Nat :=
  if dir > 3 then (w.rinst, polls)
  else
    let l1 := if dir < 2 then w.DimY else w.DimX
    let l2 := if dir < 2 then w.DimX else w.DimY
    w.rlineOuter keys dir full rev millis l2 l1 0 polls

end Window

end npp

namespace npp

namespace Window

/-! ### Descriptions used by the theorems on attribute strings, text and rendering -/

/-- The ten tokens `extractAttributes` searches for, as pairs of letters, in the order
of its result. -/
def attTokens : List (Char × Char) :=
  [('b', 'o'), ('i', 't'), ('u', 'n'), ('r', 'e'), ('b', 'l'), ('d', 'i'), ('i', 'n'),
   ('s', 't'), ('p', 'r'), ('a', 'l')]

/-- The text made of the two-letter tokens `ts`. -/
def tokenText (ts : List (Char × Char)) : String :=
  String.mk (ts.flatMap fun e => [e.1, e.2])

/-- The tokens `ts` in lower case. -/
def lowerTokens (ts : List (Char × Char)) : List (Char × Char) :=
  ts.map fun e => (e.1.toLower, e.2.toLower)

/-- The text `wintp` writes for `input` and `minWidth`: the sign of a negative number,
the zeros that fill up to the minimum width, and the decimal digits of `|input|`. -/
def wintText (input : Int) (minWidth : Nat) : List Nat :=
  (if input < 0 then [0x2D] else [])
    ++ List.replicate (minWidth - (to_wstring input).length) 0x30
    ++ (Nat.toDigits 10 input.natAbs).map Char.toNat

/-- The cell in which `wstrp` places character `i` of its input: with `wrap` the text
fills the columns from the starting column to the right edge, row after row; without
it the text continues in column 0 of the next row. -/
def wstrpCell (w : Window) (pos : Nat × Nat) (wrap : Bool) (i : Nat) : Nat × Nat :=
  if wrap then (pos.1 + i / (w.DimX - pos.2), pos.2 + i % (w.DimX - pos.2))
  else (pos.1 + (pos.2 + i) / w.DimX, (pos.2 + i) % w.DimX)

/-- The number of cells a row of text of `wstrp` takes: from the starting column to the
right edge with `wrap`, the whole width without. -/
def wstrpWidth (w : Window) (pos : Nat × Nat) (wrap : Bool) : Nat :=
  if wrap then w.DimX - pos.2 else w.DimX

/-- The number of rows character `i` of a text of `wstrp` lies below the starting
row. -/
def wstrpRow (w : Window) (pos : Nat × Nat) (wrap : Bool) (i : Nat) : Nat :=
  ((if wrap then 0 else pos.2) + i) / w.wstrpWidth pos wrap

/-- The row offset with which the loop of `wstrp` enters iteration `i`: that of the
character before. -/
def wstrpRowBefore (w : Window) (pos : Nat × Nat) (wrap : Bool) (i : Nat) : Nat :=
  if i = 0 then 0 else w.wstrpRow pos wrap (i - 1)

/-- The cell `wchar` leaves: the character, the colour, the attributes of `att`, not
mergeable. -/
def textCell (input color : Nat) (att : String) : Cell :=
  { Char := input, Color := color,
    Bold := (extractAttributes att).getD 0 false,
    Italic := (extractAttributes att).getD 1 false,
    Under := (extractAttributes att).getD 2 false,
    Rev := (extractAttributes att).getD 3 false,
    Blink := (extractAttributes att).getD 4 false,
    Dim := (extractAttributes att).getD 5 false,
    Invis := (extractAttributes att).getD 6 false,
    Stand := (extractAttributes att).getD 7 false,
    Prot := (extractAttributes att).getD 8 false,
    Alt := (extractAttributes att).getD 9 false,
    CanMerge := false }

/-- The window after the first `n` characters of `input` were written, each in its
cell `wstrpCell`. -/
def wstrpDraw (w : Window) (pos : Nat × Nat) (input : List Nat) (color : Nat) (att : String)
    (wrap : Bool) : Nat → Window
  | 0 => w
  | n + 1 =>
    (wstrpDraw w pos input color att wrap n).wchar (w.wstrpCell pos wrap n) (input.getD n 0)
      color att

/-- The cell `rline` writes in place `j` of line `i`: the lines are the rows from the
top (`dir = 0`) or from the bottom (`dir = 1`), or the columns from the left (`dir = 2`)
or from the right (`dir = 3`); with `rev` the places of a line are taken from its far
end. -/
def rlineCell (w : Window) (dir : Nat) (rev : Bool) (i j : Nat) : Nat × Nat :=
  if dir = 0 then (i, if rev then w.DimX - 1 - j else j)
  else if dir = 1 then (w.DimY - 1 - i, if rev then w.DimX - 1 - j else j)
  else if dir = 2 then (if rev then w.DimY - 1 - j else j, i)
  else (if rev then w.DimY - 1 - j else j, w.DimX - 1 - i)

/-- The events of a run of `rline` in which no wait is skipped: line after line, in each
line cell after cell, a refresh and a wait after every line and, unless `full`, after
every cell. -/
def rlineEvents (w : Window) (dir : Nat) (full rev : Bool) (millis : Nat) : List Event :=
  (List.range (if dir < 2 then w.DimY else w.DimX)).flatMap fun i =>
    ((List.range (if dir < 2 then w.DimX else w.DimY)).flatMap fun j =>
      Event.write (w.rlineCell dir rev i j).1 (w.rlineCell dir rev i j).2
          (w.cellAt (w.rlineCell dir rev i j).1 (w.rlineCell dir rev i j).2)
        :: (if full then [] else [Event.refresh, Event.wait millis false]))
    ++ [Event.refresh, Event.wait millis false]

end Window

namespace Event

/-- Whether the event is a wait that was skipped. -/
def isSkip : Event → Bool
  | .wait _ true => true
  | _ => false

/-- The position of the cell that a write event puts on the screen. -/
def cell : Event → Option (Nat × Nat)
  | .write y x _ => some (y, x)
  | _ => none

end Event

/-- Every write among the events `l` is followed, later in `l`, by a refresh. -/
def Flushed (l : List Event) : Prop :=
  ∀ pre e post, l = pre ++ e :: post → e.cell ≠ none → Event.refresh ∈ post

end npp

namespace npp

/-! ## Timing -/

/-- The value `ERR` with which `wgetch` reports that no key is waiting. -/
def ERR : Int := -1

/-- What the timing functions do, one entry per call: `poll r` stands for a call of the
non-blocking `gchar(false, true, false)` that returned `r`, `sleep` for `napms(1)`. -/
inductive Tick where
  | poll (result : Int)
  | sleep
deriving DecidableEq, Repr

namespace Window

/-- Function `uskip(skippable)`. -/
def uskip (w : Window) (skippable : Bool) : Window := { w with CanSkip := skippable }

/-- Function `wait(millis)` with its calls recorded: the loop with `n` iterations left.
The input source is `input`: `input p` is what call number `p` of `wgetch` returns;
`polls` counts the calls made so far.  The result is the value returned and the calls
made, in order. -/
def waitTicks (w : Window) (input : Nat → Int) : Nat → Nat → Bool × List Tick
  | 0, _ => (false, [])
  | n + 1, polls =>
    if w.CanSkip then
      if input polls ≠ ERR then (true, [Tick.poll (input polls)])
      else
        let r := waitTicks w input n (polls + 1)
        (r.1, Tick.poll (input polls) :: Tick.sleep :: r.2)
    else
      let r := waitTicks w input n polls
      (r.1, Tick.sleep :: r.2)

/-- Function `rwait(millis)` with its calls recorded, as `waitTicks`. -/
def rwait (w : Window) (input : Nat → Int) : Nat → Nat → Int × List Tick
  | 0, _ => (-1, [])
  | n + 1, polls =>
    if w.CanSkip then
      if input polls ≠ ERR then (input polls, [Tick.poll (input polls)])
      else
        let r := rwait w input n (polls + 1)
        (r.1, Tick.poll (input polls) :: Tick.sleep :: r.2)
    else
      let r := rwait w input n polls
      (r.1, Tick.sleep :: r.2)

/-- The loop `for (unsigned short j = 0; j < targets.size(); j++)` of `twait`, entered at
the loop test with the counter at `j`: `some true` when the input is a target, `some false`
when the loop ends without a match.  The counter wraps, so with 65536 targets or more
and no match among the first 65536 the loop never ends; the result is `none` when the
fuel runs out. -/
def twaitMatch (input : Int) (targets : List Int) : Nat → Nat → Option Bool
  | 0, _ => none
  | fuel + 1, j =>
    if j < targets.length then
      if input = targets.getD j 0 then some true
      else twaitMatch input targets fuel ((j + 1) % 65536)
    else some false

/-- Function `twait(millis, targets)` with its calls recorded, as `waitTicks`; the targets
are the `char`s as integers.  A run of the inner loop that ends takes at most 65536
iterations, so the fuel 65537 is never the reason for `none`. -/
def twait (w : Window) (input : Nat → Int) (targets : List Int) :
    Nat → Nat → Option (Bool × List Tick)
  | 0, _ => some (false, [])
  | n + 1, polls =>
    if w.CanSkip then
      if input polls ≠ ERR then
        match twaitMatch (input polls) targets 65537 0 with
        | none => none
        | some true => some (true, [Tick.poll (input polls)])
        | some false =>
          (twait w input targets n (polls + 1)).map fun r =>
            (r.1, Tick.poll (input polls) :: Tick.sleep :: r.2)
      else
        (twait w input targets n (polls + 1)).map fun r =>
          (r.1, Tick.poll (input polls) :: Tick.sleep :: r.2)
    else (twait w input targets n polls).map fun r => (r.1, Tick.sleep :: r.2)

end Window

/-! ## Descriptions used by the theorems on rendering and on light lines -/

/-- One event put in front of the events `fs` already cut at their refreshes. -/
def framesCons (e : Event) (fs : List (List Event)) : List (List Event) :=
  if e = Event.refresh then [] :: fs
  else
    match fs with
    | f :: rest => (e :: f) :: rest
    | [] => [[e]]

/-- The events `l` cut at every refresh: the events before the first refresh, those
between the first and the second, and so on, the last list holding what follows the
last refresh. -/
def frames (l : List Event) : List (List Event) := l.foldr framesCons [[]]

/-- The arguments of a call
`dline(y, x, length, vertical, rev, {LIGHT_HARD, DASHED_NONE}, color, true, true)`. -/
structure LightLine where
  y : Nat
  x : Nat
  length : Nat
  vertical : Bool
  rev : Bool
  color : Nat
deriving DecidableEq, Repr

/-- The call of `dline` that `c` stands for. -/
def LightLine.draw (w : Window) (c : LightLine) : Window :=
  w.dline c.y c.x c.length c.vertical c.rev (LIGHT_HARD, DASHED_NONE) c.color true true

/-- The glyphs of the key for the directions with light and none components only of
which at least two are light, in the plain style: the two lines, the four corners, the
four tees and the cross. -/
def lightGlyphs : List Nat :=
  [0x2500, 0x2502, 0x250C, 0x2510, 0x2514, 0x2518, 0x251C, 0x2524, 0x252C, 0x2534, 0x253C]

end npp

/-! ## Theorems -/

namespace npp

namespace Window

/-! ### The grid -/

theorem cellAt_setCell (w : Window) (y x y' x' : Nat) (c : Cell) :
    (w.setCell y x c).cellAt y' x' =
      if y' = y ∧ x' = x ∧ y < w.Grid.length ∧ x < (w.Grid.getD y []).length then c
      else w.cellAt y' x' := by
  unfold cellAt setCell
  simp only [List.getD_eq_getElem?_getD, List.getElem?_set]
  by_cases hy : y = y'
  · subst hy
    by_cases hl : y < w.Grid.length
    · simp only [hl, if_true, Option.getD_some, List.getElem?_set, true_and]
      by_cases hx : x = x'
      · subst hx
        by_cases hxl : x < (w.Grid[y]?.getD []).length
        · simp [hxl]
        · have hn : (w.Grid[y]?.getD [])[x]? = none :=
            List.getElem?_eq_none (Nat.le_of_not_lt hxl)
          simp [hxl, hn]
      · have hx' : ¬ x' = x := fun h => hx h.symm
        simp [hx, hx']
    · have : w.Grid[y]? = none := by simp at hl; simp [hl]
      simp [hl, this]
  · have hy' : ¬ y' = y := fun h => hy h.symm
    simp [hy, hy']

theorem checkCoord_iff (w : Window) (y x : Nat) :
    w.checkCoord y x = true ↔ y < w.DimY ∧ x < w.DimX := by
  unfold checkCoord
  simp only [Bool.not_eq_true', Bool.or_eq_false_iff, decide_eq_false_iff_not, not_le, ge_iff_le]

theorem checkCoord_false_iff (w : Window) (y x : Nat) :
    w.checkCoord y x = false ↔ (w.DimY ≤ y ∨ w.DimX ≤ x) := by
  rw [← Bool.not_eq_true, checkCoord_iff]
  omega

theorem WF.row_length {w : Window} (hw : w.WF) {y : Nat} (hy : y < w.DimY) :
    (w.Grid.getD y []).length = w.DimX := by
  obtain ⟨_, _, hl, hr⟩ := hw
  have hy' : y < w.Grid.length := by omega
  rw [List.getD_eq_getElem?_getD, List.getElem?_eq_getElem hy', Option.getD_some]
  exact hr _ (List.getElem_mem hy')

theorem cellAt_setCell_of_WF {w : Window} (hw : w.WF) {y x : Nat} (hy : y < w.DimY)
    (hx : x < w.DimX) (y' x' : Nat) (c : Cell) :
    (w.setCell y x c).cellAt y' x' = if y' = y ∧ x' = x then c else w.cellAt y' x' := by
  rw [cellAt_setCell]
  have h1 : y < w.Grid.length := by rw [hw.2.2.1]; exact hy
  have h2 : x < (w.Grid.getD y []).length := by rw [hw.row_length hy]; exact hx
  by_cases h : y' = y ∧ x' = x
  · rw [if_pos ⟨h.1, h.2, h1, h2⟩, if_pos h]
  · rw [if_neg (fun h' => h ⟨h'.1, h'.2.1⟩), if_neg h]

theorem setCell_DimY (w : Window) (y x : Nat) (c : Cell) : (w.setCell y x c).DimY = w.DimY := rfl
theorem setCell_DimX (w : Window) (y x : Nat) (c : Cell) : (w.setCell y x c).DimX = w.DimX := rfl

theorem setCell_checkCoord (w : Window) (y x : Nat) (c : Cell) (y' x' : Nat) :
    (w.setCell y x c).checkCoord y' x' = w.checkCoord y' x' := rfl

theorem WF.setCell {w : Window} (hw : w.WF) (y x : Nat) (c : Cell) : (w.setCell y x c).WF := by
  obtain ⟨h1, h2, hl, hr⟩ := hw
  refine ⟨h1, h2, ?_, ?_⟩
  · show (w.Grid.set y _).length = w.DimY
    rw [List.length_set]; exact hl
  · intro row hrow
    have hrow' : row ∈ w.Grid.set y ((w.Grid.getD y []).set x c) := hrow
    by_cases hy : y < w.Grid.length
    · rcases List.mem_or_eq_of_mem_set hrow' with h | h
      · exact hr row h
      · subst h
        rw [List.length_set, List.getD_eq_getElem?_getD, List.getElem?_eq_getElem hy,
          Option.getD_some]
        exact hr _ (List.getElem_mem hy)
    · rw [List.set_eq_of_length_le (Nat.le_of_not_lt hy)] at hrow'
      exact hr row hrow'

theorem wcharp_of_in {w : Window} {pos : Nat × Nat} (h : w.checkCoord pos.1 pos.2 = true)
    (input color : Nat) (att : String) (offset : Nat × Nat) :
    w.wcharp pos input color att offset =
      (w.setCell pos.1 pos.2
        { Char := input, Color := color,
          Bold := (extractAttributes att).getD 0 false,
          Italic := (extractAttributes att).getD 1 false,
          Under := (extractAttributes att).getD 2 false,
          Rev := (extractAttributes att).getD 3 false,
          Blink := (extractAttributes att).getD 4 false,
          Dim := (extractAttributes att).getD 5 false,
          Invis := (extractAttributes att).getD 6 false,
          Stand := (extractAttributes att).getD 7 false,
          Prot := (extractAttributes att).getD 8 false,
          Alt := (extractAttributes att).getD 9 false,
          CanMerge := false },
       ((pos.1 + offset.1) % 65536, (pos.2 + offset.2) % 65536)) := by
  unfold wcharp
  rw [h]
  rfl

theorem wcharp_of_out {w : Window} {pos : Nat × Nat} (h : w.checkCoord pos.1 pos.2 = false)
    (input color : Nat) (att : String) (offset : Nat × Nat) :
    w.wcharp pos input color att offset = (w, pos) := by
  unfold wcharp
  rw [h]
  rfl

/-- C1. Write then read: after `wcharp` at an in-bounds position the readers return the
character, the colour and the ten entries of `extractAttributes att`. -/
theorem wcharp_read_back (w : Window) (hw : w.WF) (y x ch c : Nat) (att : String)
    (offset : Nat × Nat) (hy : y < w.DimY) (hx : x < w.DimX) :
    (w.wcharp (y, x) ch c att offset).1.schar y x = ch
    ∧ (w.wcharp (y, x) ch c att offset).1.scolor y x = c
    ∧ (w.wcharp (y, x) ch c att offset).1.sbold y x = (extractAttributes att).getD 0 false
    ∧ (w.wcharp (y, x) ch c att offset).1.sitalic y x = (extractAttributes att).getD 1 false
    ∧ (w.wcharp (y, x) ch c att offset).1.sunder y x = (extractAttributes att).getD 2 false
    ∧ (w.wcharp (y, x) ch c att offset).1.srev y x = (extractAttributes att).getD 3 false
    ∧ (w.wcharp (y, x) ch c att offset).1.sblink y x = (extractAttributes att).getD 4 false
    ∧ (w.wcharp (y, x) ch c att offset).1.sdim y x = (extractAttributes att).getD 5 false
    ∧ (w.wcharp (y, x) ch c att offset).1.sinvis y x = (extractAttributes att).getD 6 false
    ∧ (w.wcharp (y, x) ch c att offset).1.sstand y x = (extractAttributes att).getD 7 false
    ∧ (w.wcharp (y, x) ch c att offset).1.sprot y x = (extractAttributes att).getD 8 false
    ∧ (w.wcharp (y, x) ch c att offset).1.salt y x = (extractAttributes att).getD 9 false := by
  have hin : w.checkCoord (y, x).1 (y, x).2 = true := (checkCoord_iff w y x).2 ⟨hy, hx⟩
  rw [wcharp_of_in hin]
  have hin' : w.checkCoord y x = true := hin
  simp only [schar, scolor, sbold, sitalic, sunder, srev, sblink, sdim, sinvis, sstand, sprot,
    salt, setCell_checkCoord, hin', Bool.not_true, Bool.false_eq_true, if_false,
    cellAt_setCell_of_WF hw hy hx, and_self, if_true]

/-- C1, an instance: on a 3x4 window, writing at (1, 2). -/
theorem wcharp_read_back_witness :
    ((Window.create 24 80 0 0 3 4).wcharp (1, 2) 0x41 5 "boun" (0, 1)).1.schar 1 2 = 0x41
    ∧ ((Window.create 24 80 0 0 3 4).wcharp (1, 2) 0x41 5 "boun" (0, 1)).1.sunder 1 2 = true :=
  have h := wcharp_read_back (Window.create 24 80 0 0 3 4) (by decide) 1 2 0x41 5 "boun" (0, 1)
    (by decide) (by decide)
  ⟨h.1, h.2.2.2.2.1.trans (by decide)⟩

/-- C2. Out-of-bounds reads return the defaults, whatever the grid holds. -/
theorem readers_out_of_bounds (w : Window) (y x : Nat) (h : y ≥ w.DimY ∨ x ≥ w.DimX) :
    w.schar y x = 0x20 ∧ w.scolor y x = 1 ∧ w.sbold y x = false ∧ w.sitalic y x = false
    ∧ w.sunder y x = false ∧ w.srev y x = false ∧ w.sblink y x = false ∧ w.sdim y x = false
    ∧ w.sinvis y x = false ∧ w.sstand y x = false ∧ w.sprot y x = false ∧ w.salt y x = false
    ∧ w.smerge y x = false := by
  have ho : w.checkCoord y x = false := (checkCoord_false_iff w y x).2 h
  simp only [schar, scolor, sbold, sitalic, sunder, srev, sblink, sdim, sinvis, sstand, sprot,
    salt, smerge, ho, Bool.not_false, if_true, BLANK, and_self]

/-- C2, an instance: reads past the last row and past the last column of a 3x4 window
that holds a written cell. -/
theorem readers_out_of_bounds_witness :
    (((Window.create 24 80 0 0 3 4).wchar (2, 3) 0x41 5 "bo").schar 3 0 = 0x20
      ∧ ((Window.create 24 80 0 0 3 4).wchar (2, 3) 0x41 5 "bo").scolor 3 0 = 1)
    ∧ ((Window.create 24 80 0 0 3 4).wchar (2, 3) 0x41 5 "bo").smerge 2 4 = false :=
  have h1 := readers_out_of_bounds ((Window.create 24 80 0 0 3 4).wchar (2, 3) 0x41 5 "bo") 3 0
    (Or.inl (by decide))
  have h2 := readers_out_of_bounds ((Window.create 24 80 0 0 3 4).wchar (2, 3) 0x41 5 "bo") 2 4
    (Or.inr (by decide))
  ⟨⟨h1.1, h1.2.1⟩, h2.2.2.2.2.2.2.2.2.2.2.2.2⟩

/-- C3. An out-of-bounds `wcharp` changes nothing and returns `pos` itself; an in-bounds
one returns `pos + offset`, each component modulo 2^16. -/
theorem wcharp_result (w : Window) (pos : Nat × Nat) (ch color : Nat) (att : String)
    (offset : Nat × Nat) :
    ((pos.1 ≥ w.DimY ∨ pos.2 ≥ w.DimX) → w.wcharp pos ch color att offset = (w, pos))
    ∧ ((pos.1 < w.DimY ∧ pos.2 < w.DimX) →
        (w.wcharp pos ch color att offset).2
          = ((pos.1 + offset.1) % 65536, (pos.2 + offset.2) % 65536)) := by
  constructor
  · intro h
    exact wcharp_of_out ((checkCoord_false_iff w _ _).2 h) ch color att offset
  · intro h
    rw [wcharp_of_in ((checkCoord_iff w _ _).2 h)]

/-- C3, an instance: on a 3x4 window the write at (5, 1) is dropped and returns (5, 1);
the write at (2, 3) with offset (65535, 65534) returns (1, 1). -/
theorem wcharp_result_witness :
    (Window.create 24 80 0 0 3 4).wcharp (5, 1) 0x41 2 "bo" (0, 1)
      = (Window.create 24 80 0 0 3 4, (5, 1))
    ∧ ((Window.create 24 80 0 0 3 4).wcharp (2, 3) 0x41 2 "bo" (65535, 65534)).2 = (1, 1) :=
  ⟨(wcharp_result (Window.create 24 80 0 0 3 4) (5, 1) 0x41 2 "bo" (0, 1)).1
      (Or.inl (by decide)),
   ((wcharp_result (Window.create 24 80 0 0 3 4) (2, 3) 0x41 2 "bo" (65535, 65534)).2
      ⟨by decide, by decide⟩).trans (by decide)⟩

/-- C4. A multi-cell operation whose start is rejected is skipped as a whole. -/
theorem rejected_start_skips (w : Window) (pos : Nat × Nat) (y x : Nat) :
    ((pos.1 ≥ w.DimY ∨ pos.2 ≥ w.DimX) →
      (∀ (input : List Nat) (color : Nat) (att : String) (offset : Nat × Nat) (wrap : Bool),
        w.wstrp pos input color att offset wrap = some (w, pos))
      ∧ (∀ (input : Int) (minWidth color : Nat) (att : String) (offset : Nat × Nat) (wrap : Bool),
        w.wintp pos input minWidth color att offset wrap = some (w, pos))
      ∧ (∀ (input : String) (color : Nat) (dangling : Bool) (kerning leading : Nat)
          (offset : Nat × Nat) (wrap : Bool),
        w.wmstrp pos input color dangling kerning leading offset wrap = some (w, pos)))
    ∧ (∀ (length : Nat) (vertical rev : Bool) (style : Nat × Nat) (color : Nat)
        (mergeable canMerge : Bool), (y ≥ w.DimY ∨ x ≥ w.DimX ∨ length = 0) →
        w.dline y x length vertical rev style color mergeable canMerge = w)
    ∧ (∀ (dimy dimx : Nat) (style : Nat × Nat) (color : Nat) (mergeable canMerge : Bool),
        (y ≥ w.DimY ∨ x ≥ w.DimX ∨ dimy = 0 ∨ dimx = 0) →
        w.dbox y x dimy dimx style color mergeable canMerge = some w) := by
  refine ⟨fun h => ?_, ?_, ?_⟩
  · have ho : w.checkCoord pos.1 pos.2 = false := (checkCoord_false_iff w _ _).2 h
    refine ⟨?_, ?_, ?_⟩
    · intros; unfold wstrp; rw [ho]; rfl
    · intros; unfold wintp; rw [ho]; rfl
    · intros; unfold wmstrp; rw [ho]; rfl
  · intro length vertical rev style color mergeable canMerge h
    unfold dline
    by_cases ho : w.checkCoord y x = false
    · rw [ho]; rfl
    · have hl : length = 0 := by
        rcases h with h | h | h
        · exact absurd ((checkCoord_false_iff w y x).2 (Or.inl h)) ho
        · exact absurd ((checkCoord_false_iff w y x).2 (Or.inr h)) ho
        · exact h
      subst hl
      simp
  · intro dimy dimx style color mergeable canMerge h
    unfold dbox
    by_cases ho : w.checkCoord y x = false
    · rw [ho]; rfl
    · have hl : dimy = 0 ∨ dimx = 0 := by
        rcases h with h | h | h
        · exact absurd ((checkCoord_false_iff w y x).2 (Or.inl h)) ho
        · exact absurd ((checkCoord_false_iff w y x).2 (Or.inr h)) ho
        · exact h
      rcases hl with hl | hl <;> subst hl <;> simp

/-- C4, instances on a 3x4 window: the three writes started at (3, 0), a line started at
(0, 4), a line of length 0 and boxes with a rejected corner or a zero dimension. -/
theorem rejected_start_skips_witness :
    ((Window.create 24 80 0 0 3 4).wstrp (3, 0) [0x41, 0x42] 1 "" (0, 1) true
        = some (Window.create 24 80 0 0 3 4, (3, 0))
      ∧ (Window.create 24 80 0 0 3 4).wintp (3, 0) (-12) 5 1 "" (0, 1) true
        = some (Window.create 24 80 0 0 3 4, (3, 0))
      ∧ (Window.create 24 80 0 0 3 4).wmstrp (3, 0) "ab" 1 true 1 1 (0, 1) true
        = some (Window.create 24 80 0 0 3 4, (3, 0)))
    ∧ (Window.create 24 80 0 0 3 4).dline 0 4 2 false true (0, 0) 1 true true
        = Window.create 24 80 0 0 3 4
    ∧ (Window.create 24 80 0 0 3 4).dline 1 1 0 true false (0, 0) 1 true true
        = Window.create 24 80 0 0 3 4
    ∧ (Window.create 24 80 0 0 3 4).dbox 3 0 2 2 (0, 0) 1 true true
        = some (Window.create 24 80 0 0 3 4)
    ∧ (Window.create 24 80 0 0 3 4).dbox 0 0 0 2 (0, 0) 1 true true
        = some (Window.create 24 80 0 0 3 4)
    ∧ (Window.create 24 80 0 0 3 4).dbox 0 0 2 0 (0, 0) 1 true true
        = some (Window.create 24 80 0 0 3 4) :=
  have h := rejected_start_skips (Window.create 24 80 0 0 3 4) (3, 0) 0 4
  have h' := rejected_start_skips (Window.create 24 80 0 0 3 4) (3, 0) 1 1
  have h'' := rejected_start_skips (Window.create 24 80 0 0 3 4) (3, 0) 3 0
  have h3 := rejected_start_skips (Window.create 24 80 0 0 3 4) (3, 0) 0 0
  have hp := h.1 (Or.inl (by decide))
  ⟨⟨hp.1 _ _ _ _ _, hp.2.1 _ _ _ _ _ _, hp.2.2 _ _ _ _ _ _ _⟩,
   h.2.1 2 false true (0, 0) 1 true true (Or.inr (Or.inl (by decide))),
   h'.2.1 0 true false (0, 0) 1 true true (Or.inr (Or.inr rfl)),
   h''.2.2 2 2 (0, 0) 1 true true (Or.inl (by decide)),
   h3.2.2 0 2 (0, 0) 1 true true (Or.inr (Or.inr (Or.inl rfl))),
   h3.2.2 2 0 (0, 0) 1 true true (Or.inr (Or.inr (Or.inr rfl)))⟩

end Window

end npp

namespace npp

/-! ### The key `Keys.LineDrawing` and `getPiece` -/

set_option maxRecDepth 1000000 in
theorem LineDrawing_glyphs_nodup : (Keys.LineDrawing.map Prod.fst).Nodup := by decide!

set_option maxRecDepth 1000000 in
theorem LineDrawing_styles_le : ∀ e ∈ Keys.LineDrawing, ∀ d ∈ e.2, d ≤ 3 := by decide!

set_option maxRecDepth 1000000 in
theorem LineDrawing_length : Keys.LineDrawing.length = 125 := by decide!

namespace Window

theorem pieceAt_of_ge (i : Nat) (h : 33 ≤ i) (style : Nat × Nat) : pieceAt i style = glyphAt i := by
  unfold pieceAt
  rw [if_neg (by omega), if_neg (by omega), if_neg (by omega)]

theorem getPieceLoop_style_indep (dir : List Nat) (style style' : Nat × Nat) :
    ∀ (rest : List (Nat × List Nat)) (i : Nat), 33 ≤ i →
      getPieceLoop dir style i rest = getPieceLoop dir style' i rest := by
  intro rest
  induction rest with
  | nil => intro i _; rfl
  | cons e rest ih =>
    intro i hi
    rw [getPieceLoop, getPieceLoop, pieceAt_of_ge i hi, pieceAt_of_ge i hi, ih (i + 1) (by omega)]

theorem getPieceLoop_skip (dir : List Nat) (style : Nat × Nat) :
    ∀ (pre rest : List (Nat × List Nat)) (i : Nat), (∀ e ∈ pre, e.2 ≠ dir) →
      getPieceLoop dir style i (pre ++ rest) = getPieceLoop dir style (i + pre.length) rest := by
  intro pre
  induction pre with
  | nil => intro rest i _; rfl
  | cons e pre ih =>
    intro rest i h
    have he : ¬ dir = e.2 := fun h' => h e (List.mem_cons_self _ _) h'.symm
    have step : getPieceLoop dir style i (e :: (pre ++ rest))
        = getPieceLoop dir style (i + 1) (pre ++ rest) := by
      rw [getPieceLoop, if_neg he]
    rw [List.cons_append, step, ih rest (i + 1) (fun e' he' => h e' (List.mem_cons_of_mem _ he'))]
    congr 1
    simp only [List.length_cons]
    omega

/-- No match at all: `getPiece` returns the blank. -/
theorem getPieceLoop_no_match (dir : List Nat) (style : Nat × Nat) :
    ∀ (l : List (Nat × List Nat)) (i : Nat), (∀ e ∈ l, e.2 ≠ dir) →
      getPieceLoop dir style i l = BLANK := by
  intro l i h
  have := getPieceLoop_skip dir style l [] i h
  rw [List.append_nil] at this
  rw [this]
  rfl

theorem getPiece_no_match (dir : List Nat) (style : Nat × Nat)
    (h : ∀ e ∈ Keys.LineDrawing, e.2 ≠ dir) : getPiece dir style = BLANK :=
  getPieceLoop_no_match dir style _ 0 h

/-- Outside the straight runs and the light corners (the first 33 entries of the key) the
style plays no role in `getPiece`. -/
theorem getPiece_style_indep (dir : List Nat) (style style' : Nat × Nat)
    (h : ∀ e ∈ Keys.LineDrawing.take 33, e.2 ≠ dir) :
    getPiece dir style = getPiece dir style' := by
  unfold getPiece
  rw [← List.take_append_drop 33 Keys.LineDrawing, getPieceLoop_skip dir style _ _ 0 h,
    getPieceLoop_skip dir style' _ _ 0 h]
  exact getPieceLoop_style_indep dir style style' _ _ (by
    rw [List.length_take, LineDrawing_length]; decide)

end Window

end npp

namespace npp

namespace Window

/-! ### `getConnectStyle` -/

theorem find_glyph {c : Nat} {e : Nat × List Nat} (he : e ∈ Keys.LineDrawing) (hc : e.1 = c) :
    Keys.LineDrawing.find? (fun e => c == e.1) = some e := by
  cases hf : Keys.LineDrawing.find? (fun e => c == e.1) with
  | none =>
    rw [List.find?_eq_none] at hf
    have := hf e he
    simp [hc] at this
  | some e' =>
    have h1 : e' ∈ Keys.LineDrawing := List.mem_of_find?_eq_some hf
    have h2 := List.find?_some hf
    have h3 : e'.1 = e.1 := by
      rw [hc]; exact (beq_iff_eq.1 h2).symm
    rw [List.inj_on_of_nodup_map LineDrawing_glyphs_nodup h1 he h3]

theorem find_glyph_none {c : Nat} (h : ∀ e ∈ Keys.LineDrawing, e.1 ≠ c) :
    Keys.LineDrawing.find? (fun e => c == e.1) = none := by
  rw [List.find?_eq_none]
  intro e he
  have := h e he
  simp only [beq_iff_eq, ne_eq]
  exact fun h' => this h'.symm

theorem getD_le_three {e : Nat × List Nat} (he : e ∈ Keys.LineDrawing) (dir : Nat) :
    e.2.getD dir 0 ≤ 3 := by
  rw [List.getD_eq_getElem?_getD]
  cases h : e.2[dir]? with
  | none => simp
  | some v =>
    simp only [Option.getD_some]
    exact LineDrawing_styles_le e he v (List.getElem?_mem h)

theorem getConnectStyle_le (w : Window) (y x dir : Nat) : w.getConnectStyle y x dir ≤ 3 := by
  unfold getConnectStyle
  split
  · omega
  · split
    · omega
    · split
      · rename_i e hf
        exact getD_le_three (List.mem_of_find?_eq_some hf) dir
      · omega

/-- The connection style of a cell outside the window is none. -/
theorem getConnectStyle_of_out {w : Window} {y x : Nat} (h : w.checkCoord y x = false)
    (dir : Nat) : w.getConnectStyle y x dir = 0 := by
  unfold getConnectStyle
  rw [h]
  rfl

/-- The connection style of a mergeable in-bounds cell that holds the glyph of the
entry `e` of the key. -/
theorem getConnectStyle_of_entry {w : Window} {y x dir : Nat} {e : Nat × List Nat}
    (he : e ∈ Keys.LineDrawing) (hin : w.checkCoord y x = true) (hdir : dir ≤ 3)
    (hm : (w.cellAt y x).CanMerge = true) (hc : e.1 = (w.cellAt y x).Char) :
    w.getConnectStyle y x dir = e.2.getD dir 0 := by
  have hd : decide (dir > 3) = false := by simp; omega
  have hs : w.smerge y x = true := by unfold smerge; rw [hin]; exact hm
  have hch : w.schar y x = (w.cellAt y x).Char := by unfold schar; rw [hin]; rfl
  unfold getConnectStyle
  rw [hin, hd, hs, hch, find_glyph he hc]
  rfl

theorem toUShort_pred_of_pos {y : Nat} (h0 : 0 < y) (h : y < 65536) :
    toUShort ((y : Int) - 1) = y - 1 := by
  unfold toUShort
  omega

theorem toUShort_pred_zero : toUShort ((0 : Nat) - 1 : Int) = 65535 := by decide

/-- The directions `dline` collects around an in-bounds cell, written without the
`unsigned short` wrap-around. -/
theorem dlineNeighbours_eq {w : Window} (hY : w.DimY < 65536) (hX : w.DimX < 65536)
    {y x : Nat} (hy : y < w.DimY) (hx : x < w.DimX) :
    dlineNeighbours w y x true =
      [if y = 0 then 0 else w.getConnectStyle (y - 1) x DIR_DOWN,
       w.getConnectStyle (y + 1) x DIR_UP,
       if x = 0 then 0 else w.getConnectStyle y (x - 1) DIR_RIGHT,
       w.getConnectStyle y (x + 1) DIR_LEFT] := by
  unfold dlineNeighbours
  rw [if_pos rfl, Nat.mod_eq_of_lt (show y + 1 < 65536 by omega),
    Nat.mod_eq_of_lt (show x + 1 < 65536 by omega)]
  have e1 : w.getConnectStyle (toUShort ((y : Int) - 1)) x DIR_DOWN
      = if y = 0 then 0 else w.getConnectStyle (y - 1) x DIR_DOWN := by
    by_cases h0 : y = 0
    · subst h0
      rw [if_pos rfl]
      apply getConnectStyle_of_out
      rw [checkCoord_false_iff]
      left
      have : toUShort ((0 : Nat) - 1 : Int) = 65535 := toUShort_pred_zero
      rw [this]; omega
    · rw [if_neg h0, toUShort_pred_of_pos (Nat.pos_of_ne_zero h0) (by omega)]
  have e2 : w.getConnectStyle y (toUShort ((x : Int) - 1)) DIR_RIGHT
      = if x = 0 then 0 else w.getConnectStyle y (x - 1) DIR_RIGHT := by
    by_cases h0 : x = 0
    · subst h0
      rw [if_pos rfl]
      apply getConnectStyle_of_out
      rw [checkCoord_false_iff]
      right
      have : toUShort ((0 : Nat) - 1 : Int) = 65535 := toUShort_pred_zero
      rw [this]; omega
    · rw [if_neg h0, toUShort_pred_of_pos (Nat.pos_of_ne_zero h0) (by omega)]
  rw [e1, e2]

/-- C6. `getConnectStyle` is none outside the window, for a direction above 3, for a
cell that is not mergeable and for a character outside the key; otherwise it is the
component `dir` of the vector of the cell's character; it never exceeds 3; and `dline`
asks each neighbour for the component facing the cell being drawn. -/
theorem getConnectStyle_spec (w : Window) (y x dir : Nat) :
    ((y ≥ w.DimY ∨ x ≥ w.DimX ∨ dir > 3 ∨ w.smerge y x = false
        ∨ ∀ e ∈ Keys.LineDrawing, e.1 ≠ w.schar y x) → w.getConnectStyle y x dir = 0)
    ∧ (∀ e ∈ Keys.LineDrawing, y < w.DimY → x < w.DimX → dir ≤ 3 → w.smerge y x = true →
        e.1 = w.schar y x → w.getConnectStyle y x dir = e.2.getD dir 0)
    ∧ w.getConnectStyle y x dir ≤ 3
    ∧ (w.DimY < 65536 → w.DimX < 65536 → y < w.DimY → x < w.DimX →
        dlineNeighbours w y x true =
          [if y = 0 then 0 else w.getConnectStyle (y - 1) x DIR_DOWN,
           w.getConnectStyle (y + 1) x DIR_UP,
           if x = 0 then 0 else w.getConnectStyle y (x - 1) DIR_RIGHT,
           w.getConnectStyle y (x + 1) DIR_LEFT]) := by
  refine ⟨?_, ?_, getConnectStyle_le w y x dir, fun hY hX hy hx => dlineNeighbours_eq hY hX hy hx⟩
  · intro h
    by_cases hin : w.checkCoord y x = false
    · exact getConnectStyle_of_out hin dir
    · have hin' : w.checkCoord y x = true := by simpa using hin
      have hb := (checkCoord_iff w y x).1 hin'
      unfold getConnectStyle
      rw [hin']
      rcases h with h | h | h | h | h
      · omega
      · omega
      · have : decide (dir > 3) = true := by simpa using h
        rw [this]; rfl
      · rw [h]
        split <;> rfl
      · rw [find_glyph_none h]
        split
        · rfl
        · split <;> rfl
  · intro e he hy hx hdir hm hc
    have hin : w.checkCoord y x = true := (checkCoord_iff w y x).2 ⟨hy, hx⟩
    have hm' : (w.cellAt y x).CanMerge = true := by
      unfold smerge at hm; rw [hin] at hm; exact hm
    have hc' : e.1 = (w.cellAt y x).Char := by
      unfold schar at hc; rw [hin] at hc; exact hc
    exact getConnectStyle_of_entry he hin hdir hm' hc'

end Window

end npp

namespace npp

namespace Window

/-- C6, instances: after a mergeable doubled vertical line in column 1 of a 3x3 window,
the cell (0, 1) offers a doubled connection downwards, no connection to the right, and
the cell (0, 0) (blank, not mergeable) offers none. -/
theorem getConnectStyle_spec_witness :
    ((Window.create 24 80 0 0 3 3).dline 0 1 3 true false (5, 0) 1 true true).getConnectStyle
        0 1 DIR_DOWN = 3
    ∧ ((Window.create 24 80 0 0 3 3).dline 0 1 3 true false (5, 0) 1 true true).getConnectStyle
        0 0 DIR_RIGHT = 0 :=
  ⟨((getConnectStyle_spec
      ((Window.create 24 80 0 0 3 3).dline 0 1 3 true false (5, 0) 1 true true) 0 1 DIR_DOWN).2.1
      (0x2551, [3, 3, 0, 0]) (by decide!) (by decide) (by decide) (by decide) (by decide!)
      (by decide!)).trans (by decide),
   (getConnectStyle_spec
      ((Window.create 24 80 0 0 3 3).dline 0 1 3 true false (5, 0) 1 true true) 0 0 DIR_RIGHT).1
      (Or.inr (Or.inr (Or.inr (Or.inl (by decide!)))))⟩

/-! ### Round trips through `getPiece` -/

/-- C7 as stated fails: the heavy vertical glyph `┃` is in the key, but under the valid
style `(HEAVY_HORIZONTAL, DASHED_NONE)` `getPiece` maps its vector to `│`, and no entry
of the key pairs that result with the vector `(2, 2, 0, 0)`. -/
theorem getPiece_roundtrip_counterexample :
    (0x2503, [2, 2, 0, 0]) ∈ Keys.LineDrawing ∧ HEAVY_HORIZONTAL < 8 ∧ DASHED_NONE < 6
    ∧ getPiece [2, 2, 0, 0] (HEAVY_HORIZONTAL, DASHED_NONE) = 0x2502
    ∧ ¬ ∃ e ∈ Keys.LineDrawing,
        e.1 = getPiece [2, 2, 0, 0] (HEAVY_HORIZONTAL, DASHED_NONE) ∧ e.2 = [2, 2, 0, 0] := by
  decide!

set_option maxRecDepth 1000000 in
theorem LineDrawing_head_vectors : ∀ e ∈ Keys.LineDrawing.take 33,
    e.2 ∈ [[0, 0, 1, 1], [0, 0, 2, 2], [1, 1, 0, 0], [2, 2, 0, 0], [0, 0, 3, 3], [3, 3, 0, 0],
      [0, 1, 0, 1], [0, 1, 1, 0], [1, 0, 0, 1], [1, 0, 1, 0]] := by decide!

set_option maxRecDepth 1000000 in
theorem getPiece_roundtrip_head : ∀ v ∈ [[0, 0, 1, 1], [0, 0, 2, 2], [1, 1, 0, 0], [2, 2, 0, 0],
      [0, 0, 3, 3], [3, 3, 0, 0], [0, 1, 0, 1], [0, 1, 1, 0], [1, 0, 0, 1], [1, 0, 1, 0]],
    ∀ s ∈ List.range 8, ∀ d ∈ List.range 6,
      if v = [0, 0, 2, 2] ∧ s = HEAVY_VERTICAL then
        ∃ e ∈ Keys.LineDrawing, e.1 = getPiece v (s, d) ∧ e.2 = [0, 0, 1, 1]
      else if v = [2, 2, 0, 0] ∧ s = HEAVY_HORIZONTAL then
        ∃ e ∈ Keys.LineDrawing, e.1 = getPiece v (s, d) ∧ e.2 = [1, 1, 0, 0]
      else if (v = [0, 0, 3, 3] ∧ s = DOUBLED_VERTICAL)
          ∨ (v = [3, 3, 0, 0] ∧ s = DOUBLED_HORIZTONAL) then True
      else ∃ e ∈ Keys.LineDrawing, e.1 = getPiece v (s, d) ∧ e.2 = v := by
  decide!

set_option maxRecDepth 1000000 in
theorem getPiece_roundtrip_tail : ∀ e ∈ Keys.LineDrawing,
    (∃ e0 ∈ Keys.LineDrawing.take 33, e0.2 = e.2)
    ∨ ((∀ e0 ∈ Keys.LineDrawing.take 33, e0.2 ≠ e.2)
        ∧ e.2 ≠ [0, 0, 2, 2] ∧ e.2 ≠ [2, 2, 0, 0] ∧ e.2 ≠ [0, 0, 3, 3] ∧ e.2 ≠ [3, 3, 0, 0]
        ∧ ∃ e' ∈ Keys.LineDrawing, e'.1 = getPiece e.2 (0, 0) ∧ e'.2 = e.2) := by
  decide!

/-- C7, amended. The vector of a glyph of the key, sent through `getPiece` with a valid
style, comes back as a glyph of the key with the same vector, except that a straight
heavy run on the axis the shape draws light comes back as a light run of the same axis;
nothing is stated for a doubled run under the doubled shape of the other axis.  A vector
that no entry of the key has yields the blank. -/
theorem getPiece_roundtrip_amended :
    (∀ e ∈ Keys.LineDrawing, ∀ s d : Nat, s < 8 → d < 6 →
      if e.2 = [0, 0, 2, 2] ∧ s = HEAVY_VERTICAL then
        ∃ e' ∈ Keys.LineDrawing, e'.1 = getPiece e.2 (s, d) ∧ e'.2 = [0, 0, 1, 1]
      else if e.2 = [2, 2, 0, 0] ∧ s = HEAVY_HORIZONTAL then
        ∃ e' ∈ Keys.LineDrawing, e'.1 = getPiece e.2 (s, d) ∧ e'.2 = [1, 1, 0, 0]
      else if (e.2 = [0, 0, 3, 3] ∧ s = DOUBLED_VERTICAL)
          ∨ (e.2 = [3, 3, 0, 0] ∧ s = DOUBLED_HORIZTONAL) then True
      else ∃ e' ∈ Keys.LineDrawing, e'.1 = getPiece e.2 (s, d) ∧ e'.2 = e.2)
    ∧ (∀ (dir : List Nat) (style : Nat × Nat), (∀ e ∈ Keys.LineDrawing, e.2 ≠ dir) →
        getPiece dir style = BLANK) := by
  refine ⟨?_, fun dir style h => getPiece_no_match dir style h⟩
  intro e he s d hs hd
  rcases getPiece_roundtrip_tail e he with ⟨e0, he0, h0⟩ | ⟨hno, h1, h2, h3, h4, hex⟩
  · have hv := LineDrawing_head_vectors e0 he0
    rw [h0] at hv
    exact getPiece_roundtrip_head e.2 hv s (List.mem_range.2 hs) d (List.mem_range.2 hd)
  · rw [if_neg (fun h => h1 h.1), if_neg (fun h => h2 h.1),
      if_neg (fun h => h.elim (fun h => h3 h.1) (fun h => h4 h.1)),
      getPiece_style_indep e.2 (s, d) (0, 0) hno]
    exact hex

/-- C7 amended, instances: the heavy cross under a doubled style, the heavy vertical run
under `HEAVY_HORIZONTAL`, and a vector without an entry. -/
theorem getPiece_roundtrip_amended_witness :
    (∃ e' ∈ Keys.LineDrawing, e'.1 = getPiece [2, 2, 2, 2] (5, 3) ∧ e'.2 = [2, 2, 2, 2])
    ∧ (∃ e' ∈ Keys.LineDrawing, e'.1 = getPiece [2, 2, 0, 0] (3, 1) ∧ e'.2 = [1, 1, 0, 0])
    ∧ getPiece [3, 3, 2, 2] (2, 0) = BLANK :=
  have h1 := getPiece_roundtrip_amended.1 (0x254B, [2, 2, 2, 2]) (by decide!) 5 3
    (by decide) (by decide)
  have h2 := getPiece_roundtrip_amended.1 (0x2503, [2, 2, 0, 0]) (by decide!) 3 1
    (by decide) (by decide)
  ⟨h1, h2, getPiece_roundtrip_amended.2 [3, 3, 2, 2] (2, 0) (by decide!)⟩

/-- C8. Each of the twelve light straight glyphs, with `d` its offset inside its row of
the key, is what `getPiece` returns for its vector under `(LIGHT_HARD, d)` and under
`(LIGHT_SOFT, d)`. -/
theorem getPiece_light_straight_roundtrip :
    ∀ p ∈ [(0x2500, 0), (0x254C, 1), (0x2504, 2), (0x2508, 3), (0x2574, 4), (0x2576, 5),
           (0x2502, 0), (0x254E, 1), (0x2506, 2), (0x250A, 3), (0x2575, 4), (0x2577, 5)],
      ∃ e ∈ Keys.LineDrawing, e.1 = p.1
        ∧ (Keys.LineDrawing.get? p.2 = some e ∨ Keys.LineDrawing.get? (12 + p.2) = some e)
        ∧ getPiece e.2 (LIGHT_HARD, p.2) = p.1 ∧ getPiece e.2 (LIGHT_SOFT, p.2) = p.1 := by
  decide!

/-- C8, an instance: the dashed vertical glyph `┆` at offset 2 of its row. -/
theorem getPiece_light_straight_roundtrip_witness :
    ∃ e ∈ Keys.LineDrawing, e.1 = 0x2506
      ∧ (Keys.LineDrawing.get? 2 = some e ∨ Keys.LineDrawing.get? (12 + 2) = some e)
      ∧ getPiece e.2 (LIGHT_HARD, 2) = 0x2506 ∧ getPiece e.2 (LIGHT_SOFT, 2) = 0x2506 :=
  getPiece_light_straight_roundtrip (0x2506, 2) (by decide)

/-! ### Coverage of junctions -/

set_option maxRecDepth 1000000 in
theorem junction_vectors_covered : ∀ u ∈ [0, 1, 2], ∀ d ∈ [0, 1, 2], ∀ l ∈ [0, 1, 2],
    ∀ r ∈ [0, 1, 2], [u, d, l, r].count 0 ≤ 1 → [u, d, l, r] ≠ [2, 1, 2, 2] →
      (∀ e0 ∈ Keys.LineDrawing.take 33, e0.2 ≠ [u, d, l, r])
      ∧ getPiece [u, d, l, r] (0, 0) ≠ BLANK := by
  decide!

/-- C9 at its failing input: no entry of the key has the vector (heavy, light, heavy,
heavy), so `getPiece` returns the blank for it under every style; every other vector with
at most one none and otherwise light or heavy components has a glyph.  The entry for `╇`
carries the vector of `╊`. -/
theorem getPiece_junction_coverage :
    (∀ style : Nat × Nat, getPiece [2, 1, 2, 2] style = BLANK)
    ∧ ((0x2547, [2, 2, 1, 2]) ∈ Keys.LineDrawing ∧ (0x254A, [2, 2, 1, 2]) ∈ Keys.LineDrawing)
    ∧ (∀ u d l r : Nat, u ≤ 2 → d ≤ 2 → l ≤ 2 → r ≤ 2 → [u, d, l, r].count 0 ≤ 1 →
        [u, d, l, r] ≠ [2, 1, 2, 2] → ∀ style : Nat × Nat, getPiece [u, d, l, r] style ≠ BLANK) := by
  refine ⟨fun style => getPiece_no_match _ style (by decide!), by decide!, ?_⟩
  intro u d l r hu hd hl hr hc hne style
  have mem3 : ∀ n : Nat, n ≤ 2 → n ∈ [0, 1, 2] := by
    intro n hn
    interval_cases n <;> simp
  have h := junction_vectors_covered u (mem3 u hu) d (mem3 d hd) l (mem3 l hl) r (mem3 r hr) hc hne
  rw [getPiece_style_indep _ style (0, 0) h.1]
  exact h.2

end Window

end npp

namespace npp

namespace Window

/-! ### Writes and the merge flag -/

theorem WritesWith.refl (m : Bool) (w : Window) : WritesWith m w w :=
  ⟨rfl, rfl, id, fun _ _ => Or.inl rfl⟩

theorem WritesWith.trans {m : Bool} {w1 w2 w3 : Window} (h12 : WritesWith m w1 w2)
    (h23 : WritesWith m w2 w3) : WritesWith m w1 w3 := by
  obtain ⟨a1, b1, c1, d1⟩ := h12
  obtain ⟨a2, b2, c2, d2⟩ := h23
  refine ⟨a2.trans a1, b2.trans b1, fun h => c2 (c1 h), fun y x => ?_⟩
  rcases d2 y x with h | h
  · rcases d1 y x with h' | h'
    · exact Or.inl (h.trans h')
    · exact Or.inr (by rw [h]; exact h')
  · exact Or.inr h

theorem WritesWith.mono {m : Bool} {w w' : Window} (h : WritesWith false w w') :
    WritesWith m w w' := by
  obtain ⟨a, b, c, d⟩ := h
  refine ⟨a, b, c, fun y x => ?_⟩
  rcases d y x with h | h
  · exact Or.inl h
  · exact Or.inr (fun h' => absurd (h h') (by decide))

theorem WritesWith.checkCoord {m : Bool} {w w' : Window} (h : WritesWith m w w') (y x : Nat) :
    w'.checkCoord y x = w.checkCoord y x := by
  unfold Window.checkCoord
  rw [h.1, h.2.1]

theorem setCell_writes (m : Bool) (w : Window) (y x : Nat) (c : Cell)
    (hc : c.CanMerge = true → m = true) : WritesWith m w (w.setCell y x c) := by
  refine ⟨rfl, rfl, fun h => h.setCell y x c, fun y' x' => ?_⟩
  rw [cellAt_setCell]
  split
  · exact Or.inr hc
  · exact Or.inl rfl

theorem wcharp_writes (w : Window) (pos : Nat × Nat) (input color : Nat) (att : String)
    (offset : Nat × Nat) : WritesWith false w (w.wcharp pos input color att offset).1 := by
  by_cases h : w.checkCoord pos.1 pos.2 = true
  · rw [wcharp_of_in h]
    exact setCell_writes false w _ _ _ (fun h' => h')
  · rw [wcharp_of_out (by simpa using h)]
    exact WritesWith.refl false w

theorem wchar_writes (w : Window) (pos : Nat × Nat) (input color : Nat) (att : String) :
    WritesWith false w (w.wchar pos input color att) :=
  wcharp_writes w pos input color att (0, 0)

theorem wstrpLoop_writes (pos : Nat × Nat) (input : List Nat) (color : Nat) (att : String)
    (wrap : Bool) : ∀ (fuel i yoffset xoffset : Nat) (w : Window) (r : Window × (Nat × Nat)),
      wstrpLoop pos input color att wrap fuel i yoffset xoffset w = some r →
      WritesWith false w r.1 := by
  intro fuel
  induction fuel with
  | zero => intro i yo xo w r h; simp [wstrpLoop] at h
  | succ fuel ih =>
    intro i yo xo w r h
    rw [wstrpLoop] at h
    split at h
    · simp only at h
      split at h
      · cases h; exact WritesWith.refl false w
      · exact (wchar_writes w _ _ color att).trans (ih _ _ _ _ r h)
    · cases h; exact WritesWith.refl false w

theorem wstrp_writes {w : Window} {pos : Nat × Nat} {input : List Nat} {color : Nat}
    {att : String} {offset : Nat × Nat} {wrap : Bool} {r : Window × (Nat × Nat)}
    (h : w.wstrp pos input color att offset wrap = some r) : WritesWith false w r.1 := by
  unfold wstrp at h
  split at h
  · cases h; exact WritesWith.refl false w
  · rw [Option.map_eq_some'] at h
    obtain ⟨r', hr', rfl⟩ := h
    exact wstrpLoop_writes pos input color att wrap _ _ _ _ w r' hr'

theorem wstr_writes {w w' : Window} {pos : Nat × Nat} {input : List Nat} {color : Nat}
    {att : String} {wrap : Bool} (h : w.wstr pos input color att wrap = some w') :
    WritesWith false w w' := by
  unfold wstr at h
  rw [Option.map_eq_some'] at h
  obtain ⟨r, hr, rfl⟩ := h
  exact wstrp_writes hr

theorem wintp_writes {w : Window} {pos : Nat × Nat} {input : Int} {minWidth color : Nat}
    {att : String} {offset : Nat × Nat} {wrap : Bool} {r : Window × (Nat × Nat)}
    (h : w.wintp pos input minWidth color att offset wrap = some r) : WritesWith false w r.1 := by
  unfold wintp at h
  split at h
  · cases h; exact WritesWith.refl false w
  · exact wstrp_writes h

theorem wint_writes {w w' : Window} {pos : Nat × Nat} {input : Int} {minWidth color : Nat}
    {att : String} {wrap : Bool} (h : w.wint pos input minWidth color att wrap = some w') :
    WritesWith false w w' := by
  unfold wint at h
  rw [Option.map_eq_some'] at h
  obtain ⟨r, hr, rfl⟩ := h
  exact wintp_writes hr

theorem foldl_writes {α : Type} (m : Bool) (f : Window → α → Window)
    (hf : ∀ w a, WritesWith m w (f w a)) : ∀ (l : List α) (w : Window),
      WritesWith m w (l.foldl f w) := by
  intro l
  induction l with
  | nil => intro w; exact WritesWith.refl m w
  | cons a l ih => intro w; exact (hf w a).trans (ih (f w a))

theorem wmstrpBlock_writes (w : Window) (posy posx : Nat) (dangling : Bool)
    (rows : List (List Nat)) (color : Nat) :
    WritesWith false w (wmstrpBlock w posy posx dangling rows color) := by
  unfold wmstrpBlock
  apply foldl_writes
  intro w k
  apply foldl_writes
  intro w l
  exact wchar_writes w _ _ _ _

theorem wmstrpGlyph_writes (posy posx : Nat) (ch : Char) (color : Nat) :
    ∀ (l : List (Char × List (List Nat))) (dangling : Bool) (w : Window),
      WritesWith false w (wmstrpGlyph posy posx ch color l dangling w).1 := by
  intro l
  induction l with
  | nil => intro d w; exact WritesWith.refl false w
  | cons e rest ih =>
    intro d w
    rw [wmstrpGlyph]
    split
    · simp only
      split
      · exact (wmstrpBlock_writes w _ _ _ _ _).trans
          ((wcharp_writes _ _ _ _ _ _).trans (wchar_writes _ _ _ _ _))
      · exact wmstrpBlock_writes w _ _ _ _ _
    · exact ih d w

theorem wmstrpLoop_writes (pos : Nat × Nat) (input : List Char) (color : Nat)
    (danglingLetters : Bool) (kerning leading : Nat) (wrap : Bool) :
    ∀ (fuel i posy posx xoffset : Nat) (dangling : Bool) (w : Window)
      (r : Window × (Nat × Nat)),
      wmstrpLoop pos input color danglingLetters kerning leading wrap fuel i posy posx xoffset
        dangling w = some r → WritesWith false w r.1 := by
  intro fuel
  induction fuel with
  | zero => intro i py px xo d w r h; simp [wmstrpLoop] at h
  | succ fuel ih =>
    intro i py px xo d w r h
    rw [wmstrpLoop] at h
    split at h
    · simp only at h
      split at h
      · cases h; exact WritesWith.refl false w
      · exact (wmstrpGlyph_writes _ _ _ _ _ _ w).trans (ih _ _ _ _ _ _ r h)
    · cases h; exact WritesWith.refl false w

theorem wmstrp_writes {w : Window} {pos : Nat × Nat} {input : String} {color : Nat}
    {danglingLetters : Bool} {kerning leading : Nat} {offset : Nat × Nat} {wrap : Bool}
    {r : Window × (Nat × Nat)}
    (h : w.wmstrp pos input color danglingLetters kerning leading offset wrap = some r) :
    WritesWith false w r.1 := by
  unfold wmstrp at h
  split at h
  · cases h; exact WritesWith.refl false w
  · simp only [Option.map_eq_some'] at h
    obtain ⟨r', hr', rfl⟩ := h
    exact wmstrpLoop_writes _ _ _ _ _ _ _ _ _ _ _ _ _ w r' hr'

theorem wmstr_writes {w w' : Window} {pos : Nat × Nat} {input : String} {color : Nat}
    {danglingLetters : Bool} {kerning leading : Nat} {wrap : Bool}
    (h : w.wmstr pos input color danglingLetters kerning leading wrap = some w') :
    WritesWith false w w' := by
  unfold wmstr at h
  rw [Option.map_eq_some'] at h
  obtain ⟨r, hr, rfl⟩ := h
  exact wmstrp_writes hr

theorem reset_writes (w : Window) : WritesWith false w w.reset := by
  unfold reset
  generalize w.DimX = dx
  generalize List.range w.DimY = rows
  revert w
  apply foldl_writes
  intro w i
  apply foldl_writes
  intro w j
  exact setCell_writes false w i j {} (fun h => h)

theorem dlineStep_writes (w : Window) (i length : Nat) (vertical : Bool) (style : Nat × Nat)
    (color : Nat) (mergeable canMerge : Bool) (tdir1 tdir2 cstyle posy posx : Nat) :
    WritesWith mergeable w
      (dlineStep w i length vertical style color mergeable canMerge tdir1 tdir2 cstyle
        posy posx) := by
  unfold dlineStep
  exact (wchar_writes w _ _ _ _).mono.trans (setCell_writes mergeable _ _ _ _ (fun h => h))

theorem dlineLoop_writes (y x length : Nat) (vertical rev : Bool) (style : Nat × Nat)
    (color : Nat) (mergeable canMerge : Bool) (tdir1 tdir2 cstyle : Nat) :
    ∀ (n i posy posx : Nat) (w : Window),
      WritesWith mergeable w
        (dlineLoop y x length vertical rev style color mergeable canMerge tdir1 tdir2 cstyle
          n i posy posx w) := by
  intro n
  induction n with
  | zero => intro i py px w; exact WritesWith.refl _ w
  | succ n ih =>
    intro i py px w
    rw [dlineLoop]
    split
    · exact WritesWith.refl _ w
    · exact (dlineStep_writes w _ _ _ _ _ _ _ _ _ _ _ _).trans (ih _ _ _ _)

theorem dline_writes (w : Window) (y x length : Nat) (vertical rev : Bool) (style : Nat × Nat)
    (color : Nat) (mergeable canMerge : Bool) :
    WritesWith mergeable w (w.dline y x length vertical rev style color mergeable canMerge) := by
  unfold dline
  split
  · exact WritesWith.refl _ w
  · exact dlineLoop_writes _ _ _ _ _ _ _ _ _ _ _ _ _ _ _ _ w

theorem dbox_writes {w w' : Window} {y x dimy dimx : Nat} {style : Nat × Nat} {color : Nat}
    {mergeable canMerge : Bool}
    (h : w.dbox y x dimy dimx style color mergeable canMerge = some w') :
    WritesWith mergeable w w' := by
  unfold dbox at h
  split at h
  · cases h; exact WritesWith.refl _ w
  · split at h
    · exact (wstr_writes h).mono
    · split at h
      · cases h; exact dline_writes w _ _ _ _ _ _ _ _ _
      · split at h
        · cases h; exact dline_writes w _ _ _ _ _ _ _ _ _
        · cases h
          exact ((dline_writes w _ _ _ _ _ _ _ _ _).trans (dline_writes _ _ _ _ _ _ _ _ _ _)).trans
            ((dline_writes _ _ _ _ _ _ _ _ _ _).trans (dline_writes _ _ _ _ _ _ _ _ _ _))

theorem dgridLoop_writes (m : Bool) (count : Nat) (body : Nat → Window → Window)
    (hb : ∀ i w, WritesWith m w (body i w)) :
    ∀ (fuel i : Nat) (w w' : Window), dgridLoop count body fuel i w = some w' →
      WritesWith m w w' := by
  intro fuel
  induction fuel with
  | zero => intro i w w' h; simp [dgridLoop] at h
  | succ fuel ih =>
    intro i w w' h
    rw [dgridLoop] at h
    split at h
    · exact (hb i w).trans (ih _ _ _ h)
    · cases h; exact WritesWith.refl _ w

theorem dgrid_writes {w w' : Window} {y x rows cols celly cellx : Nat} {style : Nat × Nat}
    {color : Nat} {mergeable canMerge : Bool}
    (h : w.dgrid y x rows cols celly cellx style color mergeable canMerge = some w') :
    WritesWith mergeable w w' := by
  unfold dgrid at h
  simp only at h
  split at h
  · cases h; exact WritesWith.refl _ w
  · rw [Option.bind_eq_some] at h
    obtain ⟨w1, h1, h2⟩ := h
    exact (dgridLoop_writes mergeable _ _ (fun i w => dline_writes w _ _ _ _ _ _ _ _ _) _ _ _ _ h1).trans
      (dgridLoop_writes mergeable _ _ (fun i w => dline_writes w _ _ _ _ _ _ _ _ _) _ _ _ _ h2)

end Window

end npp

namespace npp

namespace Window

theorem toUShort_lt (v : Int) : toUShort v < 65536 := by
  unfold toUShort
  omega

theorem getD_replicate_default (n m y x : Nat) :
    ((List.replicate n (List.replicate m ({} : Cell))).getD y []).getD x {} = {} := by
  simp only [List.getD_eq_getElem?_getD, List.getElem?_replicate]
  split
  · simp only [Option.getD_some, List.getElem?_replicate]
    split <;> rfl
  · rfl

/-- Every cell of a window built by the constructor is the default cell. -/
theorem cellAt_create (LINES COLS y0 x0 dimy dimx y x : Nat) :
    (Window.create LINES COLS y0 x0 dimy dimx).cellAt y x = {} := by
  unfold cellAt create
  exact getD_replicate_default _ _ y x

theorem create_WF (LINES COLS y0 x0 dimy dimx : Nat) (hy : dimy < 65536) (hx : dimx < 65536) :
    (Window.create LINES COLS y0 x0 dimy dimx).WF := by
  unfold create WF
  simp only [List.length_replicate, List.mem_replicate, and_imp, true_and]
  refine ⟨?_, ?_, ?_⟩
  · split_ifs <;> first | exact toUShort_lt _ | exact hy
  · split_ifs <;> first | exact toUShort_lt _ | exact hx
  · intro row _ h
    rw [h, List.length_replicate]

end Window

namespace Op

open Window

theorem run_writes {op : Op} {w w' : Window} (h : op.run w = some w') :
    WritesWith op.drawsMergeable w w' := by
  cases op with
  | wcharp pos input color att offset =>
    simp only [run, Option.some.injEq] at h; subst h; exact wcharp_writes w _ _ _ _ _
  | wchar pos input color att =>
    simp only [run, Option.some.injEq] at h; subst h; exact wchar_writes w _ _ _ _
  | wstrp pos input color att offset wrap =>
    simp only [run, Option.map_eq_some'] at h
    obtain ⟨r, hr, rfl⟩ := h
    exact wstrp_writes hr
  | wstr pos input color att wrap => exact wstr_writes h
  | wintp pos input minWidth color att offset wrap =>
    simp only [run, Option.map_eq_some'] at h
    obtain ⟨r, hr, rfl⟩ := h
    exact wintp_writes hr
  | wint pos input minWidth color att wrap => exact wint_writes h
  | wmstrp pos input color danglingLetters kerning leading offset wrap =>
    simp only [run, Option.map_eq_some'] at h
    obtain ⟨r, hr, rfl⟩ := h
    exact wmstrp_writes hr
  | wmstr pos input color danglingLetters kerning leading wrap => exact wmstr_writes h
  | reset =>
    simp only [run, Option.some.injEq] at h; subst h; exact reset_writes w
  | dline y x length vertical rev style color mergeable canMerge =>
    simp only [run, Option.some.injEq] at h; subst h; exact dline_writes w _ _ _ _ _ _ _ _ _
  | dvline y x length rev style color mergeable canMerge =>
    simp only [run, Option.some.injEq] at h; subst h; exact dline_writes w _ _ _ _ _ _ _ _ _
  | dhline y x length rev style color mergeable canMerge =>
    simp only [run, Option.some.injEq] at h; subst h; exact dline_writes w _ _ _ _ _ _ _ _ _
  | dbox y x dimy dimx style color mergeable canMerge => exact dbox_writes h
  | dboxBorder style color mergeable canMerge => exact dbox_writes h
  | dcbox y x dimy dimx style color mergeable canMerge => exact dbox_writes h
  | dgrid y x rows cols celly cellx style color mergeable canMerge => exact dgrid_writes h
  | dgridSquare y x cells cellDim style color mergeable canMerge => exact dgrid_writes h
  | dcgrid y x rows cols celly cellx style color mergeable canMerge => exact dgrid_writes h
  | dcgridSquare y x cells cellDim style color mergeable canMerge => exact dgrid_writes h

theorem runAll_append (a b : List Op) (w : Window) :
    runAll (a ++ b) w = (runAll a w).bind (runAll b) := by
  induction a generalizing w with
  | nil => rfl
  | cons op a ih =>
    simp only [List.cons_append, runAll]
    cases op.run w with
    | none => rfl
    | some w1 => exact ih w1

theorem runAll_checkCoord : ∀ (ops : List Op) (w w' : Window), runAll ops w = some w' →
    ∀ y x, w'.checkCoord y x = w.checkCoord y x := by
  intro ops
  induction ops with
  | nil => intro w w' h y x; simp only [runAll, Option.some.injEq] at h; rw [h]
  | cons op ops ih =>
    intro w w' h y x
    simp only [runAll, Option.bind_eq_some] at h
    obtain ⟨w1, h1, h2⟩ := h
    rw [ih w1 w' h2 y x, (run_writes h1).checkCoord]

/-- From a window without mergeable cells, a mergeable cell was last changed by an
operation that draws mergeable lines. -/
theorem runAll_last_writer (w0 : Window) (h0 : ∀ y x, (w0.cellAt y x).CanMerge = false)
    (y x : Nat) : ∀ (ops : List Op) (w' : Window), runAll ops w0 = some w' →
      (w'.cellAt y x).CanMerge = true →
      ∃ (pre : List Op) (op : Op) (post : List Op) (wpre wop : Window),
        ops = pre ++ op :: post ∧ runAll pre w0 = some wpre ∧ op.run wpre = some wop
        ∧ op.drawsMergeable = true ∧ wop.cellAt y x ≠ wpre.cellAt y x
        ∧ ∀ post1 post2 : List Op, post = post1 ++ post2 →
            ∃ w1, runAll post1 wop = some w1 ∧ w1.cellAt y x = wop.cellAt y x := by
  intro ops
  induction ops using List.reverseRecOn with
  | nil =>
    intro w' h hm
    simp only [runAll, Option.some.injEq] at h
    subst h
    rw [h0 y x] at hm
    exact absurd hm (by decide)
  | append_singleton ops op ih =>
    intro w' h hm
    rw [runAll_append, Option.bind_eq_some] at h
    obtain ⟨w1, h1, h2⟩ := h
    simp only [runAll, Option.bind_eq_some, Option.some.injEq] at h2
    obtain ⟨w2, hrun, rfl⟩ := h2
    by_cases hch : w2.cellAt y x = w1.cellAt y x
    · rw [hch] at hm
      obtain ⟨pre, op0, post, wpre, wop, hops, hpre, hop, hdm, hne, hlast⟩ := ih w1 h1 hm
      refine ⟨pre, op0, post ++ [op], wpre, wop, ?_, hpre, hop, hdm, hne, ?_⟩
      · rw [hops]; simp
      · intro post1 post2 hsplit
        have hwop : runAll post wop = some w1 := by
          have := h1
          rw [hops, runAll_append, hpre] at this
          simp only [Option.some_bind, runAll, hop] at this
          exact this
        rcases List.eq_nil_or_concat post2 with hnil | ⟨post2', op', hp2⟩
        · subst hnil
          rw [List.append_nil] at hsplit
          subst hsplit
          refine ⟨w2, ?_, ?_⟩
          · rw [runAll_append, hwop]
            simp only [Option.some_bind, runAll, hrun]
          · rw [hch]
            obtain ⟨w1', hw1', hc1⟩ := hlast post [] (by simp)
            rw [hwop] at hw1'
            cases hw1'
            exact hc1
        · subst hp2
          have hs2 : post = post1 ++ post2' := by
            have := hsplit
            rw [List.concat_eq_append, ← List.append_assoc] at this
            exact List.append_inj_left' this rfl
          exact hlast post1 post2' hs2
    · refine ⟨ops, op, [], w1, w2, rfl, h1, hrun, ?_, hch, ?_⟩
      · rcases (run_writes hrun).2.2.2 y x with h | h
        · exact absurd h hch
        · exact h hm
      · intro post1 post2 hsplit
        have : post1 = [] := by
          cases post1 with
          | nil => rfl
          | cons a l => simp at hsplit
        subst this
        exact ⟨w2, rfl, rfl⟩

end Op

namespace Window

/-- C5. Mergeable invariant: an operation other than a line drawing with
`mergeable = true` leaves every cell it changes not mergeable; hence, in a state reached
from a fresh grid, a cell that reports `smerge` was last changed by a `dline`, `dbox` or
`dgrid` called with `mergeable = true`, and no later operation changed it. -/
theorem mergeable_invariant :
    (∀ (op : Op) (w w' : Window), op.drawsMergeable = false → op.run w = some w' →
      ∀ y x, w'.cellAt y x = w.cellAt y x ∨ (w'.cellAt y x).CanMerge = false)
    ∧ (∀ (LINES COLS y0 x0 dimy dimx : Nat) (ops : List Op) (w' : Window) (y x : Nat),
        Op.runAll ops (Window.create LINES COLS y0 x0 dimy dimx) = some w' →
        w'.smerge y x = true →
        ∃ (pre : List Op) (op : Op) (post : List Op) (wpre wop : Window),
          ops = pre ++ op :: post
          ∧ Op.runAll pre (Window.create LINES COLS y0 x0 dimy dimx) = some wpre
          ∧ op.run wpre = some wop
          ∧ op.drawsMergeable = true ∧ wop.cellAt y x ≠ wpre.cellAt y x
          ∧ ∀ post1 post2 : List Op, post = post1 ++ post2 →
              ∃ w1, Op.runAll post1 wop = some w1 ∧ w1.cellAt y x = wop.cellAt y x) := by
  constructor
  · intro op w w' hf hrun y x
    rcases (Op.run_writes hrun).2.2.2 y x with h | h
    · exact Or.inl h
    · right
      rw [hf] at h
      cases hc : (w'.cellAt y x).CanMerge with
      | false => rfl
      | true => exact absurd (h hc) (by decide)
  · intro LINES COLS y0 x0 dimy dimx ops w' y x hrun hm
    have hm' : (w'.cellAt y x).CanMerge = true := by
      unfold smerge at hm
      split at hm
      · exact absurd hm (by decide)
      · exact hm
    exact Op.runAll_last_writer _ (fun y x => by rw [cellAt_create]) y x ops w' hrun hm'

end Window

end npp

namespace npp

namespace Window

/-! ### The loop of `dline` -/

theorem toUShort_natCast {n : Nat} (h : n < 65536) : toUShort (n : Int) = n := by
  unfold toUShort
  omega

/-- The positions of a horizontal line. -/
theorem dlinePos_horizontal (y x : Nat) (rev : Bool) (k : Nat) (hy : y < 65536) :
    dlinePos y x false rev k
      = (y, toUShort (if rev then (x : Int) - k else (x : Int) + k)) := by
  unfold dlinePos
  cases rev
  · simp only [Bool.false_eq_true, if_false, mul_zero, add_zero, mul_one, one_mul]
    rw [toUShort_natCast hy]
  · simp only [if_true, mul_zero, add_zero, mul_one, Bool.false_eq_true, if_false]
    rw [toUShort_natCast hy]
    congr 2
    omega

/-- The positions of a vertical line. -/
theorem dlinePos_vertical (y x : Nat) (rev : Bool) (k : Nat) (hx : x < 65536) :
    dlinePos y x true rev k
      = (toUShort (if rev then (y : Int) - k else (y : Int) + k), x) := by
  unfold dlinePos
  cases rev
  · simp only [Bool.false_eq_true, if_false, mul_zero, add_zero, mul_one, one_mul, if_true]
    rw [toUShort_natCast hx]
  · simp only [if_true, mul_zero, add_zero, mul_one, Bool.false_eq_true, if_false]
    rw [toUShort_natCast hx]
    congr 2
    omega

theorem dlinePos_zero (y x : Nat) (vertical rev : Bool) (hy : y < 65536) (hx : x < 65536) :
    dlinePos y x vertical rev 0 = (y, x) := by
  unfold dlinePos
  simp only [Nat.cast_zero, mul_zero, zero_mul, add_zero]
  rw [toUShort_natCast hy, toUShort_natCast hx]

theorem wchar_cellAt_ne (w : Window) (pos : Nat × Nat) (input color : Nat) (att : String)
    {y x : Nat} (h : (y, x) ≠ pos) : (w.wchar pos input color att).cellAt y x = w.cellAt y x := by
  unfold wchar
  by_cases hin : w.checkCoord pos.1 pos.2 = true
  · rw [wcharp_of_in hin, cellAt_setCell, if_neg]
    rintro ⟨h1, h2, -⟩
    exact h (by rw [h1, h2])
  · rw [wcharp_of_out (by simpa using hin)]

theorem dlineStep_cellAt_ne (w : Window) (i length : Nat) (vertical : Bool) (style : Nat × Nat)
    (color : Nat) (mergeable canMerge : Bool) (tdir1 tdir2 cstyle posy posx : Nat) {y x : Nat}
    (h : (y, x) ≠ (posy, posx)) :
    (dlineStep w i length vertical style color mergeable canMerge tdir1 tdir2 cstyle
      posy posx).cellAt y x = w.cellAt y x := by
  unfold dlineStep
  simp only
  rw [cellAt_setCell, if_neg, wchar_cellAt_ne _ _ _ _ _ h]
  rintro ⟨h1, h2, -⟩
  exact h (by rw [h1, h2])

/-- The cell `dline` leaves at the position of a step. -/
theorem dlineStep_cellAt_self {w : Window} (hw : w.WF) (i length : Nat) (vertical : Bool)
    (style : Nat × Nat) (color : Nat) (mergeable canMerge : Bool) (tdir1 tdir2 cstyle : Nat)
    {posy posx : Nat} (hy : posy < w.DimY) (hx : posx < w.DimX) :
    ((dlineStep w i length vertical style color mergeable canMerge tdir1 tdir2 cstyle
        posy posx).cellAt posy posx).Char
      = dlinePiece (dlineDirs (dlineNeighbours w posy posx canMerge) i length vertical
          tdir1 tdir2 cstyle) style
    ∧ ((dlineStep w i length vertical style color mergeable canMerge tdir1 tdir2 cstyle
        posy posx).cellAt posy posx).Color = color
    ∧ ((dlineStep w i length vertical style color mergeable canMerge tdir1 tdir2 cstyle
        posy posx).cellAt posy posx).CanMerge = mergeable := by
  have hin : w.checkCoord (posy, posx).1 (posy, posx).2 = true :=
    (checkCoord_iff w posy posx).2 ⟨hy, hx⟩
  unfold dlineStep wchar
  simp only
  rw [wcharp_of_in hin]
  simp only
  rw [cellAt_setCell_of_WF (hw.setCell _ _ _) hy hx, cellAt_setCell_of_WF hw hy hx]
  simp

/-- Frame of the loop: a cell at none of the positions still to come is left alone. -/
theorem dlineLoop_cellAt_ne (y x length : Nat) (vertical rev : Bool) (style : Nat × Nat)
    (color : Nat) (mergeable canMerge : Bool) (tdir1 tdir2 cstyle : Nat) (y' x' : Nat) :
    ∀ (n i : Nat) (w : Window),
      (∀ j, i ≤ j → j < i + n → dlinePos y x vertical rev j ≠ (y', x')) →
      (dlineLoop y x length vertical rev style color mergeable canMerge tdir1 tdir2 cstyle
        n i (dlinePos y x vertical rev i).1 (dlinePos y x vertical rev i).2 w).cellAt y' x'
        = w.cellAt y' x' := by
  intro n
  induction n with
  | zero => intro i w _; rfl
  | succ n ih =>
    intro i w h
    rw [dlineLoop]
    split
    · rfl
    · simp only
      rw [ih (i + 1) _ (fun j h1 h2 => h j (by omega) (by omega))]
      exact dlineStep_cellAt_ne w _ _ _ _ _ _ _ _ _ _ _ _ (fun h' => h i (Nat.le_refl i) (by omega) h'.symm)

/-- The loop run for `n1 + n2` iterations is the loop run for `n1` and then for `n2`
iterations, when the first `n1` positions are inside the window. -/
theorem dlineLoop_add (y x length : Nat) (vertical rev : Bool) (style : Nat × Nat)
    (color : Nat) (mergeable canMerge : Bool) (tdir1 tdir2 cstyle : Nat) (n2 : Nat) :
    ∀ (n1 i : Nat) (w : Window),
      (∀ j, i ≤ j → j < i + n1 → w.checkCoord (dlinePos y x vertical rev j).1
        (dlinePos y x vertical rev j).2 = true) →
      dlineLoop y x length vertical rev style color mergeable canMerge tdir1 tdir2 cstyle
        (n1 + n2) i (dlinePos y x vertical rev i).1 (dlinePos y x vertical rev i).2 w
      = dlineLoop y x length vertical rev style color mergeable canMerge tdir1 tdir2 cstyle
        n2 (i + n1) (dlinePos y x vertical rev (i + n1)).1 (dlinePos y x vertical rev (i + n1)).2
        (dlineLoop y x length vertical rev style color mergeable canMerge tdir1 tdir2 cstyle
          n1 i (dlinePos y x vertical rev i).1 (dlinePos y x vertical rev i).2 w) := by
  intro n1
  induction n1 with
  | zero => intro i w _; simp only [Nat.zero_add, Nat.add_zero]; rfl
  | succ n1 ih =>
    intro i w h
    have hin := h i (Nat.le_refl i) (by omega)
    rw [show n1 + 1 + n2 = (n1 + n2) + 1 by omega, dlineLoop, dlineLoop, hin]
    simp only [Bool.not_true, Bool.false_eq_true, if_false]
    rw [ih (i + 1) _ (fun j h1 h2 => by
      rw [(dlineStep_writes w _ _ _ _ _ _ _ _ _ _ _ _).checkCoord]
      exact h j (by omega) (by omega))]
    rw [show i + 1 + n1 = i + (n1 + 1) by omega]

/-- One iteration at a position inside the window. -/
theorem dlineLoop_succ_of_in (y x length : Nat) (vertical rev : Bool) (style : Nat × Nat)
    (color : Nat) (mergeable canMerge : Bool) (tdir1 tdir2 cstyle : Nat) (n i posy posx : Nat)
    (w : Window) (hin : w.checkCoord posy posx = true) :
    dlineLoop y x length vertical rev style color mergeable canMerge tdir1 tdir2 cstyle
      (n + 1) i posy posx w
    = dlineLoop y x length vertical rev style color mergeable canMerge tdir1 tdir2 cstyle
        n (i + 1) (dlinePos y x vertical rev (i + 1)).1 (dlinePos y x vertical rev (i + 1)).2
        (dlineStep w i length vertical style color mergeable canMerge tdir1 tdir2 cstyle
          posy posx) := by
  rw [dlineLoop, hin]
  rfl

/-- The cell a line leaves at its step `k`, when the steps up to `k` are inside the
window and no later step comes back to the position: it is the cell written at step `k`
in the window the first `k` steps left. -/
theorem dlineLoop_cellAt_step (y x length : Nat) (vertical rev : Bool) (style : Nat × Nat)
    (color : Nat) (mergeable canMerge : Bool) (tdir1 tdir2 cstyle : Nat) (w : Window)
    (k n : Nat)
    (hin : ∀ j, j ≤ k → w.checkCoord (dlinePos y x vertical rev j).1
      (dlinePos y x vertical rev j).2 = true)
    (hne : ∀ j, k < j → j < k + 1 + n →
      dlinePos y x vertical rev j ≠ dlinePos y x vertical rev k) :
    (dlineLoop y x length vertical rev style color mergeable canMerge tdir1 tdir2 cstyle
      (k + (1 + n)) 0 (dlinePos y x vertical rev 0).1 (dlinePos y x vertical rev 0).2 w).cellAt
        (dlinePos y x vertical rev k).1 (dlinePos y x vertical rev k).2
    = (dlineStep
        (dlineLoop y x length vertical rev style color mergeable canMerge tdir1 tdir2 cstyle
          k 0 (dlinePos y x vertical rev 0).1 (dlinePos y x vertical rev 0).2 w)
        k length vertical style color mergeable canMerge tdir1 tdir2 cstyle
        (dlinePos y x vertical rev k).1 (dlinePos y x vertical rev k).2).cellAt
        (dlinePos y x vertical rev k).1 (dlinePos y x vertical rev k).2 := by
  rw [dlineLoop_add _ _ _ _ _ _ _ _ _ _ _ _ (1 + n) k 0 w
    (fun j _ h2 => hin j (by omega))]
  rw [show 1 + n = n + 1 by omega, Nat.zero_add]
  rw [dlineLoop_succ_of_in _ _ _ _ _ _ _ _ _ _ _ _ _ _ _ _ _ (by
    rw [(dlineLoop_writes _ _ _ _ _ _ _ _ _ _ _ _ _ _ _ _ w).checkCoord]
    exact hin k (Nat.le_refl k))]
  exact dlineLoop_cellAt_ne _ _ _ _ _ _ _ _ _ _ _ _ _ _ _ _ _
    (fun j h1 h2 => hne j (by omega) (by omega))

end Window

end npp

namespace npp

namespace Window

/-! ### A heavy line through a doubled junction -/

set_option maxRecDepth 1000000 in
theorem getPiece_doubled_heavy_cross (style : Nat × Nat) :
    getPiece [3, 3, 2, 2] style = BLANK ∧ getPiece [2, 2, 2, 2] style = 0x254B := by
  constructor
  · exact getPiece_no_match _ style (by decide!)
  · rw [getPiece_style_indep _ style (0, 0) (by decide!)]
    decide!

theorem dlinePiece_doubled_heavy_cross (d : Nat) :
    dlinePiece [3, 3, 2, 2] (HEAVY_BOTH, d) = 0x254B := by
  unfold dlinePiece
  simp only [(getPiece_doubled_heavy_cross (HEAVY_BOTH, d)).1, if_true]
  have : dlineFallback [3, 3, 2, 2] HEAVY_BOTH = [2, 2, 2, 2] := by decide
  rw [this]
  exact (getPiece_doubled_heavy_cross (HEAVY_BOTH, d)).2

/-- At an interior step of a horizontal line both in-line directions are fabricated. -/
theorem dlineDirs_interior_horizontal (a b c d : Nat) (i length : Nat) (rev : Bool)
    (cstyle : Nat) (hi : i ≠ 0) (hl : i ≠ length - 1) :
    dlineDirs [a, b, c, d] i length false (if rev then DIR_LEFT else DIR_RIGHT)
      (if rev then DIR_RIGHT else DIR_LEFT) cstyle = [a, b, cstyle, cstyle] := by
  unfold dlineDirs
  simp only [if_neg hi, if_neg hl]
  cases rev <;> rfl

/-- A horizontal `dline` that passes its guard is its loop, started at `(y, x)`. -/
theorem dline_horizontal_eq_loop (w : Window) (y x length : Nat) (rev : Bool) (s d color : Nat)
    (mergeable canMerge : Bool) (hin : w.checkCoord y x = true) (hl : 0 < length) (hs : s < 8) :
    w.dline y x length false rev (s, d) color mergeable canMerge
      = dlineLoop y x length false rev (s, if d ≥ 6 then DASHED_NONE else d) color mergeable
          canMerge (if rev then DIR_LEFT else DIR_RIGHT) (if rev then DIR_RIGHT else DIR_LEFT)
          (dlineCstyle s false) length 0 y x w := by
  have hb := (checkCoord_iff w y x).1 hin
  have hguard : (!w.checkCoord y x || decide (length ≤ 0) || (decide (y ≥ w.DimY) && !rev)
      || (decide (x ≥ w.DimX) && !rev)) = false := by
    rw [hin]
    have h1 : decide (length ≤ 0) = false := by simp; omega
    have h2 : decide (y ≥ w.DimY) = false := by simp; omega
    have h3 : decide (x ≥ w.DimX) = false := by simp; omega
    rw [h1, h2, h3]
    rfl
  unfold dline
  rw [hguard]
  simp only [Bool.false_eq_true, if_false, ge_iff_le]
  rw [if_neg (by omega : ¬ 8 ≤ s)]
  cases rev <;> rfl

/-- C10. Heavy over doubled: when mergeable `║` stand directly above and below `(r, c)`,
a `HEAVY_BOTH` horizontal line drawn with merging through `(r, c)` as an interior cell
(step `k` of `L`, in either direction of travel) leaves the heavy cross `╋` there: the
composed vector (doubled, doubled, heavy, heavy) has no glyph, and the retry with doubled
replaced by heavy finds `╋`. -/
theorem heavy_over_doubled (w : Window) (hw : w.WF) (r c x0 L k d color : Nat)
    (rev mergeable : Bool)
    (hr0 : 0 < r) (hr : r + 1 < w.DimY) (hx0 : x0 < w.DimX) (hc : c < w.DimX)
    (hk0 : 0 < k) (hkL : k + 1 < L) (hL : L < 65536)
    (hpos : if rev then c + k = x0 else c = x0 + k)
    (hup : (w.cellAt (r - 1) c).CanMerge = true ∧ (w.cellAt (r - 1) c).Char = 0x2551)
    (hdn : (w.cellAt (r + 1) c).CanMerge = true ∧ (w.cellAt (r + 1) c).Char = 0x2551) :
    getPiece [3, 3, 2, 2] (HEAVY_BOTH, d) = BLANK
    ∧ getPiece (dlineFallback [3, 3, 2, 2] HEAVY_BOTH) (HEAVY_BOTH, d) = 0x254B
    ∧ (w.dline r x0 L false rev (HEAVY_BOTH, d) color mergeable true).schar r c = 0x254B := by
  have hY : w.DimY < 65536 := hw.1
  have hX : w.DimX < 65536 := hw.2.1
  refine ⟨(getPiece_doubled_heavy_cross _).1, ?_, ?_⟩
  · have : dlineFallback [3, 3, 2, 2] HEAVY_BOTH = [2, 2, 2, 2] := by decide
    rw [this]
    exact (getPiece_doubled_heavy_cross _).2
  -- the positions of the line
  have hr16 : r < 65536 := by omega
  have hx16 : x0 < 65536 := by omega
  have hposk : ∀ j, dlinePos r x0 false rev j
      = (r, toUShort (if rev then (x0 : Int) - j else (x0 : Int) + j)) :=
    fun j => dlinePos_horizontal r x0 rev j hr16
  have hk : dlinePos r x0 false rev k = (r, c) := by
    rw [hposk]
    congr 1
    unfold toUShort
    cases rev
    · simp only [Bool.false_eq_true, if_false] at hpos ⊢
      omega
    · simp only [if_true] at hpos ⊢
      omega
  have hin : ∀ j, j ≤ k → w.checkCoord (dlinePos r x0 false rev j).1
      (dlinePos r x0 false rev j).2 = true := by
    intro j hj
    rw [hposk, checkCoord_iff]
    refine ⟨by omega, ?_⟩
    simp only
    unfold toUShort
    cases rev
    · simp only [Bool.false_eq_true, if_false] at hpos ⊢
      omega
    · simp only [if_true] at hpos ⊢
      omega
  have hne : ∀ j, k < j → j < k + 1 + (L - k - 1) →
      dlinePos r x0 false rev j ≠ dlinePos r x0 false rev k := by
    intro j h1 h2 h
    rw [hposk, hposk] at h
    have h' := (Prod.mk.inj h).2
    unfold toUShort at h'
    cases rev
    · simp only [Bool.false_eq_true, if_false] at h'
      omega
    · simp only [if_true] at h'
      omega
  -- the loop and its parameters
  rw [dline_horizontal_eq_loop w r x0 L rev HEAVY_BOTH d color mergeable true
    ((checkCoord_iff w r x0).2 ⟨by omega, hx0⟩) (by omega) (by decide)]
  have hcs : dlineCstyle HEAVY_BOTH false = 2 := by decide
  rw [hcs]
  generalize (if d ≥ 6 then DASHED_NONE else d) = d'
  generalize ht1 : (if rev then DIR_LEFT else DIR_RIGHT) = t1
  generalize ht2 : (if rev then DIR_RIGHT else DIR_LEFT) = t2
  have hcell := dlineLoop_cellAt_step r x0 L false rev (HEAVY_BOTH, d') color mergeable true
    t1 t2 2 w k (L - k - 1) hin hne
  rw [show k + (1 + (L - k - 1)) = L by omega, hk, dlinePos_zero r x0 false rev hr16 hx16] at hcell
  dsimp only at hcell
  have hfin : (dlineLoop r x0 L false rev (HEAVY_BOTH, d') color mergeable true t1 t2 2 L 0 r x0
      w).checkCoord r c = true := by
    rw [(dlineLoop_writes _ _ _ _ _ _ _ _ _ _ _ _ _ _ _ _ w).checkCoord, checkCoord_iff]
    exact ⟨by omega, hc⟩
  unfold schar
  rw [hfin, hcell]
  simp only [Bool.not_true, Bool.false_eq_true, if_false]
  -- the window the first k steps leave
  have hframe : ∀ y', y' ≠ r →
      (dlineLoop r x0 L false rev (HEAVY_BOTH, d') color mergeable true t1 t2 2 k 0 r x0
        w).cellAt y' c = w.cellAt y' c := by
    intro y' hy'
    have := dlineLoop_cellAt_ne r x0 L false rev (HEAVY_BOTH, d') color mergeable true t1 t2 2
      y' c k 0 w (fun j _ _ h => by
        rw [hposk] at h
        exact hy' (Prod.mk.inj h).1.symm)
    rw [dlinePos_zero r x0 false rev hr16 hx16] at this
    exact this
  have hWk := dlineLoop_writes r x0 L false rev (HEAVY_BOTH, d') color mergeable true t1 t2 2
    k 0 r x0 w
  generalize dlineLoop r x0 L false rev (HEAVY_BOTH, d') color mergeable true t1 t2 2 k 0 r x0
    w = wk at hframe hWk ⊢
  have hwkWF : wk.WF := hWk.2.2.1 hw
  have hry : r < wk.DimY := by rw [hWk.1]; omega
  have hcx : c < wk.DimX := by rw [hWk.2.1]; exact hc
  rw [(dlineStep_cellAt_self hwkWF _ _ _ _ _ _ _ _ _ _ hry hcx).1]
  rw [dlineNeighbours_eq (by rw [hWk.1]; exact hY) (by rw [hWk.2.1]; exact hX) hry hcx]
  rw [if_neg (by omega : ¬ r = 0)]
  have hupk : wk.getConnectStyle (r - 1) c DIR_DOWN = 3 := by
    have := @getConnectStyle_of_entry wk (r - 1) c DIR_DOWN (0x2551, [3, 3, 0, 0]) (by decide!)
      ((checkCoord_iff wk _ _).2 ⟨by omega, hcx⟩) (by decide)
      (by rw [hframe (r - 1) (by omega)]; exact hup.1)
      (by rw [hframe (r - 1) (by omega)]; exact hup.2.symm)
    rw [this]; rfl
  have hdnk : wk.getConnectStyle (r + 1) c DIR_UP = 3 := by
    have := @getConnectStyle_of_entry wk (r + 1) c DIR_UP (0x2551, [3, 3, 0, 0]) (by decide!)
      ((checkCoord_iff wk _ _).2 ⟨by rw [hWk.1]; omega, hcx⟩) (by decide)
      (by rw [hframe (r + 1) (by omega)]; exact hdn.1)
      (by rw [hframe (r + 1) (by omega)]; exact hdn.2.symm)
    rw [this]; rfl
  rw [hupk, hdnk, ← ht1, ← ht2,
    dlineDirs_interior_horizontal _ _ _ _ _ _ _ _ (by omega) (by omega)]
  exact dlinePiece_doubled_heavy_cross _

end Window

end npp

namespace npp

namespace Window

/-- C10, an instance: on a 5x7 window a doubled vertical and a doubled horizontal line
cross at (2, 3) in `╬`; the heavy line along row 2 then leaves `╋` there. -/
theorem heavy_over_doubled_witness :
    (((Window.create 24 80 0 0 5 7).dline 0 3 5 true false (DOUBLED_BOTH, 0) 1 true true).dline
        2 0 7 false false (DOUBLED_BOTH, 0) 1 true true).schar 2 3 = 0x256C
    ∧ ((((Window.create 24 80 0 0 5 7).dline 0 3 5 true false (DOUBLED_BOTH, 0) 1 true true).dline
        2 0 7 false false (DOUBLED_BOTH, 0) 1 true true).dline
        2 0 7 false false (HEAVY_BOTH, 0) 1 true true).schar 2 3 = 0x254B :=
  ⟨by decide!,
   (heavy_over_doubled
      (((Window.create 24 80 0 0 5 7).dline 0 3 5 true false (DOUBLED_BOTH, 0) 1 true true).dline
        2 0 7 false false (DOUBLED_BOTH, 0) 1 true true)
      (by decide!) 2 3 0 7 3 0 1 false true (by decide) (by decide!) (by decide!) (by decide!)
      (by decide) (by decide) (by decide) (by decide) (by decide!) (by decide!)).2.2⟩

/-- C5, instances on a 3x3 window: a plain write over a cell of a mergeable line leaves
it not mergeable, and the mergeable cell (1, 0) of the final state goes back to the
`dline` that opens the sequence. -/
theorem mergeable_invariant_witness :
    ((((Window.create 24 80 0 0 3 3).dline 1 0 3 false false (0, 0) 1 true true).wchar
          (1, 1) 0x41 1 "").cellAt 1 1
        = ((Window.create 24 80 0 0 3 3).dline 1 0 3 false false (0, 0) 1 true true).cellAt 1 1
      ∨ ((((Window.create 24 80 0 0 3 3).dline 1 0 3 false false (0, 0) 1 true true).wchar
          (1, 1) 0x41 1 "").cellAt 1 1).CanMerge = false)
    ∧ ∃ (pre : List Op) (op : Op) (post : List Op) (wpre wop : Window),
        [Op.dline 1 0 3 false false (0, 0) 1 true true, Op.wchar (1, 1) 0x41 1 ""]
          = pre ++ op :: post
        ∧ Op.runAll pre (Window.create 24 80 0 0 3 3) = some wpre
        ∧ op.run wpre = some wop
        ∧ op.drawsMergeable = true ∧ wop.cellAt 1 0 ≠ wpre.cellAt 1 0
        ∧ ∀ post1 post2 : List Op, post = post1 ++ post2 →
            ∃ w1, Op.runAll post1 wop = some w1 ∧ w1.cellAt 1 0 = wop.cellAt 1 0 :=
  ⟨mergeable_invariant.1 (Op.wchar (1, 1) 0x41 1 "")
      ((Window.create 24 80 0 0 3 3).dline 1 0 3 false false (0, 0) 1 true true) _ rfl rfl 1 1,
   mergeable_invariant.2 24 80 0 0 3 3
      [Op.dline 1 0 3 false false (0, 0) 1 true true, Op.wchar (1, 1) 0x41 1 ""]
      (((Window.create 24 80 0 0 3 3).dline 1 0 3 false false (0, 0) 1 true true).wchar
          (1, 1) 0x41 1 "") 1 0 rfl (by decide!)⟩

end Window

end npp

namespace npp

namespace Window

/-! ### What `dline` leaves in the grid -/

/-- A `dline` that passes its guard is its loop, started at `(y, x)`. -/
theorem dline_eq_loop (w : Window) (y x length : Nat) (vertical rev : Bool) (style : Nat × Nat)
    (color : Nat) (mergeable canMerge : Bool) (hin : w.checkCoord y x = true)
    (hl : 0 < length) :
    w.dline y x length vertical rev style color mergeable canMerge
      = dlineLoop y x length vertical rev (dlineStyle style) color mergeable canMerge
          (dlineTdir1 vertical rev) (dlineTdir2 vertical rev)
          (dlineCstyle (dlineStyle style).1 vertical) length 0 y x w := by
  have hb := (checkCoord_iff w y x).1 hin
  have hguard : (!w.checkCoord y x || decide (length ≤ 0) || (decide (y ≥ w.DimY) && !rev)
      || (decide (x ≥ w.DimX) && !rev)) = false := by
    rw [hin]
    have h1 : decide (length ≤ 0) = false := by simp; omega
    have h2 : decide (y ≥ w.DimY) = false := by simp; omega
    have h3 : decide (x ≥ w.DimX) = false := by simp; omega
    rw [h1, h2, h3]
    rfl
  unfold dline
  rw [hguard]
  rfl

/-- A `dline` that fails its guard leaves the window alone. -/
theorem dline_of_rejected (w : Window) (y x length : Nat) (vertical rev : Bool)
    (style : Nat × Nat) (color : Nat) (mergeable canMerge : Bool)
    (h : w.checkCoord y x = false ∨ length = 0) :
    w.dline y x length vertical rev style color mergeable canMerge = w := by
  unfold dline
  rcases h with h | h
  · rw [h]; rfl
  · subst h
    simp

/-- The positions of the steps a line performs, and that they lie inside the window. -/
theorem dlinePos_of_lt_count {w : Window} (hw : w.WF) {y x length : Nat} (hy : y < w.DimY)
    (hx : x < w.DimX) (vertical rev : Bool) {k : Nat}
    (hk : k < dlineCount w y x length vertical rev) :
    dlinePos y x vertical rev k
      = (if vertical then (if rev then y - k else y + k) else y,
         if vertical then x else (if rev then x - k else x + k))
    ∧ w.checkCoord (dlinePos y x vertical rev k).1 (dlinePos y x vertical rev k).2 = true := by
  have hY : w.DimY < 65536 := hw.1
  have hX : w.DimX < 65536 := hw.2.1
  have key : dlinePos y x vertical rev k
      = (if vertical then (if rev then y - k else y + k) else y,
         if vertical then x else (if rev then x - k else x + k)) := by
    unfold dlineCount at hk
    cases vertical <;> cases rev <;>
      simp only [Bool.false_eq_true, if_false, if_true, lt_min_iff] at hk ⊢
    · rw [dlinePos_horizontal y x false k (by omega)]
      simp only [Bool.false_eq_true, if_false]
      unfold toUShort; congr 1; omega
    · rw [dlinePos_horizontal y x true k (by omega)]
      simp only [if_true]
      unfold toUShort; congr 1; omega
    · rw [dlinePos_vertical y x false k (by omega)]
      simp only [Bool.false_eq_true, if_false]
      unfold toUShort; congr 1; omega
    · rw [dlinePos_vertical y x true k (by omega)]
      simp only [if_true]
      unfold toUShort; congr 1; omega
  refine ⟨key, ?_⟩
  rw [key, checkCoord_iff]
  unfold dlineCount at hk
  cases vertical <;> cases rev <;>
    simp only [Bool.false_eq_true, if_false, if_true, lt_min_iff] at hk ⊢ <;> omega

/-- When the loop stops before `length` steps, the next position is outside the window. -/
theorem dlinePos_count_out {w : Window} (hw : w.WF) {y x length : Nat} (hy : y < w.DimY)
    (hx : x < w.DimX) (vertical rev : Bool)
    (hlt : dlineCount w y x length vertical rev < length) :
    w.checkCoord (dlinePos y x vertical rev (dlineCount w y x length vertical rev)).1
      (dlinePos y x vertical rev (dlineCount w y x length vertical rev)).2 = false := by
  have hY : w.DimY < 65536 := hw.1
  have hX : w.DimX < 65536 := hw.2.1
  rw [checkCoord_false_iff]
  unfold dlineCount at hlt ⊢
  cases vertical <;> cases rev <;>
    simp only [Bool.false_eq_true, if_false, if_true, min_lt_iff, lt_self_iff_false,
      false_or] at hlt ⊢
  · rw [min_eq_right (by omega), dlinePos_horizontal y x false _ (by omega)]
    simp only [Bool.false_eq_true, if_false]
    unfold toUShort; right; omega
  · rw [min_eq_right (by omega), dlinePos_horizontal y x true _ (by omega)]
    simp only [if_true]
    unfold toUShort; right; omega
  · rw [min_eq_right (by omega), dlinePos_vertical y x false _ (by omega)]
    simp only [Bool.false_eq_true, if_false]
    unfold toUShort; left; omega
  · rw [min_eq_right (by omega), dlinePos_vertical y x true _ (by omega)]
    simp only [if_true]
    unfold toUShort; left; omega

/-- Two different steps of a line are at different positions. -/
theorem dlinePos_ne (y x : Nat) (vertical rev : Bool) {j k : Nat} (hjk : j < k)
    (hk : k < 65536) (hy : y < 65536) (hx : x < 65536) :
    dlinePos y x vertical rev j ≠ dlinePos y x vertical rev k := by
  intro h
  cases vertical
  · rw [dlinePos_horizontal y x rev j hy, dlinePos_horizontal y x rev k hy] at h
    have h' := (Prod.mk.inj h).2
    unfold toUShort at h'
    cases rev
    · simp only [Bool.false_eq_true, if_false] at h'; omega
    · simp only [if_true] at h'; omega
  · rw [dlinePos_vertical y x rev j hx, dlinePos_vertical y x rev k hx] at h
    have h' := (Prod.mk.inj h).1
    unfold toUShort at h'
    cases rev
    · simp only [Bool.false_eq_true, if_false] at h'; omega
    · simp only [if_true] at h'; omega

theorem dlineCount_le (w : Window) (y x length : Nat) (vertical rev : Bool) :
    dlineCount w y x length vertical rev ≤ length := by
  unfold dlineCount
  exact min_le_left _ _

/-- The loop of `dline` stops at the border of the window: only the first `dlineCount`
iterations take place. -/
theorem dlineLoop_clip {w : Window} (hw : w.WF) {y x length : Nat} (hy : y < w.DimY)
    (hx : x < w.DimX) (vertical rev : Bool) (style : Nat × Nat) (color : Nat)
    (mergeable canMerge : Bool) (tdir1 tdir2 cstyle : Nat) :
    dlineLoop y x length vertical rev style color mergeable canMerge tdir1 tdir2 cstyle
      length 0 y x w
    = dlineLoop y x length vertical rev style color mergeable canMerge tdir1 tdir2 cstyle
      (dlineCount w y x length vertical rev) 0 y x w := by
  have hY : w.DimY < 65536 := hw.1
  have hX : w.DimX < 65536 := hw.2.1
  have h0 := dlinePos_zero y x vertical rev (by omega) (by omega)
  have hle := dlineCount_le w y x length vertical rev
  generalize hm : dlineCount w y x length vertical rev = m at hle
  have hadd := dlineLoop_add y x length vertical rev style color mergeable canMerge tdir1 tdir2
    cstyle (length - m) m 0 w (fun j _ hj => by
      have hj' : j < dlineCount w y x length vertical rev := by rw [hm]; omega
      exact (dlinePos_of_lt_count hw hy hx vertical rev hj').2)
  rw [h0, show m + (length - m) = length by omega, Nat.zero_add] at hadd
  rw [hadd]
  rcases Nat.eq_or_lt_of_le hle with heq | hlt
  · rw [heq, Nat.sub_self]
    rfl
  · obtain ⟨n, hn⟩ : ∃ n, length - m = n + 1 := ⟨length - m - 1, by omega⟩
    rw [hn, dlineLoop]
    have hout := dlinePos_count_out hw hy hx vertical rev (by rw [hm]; exact hlt)
    rw [hm] at hout
    rw [(dlineLoop_writes _ _ _ _ _ _ _ _ _ _ _ _ _ _ _ _ w).checkCoord, hout]
    rfl

end Window

end npp

namespace npp

namespace Window

/-- The whole cell a step of `dline` leaves at its position. -/
theorem dlineStep_cellAt_eq {w : Window} (hw : w.WF) (i length : Nat) (vertical : Bool)
    (style : Nat × Nat) (color : Nat) (mergeable canMerge : Bool) (tdir1 tdir2 cstyle : Nat)
    {posy posx : Nat} (hy : posy < w.DimY) (hx : posx < w.DimX) :
    (dlineStep w i length vertical style color mergeable canMerge tdir1 tdir2 cstyle
        posy posx).cellAt posy posx
      = lineCell (dlinePiece (dlineDirs (dlineNeighbours w posy posx canMerge) i length vertical
          tdir1 tdir2 cstyle) style) color mergeable := by
  have hin : w.checkCoord (posy, posx).1 (posy, posx).2 = true :=
    (checkCoord_iff w posy posx).2 ⟨hy, hx⟩
  unfold dlineStep wchar
  simp only
  rw [wcharp_of_in hin]
  simp only
  rw [cellAt_setCell_of_WF (hw.setCell _ _ _) hy hx, cellAt_setCell_of_WF hw hy hx]
  simp only [and_self, if_true, lineCell]
  rfl

/-- The connection style a cell offers depends on the dimensions and on that cell only. -/
theorem getConnectStyle_congr {w w' : Window} (hY : w'.DimY = w.DimY) (hX : w'.DimX = w.DimX)
    {y x : Nat} (hc : w'.checkCoord y x = true → w'.cellAt y x = w.cellAt y x) (dir : Nat) :
    w'.getConnectStyle y x dir = w.getConnectStyle y x dir := by
  have hcc : w'.checkCoord y x = w.checkCoord y x := by
    unfold checkCoord; rw [hY, hX]
  by_cases hin : w'.checkCoord y x = true
  · have hin2 : w.checkCoord y x = true := by rw [← hcc]; exact hin
    unfold getConnectStyle smerge schar
    rw [hin, hin2, hc hin]
  · have h1 : w'.checkCoord y x = false := by simpa using hin
    rw [getConnectStyle_of_out h1, getConnectStyle_of_out (by rw [← hcc]; exact h1)]

/-- At a step other than the first, the directions asked for do not depend on the
trailing in-line neighbour. -/
theorem dlineDirs_trailing (a b c d a' b' c' d' : Nat) (k length : Nat) (vertical rev : Bool)
    (cstyle : Nat) (hk : k ≠ 0)
    (h : if vertical then
          (c' = c ∧ d' = d ∧ if rev then a' = a else b' = b)
         else (a' = a ∧ b' = b ∧ if rev then c' = c else d' = d)) :
    dlineDirs [a', b', c', d'] k length vertical (dlineTdir1 vertical rev)
        (dlineTdir2 vertical rev) cstyle
      = dlineDirs [a, b, c, d] k length vertical (dlineTdir1 vertical rev)
        (dlineTdir2 vertical rev) cstyle := by
  unfold dlineDirs
  simp only [if_neg hk]
  cases vertical <;> cases rev <;>
    simp only [Bool.false_eq_true, if_false, if_true] at h <;>
    obtain ⟨h1, h2, h3⟩ := h <;> subst h1 <;> subst h2 <;> subst h3 <;> rfl

end Window

end npp

namespace npp

namespace Window

/-- The directions asked for at step `k` are the same whether the neighbours are read in
the window the first `k` steps left or in the window the line started from. -/
theorem dlineDirs_stable {w : Window} (hw : w.WF) {y x length : Nat} (hy : y < w.DimY)
    (hx : x < w.DimX) (vertical rev : Bool) (style : Nat × Nat) (color : Nat)
    (mergeable canMerge : Bool) (tdir1 tdir2 cstyle cs : Nat) {k : Nat}
    (hk : k < dlineCount w y x length vertical rev) :
    dlineDirs
      (dlineNeighbours
        (dlineLoop y x length vertical rev style color mergeable canMerge tdir1 tdir2 cstyle
          k 0 y x w)
        (dlinePos y x vertical rev k).1 (dlinePos y x vertical rev k).2 canMerge)
      k length vertical (dlineTdir1 vertical rev) (dlineTdir2 vertical rev) cs
    = dlineDirs
      (dlineNeighbours w (dlinePos y x vertical rev k).1 (dlinePos y x vertical rev k).2 canMerge)
      k length vertical (dlineTdir1 vertical rev) (dlineTdir2 vertical rev) cs := by
  have hY : w.DimY < 65536 := hw.1
  have hX : w.DimX < 65536 := hw.2.1
  cases canMerge
  · rfl
  by_cases hk0 : k = 0
  · subst hk0
    rfl
  have hW := dlineLoop_writes y x length vertical rev style color mergeable true tdir1 tdir2
    cstyle k 0 y x w
  have hframe : ∀ qy qx : Nat, (∀ j, j < k → dlinePos y x vertical rev j ≠ (qy, qx)) →
      (dlineLoop y x length vertical rev style color mergeable true tdir1 tdir2 cstyle
        k 0 y x w).cellAt qy qx = w.cellAt qy qx := by
    intro qy qx hq
    have := dlineLoop_cellAt_ne y x length vertical rev style color mergeable true tdir1 tdir2
      cstyle qy qx k 0 w (fun j _ hj => hq j (by omega))
    rw [dlinePos_zero y x vertical rev (by omega) (by omega)] at this
    exact this
  generalize dlineLoop y x length vertical rev style color mergeable true tdir1 tdir2 cstyle
    k 0 y x w = wk at hW hframe
  have hgcs : ∀ qy qx : Nat,
      (qy < w.DimY → qx < w.DimX → ∀ j, j < k → dlinePos y x vertical rev j ≠ (qy, qx)) →
      ∀ dir, wk.getConnectStyle qy qx dir = w.getConnectStyle qy qx dir := by
    intro qy qx hq dir
    refine getConnectStyle_congr hW.1 hW.2.1 (fun hin => ?_) dir
    have hb := (checkCoord_iff wk qy qx).1 hin
    rw [hW.1, hW.2.1] at hb
    exact hframe qy qx (hq hb.1 hb.2)
  have hposj : ∀ j, j < k → dlinePos y x vertical rev j
      = (if vertical then (if rev then y - j else y + j) else y,
         if vertical then x else (if rev then x - j else x + j)) :=
    fun j hj => (dlinePos_of_lt_count hw hy hx vertical rev (lt_trans hj hk)).1
  have hposk := (dlinePos_of_lt_count hw hy hx vertical rev hk).1
  have hink := (dlinePos_of_lt_count hw hy hx vertical rev hk).2
  rw [hposk] at hink ⊢
  rw [checkCoord_iff] at hink
  unfold dlineCount at hk
  unfold dlineNeighbours
  simp only [if_true]
  apply dlineDirs_trailing _ _ _ _ _ _ _ _ _ _ _ _ _ hk0
  cases vertical <;> cases rev <;>
    simp only [Bool.false_eq_true, if_false, if_true, lt_min_iff] at hk hposj hink ⊢
  · refine ⟨hgcs _ _ (fun _ _ j hj h => ?_) _, hgcs _ _ (fun _ _ j hj h => ?_) _,
      hgcs _ _ (fun _ _ j hj h => ?_) _⟩ <;>
    · rw [hposj j hj] at h
      have h2 := (Prod.mk.inj h).2
      omega
  · refine ⟨hgcs _ _ (fun _ _ j hj h => ?_) _, hgcs _ _ (fun _ _ j hj h => ?_) _,
      hgcs _ _ (fun h1 h2 j hj h => ?_) _⟩
    · rw [hposj j hj] at h
      have h2 := (Prod.mk.inj h).2
      omega
    · rw [hposj j hj] at h
      have h2 := (Prod.mk.inj h).2
      omega
    · rw [hposj j hj] at h
      have h3 := (Prod.mk.inj h).2
      unfold toUShort at h3 h2
      omega
  · refine ⟨hgcs _ _ (fun _ _ j hj h => ?_) _, hgcs _ _ (fun _ _ j hj h => ?_) _,
      hgcs _ _ (fun _ _ j hj h => ?_) _⟩ <;>
    · rw [hposj j hj] at h
      have h2 := (Prod.mk.inj h).1
      have h3 := (Prod.mk.inj h).2
      omega
  · refine ⟨hgcs _ _ (fun _ _ j hj h => ?_) _, hgcs _ _ (fun _ _ j hj h => ?_) _,
      hgcs _ _ (fun h1 h2 j hj h => ?_) _⟩
    · rw [hposj j hj] at h
      have h2 := (Prod.mk.inj h).2
      unfold toUShort at h2
      omega
    · rw [hposj j hj] at h
      have h2 := (Prod.mk.inj h).2
      omega
    · rw [hposj j hj] at h
      have h3 := (Prod.mk.inj h).1
      unfold toUShort at h3 h1
      omega

end Window

end npp

namespace npp

namespace Window

/-- Frame of `dline`: a cell at none of the positions of the steps performed is left as
it was. -/
theorem dline_cellAt_off {w : Window} (hw : w.WF) {y x length : Nat} (hy : y < w.DimY)
    (hx : x < w.DimX) (vertical rev : Bool) (style : Nat × Nat) (color : Nat)
    (mergeable canMerge : Bool) {y' x' : Nat}
    (h : ∀ k, k < dlineCount w y x length vertical rev →
      dlinePos y x vertical rev k ≠ (y', x')) :
    (w.dline y x length vertical rev style color mergeable canMerge).cellAt y' x'
      = w.cellAt y' x' := by
  rcases Nat.eq_zero_or_pos length with h0 | hpos
  · rw [dline_of_rejected w y x length vertical rev style color mergeable canMerge (Or.inr h0)]
  rw [dline_eq_loop w y x length vertical rev style color mergeable canMerge
    ((checkCoord_iff w y x).2 ⟨hy, hx⟩) hpos, dlineLoop_clip hw hy hx]
  have := dlineLoop_cellAt_ne y x length vertical rev (dlineStyle style) color mergeable canMerge
    (dlineTdir1 vertical rev) (dlineTdir2 vertical rev) (dlineCstyle (dlineStyle style).1 vertical)
    y' x' (dlineCount w y x length vertical rev) 0 w (fun j _ hj => h j (by omega))
  rw [dlinePos_zero y x vertical rev (by have := hw.1; omega) (by have := hw.2.1; omega)] at this
  exact this

/-- The cell `dline` leaves at the position of its step `k`: the glyph chosen from the
neighbours in the window the line started from, the colour, no attributes, and the
merge flag. -/
theorem dline_cellAt_path {w : Window} (hw : w.WF) {y x length : Nat} (hy : y < w.DimY)
    (hx : x < w.DimX) (hL : length < 65536) (vertical rev : Bool) (style : Nat × Nat)
    (color : Nat) (mergeable canMerge : Bool) {k : Nat}
    (hk : k < dlineCount w y x length vertical rev) :
    (w.dline y x length vertical rev style color mergeable canMerge).cellAt
        (dlinePos y x vertical rev k).1 (dlinePos y x vertical rev k).2
      = lineCell (dlineGlyph w y x length vertical rev style canMerge k) color mergeable := by
  have hY : w.DimY < 65536 := hw.1
  have hX : w.DimX < 65536 := hw.2.1
  have hle := dlineCount_le w y x length vertical rev
  have hpos : 0 < length := by omega
  rw [dline_eq_loop w y x length vertical rev style color mergeable canMerge
    ((checkCoord_iff w y x).2 ⟨hy, hx⟩) hpos, dlineLoop_clip hw hy hx]
  have h0 := dlinePos_zero y x vertical rev (by omega) (by omega)
  have hstep := dlineLoop_cellAt_step y x length vertical rev (dlineStyle style) color mergeable
    canMerge (dlineTdir1 vertical rev) (dlineTdir2 vertical rev)
    (dlineCstyle (dlineStyle style).1 vertical) w k
    (dlineCount w y x length vertical rev - k - 1)
    (fun j hj => (@dlinePos_of_lt_count w hw y x length hy hx vertical rev j (by omega)).2)
    (fun j h1 h2 => (dlinePos_ne y x vertical rev h1 (by omega) (by omega) (by omega)).symm)
  rw [show k + (1 + (dlineCount w y x length vertical rev - k - 1))
      = dlineCount w y x length vertical rev by omega, h0] at hstep
  rw [hstep]
  have hWk := dlineLoop_writes y x length vertical rev (dlineStyle style) color mergeable
    canMerge (dlineTdir1 vertical rev) (dlineTdir2 vertical rev)
    (dlineCstyle (dlineStyle style).1 vertical) k 0 y x w
  have hin := (checkCoord_iff w _ _).1 (dlinePos_of_lt_count hw hy hx vertical rev hk).2
  rw [dlineStep_cellAt_eq (hWk.2.2.1 hw) _ _ _ _ _ _ _ _ _ _ (by rw [hWk.1]; exact hin.1)
    (by rw [hWk.2.1]; exact hin.2)]
  rw [dlineDirs_stable hw hy hx vertical rev _ _ _ _ _ _ _ _ hk]
  rfl

/-- A `dline` keeps the dimensions and the shape of the grid. -/
theorem dline_WF {w : Window} (hw : w.WF) (y x length : Nat) (vertical rev : Bool)
    (style : Nat × Nat) (color : Nat) (mergeable canMerge : Bool) :
    (w.dline y x length vertical rev style color mergeable canMerge).WF
    ∧ (w.dline y x length vertical rev style color mergeable canMerge).DimY = w.DimY
    ∧ (w.dline y x length vertical rev style color mergeable canMerge).DimX = w.DimX :=
  have h := dline_writes w y x length vertical rev style color mergeable canMerge
  ⟨h.2.2.1 hw, h.1, h.2.1⟩

end Window

end npp

namespace npp

namespace Window

/-! ### Style codes, degenerate boxes, grid dimensions -/

/-- Two styles with the same normalised form draw the same line. -/
theorem dline_congr_style (w : Window) (y x length : Nat) (vertical rev : Bool)
    (st st' : Nat × Nat) (color : Nat) (mergeable canMerge : Bool)
    (h : dlineStyle st = dlineStyle st') :
    w.dline y x length vertical rev st color mergeable canMerge
      = w.dline y x length vertical rev st' color mergeable canMerge := by
  have e : ∀ st : Nat × Nat, w.dline y x length vertical rev st color mergeable canMerge
      = if !w.checkCoord y x || decide (length ≤ 0) || (decide (y ≥ w.DimY) && !rev)
          || (decide (x ≥ w.DimX) && !rev) then w
        else dlineLoop y x length vertical rev (dlineStyle st) color mergeable canMerge
          (dlineTdir1 vertical rev) (dlineTdir2 vertical rev)
          (dlineCstyle (dlineStyle st).1 vertical) length 0 y x w := fun _ => rfl
  rw [e st, e st', h]

/-- C16. Invalid style codes are normalised: a shape code of 8 or more draws what
`LIGHT_HARD` draws and a dash code of 6 or more draws what `DASHED_NONE` draws, each
whatever the other code is. -/
theorem dline_style_normalised (w : Window) (y x length : Nat) (vertical rev : Bool)
    (s d color : Nat) (mergeable canMerge : Bool) :
    (8 ≤ s → w.dline y x length vertical rev (s, d) color mergeable canMerge
        = w.dline y x length vertical rev (LIGHT_HARD, d) color mergeable canMerge)
    ∧ (6 ≤ d → w.dline y x length vertical rev (s, d) color mergeable canMerge
        = w.dline y x length vertical rev (s, DASHED_NONE) color mergeable canMerge)
    ∧ (8 ≤ s → 6 ≤ d → w.dline y x length vertical rev (s, d) color mergeable canMerge
        = w.dline y x length vertical rev (LIGHT_HARD, DASHED_NONE) color mergeable canMerge) := by
  refine ⟨fun hs => ?_, fun hd => ?_, fun hs hd => ?_⟩
  · apply dline_congr_style
    unfold dlineStyle
    simp only [ge_iff_le, if_pos hs, LIGHT_HARD]
    rfl
  · apply dline_congr_style
    unfold dlineStyle
    simp only [ge_iff_le, if_pos hd, DASHED_NONE]
    rfl
  · apply dline_congr_style
    unfold dlineStyle
    simp only [ge_iff_le, if_pos hs, if_pos hd, LIGHT_HARD, DASHED_NONE]
    rfl

/-- C16, instances on a 3x5 window: shape 200 draws as shape 0, dash 9 as dash 0. -/
theorem dline_style_normalised_witness :
    (Window.create 24 80 0 0 3 5).dline 1 0 5 false false (200, 2) 1 true true
      = (Window.create 24 80 0 0 3 5).dline 1 0 5 false false (LIGHT_HARD, 2) 1 true true
    ∧ (Window.create 24 80 0 0 3 5).dline 1 0 5 false false (5, 9) 1 true true
      = (Window.create 24 80 0 0 3 5).dline 1 0 5 false false (5, DASHED_NONE) 1 true true :=
  ⟨(dline_style_normalised (Window.create 24 80 0 0 3 5) 1 0 5 false false 200 2 1 true true).1
      (by decide),
   (dline_style_normalised (Window.create 24 80 0 0 3 5) 1 0 5 false false 5 9 1 true true).2.1
      (by decide)⟩

/-- C20. The value of `gGridDims`: each component is the grid extent reduced modulo 2^16,
also when the intermediate `int` product wraps at 32 bits. -/
theorem gGridDims_value (rows cols celly cellx : Nat) :
    gGridDims rows cols celly cellx
      = ((rows * celly + rows + 1) % 65536, (cols * cellx + cols + 1) % 65536)
    ∧ toUShort ((((rows * celly + (rows + 1) : Nat) : Int) + 2147483648) % 4294967296
        - 2147483648) = (gGridDims rows cols celly cellx).1
    ∧ toUShort ((((cols * cellx + (cols + 1) : Nat) : Int) + 2147483648) % 4294967296
        - 2147483648) = (gGridDims rows cols celly cellx).2 := by
  unfold gGridDims toUShort
  refine ⟨?_, ?_, ?_⟩
  · simp only [Nat.add_assoc]
  · simp only
    generalize rows * celly + (rows + 1) = p
    omega
  · simp only
    generalize cols * cellx + (cols + 1) = p
    omega

end Window

end npp

namespace npp

namespace Window

theorem wstrpFuel_eq : wstrpFuel = 281474976710655 + 1 + 1 := by decide

/-- A one-character string written at a position inside the window is one `wchar`. -/
theorem wstr_single {w : Window} (hX : w.DimX < 65536) (hY : w.DimY < 65536) {y x : Nat}
    (hy : y < w.DimY) (hx : x < w.DimX) (c color : Nat) (att : String) (wrap : Bool) :
    w.wstr (y, x) [c] color att wrap = some (w.wchar (y, x) c color att) := by
  have hin : w.checkCoord y x = true := (checkCoord_iff w y x).2 ⟨hy, hx⟩
  have hwrap : wstrpWrap w (y, x) wrap 0 0 0 = (0, 0) := by
    unfold wstrpWrap
    rw [if_neg]
    simp only [Nat.cast_zero, add_zero, sub_zero, ge_iff_le, Nat.cast_le, not_le]
    exact hx
  have hcx : toUShort ((x : Int) + (0 : Nat) - (0 : Nat)) = x := by
    unfold toUShort; omega
  unfold wstr wstrp
  simp only [hin, Bool.not_true, Bool.false_eq_true, if_false]
  rw [wstrpFuel_eq, wstrpLoop]
  simp only [List.length_singleton, Nat.lt_one_iff, if_true, hwrap, Nat.add_zero,
    Nat.mod_eq_of_lt (show y < 65536 by omega), hcx, hin, Bool.not_true, Bool.false_eq_true,
    if_false]
  rw [wstrpLoop]
  simp

/-- The guard of `dbox` passes when the box and the cell diagonally after it are inside
the window and both dimensions are at least 1. -/
theorem dbox_guard_false {w : Window} (hY : w.DimY < 65536) (hX : w.DimX < 65536)
    {y x dimy dimx : Nat} (hy : y + dimy < w.DimY) (hx : x + dimx < w.DimX)
    (h1 : 1 ≤ dimy) (h2 : 1 ≤ dimx) :
    (!w.checkCoord y x || !w.checkCoord ((y + dimy) % 65536) ((x + dimx) % 65536)
      || decide (dimy < 1) || decide (dimx < 1)) = false := by
  rw [(checkCoord_iff w y x).2 ⟨by omega, by omega⟩, Nat.mod_eq_of_lt (by omega),
    Nat.mod_eq_of_lt (by omega), (checkCoord_iff w _ _).2 ⟨hy, hx⟩]
  have e1 : decide (dimy < 1) = false := by simp; omega
  have e2 : decide (dimx < 1) = false := by simp; omega
  rw [e1, e2]
  rfl

/-- A box of at least 2x2 cells that passes the guard is four lines: left edge, right
edge, top edge, bottom edge. -/
theorem dbox_eq_lines {w : Window} (hY : w.DimY < 65536) (hX : w.DimX < 65536)
    {y x dimy dimx : Nat} (hy : y + dimy < w.DimY) (hx : x + dimx < w.DimX)
    (h1 : 2 ≤ dimy) (h2 : 2 ≤ dimx) (style : Nat × Nat) (color : Nat)
    (mergeable canMerge : Bool) :
    w.dbox y x dimy dimx style color mergeable canMerge
      = some ((((w.dline y x dimy true false style color mergeable canMerge).dline
          y (x + dimx - 1) dimy true false style color mergeable canMerge).dline
          y x dimx false false style color mergeable canMerge).dline
          (y + dimy - 1) x dimx false false style color mergeable canMerge) := by
  unfold dbox
  rw [dbox_guard_false hY hX hy hx (by omega) (by omega)]
  have e1 : toUShort ((x : Int) + dimx - 1) = x + dimx - 1 := by unfold toUShort; omega
  have e2 : toUShort ((y : Int) + dimy - 1) = y + dimy - 1 := by unfold toUShort; omega
  simp only [Bool.false_eq_true, if_false, e1, e2]
  rw [if_neg (by omega), if_neg (by omega), if_neg (by omega)]
  rfl

/-- C18. Degenerate boxes that pass the guard: a 1x1 box is the placeholder `□` written
as a plain character, a box of height 1 is `dhline`, a box of width 1 is `dvline`. -/
theorem dbox_degenerate (w : Window) (hw : w.WF) (y x : Nat) (style : Nat × Nat) (color : Nat)
    (mergeable canMerge : Bool) :
    (y + 1 < w.DimY → x + 1 < w.DimX →
      w.dbox y x 1 1 style color mergeable canMerge = some (w.wchar (y, x) 0x25A1 color "")
      ∧ (w.wchar (y, x) 0x25A1 color "").cellAt y x = lineCell 0x25A1 color false
      ∧ ∀ y' x', (y', x') ≠ (y, x) →
          (w.wchar (y, x) 0x25A1 color "").cellAt y' x' = w.cellAt y' x')
    ∧ (∀ W, 2 ≤ W → y + 1 < w.DimY → x + W < w.DimX →
        w.dbox y x 1 W style color mergeable canMerge
          = some (w.dhline y x W false style color mergeable canMerge))
    ∧ (∀ H, 2 ≤ H → y + H < w.DimY → x + 1 < w.DimX →
        w.dbox y x H 1 style color mergeable canMerge
          = some (w.dvline y x H false style color mergeable canMerge)) := by
  have hY : w.DimY < 65536 := hw.1
  have hX : w.DimX < 65536 := hw.2.1
  refine ⟨fun hy hx => ⟨?_, ?_, ?_⟩, fun W hW hy hx => ?_, fun H hH hy hx => ?_⟩
  · unfold dbox
    rw [dbox_guard_false hY hX hy hx (by omega) (by omega)]
    simp only [Bool.false_eq_true, if_false, and_self, if_true]
    exact wstr_single hX hY (by omega) (by omega) _ _ _ _
  · unfold wchar
    rw [wcharp_of_in ((checkCoord_iff w y x).2 ⟨by omega, by omega⟩),
      cellAt_setCell_of_WF hw (by omega) (by omega)]
    simp only [and_self, if_true, lineCell]
    rfl
  · intro y' x' hne
    exact wchar_cellAt_ne w (y, x) _ _ _ hne
  · unfold dbox
    rw [dbox_guard_false hY hX hy hx (by omega) (by omega)]
    simp only [Bool.false_eq_true, if_false]
    rw [if_neg (by omega), if_pos trivial]
  · unfold dbox
    rw [dbox_guard_false hY hX hy hx (by omega) (by omega)]
    simp only [Bool.false_eq_true, if_false]
    rw [if_neg (by omega), if_neg (by omega), if_pos trivial]

/-- C18, instances on a 4x6 window: the 1x1 box at (1, 2), the 1x3 box and the 2x1 box
at (0, 0). -/
theorem dbox_degenerate_witness :
    ((Window.create 24 80 0 0 4 6).dbox 1 2 1 1 (0, 0) 3 true true
        = some ((Window.create 24 80 0 0 4 6).wchar (1, 2) 0x25A1 3 "")
      ∧ ((Window.create 24 80 0 0 4 6).wchar (1, 2) 0x25A1 3 "").cellAt 1 2
          = lineCell 0x25A1 3 false)
    ∧ (Window.create 24 80 0 0 4 6).dbox 0 0 1 3 (2, 0) 3 true true
        = some ((Window.create 24 80 0 0 4 6).dhline 0 0 3 false (2, 0) 3 true true)
    ∧ (Window.create 24 80 0 0 4 6).dbox 0 0 2 1 (2, 0) 3 true true
        = some ((Window.create 24 80 0 0 4 6).dvline 0 0 2 false (2, 0) 3 true true) :=
  have h1 := (dbox_degenerate (Window.create 24 80 0 0 4 6) (by decide) 1 2 (0, 0) 3 true true).1
    (by decide) (by decide)
  have h2 := dbox_degenerate (Window.create 24 80 0 0 4 6) (by decide) 0 0 (2, 0) 3 true true
  ⟨⟨h1.1, h1.2.1⟩, h2.2.1 3 (by decide) (by decide) (by decide),
    h2.2.2 2 (by decide) (by decide) (by decide)⟩

/-- C19 at its failing inputs: `dbox` rejects every box whose far corner `(y + dimy,
x + dimx)` is not a cell of the window, so a box that touches the bottom or the right
edge is not drawn, and the border overload, which asks for the box `(0, 0, DimY, DimX)`,
never draws anything. -/
theorem dbox_at_edge_draws_nothing (w : Window) (hY : w.DimY < 65536) (hX : w.DimX < 65536) :
    (∀ (y x dimy dimx : Nat) (style : Nat × Nat) (color : Nat) (mergeable canMerge : Bool),
      (y + dimy = w.DimY ∨ x + dimx = w.DimX) →
      w.dbox y x dimy dimx style color mergeable canMerge = some w)
    ∧ (∀ (style : Nat × Nat) (color : Nat) (mergeable canMerge : Bool),
      w.dboxBorder style color mergeable canMerge = some w) := by
  have key : ∀ (y x dimy dimx : Nat) (style : Nat × Nat) (color : Nat)
      (mergeable canMerge : Bool), (y + dimy = w.DimY ∨ x + dimx = w.DimX) →
      w.dbox y x dimy dimx style color mergeable canMerge = some w := by
    intro y x dimy dimx style color mergeable canMerge h
    have hout : w.checkCoord ((y + dimy) % 65536) ((x + dimx) % 65536) = false := by
      rw [checkCoord_false_iff]
      rcases h with h | h
      · left; rw [h, Nat.mod_eq_of_lt hY]
      · right; rw [h, Nat.mod_eq_of_lt hX]
    unfold dbox
    rw [hout]
    simp
  refine ⟨key, fun style color mergeable canMerge => ?_⟩
  unfold dboxBorder
  exact key 0 0 w.DimY w.DimX style color false false (Or.inl (Nat.zero_add _))

/-- C19, instances on a fresh 5x5 window: the box `(0, 0, 5, 5)`, the box `(1, 1, 4, 3)`
that touches the bottom edge and the border overload leave the window as it was, with
the corner `(0, 0)` still blank. -/
theorem dbox_at_edge_draws_nothing_witness :
    (Window.create 24 80 0 0 5 5).dbox 0 0 5 5 (0, 0) 1 true true
      = some (Window.create 24 80 0 0 5 5)
    ∧ (Window.create 24 80 0 0 5 5).dbox 1 1 4 3 (0, 0) 1 true true
      = some (Window.create 24 80 0 0 5 5)
    ∧ (Window.create 24 80 0 0 5 5).dboxBorder (0, 0) 1 true true
      = some (Window.create 24 80 0 0 5 5)
    ∧ (Window.create 24 80 0 0 5 5).schar 0 0 = BLANK :=
  have h := dbox_at_edge_draws_nothing (Window.create 24 80 0 0 5 5) (by decide) (by decide)
  ⟨h.1 0 0 5 5 (0, 0) 1 true true (Or.inl (by decide)),
   h.1 1 1 4 3 (0, 0) 1 true true (Or.inl (by decide)),
   h.2 (0, 0) 1 true true, by decide⟩

end Window

end npp

namespace npp

namespace Window

/-! ### The path of a line -/

/-- The cells of the path of a `dline` and the cells off its path, for any orientation
and direction of travel. -/
theorem dline_path_and_frame {w : Window} (hw : w.WF) {y x length : Nat} (hy : y < w.DimY)
    (hx : x < w.DimX) (hL : length < 65536) (vertical rev : Bool) (style : Nat × Nat)
    (color : Nat) (mergeable canMerge : Bool) :
    (∀ i, i < dlineCount w y x length vertical rev →
      (w.dline y x length vertical rev style color mergeable canMerge).cellAt
          (if vertical then (if rev then y - i else y + i) else y)
          (if vertical then x else (if rev then x - i else x + i))
        = lineCell (dlineGlyph w y x length vertical rev style canMerge i) color mergeable)
    ∧ (∀ y' x', (∀ i, i < dlineCount w y x length vertical rev →
          ((if vertical then (if rev then y - i else y + i) else y),
            (if vertical then x else (if rev then x - i else x + i))) ≠ (y', x')) →
        (w.dline y x length vertical rev style color mergeable canMerge).cellAt y' x'
          = w.cellAt y' x') := by
  constructor
  · intro i hi
    have h := dline_cellAt_path hw hy hx hL vertical rev style color mergeable canMerge hi
    rw [(dlinePos_of_lt_count hw hy hx vertical rev hi).1] at h
    exact h
  · intro y' x' h
    apply dline_cellAt_off hw hy hx
    intro k hk
    rw [(dlinePos_of_lt_count hw hy hx vertical rev hk).1]
    exact h k hk

/-- C15. `dline` clips and touches only its own path: the cells of the path inside the
window are written (glyph, colour, no attributes, merge flag) and every other cell is
left unchanged; the path is `(y, x + i)` for `i < min L (DimX - x)`, reversed `(y, x - i)`
for `i < min L (x + 1)`, and the same in `y` and `DimY` for a vertical line. -/
theorem dline_clips_to_path (w : Window) (hw : w.WF) (y x L : Nat) (hy : y < w.DimY)
    (hx : x < w.DimX) (hL : L < 65536) (style : Nat × Nat) (color : Nat)
    (mergeable canMerge : Bool) :
    ((∀ i, i < min L (w.DimX - x) →
        (w.dline y x L false false style color mergeable canMerge).cellAt y (x + i)
          = lineCell (dlineGlyph w y x L false false style canMerge i) color mergeable)
      ∧ (∀ y' x', ¬ (y' = y ∧ x ≤ x' ∧ x' < x + min L (w.DimX - x)) →
        (w.dline y x L false false style color mergeable canMerge).cellAt y' x'
          = w.cellAt y' x'))
    ∧ ((∀ i, i < min L (x + 1) →
        (w.dline y x L false true style color mergeable canMerge).cellAt y (x - i)
          = lineCell (dlineGlyph w y x L false true style canMerge i) color mergeable)
      ∧ (∀ y' x', ¬ (y' = y ∧ x' ≤ x ∧ x < x' + min L (x + 1)) →
        (w.dline y x L false true style color mergeable canMerge).cellAt y' x'
          = w.cellAt y' x'))
    ∧ ((∀ i, i < min L (w.DimY - y) →
        (w.dline y x L true false style color mergeable canMerge).cellAt (y + i) x
          = lineCell (dlineGlyph w y x L true false style canMerge i) color mergeable)
      ∧ (∀ y' x', ¬ (x' = x ∧ y ≤ y' ∧ y' < y + min L (w.DimY - y)) →
        (w.dline y x L true false style color mergeable canMerge).cellAt y' x'
          = w.cellAt y' x'))
    ∧ ((∀ i, i < min L (y + 1) →
        (w.dline y x L true true style color mergeable canMerge).cellAt (y - i) x
          = lineCell (dlineGlyph w y x L true true style canMerge i) color mergeable)
      ∧ (∀ y' x', ¬ (x' = x ∧ y' ≤ y ∧ y < y' + min L (y + 1)) →
        (w.dline y x L true true style color mergeable canMerge).cellAt y' x'
          = w.cellAt y' x')) := by
  have h00 := dline_path_and_frame hw hy hx hL false false style color mergeable canMerge
  have h01 := dline_path_and_frame hw hy hx hL false true style color mergeable canMerge
  have h10 := dline_path_and_frame hw hy hx hL true false style color mergeable canMerge
  have h11 := dline_path_and_frame hw hy hx hL true true style color mergeable canMerge
  unfold dlineCount at h00 h01 h10 h11
  simp only [Bool.false_eq_true, if_false, if_true] at h00 h01 h10 h11
  refine ⟨⟨h00.1, fun y' x' hn => h00.2 y' x' (fun i hi h => hn ?_)⟩,
    ⟨h01.1, fun y' x' hn => h01.2 y' x' (fun i hi h => hn ?_)⟩,
    ⟨h10.1, fun y' x' hn => h10.2 y' x' (fun i hi h => hn ?_)⟩,
    ⟨h11.1, fun y' x' hn => h11.2 y' x' (fun i hi h => hn ?_)⟩⟩ <;>
  · have h1 := (Prod.mk.inj h).1
    have h2 := (Prod.mk.inj h).2
    rw [lt_min_iff] at hi
    omega

/-- C15, instances on a 3x5 window: a line of length 9 from (1, 3) is clipped to the
cells (1, 3) and (1, 4); reversed, a line of length 9 from (1, 1) reaches (1, 0); the
cell (1, 2) is off both paths. -/
theorem dline_clips_to_path_witness :
    ((Window.create 24 80 0 0 3 5).dline 1 3 9 false false (0, 0) 2 true true).cellAt 1 4
      = lineCell (dlineGlyph (Window.create 24 80 0 0 3 5) 1 3 9 false false (0, 0) true 1) 2 true
    ∧ ((Window.create 24 80 0 0 3 5).dline 1 3 9 false false (0, 0) 2 true true).cellAt 1 2
      = (Window.create 24 80 0 0 3 5).cellAt 1 2
    ∧ ((Window.create 24 80 0 0 3 5).dline 1 1 9 false true (0, 0) 2 true true).cellAt 1 (1 - 1)
      = lineCell (dlineGlyph (Window.create 24 80 0 0 3 5) 1 1 9 false true (0, 0) true 1) 2 true
    ∧ ((Window.create 24 80 0 0 3 5).dline 1 1 9 false true (0, 0) 2 true true).cellAt 1 2
      = (Window.create 24 80 0 0 3 5).cellAt 1 2 :=
  have h := dline_clips_to_path (Window.create 24 80 0 0 3 5) (by decide) 1 3 9 (by decide)
    (by decide) (by decide) (0, 0) 2 true true
  have h' := dline_clips_to_path (Window.create 24 80 0 0 3 5) (by decide) 1 1 9 (by decide)
    (by decide) (by decide) (0, 0) 2 true true
  ⟨h.1.1 1 (by decide), h.1.2 1 2 (by decide), h'.2.1.1 1 (by decide), h'.2.1.2 1 2 (by decide)⟩

/-- C17. Every cell `dline` writes ends with the caller's colour and the caller's
`mergeable` flag: this holds at every step performed, and a cell whose content differs
from before is such a cell. -/
theorem dline_cell_color_merge (w : Window) (hw : w.WF) (y x L : Nat) (hL : L < 65536)
    (vertical rev : Bool) (style : Nat × Nat) (color : Nat) (mergeable canMerge : Bool) :
    (∀ k, y < w.DimY → x < w.DimX → k < dlineCount w y x L vertical rev →
      ((w.dline y x L vertical rev style color mergeable canMerge).cellAt
          (dlinePos y x vertical rev k).1 (dlinePos y x vertical rev k).2).Color = color
      ∧ ((w.dline y x L vertical rev style color mergeable canMerge).cellAt
          (dlinePos y x vertical rev k).1 (dlinePos y x vertical rev k).2).CanMerge = mergeable)
    ∧ (∀ y' x', (w.dline y x L vertical rev style color mergeable canMerge).cellAt y' x'
          ≠ w.cellAt y' x' →
        ((w.dline y x L vertical rev style color mergeable canMerge).cellAt y' x').Color = color
        ∧ ((w.dline y x L vertical rev style color mergeable canMerge).cellAt y' x').CanMerge
            = mergeable) := by
  have key : ∀ k, y < w.DimY → x < w.DimX → k < dlineCount w y x L vertical rev →
      ((w.dline y x L vertical rev style color mergeable canMerge).cellAt
          (dlinePos y x vertical rev k).1 (dlinePos y x vertical rev k).2).Color = color
      ∧ ((w.dline y x L vertical rev style color mergeable canMerge).cellAt
          (dlinePos y x vertical rev k).1 (dlinePos y x vertical rev k).2).CanMerge
            = mergeable := by
    intro k hy hx hk
    rw [dline_cellAt_path hw hy hx hL vertical rev style color mergeable canMerge hk]
    exact ⟨rfl, rfl⟩
  refine ⟨key, fun y' x' hne => ?_⟩
  by_cases hin : w.checkCoord y x = true
  · obtain ⟨hy, hx⟩ := (checkCoord_iff w y x).1 hin
    by_cases hex : ∃ k, k < dlineCount w y x L vertical rev
        ∧ dlinePos y x vertical rev k = (y', x')
    · obtain ⟨k, hk, hp⟩ := hex
      have := key k hy hx hk
      rw [hp] at this
      exact this
    · exfalso
      apply hne
      apply dline_cellAt_off hw hy hx
      intro k hk hp
      exact hex ⟨k, hk, hp⟩
  · exfalso
    apply hne
    rw [dline_of_rejected w y x L vertical rev style color mergeable canMerge
      (Or.inl (by simpa using hin))]

/-- C17, instances on a 3x5 window that holds a mergeable light line in row 1: a heavy
vertical line drawn over it in colour 4 with `mergeable = false`, once merging and once
not, leaves the crossing cell (1, 2) with colour 4 and not mergeable. -/
theorem dline_cell_color_merge_witness :
    ((((Window.create 24 80 0 0 3 5).dline 1 0 5 false false (0, 0) 2 true true).dline
        0 2 3 true false (2, 0) 4 false true).cellAt 1 2).Color = 4
    ∧ ((((Window.create 24 80 0 0 3 5).dline 1 0 5 false false (0, 0) 2 true true).dline
        0 2 3 true false (2, 0) 4 false true).cellAt 1 2).CanMerge = false
    ∧ ((((Window.create 24 80 0 0 3 5).dline 1 0 5 false false (0, 0) 2 true true).dline
        0 2 3 true false (2, 0) 4 false false).cellAt 1 2).CanMerge = false :=
  have h := (dline_cell_color_merge
    ((Window.create 24 80 0 0 3 5).dline 1 0 5 false false (0, 0) 2 true true) (by decide!)
    0 2 3 (by decide) true false (2, 0) 4 false true).1 1 (by decide!) (by decide!) (by decide!)
  have h' := (dline_cell_color_merge
    ((Window.create 24 80 0 0 3 5).dline 1 0 5 false false (0, 0) 2 true true) (by decide!)
    0 2 3 (by decide) true false (2, 0) 4 false false).1 1 (by decide!) (by decide!) (by decide!)
  ⟨h.1, h.2, h'.2⟩

end Window

end npp

namespace npp

namespace Window

/-! ### A horizontal line drawn without merging -/

/-- Without neighbours, every step of a horizontal line asks for the vector
`(none, none, cstyle, cstyle)`, the end steps included. -/
theorem dlineDirs_blank_horizontal (i length c : Nat) (rev : Bool) :
    dlineDirs [STYLE_NONE, STYLE_NONE, STYLE_NONE, STYLE_NONE] i length false
      (dlineTdir1 false rev) (dlineTdir2 false rev) c = [0, 0, c, c] := by
  cases rev <;> by_cases h0 : i = 0 <;> by_cases h1 : i = length - 1 <;>
    simp [dlineDirs, dlineTdir1, dlineTdir2, h0, h1, DIR_RIGHT, DIR_UP, DIR_DOWN, STYLE_NONE]

set_option maxRecDepth 1000000 in
/-- For every valid style the glyph `dline` picks for a free-standing horizontal step is
a non-blank glyph of the key whose vector is `(none, none, cstyle, cstyle)`. -/
theorem dlinePiece_horizontal_catalog : ∀ s ∈ List.range 8, ∀ d ∈ List.range 6,
    dlinePiece [0, 0, dlineCstyle s false, dlineCstyle s false] (s, d) ≠ BLANK
    ∧ (dlinePiece [0, 0, dlineCstyle s false, dlineCstyle s false] (s, d),
        [0, 0, dlineCstyle s false, dlineCstyle s false]) ∈ Keys.LineDrawing := by
  decide!

/-- The horizontal connection style of each shape. -/
theorem dlineCstyle_horizontal : ∀ s ∈ List.range 8,
    dlineCstyle s false = (if s ∈ [LIGHT_HARD, LIGHT_SOFT, HEAVY_VERTICAL, DOUBLED_VERTICAL]
      then STYLE_LIGHT else if s ∈ [HEAVY_BOTH, HEAVY_HORIZONTAL] then STYLE_HEAVY
      else STYLE_DOUBLED) := by
  decide

/-- C11. A horizontal `dline` with `canMerge = false`, a valid style, an in-bounds start
`(R, C)` and `1 ≤ L`, `C + L ≤ DimX` writes exactly the cells `(R, C) .. (R, C + L - 1)`:
each of them, the end cells included, holds a non-blank glyph of the key whose vector
is `(none, none, c, c)` with `c` the style's horizontal connection style (light for
the light shapes, `HEAVY_VERTICAL` and `DOUBLED_VERTICAL`, heavy for `HEAVY_BOTH` and
`HEAVY_HORIZONTAL`, doubled otherwise), and every other cell is unchanged. -/
theorem dline_horizontal_no_merge (w : Window) (hw : w.WF) (R C L s d color : Nat)
    (mergeable : Bool) (hR : R < w.DimY) (hL : 1 ≤ L) (hC : C + L ≤ w.DimX)
    (hs : s < 8) (hd : d < 6) :
    (∀ i, i < L →
      (w.dline R C L false false (s, d) color mergeable false).schar R (C + i) ≠ BLANK
      ∧ ((w.dline R C L false false (s, d) color mergeable false).schar R (C + i),
          [STYLE_NONE, STYLE_NONE, dlineCstyle s false, dlineCstyle s false])
            ∈ Keys.LineDrawing
      ∧ (w.dline R C L false false (s, d) color mergeable false).scolor R (C + i) = color
      ∧ (w.dline R C L false false (s, d) color mergeable false).smerge R (C + i) = mergeable)
    ∧ (∀ y' x', ¬ (y' = R ∧ C ≤ x' ∧ x' < C + L) →
      (w.dline R C L false false (s, d) color mergeable false).cellAt y' x' = w.cellAt y' x')
    ∧ dlineCstyle s false = (if s ∈ [LIGHT_HARD, LIGHT_SOFT, HEAVY_VERTICAL, DOUBLED_VERTICAL]
        then STYLE_LIGHT else if s ∈ [HEAVY_BOTH, HEAVY_HORIZONTAL] then STYLE_HEAVY
        else STYLE_DOUBLED) := by
  have hx : C < w.DimX := by omega
  have hL' : L < 65536 := by have := hw.2.1; omega
  have hcount : dlineCount w R C L false false = L := by
    unfold dlineCount
    simp only [Bool.false_eq_true, if_false]
    omega
  have hpf := dline_path_and_frame hw hR hx hL' false false (s, d) color mergeable false
  rw [hcount] at hpf
  simp only [Bool.false_eq_true, if_false] at hpf
  have hst : dlineStyle (s, d) = (s, d) := by
    unfold dlineStyle
    simp only [ge_iff_le]
    rw [if_neg (by omega), if_neg (by omega)]
  have hg : ∀ i, dlineGlyph w R C L false false (s, d) false i
      = dlinePiece [0, 0, dlineCstyle s false, dlineCstyle s false] (s, d) := by
    intro i
    unfold dlineGlyph
    rw [hst]
    have hn : ∀ py px, dlineNeighbours w py px false
        = [STYLE_NONE, STYLE_NONE, STYLE_NONE, STYLE_NONE] := fun _ _ => rfl
    rw [hn, dlineDirs_blank_horizontal]
  have hcat := dlinePiece_horizontal_catalog s (List.mem_range.2 hs) d (List.mem_range.2 hd)
  refine ⟨fun i hi => ?_, fun y' x' hn => hpf.2 y' x' (fun i hi h => hn ?_),
    dlineCstyle_horizontal s (List.mem_range.2 hs)⟩
  · have hcell := hpf.1 i hi
    rw [hg] at hcell
    have hWF := dline_WF hw R C L false false (s, d) color mergeable false
    have hin : (w.dline R C L false false (s, d) color mergeable false).checkCoord R (C + i)
        = true := by
      rw [checkCoord_iff, hWF.2.1, hWF.2.2]
      omega
    unfold schar scolor smerge
    rw [hin, hcell]
    exact ⟨hcat.1, hcat.2, rfl, rfl⟩
  · have h1 := (Prod.mk.inj h).1
    have h2 := (Prod.mk.inj h).2
    omega

/-- C11, instance: on a 3x5 window whose row 1 already holds a mergeable vertical bar at
(1, 2), a heavy line of length 3 from (1, 1) drawn without merging leaves the heavy
horizontal glyph U+2501 at (1, 2) and at the end cell (1, 3), and leaves (1, 0) alone. -/
theorem dline_horizontal_no_merge_witness :
    ((((Window.create 24 80 0 0 3 5).dline 0 2 3 true false (0, 0) 1 true true).dline
        1 1 3 false false (2, 0) 1 true false).schar 1 (1 + 1) = 0x2501)
    ∧ ((((Window.create 24 80 0 0 3 5).dline 0 2 3 true false (0, 0) 1 true true).dline
        1 1 3 false false (2, 0) 1 true false).schar 1 (1 + 2) = 0x2501)
    ∧ ((((Window.create 24 80 0 0 3 5).dline 0 2 3 true false (0, 0) 1 true true).dline
        1 1 3 false false (2, 0) 1 true false).cellAt 1 0
      = ((Window.create 24 80 0 0 3 5).dline 0 2 3 true false (0, 0) 1 true true).cellAt 1 0) :=
  have h := dline_horizontal_no_merge
    ((Window.create 24 80 0 0 3 5).dline 0 2 3 true false (0, 0) 1 true true) (by decide!)
    1 1 3 2 0 1 true (by decide!) (by decide) (by decide!) (by decide) (by decide)
  ⟨by decide!, by decide!, h.2.1 1 0 (by decide)⟩

set_option maxRecDepth 1000000 in
/-- C12. On a fresh 5x5 window, `dhline(2, 0, 5)` in the style (LIGHT_HARD, DASHED_NONE)
with the default merge flags leaves five non-blank glyphs of the key in row 2 whose up
and down components are none; the interior cells (2, 1), (2, 2), (2, 3) hold U+2500;
the end cell (2, 0) is connected to the right and the end cell (2, 4) to the left; every
cell outside row 2 is the default blank cell. -/
theorem dhline_fresh_scenario :
    (∀ x ∈ List.range 5,
      ((Window.create 24 80 0 0 5 5).dhline 2 0 5 false (LIGHT_HARD, DASHED_NONE)).schar 2 x
        ≠ BLANK
      ∧ (∃ e ∈ Keys.LineDrawing,
          e.1 = ((Window.create 24 80 0 0 5 5).dhline 2 0 5 false
            (LIGHT_HARD, DASHED_NONE)).schar 2 x
          ∧ e.2.getD DIR_UP 0 = STYLE_NONE ∧ e.2.getD DIR_DOWN 0 = STYLE_NONE)
      ∧ ((Window.create 24 80 0 0 5 5).dhline 2 0 5 false
            (LIGHT_HARD, DASHED_NONE)).getConnectStyle 2 x DIR_UP = STYLE_NONE
      ∧ ((Window.create 24 80 0 0 5 5).dhline 2 0 5 false
            (LIGHT_HARD, DASHED_NONE)).getConnectStyle 2 x DIR_DOWN = STYLE_NONE)
    ∧ (∀ x ∈ [1, 2, 3],
      ((Window.create 24 80 0 0 5 5).dhline 2 0 5 false (LIGHT_HARD, DASHED_NONE)).schar 2 x
        = 0x2500)
    ∧ ((Window.create 24 80 0 0 5 5).dhline 2 0 5 false
          (LIGHT_HARD, DASHED_NONE)).getConnectStyle 2 0 DIR_RIGHT = STYLE_LIGHT
    ∧ ((Window.create 24 80 0 0 5 5).dhline 2 0 5 false
          (LIGHT_HARD, DASHED_NONE)).getConnectStyle 2 4 DIR_LEFT = STYLE_LIGHT
    ∧ (∀ y ∈ List.range 5, ∀ x ∈ List.range 5, y ≠ 2 →
      ((Window.create 24 80 0 0 5 5).dhline 2 0 5 false (LIGHT_HARD, DASHED_NONE)).cellAt y x
        = {})
    ∧ Defaults.Style = (LIGHT_HARD, DASHED_NONE)
    ∧ (Window.create 24 80 0 0 5 5).Grid = List.replicate 5 (List.replicate 5 {}) := by
  decide!

end Window

end npp

namespace npp

namespace Window

/-! ### Connection styles of cells drawn by `dline` -/

/-- A cell that is not mergeable offers no connection. -/
theorem getConnectStyle_not_mergeable {w : Window} {y x : Nat}
    (h : (w.cellAt y x).CanMerge = false) (dir : Nat) : w.getConnectStyle y x dir = 0 := by
  unfold getConnectStyle smerge
  by_cases hin : w.checkCoord y x = true
  · rw [hin, h]
    simp
  · have hin' : w.checkCoord y x = false := by simpa using hin
    rw [hin']
    simp

/-- A mergeable line cell inside the window offers the components of the vector the
key gives its glyph. -/
theorem getConnectStyle_lineCell {w : Window} {y x g c : Nat} {v : List Nat}
    (hy : y < w.DimY) (hx : x < w.DimX) (hcell : w.cellAt y x = lineCell g c true)
    (hcat : (g, v) ∈ Keys.LineDrawing) {dir : Nat} (hdir : dir ≤ 3) :
    w.getConnectStyle y x dir = v.getD dir 0 :=
  getConnectStyle_of_entry hcat ((checkCoord_iff w y x).2 ⟨hy, hx⟩) hdir
    (by rw [hcell]; rfl) (by rw [hcell]; rfl)

/-- In a window without mergeable cells `dline` finds no neighbour to connect to. -/
theorem dlineNeighbours_fresh {w : Window} (h : ∀ y x, (w.cellAt y x).CanMerge = false)
    (py px : Nat) (canMerge : Bool) :
    dlineNeighbours w py px canMerge = [0, 0, 0, 0] := by
  unfold dlineNeighbours
  cases canMerge
  · rfl
  · simp only [if_true, getConnectStyle_not_mergeable (h _ _)]

/-- A style inside the ranges of both codes is used as it is. -/
theorem dlineStyle_valid {s d : Nat} (hs : s < 8) (hd : d < 6) : dlineStyle (s, d) = (s, d) := by
  unfold dlineStyle
  simp only [ge_iff_le]
  rw [if_neg (by omega), if_neg (by omega)]

/-- The cells of a line that is not reversed and fits in the window, drawn with
`mergeable = canMerge = true`: each cell of the path holds the glyph chosen from the
neighbours the cell had before the line, every other cell is unchanged. -/
theorem dline_forward_cells {w : Window} (hw : w.WF) {y x L : Nat} (vertical : Bool)
    (hL : 1 ≤ L) (hy : (if vertical then y + L else y + 1) ≤ w.DimY)
    (hx : (if vertical then x + 1 else x + L) ≤ w.DimX) {s d : Nat} (hs : s < 8) (hd : d < 6)
    (color : Nat) (y' x' : Nat) :
    (w.dline y x L vertical false (s, d) color true true).cellAt y' x'
      = if (if vertical then x' = x ∧ y ≤ y' ∧ y' < y + L else y' = y ∧ x ≤ x' ∧ x' < x + L)
        then lineCell (dlinePiece (dlineDirs (dlineNeighbours w y' x' true)
            (if vertical then y' - y else x' - x) L vertical (dlineTdir1 vertical false)
            (dlineTdir2 vertical false) (dlineCstyle s vertical)) (s, d)) color true
        else w.cellAt y' x' := by
  have hY := hw.1
  have hX := hw.2.1
  have hy0 : y < w.DimY := by cases vertical <;> simp at hy <;> omega
  have hx0 : x < w.DimX := by cases vertical <;> simp at hx <;> omega
  have hL' : L < 65536 := by cases vertical <;> simp at hy hx <;> omega
  have hcount : dlineCount w y x L vertical false = L := by
    unfold dlineCount
    cases vertical <;> simp at hy hx ⊢ <;> omega
  have hpf := dline_path_and_frame hw hy0 hx0 hL' vertical false (s, d) color true true
  rw [hcount] at hpf
  simp only [Bool.false_eq_true, if_false] at hpf
  by_cases hc : (if vertical then x' = x ∧ y ≤ y' ∧ y' < y + L else y' = y ∧ x ≤ x' ∧ x' < x + L)
  · rw [if_pos hc]
    have hk : (if vertical then y' - y else x' - x) < L := by
      cases vertical <;> simp at hc ⊢ <;> omega
    have hp := hpf.1 _ hk
    have e1 : (if vertical then y + (if vertical then y' - y else x' - x) else y) = y' := by
      cases vertical <;> simp at hc ⊢ <;> omega
    have e2 : (if vertical then x else x + (if vertical then y' - y else x' - x)) = x' := by
      cases vertical <;> simp at hc ⊢ <;> omega
    rw [e1, e2] at hp
    rw [hp]
    unfold dlineGlyph
    have hk' : (if vertical then y' - y else x' - x) < dlineCount w y x L vertical false := by
      rw [hcount]; exact hk
    rw [(dlinePos_of_lt_count hw hy0 hx0 vertical false hk').1, dlineStyle_valid hs hd]
    simp only [Bool.false_eq_true, if_false]
    rw [e1, e2]
  · rw [if_neg hc]
    apply hpf.2
    intro i hi h
    apply hc
    have h1 := (Prod.mk.inj h).1
    have h2 := (Prod.mk.inj h).2
    cases vertical <;> simp at h1 h2 ⊢ <;> omega

end Window

end npp

namespace npp

namespace Window

/-! ### The four lines of a box on a fresh window -/

/-- The directions a forward horizontal line asks for at step `k`. -/
theorem dlineDirs_horizontal (a b c e k L cs : Nat) :
    dlineDirs [a, b, c, e] k L false (dlineTdir1 false false) (dlineTdir2 false false) cs
      = [a, b, if k = 0 then (if c = 0 ∧ a = 0 ∧ b = 0 then cs else c) else cs,
          if k = L - 1 then (if e = 0 ∧ a = 0 ∧ b = 0 then cs else e) else cs] := by
  unfold dlineDirs
  by_cases h0 : k = 0
  · by_cases h1 : k = L - 1
    · simp only [if_pos h0, if_pos h1]
      simp [dlineTdir1, dlineTdir2, DIR_RIGHT, DIR_UP, DIR_DOWN, STYLE_NONE]
    · simp only [if_pos h0, if_neg h1]
      simp [dlineTdir1, dlineTdir2, DIR_RIGHT, DIR_UP, DIR_DOWN, STYLE_NONE]
  · by_cases h1 : k = L - 1
    · simp only [if_neg h0, if_pos h1]
      simp [dlineTdir1, dlineTdir2, DIR_RIGHT, DIR_UP, DIR_DOWN, STYLE_NONE]
    · simp only [if_neg h0, if_neg h1]
      simp [dlineTdir1, dlineTdir2, DIR_RIGHT, DIR_UP, DIR_DOWN, STYLE_NONE]

/-- The directions a forward vertical line asks for at step `k`. -/
theorem dlineDirs_vertical (a b c e k L cs : Nat) :
    dlineDirs [a, b, c, e] k L true (dlineTdir1 true false) (dlineTdir2 true false) cs
      = [if k = 0 then (if a = 0 ∧ c = 0 ∧ e = 0 then cs else a) else cs,
          if k = L - 1 then (if b = 0 ∧ c = 0 ∧ e = 0 then cs else b) else cs, c, e] := by
  unfold dlineDirs
  by_cases h0 : k = 0
  · by_cases h1 : k = L - 1
    · simp only [if_pos h0, if_pos h1]
      simp [dlineTdir1, dlineTdir2, DIR_RIGHT, DIR_LEFT, DIR_DOWN, STYLE_NONE]
    · simp only [if_pos h0, if_neg h1]
      simp [dlineTdir1, dlineTdir2, DIR_RIGHT, DIR_LEFT, DIR_DOWN, STYLE_NONE]
  · by_cases h1 : k = L - 1
    · simp only [if_neg h0, if_pos h1]
      simp [dlineTdir1, dlineTdir2, DIR_RIGHT, DIR_LEFT, DIR_DOWN, STYLE_NONE]
    · simp only [if_neg h0, if_neg h1]
      simp [dlineTdir1, dlineTdir2, DIR_RIGHT, DIR_LEFT, DIR_DOWN, STYLE_NONE]

/-- A valid shape connects in both orientations. -/
theorem dlineCstyle_pos : ∀ s ∈ List.range 8, ∀ v ∈ [true, false], dlineCstyle s v ≠ 0 := by
  decide

set_option maxRecDepth 1000000 in
/-- For every valid style the glyphs `dline` picks for the sides and the corners of a
box are non-blank glyphs of the key with the vector asked for. -/
theorem box_glyphs_catalog : ∀ s ∈ List.range 8, ∀ d ∈ List.range 6,
    ∀ v ∈ [[dlineCstyle s true, dlineCstyle s true, 0, 0],
           [0, 0, dlineCstyle s false, dlineCstyle s false],
           [0, dlineCstyle s true, 0, dlineCstyle s false],
           [0, dlineCstyle s true, dlineCstyle s false, 0],
           [dlineCstyle s true, 0, 0, dlineCstyle s false],
           [dlineCstyle s true, 0, dlineCstyle s false, 0]],
    dlinePiece v (s, d) ≠ BLANK ∧ (dlinePiece v (s, d), v) ∈ Keys.LineDrawing := by
  decide!

/-- A forward vertical line none of whose cells has a neighbour to connect to: its
cells all hold the plain vertical glyph of the style. -/
theorem dvline_free_cells {w : Window} (hw : w.WF) {y x L : Nat} (hL : 1 ≤ L)
    (hy : y + L ≤ w.DimY) (hx : x < w.DimX) {s d : Nat} (hs : s < 8) (hd : d < 6) (color : Nat)
    (hN : ∀ y', y ≤ y' → y' < y + L → dlineNeighbours w y' x true = [0, 0, 0, 0])
    (y' x' : Nat) :
    (w.dline y x L true false (s, d) color true true).cellAt y' x'
      = if x' = x ∧ y ≤ y' ∧ y' < y + L
        then lineCell (dlinePiece [dlineCstyle s true, dlineCstyle s true, 0, 0] (s, d)) color true
        else w.cellAt y' x' := by
  have h := dline_forward_cells (y := y) (x := x) hw true hL (by simpa using hy)
    (by simp; omega) hs hd color y' x'
  simp only [if_true] at h
  rw [h]
  by_cases hc : x' = x ∧ y ≤ y' ∧ y' < y + L
  · rw [if_pos hc, if_pos hc, hc.1, hN y' hc.2.1 hc.2.2, dlineDirs_vertical]
    simp
  · rw [if_neg hc, if_neg hc]

end Window

end npp

namespace npp

namespace Window

/-- Connection styles in a window described cell by cell: a cell known to hold the
glyph picked for a vector the key knows offers the components of that vector. -/
theorem getConnectStyle_piece {w : Window} {y x : Nat} (hy : y < w.DimY) (hx : x < w.DimX)
    {v : List Nat} {st : Nat × Nat} {color : Nat}
    (hcell : w.cellAt y x = lineCell (dlinePiece v st) color true)
    (hcat : (dlinePiece v st, v) ∈ Keys.LineDrawing) {dir : Nat} (hdir : dir ≤ 3) :
    w.getConnectStyle y x dir = v.getD dir 0 :=
  getConnectStyle_lineCell hy hx hcell hcat hdir

/-- The two vertical sides of a box drawn on a window without mergeable cells. -/
theorem box_sides_cells {w : Window} (hw : w.WF)
    (hfresh : ∀ y x, (w.cellAt y x).CanMerge = false) {Y X H W : Nat} (hH : 1 ≤ H)
    (hW : 2 ≤ W) (hY : Y + H ≤ w.DimY) (hX : X + W ≤ w.DimX) {s d : Nat} (hs : s < 8)
    (hd : d < 6) (color : Nat) (y' x' : Nat) :
    ((w.dline Y X H true false (s, d) color true true).dline Y (X + W - 1) H true false (s, d)
        color true true).cellAt y' x'
      = if (x' = X ∨ x' = X + W - 1) ∧ Y ≤ y' ∧ y' < Y + H
        then lineCell (dlinePiece [dlineCstyle s true, dlineCstyle s true, 0, 0] (s, d)) color true
        else w.cellAt y' x' := by
  have hcat := (box_glyphs_catalog s (List.mem_range.2 hs) d (List.mem_range.2 hd)
    [dlineCstyle s true, dlineCstyle s true, 0, 0] (by simp)).2
  have hD1 := dvline_free_cells hw hH hY (show X < w.DimX by omega) hs hd color
    (fun y' _ _ => dlineNeighbours_fresh hfresh y' X true)
  have hWF1 := dline_WF hw Y X H true false (s, d) color true true
  have g1 : ∀ a b dir, dir ≤ 3 →
      (w.dline Y X H true false (s, d) color true true).getConnectStyle a b dir
        = if b = X ∧ Y ≤ a ∧ a < Y + H
          then [dlineCstyle s true, dlineCstyle s true, 0, 0].getD dir 0 else 0 := by
    intro a b dir hdir
    by_cases hc : b = X ∧ Y ≤ a ∧ a < Y + H
    · rw [if_pos hc]
      have hcell := hD1 a b
      rw [if_pos hc] at hcell
      exact getConnectStyle_piece (by rw [hWF1.2.1]; omega) (by rw [hWF1.2.2]; omega) hcell hcat
        hdir
    · rw [if_neg hc]
      apply getConnectStyle_not_mergeable
      rw [hD1, if_neg hc]
      exact hfresh a b
  have hD2 := dvline_free_cells hWF1.1 hH (by rw [hWF1.2.1]; exact hY)
    (show X + W - 1 < (w.dline Y X H true false (s, d) color true true).DimX by
      rw [hWF1.2.2]; omega) hs hd color (by
    intro y1 h1 h2
    rw [dlineNeighbours_eq hWF1.1.1 hWF1.1.2.1 (by rw [hWF1.2.1]; omega) (by rw [hWF1.2.2]; omega),
      g1 _ _ _ (by decide), g1 _ _ _ (by decide), g1 _ _ _ (by decide), g1 _ _ _ (by decide)]
    split_ifs <;> first | rfl | omega)
  rw [hD2, hD1]
  by_cases h2 : x' = X + W - 1 ∧ Y ≤ y' ∧ y' < Y + H
  · rw [if_pos h2, if_pos ⟨Or.inr h2.1, h2.2⟩]
  · rw [if_neg h2]
    by_cases h1 : x' = X ∧ Y ≤ y' ∧ y' < Y + H
    · rw [if_pos h1, if_pos ⟨Or.inl h1.1, h1.2⟩]
    · rw [if_neg h1, if_neg (by tauto)]

/-- Connection styles after the two vertical sides of a box. -/
theorem box_sides_connect {w : Window} (hw : w.WF)
    (hfresh : ∀ y x, (w.cellAt y x).CanMerge = false) {Y X H W : Nat} (hH : 1 ≤ H)
    (hW : 2 ≤ W) (hY : Y + H ≤ w.DimY) (hX : X + W ≤ w.DimX) {s d : Nat} (hs : s < 8)
    (hd : d < 6) (color : Nat) (a b : Nat) {dir : Nat} (hdir : dir ≤ 3) :
    ((w.dline Y X H true false (s, d) color true true).dline Y (X + W - 1) H true false (s, d)
        color true true).getConnectStyle a b dir
      = if (b = X ∨ b = X + W - 1) ∧ Y ≤ a ∧ a < Y + H
        then [dlineCstyle s true, dlineCstyle s true, 0, 0].getD dir 0 else 0 := by
  have hcat := (box_glyphs_catalog s (List.mem_range.2 hs) d (List.mem_range.2 hd)
    [dlineCstyle s true, dlineCstyle s true, 0, 0] (by simp)).2
  have hWF1 := dline_WF hw Y X H true false (s, d) color true true
  have hWF2 := dline_WF hWF1.1 Y (X + W - 1) H true false (s, d) color true true
  have hD := box_sides_cells hw hfresh hH hW hY hX hs hd color a b
  by_cases hc : (b = X ∨ b = X + W - 1) ∧ Y ≤ a ∧ a < Y + H
  · rw [if_pos hc] at hD ⊢
    exact getConnectStyle_piece (by rw [hWF2.2.1, hWF1.2.1]; omega)
      (by rw [hWF2.2.2, hWF1.2.2]; omega) hD hcat hdir
  · rw [if_neg hc] at hD ⊢
    apply getConnectStyle_not_mergeable
    rw [hD]
    exact hfresh a b

/-- The sides and the top of a box drawn on a window without mergeable cells. -/
theorem box_top_cells {w : Window} (hw : w.WF)
    (hfresh : ∀ y x, (w.cellAt y x).CanMerge = false) {Y X H W : Nat} (hH : 2 ≤ H)
    (hW : 2 ≤ W) (hY : Y + H ≤ w.DimY) (hX : X + W ≤ w.DimX) {s d : Nat} (hs : s < 8)
    (hd : d < 6) (color : Nat) (y' x' : Nat) :
    (((w.dline Y X H true false (s, d) color true true).dline Y (X + W - 1) H true false (s, d)
        color true true).dline Y X W false false (s, d) color true true).cellAt y' x'
      = if y' = Y ∧ X ≤ x' ∧ x' < X + W
        then lineCell (dlinePiece [0, if x' = X ∨ x' = X + W - 1 then dlineCstyle s true else 0,
          if x' = X then 0 else dlineCstyle s false,
          if x' = X + W - 1 then 0 else dlineCstyle s false] (s, d)) color true
        else if (x' = X ∨ x' = X + W - 1) ∧ Y ≤ y' ∧ y' < Y + H
        then lineCell (dlinePiece [dlineCstyle s true, dlineCstyle s true, 0, 0] (s, d)) color true
        else w.cellAt y' x' := by
  have hcv := dlineCstyle_pos s (List.mem_range.2 hs) true (by simp)
  have hWF1 := dline_WF hw Y X H true false (s, d) color true true
  have hWF2 := dline_WF hWF1.1 Y (X + W - 1) H true false (s, d) color true true
  have g2 := fun a b dir (h : dir ≤ 3) =>
    @box_sides_connect w hw hfresh Y X H W (by omega) hW hY hX s d hs hd color a b dir h
  have h := dline_forward_cells (y := Y) (x := X) (L := W) hWF2.1 false (by omega)
    (by rw [hWF2.2.1, hWF1.2.1]; simp; omega) (by rw [hWF2.2.2, hWF1.2.2]; simpa using hX)
    hs hd color y' x'
  simp only [Bool.false_eq_true, if_false] at h
  rw [h]
  by_cases hc : y' = Y ∧ X ≤ x' ∧ x' < X + W
  · rw [if_pos hc, if_pos hc]
    rw [dlineNeighbours_eq hWF2.1.1 hWF2.1.2.1 (by rw [hWF2.2.1, hWF1.2.1]; omega)
      (by rw [hWF2.2.2, hWF1.2.2]; omega),
      g2 _ _ _ (by decide), g2 _ _ _ (by decide), g2 _ _ _ (by decide), g2 _ _ _ (by decide),
      dlineDirs_horizontal]
    congr 2
    generalize dlineCstyle s true = cv at hcv
    generalize dlineCstyle s false = ch
    simp only [DIR_UP, DIR_DOWN, DIR_LEFT, DIR_RIGHT, List.getD_cons_zero, List.getD_cons_succ]
    obtain ⟨rfl, h1, h2⟩ := hc
    have eu : (if y' = 0 then 0
        else if (x' = X ∨ x' = X + W - 1) ∧ y' ≤ y' - 1 ∧ y' - 1 < y' + H then cv else 0) = 0 := by
      split_ifs <;> first | rfl | omega
    have ed : (if (x' = X ∨ x' = X + W - 1) ∧ y' ≤ y' + 1 ∧ y' + 1 < y' + H then cv else 0)
        = if x' = X ∨ x' = X + W - 1 then cv else 0 := by
      split_ifs <;> first | rfl | omega
    simp only [eu, ed, ite_self]
    split_ifs <;> first | rfl | omega
  · rw [if_neg hc, if_neg hc]
    exact box_sides_cells hw hfresh (by omega) hW hY hX hs hd color y' x'

/-- The vector of a cell of the top or bottom line of a box is one of the vectors the
key is known to hold for the style. -/
theorem box_row_vec_mem (X W b cv ch : Nat) (hW : 2 ≤ W) (top : Bool) :
    [if top then 0 else (if b = X ∨ b = X + W - 1 then cv else 0),
      if top then (if b = X ∨ b = X + W - 1 then cv else 0) else 0,
      if b = X then 0 else ch, if b = X + W - 1 then 0 else ch]
      ∈ [[cv, cv, 0, 0], [0, 0, ch, ch], [0, cv, 0, ch], [0, cv, ch, 0], [cv, 0, 0, ch],
          [cv, 0, ch, 0]] := by
  by_cases ha : b = X
  · have hb : ¬ b = X + W - 1 := by omega
    have hor : b = X ∨ b = X + W - 1 := Or.inl ha
    simp only [if_pos ha, if_neg hb, if_pos hor]
    cases top <;> simp
  · by_cases hb : b = X + W - 1
    · have hor : b = X ∨ b = X + W - 1 := Or.inr hb
      simp only [if_neg ha, if_pos hb, if_pos hor]
      cases top <;> simp
    · have hor : ¬ (b = X ∨ b = X + W - 1) := by tauto
      simp only [if_neg ha, if_neg hb, if_neg hor]
      cases top <;> simp

end Window

end npp

namespace npp

namespace Window

/-- Connection styles after the sides and the top of a box. -/
theorem box_top_connect {w : Window} (hw : w.WF)
    (hfresh : ∀ y x, (w.cellAt y x).CanMerge = false) {Y X H W : Nat} (hH : 2 ≤ H)
    (hW : 2 ≤ W) (hY : Y + H ≤ w.DimY) (hX : X + W ≤ w.DimX) {s d : Nat} (hs : s < 8)
    (hd : d < 6) (color : Nat) (a b : Nat) {dir : Nat} (hdir : dir ≤ 3) :
    (((w.dline Y X H true false (s, d) color true true).dline Y (X + W - 1) H true false (s, d)
        color true true).dline Y X W false false (s, d) color true true).getConnectStyle a b dir
      = if a = Y ∧ X ≤ b ∧ b < X + W
        then [0, if b = X ∨ b = X + W - 1 then dlineCstyle s true else 0,
          if b = X then 0 else dlineCstyle s false,
          if b = X + W - 1 then 0 else dlineCstyle s false].getD dir 0
        else if (b = X ∨ b = X + W - 1) ∧ Y ≤ a ∧ a < Y + H
        then [dlineCstyle s true, dlineCstyle s true, 0, 0].getD dir 0 else 0 := by
  have hcat := box_glyphs_catalog s (List.mem_range.2 hs) d (List.mem_range.2 hd)
  have hWF1 := dline_WF hw Y X H true false (s, d) color true true
  have hWF2 := dline_WF hWF1.1 Y (X + W - 1) H true false (s, d) color true true
  have hWF3 := dline_WF hWF2.1 Y X W false false (s, d) color true true
  have hDY := hWF3.2.1.trans (hWF2.2.1.trans hWF1.2.1)
  have hDX := hWF3.2.2.trans (hWF2.2.2.trans hWF1.2.2)
  have hD := box_top_cells hw hfresh hH hW hY hX hs hd color a b
  by_cases hc : a = Y ∧ X ≤ b ∧ b < X + W
  · rw [if_pos hc] at hD ⊢
    have hm := box_row_vec_mem X W b (dlineCstyle s true) (dlineCstyle s false) hW true
    simp only [if_true] at hm
    exact getConnectStyle_piece (by rw [hDY]; omega) (by rw [hDX]; omega) hD (hcat _ hm).2 hdir
  · rw [if_neg hc] at hD ⊢
    by_cases hc' : (b = X ∨ b = X + W - 1) ∧ Y ≤ a ∧ a < Y + H
    · rw [if_pos hc'] at hD ⊢
      exact getConnectStyle_piece (by rw [hDY]; omega) (by rw [hDX]; omega) hD
        (hcat _ (by simp)).2 hdir
    · rw [if_neg hc'] at hD ⊢
      apply getConnectStyle_not_mergeable
      rw [hD]
      exact hfresh a b

/-- The four lines of a box drawn on a window without mergeable cells, cell by cell. -/
theorem box_lines_cells {w : Window} (hw : w.WF)
    (hfresh : ∀ y x, (w.cellAt y x).CanMerge = false) {Y X H W : Nat} (hH : 2 ≤ H)
    (hW : 2 ≤ W) (hY : Y + H < w.DimY) (hX : X + W ≤ w.DimX) {s d : Nat} (hs : s < 8)
    (hd : d < 6) (color : Nat) (y' x' : Nat) :
    ((((w.dline Y X H true false (s, d) color true true).dline Y (X + W - 1) H true false (s, d)
        color true true).dline Y X W false false (s, d) color true true).dline (Y + H - 1) X W
        false false (s, d) color true true).cellAt y' x'
      = if y' = Y + H - 1 ∧ X ≤ x' ∧ x' < X + W
        then lineCell (dlinePiece [if x' = X ∨ x' = X + W - 1 then dlineCstyle s true else 0, 0,
          if x' = X then 0 else dlineCstyle s false,
          if x' = X + W - 1 then 0 else dlineCstyle s false] (s, d)) color true
        else if y' = Y ∧ X ≤ x' ∧ x' < X + W
        then lineCell (dlinePiece [0, if x' = X ∨ x' = X + W - 1 then dlineCstyle s true else 0,
          if x' = X then 0 else dlineCstyle s false,
          if x' = X + W - 1 then 0 else dlineCstyle s false] (s, d)) color true
        else if (x' = X ∨ x' = X + W - 1) ∧ Y ≤ y' ∧ y' < Y + H
        then lineCell (dlinePiece [dlineCstyle s true, dlineCstyle s true, 0, 0] (s, d)) color true
        else w.cellAt y' x' := by
  have hcv := dlineCstyle_pos s (List.mem_range.2 hs) true (by simp)
  have hWF1 := dline_WF hw Y X H true false (s, d) color true true
  have hWF2 := dline_WF hWF1.1 Y (X + W - 1) H true false (s, d) color true true
  have hWF3 := dline_WF hWF2.1 Y X W false false (s, d) color true true
  have hDY := hWF3.2.1.trans (hWF2.2.1.trans hWF1.2.1)
  have hDX := hWF3.2.2.trans (hWF2.2.2.trans hWF1.2.2)
  have g3 := fun a b dir (h : dir ≤ 3) =>
    @box_top_connect w hw hfresh Y X H W hH hW (by omega) hX s d hs hd color a b dir h
  have h := dline_forward_cells (y := Y + H - 1) (x := X) (L := W) hWF3.1 false (by omega)
    (by rw [hDY]; simp; omega) (by rw [hDX]; simpa using hX) hs hd color y' x'
  simp only [Bool.false_eq_true, if_false] at h
  rw [h]
  by_cases hc : y' = Y + H - 1 ∧ X ≤ x' ∧ x' < X + W
  · rw [if_pos hc, if_pos hc]
    rw [dlineNeighbours_eq hWF3.1.1 hWF3.1.2.1 (by rw [hDY]; omega) (by rw [hDX]; omega),
      g3 _ _ _ (by decide), g3 _ _ _ (by decide), g3 _ _ _ (by decide), g3 _ _ _ (by decide),
      dlineDirs_horizontal]
    congr 2
    generalize dlineCstyle s true = cv at hcv
    generalize dlineCstyle s false = ch
    simp only [DIR_UP, DIR_DOWN, DIR_LEFT, DIR_RIGHT, List.getD_cons_zero, List.getD_cons_succ]
    obtain ⟨hy', h1, h2⟩ := hc
    have eu : (if y' = 0 then 0
        else if y' - 1 = Y ∧ X ≤ x' ∧ x' < X + W then if x' = X ∨ x' = X + W - 1 then cv else 0
        else if (x' = X ∨ x' = X + W - 1) ∧ Y ≤ y' - 1 ∧ y' - 1 < Y + H then cv else 0)
        = if x' = X ∨ x' = X + W - 1 then cv else 0 := by
      split_ifs <;> first | rfl | omega
    have ed : (if y' + 1 = Y ∧ X ≤ x' ∧ x' < X + W then 0
        else if (x' = X ∨ x' = X + W - 1) ∧ Y ≤ y' + 1 ∧ y' + 1 < Y + H then cv else 0) = 0 := by
      split_ifs <;> first | rfl | omega
    have el : (if x' = 0 then 0
        else if y' = Y ∧ X ≤ x' - 1 ∧ x' - 1 < X + W then if x' - 1 = X + W - 1 then 0 else ch
        else if (x' - 1 = X ∨ x' - 1 = X + W - 1) ∧ Y ≤ y' ∧ y' < Y + H then 0 else 0) = 0 := by
      split_ifs <;> first | rfl | omega
    have er : (if y' = Y ∧ X ≤ x' + 1 ∧ x' + 1 < X + W then if x' + 1 = X then 0 else ch
        else if (x' + 1 = X ∨ x' + 1 = X + W - 1) ∧ Y ≤ y' ∧ y' < Y + H then 0 else 0) = 0 := by
      split_ifs <;> first | rfl | omega
    simp only [eu, ed, el, er]
    split_ifs <;> first | rfl | omega
  · rw [if_neg hc, if_neg hc]
    exact box_top_cells hw hfresh hH hW (by omega) hX hs hd color y' x'

end Window

end npp

namespace npp

namespace Window

/-- Connection styles after the four lines of a box. -/
theorem box_lines_connect {w : Window} (hw : w.WF)
    (hfresh : ∀ y x, (w.cellAt y x).CanMerge = false) {Y X H W : Nat} (hH : 2 ≤ H)
    (hW : 2 ≤ W) (hY : Y + H < w.DimY) (hX : X + W ≤ w.DimX) {s d : Nat} (hs : s < 8)
    (hd : d < 6) (color : Nat) (a b : Nat) {dir : Nat} (hdir : dir ≤ 3) :
    ((((w.dline Y X H true false (s, d) color true true).dline Y (X + W - 1) H true false (s, d)
        color true true).dline Y X W false false (s, d) color true true).dline (Y + H - 1) X W
        false false (s, d) color true true).getConnectStyle a b dir
      = if a = Y + H - 1 ∧ X ≤ b ∧ b < X + W
        then [if b = X ∨ b = X + W - 1 then dlineCstyle s true else 0, 0,
          if b = X then 0 else dlineCstyle s false,
          if b = X + W - 1 then 0 else dlineCstyle s false].getD dir 0
        else if a = Y ∧ X ≤ b ∧ b < X + W
        then [0, if b = X ∨ b = X + W - 1 then dlineCstyle s true else 0,
          if b = X then 0 else dlineCstyle s false,
          if b = X + W - 1 then 0 else dlineCstyle s false].getD dir 0
        else if (b = X ∨ b = X + W - 1) ∧ Y ≤ a ∧ a < Y + H
        then [dlineCstyle s true, dlineCstyle s true, 0, 0].getD dir 0 else 0 := by
  have hcat := box_glyphs_catalog s (List.mem_range.2 hs) d (List.mem_range.2 hd)
  have hWF1 := dline_WF hw Y X H true false (s, d) color true true
  have hWF2 := dline_WF hWF1.1 Y (X + W - 1) H true false (s, d) color true true
  have hWF3 := dline_WF hWF2.1 Y X W false false (s, d) color true true
  have hWF4 := dline_WF hWF3.1 (Y + H - 1) X W false false (s, d) color true true
  have hDY := hWF4.2.1.trans (hWF3.2.1.trans (hWF2.2.1.trans hWF1.2.1))
  have hDX := hWF4.2.2.trans (hWF3.2.2.trans (hWF2.2.2.trans hWF1.2.2))
  have hD := box_lines_cells hw hfresh hH hW hY hX hs hd color a b
  by_cases hc0 : a = Y + H - 1 ∧ X ≤ b ∧ b < X + W
  · rw [if_pos hc0] at hD ⊢
    have hm := box_row_vec_mem X W b (dlineCstyle s true) (dlineCstyle s false) hW false
    simp only [Bool.false_eq_true, if_false] at hm
    exact getConnectStyle_piece (by rw [hDY]; omega) (by rw [hDX]; omega) hD (hcat _ hm).2 hdir
  · rw [if_neg hc0] at hD ⊢
    by_cases hc : a = Y ∧ X ≤ b ∧ b < X + W
    · rw [if_pos hc] at hD ⊢
      have hm := box_row_vec_mem X W b (dlineCstyle s true) (dlineCstyle s false) hW true
      simp only [if_true] at hm
      exact getConnectStyle_piece (by rw [hDY]; omega) (by rw [hDX]; omega) hD (hcat _ hm).2 hdir
    · rw [if_neg hc] at hD ⊢
      by_cases hc' : (b = X ∨ b = X + W - 1) ∧ Y ≤ a ∧ a < Y + H
      · rw [if_pos hc'] at hD ⊢
        exact getConnectStyle_piece (by rw [hDY]; omega) (by rw [hDX]; omega) hD
          (hcat _ (by simp)).2 hdir
      · rw [if_neg hc'] at hD ⊢
        apply getConnectStyle_not_mergeable
        rw [hD]
        exact hfresh a b

/-- The four lines of a box keep the shape and the dimensions of the window. -/
theorem box_lines_WF {w : Window} (hw : w.WF) (Y X H W : Nat) (st : Nat × Nat) (color : Nat)
    (m cm : Bool) :
    ((((w.dline Y X H true false st color m cm).dline Y (X + W - 1) H true false st
        color m cm).dline Y X W false false st color m cm).dline (Y + H - 1) X W
        false false st color m cm).WF
    ∧ ((((w.dline Y X H true false st color m cm).dline Y (X + W - 1) H true false st
        color m cm).dline Y X W false false st color m cm).dline (Y + H - 1) X W
        false false st color m cm).DimY = w.DimY
    ∧ ((((w.dline Y X H true false st color m cm).dline Y (X + W - 1) H true false st
        color m cm).dline Y X W false false st color m cm).dline (Y + H - 1) X W
        false false st color m cm).DimX = w.DimX := by
  have hWF1 := dline_WF hw Y X H true false st color m cm
  have hWF2 := dline_WF hWF1.1 Y (X + W - 1) H true false st color m cm
  have hWF3 := dline_WF hWF2.1 Y X W false false st color m cm
  have hWF4 := dline_WF hWF3.1 (Y + H - 1) X W false false st color m cm
  exact ⟨hWF4.1, hWF4.2.1.trans (hWF3.2.1.trans (hWF2.2.1.trans hWF1.2.1)),
    hWF4.2.2.trans (hWF3.2.2.trans (hWF2.2.2.trans hWF1.2.2))⟩

set_option maxRecDepth 1000000 in
/-- The corner glyphs of the shape LIGHT_HARD, for every dash code. -/
theorem light_hard_corners : ∀ d ∈ List.range 6,
    dlinePiece [0, 1, 0, 1] (LIGHT_HARD, d) = 0x250C
    ∧ dlinePiece [0, 1, 1, 0] (LIGHT_HARD, d) = 0x2510
    ∧ dlinePiece [1, 0, 0, 1] (LIGHT_HARD, d) = 0x2514
    ∧ dlinePiece [1, 0, 1, 0] (LIGHT_HARD, d) = 0x2518 := by
  decide!

/-- C13. On a window without mergeable cells (every fresh window is one), for every
valid style and all `H, W ≥ 2` with `(Y + H, X + W)` inside the window,
`dbox(Y, X, H, W)` with `mergeable = canMerge = true` returns a window in which the
corners hold non-blank glyphs of the key with the vectors down+right, down+left,
up+right and up+left (the vertical component being the style's vertical connection
style, the horizontal one its horizontal connection style, both not none, and these
are the styles `getConnectStyle` reports there), every other cell of the top and bottom
edges holds a non-blank glyph connected left and right only, and every other cell of
the left and right edges one connected up and down only.  In LIGHT_HARD the corners are
U+250C, U+2510, U+2514, U+2518. -/
theorem dbox_fresh_outline (w : Window) (hw : w.WF)
    (hfresh : ∀ y x, (w.cellAt y x).CanMerge = false) (Y X H W s d color : Nat)
    (hH : 2 ≤ H) (hW : 2 ≤ W) (hY : Y + H < w.DimY) (hX : X + W < w.DimX)
    (hs : s < 8) (hd : d < 6) :
    ∃ w', w.dbox Y X H W (s, d) color true true = some w'
      ∧ dlineCstyle s true ≠ STYLE_NONE ∧ dlineCstyle s false ≠ STYLE_NONE
      ∧ (w'.schar Y X ≠ BLANK
        ∧ (w'.schar Y X, [STYLE_NONE, dlineCstyle s true, STYLE_NONE, dlineCstyle s false])
            ∈ Keys.LineDrawing
        ∧ ∀ dir, dir ≤ 3 → w'.getConnectStyle Y X dir
            = [STYLE_NONE, dlineCstyle s true, STYLE_NONE, dlineCstyle s false].getD dir 0)
      ∧ (w'.schar Y (X + W - 1) ≠ BLANK
        ∧ (w'.schar Y (X + W - 1),
            [STYLE_NONE, dlineCstyle s true, dlineCstyle s false, STYLE_NONE]) ∈ Keys.LineDrawing
        ∧ ∀ dir, dir ≤ 3 → w'.getConnectStyle Y (X + W - 1) dir
            = [STYLE_NONE, dlineCstyle s true, dlineCstyle s false, STYLE_NONE].getD dir 0)
      ∧ (w'.schar (Y + H - 1) X ≠ BLANK
        ∧ (w'.schar (Y + H - 1) X,
            [dlineCstyle s true, STYLE_NONE, STYLE_NONE, dlineCstyle s false]) ∈ Keys.LineDrawing
        ∧ ∀ dir, dir ≤ 3 → w'.getConnectStyle (Y + H - 1) X dir
            = [dlineCstyle s true, STYLE_NONE, STYLE_NONE, dlineCstyle s false].getD dir 0)
      ∧ (w'.schar (Y + H - 1) (X + W - 1) ≠ BLANK
        ∧ (w'.schar (Y + H - 1) (X + W - 1),
            [dlineCstyle s true, STYLE_NONE, dlineCstyle s false, STYLE_NONE]) ∈ Keys.LineDrawing
        ∧ ∀ dir, dir ≤ 3 → w'.getConnectStyle (Y + H - 1) (X + W - 1) dir
            = [dlineCstyle s true, STYLE_NONE, dlineCstyle s false, STYLE_NONE].getD dir 0)
      ∧ (∀ y' x', (y' = Y ∨ y' = Y + H - 1) → X < x' → x' < X + W - 1 →
          w'.schar y' x' ≠ BLANK
          ∧ (w'.schar y' x', [STYLE_NONE, STYLE_NONE, dlineCstyle s false, dlineCstyle s false])
              ∈ Keys.LineDrawing)
      ∧ (∀ y' x', (x' = X ∨ x' = X + W - 1) → Y < y' → y' < Y + H - 1 →
          w'.schar y' x' ≠ BLANK
          ∧ (w'.schar y' x', [dlineCstyle s true, dlineCstyle s true, STYLE_NONE, STYLE_NONE])
              ∈ Keys.LineDrawing)
      ∧ (s = LIGHT_HARD → w'.schar Y X = 0x250C ∧ w'.schar Y (X + W - 1) = 0x2510
          ∧ w'.schar (Y + H - 1) X = 0x2514 ∧ w'.schar (Y + H - 1) (X + W - 1) = 0x2518) := by
  have hcat := box_glyphs_catalog s (List.mem_range.2 hs) d (List.mem_range.2 hd)
  have hcv := dlineCstyle_pos s (List.mem_range.2 hs) true (by simp)
  have hch := dlineCstyle_pos s (List.mem_range.2 hs) false (by simp)
  have hWF := box_lines_WF hw Y X H W (s, d) color true true
  have hD := fun y' x' => box_lines_cells hw hfresh hH hW hY (Nat.le_of_lt hX) hs hd color y' x'
  have hG := fun a b dir (h : dir ≤ 3) =>
    @box_lines_connect w hw hfresh Y X H W hH hW hY (Nat.le_of_lt hX) s d hs hd color a b dir h
  have hschar : ∀ y' x', y' < w.DimY → x' < w.DimX →
      ((((w.dline Y X H true false (s, d) color true true).dline Y (X + W - 1) H true false (s, d)
        color true true).dline Y X W false false (s, d) color true true).dline (Y + H - 1) X W
        false false (s, d) color true true).schar y' x'
      = (((((w.dline Y X H true false (s, d) color true true).dline Y (X + W - 1) H true false
        (s, d) color true true).dline Y X W false false (s, d) color true true).dline
        (Y + H - 1) X W false false (s, d) color true true).cellAt y' x').Char := by
    intro y' x' h1 h2
    unfold schar
    rw [(checkCoord_iff _ y' x').2 ⟨by rw [hWF.2.1]; exact h1, by rw [hWF.2.2]; exact h2⟩]
    rfl
  refine ⟨_, dbox_eq_lines hw.1 hw.2.1 hY hX hH hW (s, d) color true true, hcv, hch,
    ?_, ?_, ?_, ?_, ?_, ?_, ?_⟩
  · have e := hD Y X
    rw [if_neg (by omega), if_pos (by omega), if_pos (Or.inl rfl), if_pos rfl,
      if_neg (by omega)] at e
    have hg := (hG Y X)
    rw [hschar Y X (by omega) (by omega), e]
    refine ⟨(hcat _ (by simp [STYLE_NONE])).1, (hcat _ (by simp [STYLE_NONE])).2, fun dir hdir => ?_⟩
    rw [hg dir hdir, if_neg (by omega), if_pos (by omega), if_pos (Or.inl rfl), if_pos rfl,
      if_neg (by omega)]
    rfl
  · have e := hD Y (X + W - 1)
    rw [if_neg (by omega), if_pos (by omega), if_pos (Or.inr rfl), if_neg (by omega),
      if_pos rfl] at e
    rw [hschar Y (X + W - 1) (by omega) (by omega), e]
    refine ⟨(hcat _ (by simp [STYLE_NONE])).1, (hcat _ (by simp [STYLE_NONE])).2, fun dir hdir => ?_⟩
    rw [hG _ _ dir hdir, if_neg (by omega), if_pos (by omega), if_pos (Or.inr rfl),
      if_neg (by omega), if_pos rfl]
    rfl
  · have e := hD (Y + H - 1) X
    rw [if_pos (by omega), if_pos (Or.inl rfl), if_pos rfl, if_neg (by omega)] at e
    rw [hschar (Y + H - 1) X (by omega) (by omega), e]
    refine ⟨(hcat _ (by simp [STYLE_NONE])).1, (hcat _ (by simp [STYLE_NONE])).2, fun dir hdir => ?_⟩
    rw [hG _ _ dir hdir, if_pos (by omega), if_pos (Or.inl rfl), if_pos rfl, if_neg (by omega)]
    rfl
  · have e := hD (Y + H - 1) (X + W - 1)
    rw [if_pos (by omega), if_pos (Or.inr rfl), if_neg (by omega), if_pos rfl] at e
    rw [hschar (Y + H - 1) (X + W - 1) (by omega) (by omega), e]
    refine ⟨(hcat _ (by simp [STYLE_NONE])).1, (hcat _ (by simp [STYLE_NONE])).2, fun dir hdir => ?_⟩
    rw [hG _ _ dir hdir, if_pos (by omega), if_pos (Or.inr rfl), if_neg (by omega), if_pos rfl]
    rfl
  · intro y' x' hy' h1 h2
    have e := hD y' x'
    rw [hschar y' x' (by omega) (by omega), e]
    rcases hy' with rfl | rfl
    · rw [if_neg (by omega), if_pos (by omega), if_neg (by omega), if_neg (by omega),
        if_neg (by omega)]
      exact ⟨(hcat _ (by simp [STYLE_NONE])).1, (hcat _ (by simp [STYLE_NONE])).2⟩
    · rw [if_pos (by omega), if_neg (by omega), if_neg (by omega), if_neg (by omega)]
      exact ⟨(hcat _ (by simp [STYLE_NONE])).1, (hcat _ (by simp [STYLE_NONE])).2⟩
  · intro y' x' hx' h1 h2
    have e := hD y' x'
    rw [hschar y' x' (by omega) (by omega), e]
    rw [if_neg (by omega), if_neg (by omega), if_pos ⟨hx', by omega, by omega⟩]
    exact ⟨(hcat _ (by simp [STYLE_NONE])).1, (hcat _ (by simp [STYLE_NONE])).2⟩
  · intro hsl
    subst hsl
    have hc := light_hard_corners d (List.mem_range.2 hd)
    have e1 := hD Y X
    rw [if_neg (by omega), if_pos (by omega), if_pos (Or.inl rfl), if_pos rfl,
      if_neg (by omega)] at e1
    have e2 := hD Y (X + W - 1)
    rw [if_neg (by omega), if_pos (by omega), if_pos (Or.inr rfl), if_neg (by omega),
      if_pos rfl] at e2
    have e3 := hD (Y + H - 1) X
    rw [if_pos (by omega), if_pos (Or.inl rfl), if_pos rfl, if_neg (by omega)] at e3
    have e4 := hD (Y + H - 1) (X + W - 1)
    rw [if_pos (by omega), if_pos (Or.inr rfl), if_neg (by omega), if_pos rfl] at e4
    rw [hschar Y X (by omega) (by omega), hschar Y (X + W - 1) (by omega) (by omega),
      hschar (Y + H - 1) X (by omega) (by omega),
      hschar (Y + H - 1) (X + W - 1) (by omega) (by omega), e1, e2, e3, e4]
    exact ⟨hc.1, hc.2.1, hc.2.2.1, hc.2.2.2⟩

end Window

end npp

namespace npp

namespace Window

/-! ### A box drawn from the corner of another -/

set_option maxRecDepth 1000000 in
/-- The glyphs of the shape LIGHT_HARD met where a box starts at the corner of another. -/
theorem light_hard_junctions :
    (dlinePiece [1, 1, 0, 0] (LIGHT_HARD, DASHED_NONE), [1, 1, 0, 0]) ∈ Keys.LineDrawing
    ∧ (dlinePiece [1, 1, 1, 0] (LIGHT_HARD, DASHED_NONE), [1, 1, 1, 0]) ∈ Keys.LineDrawing
    ∧ dlinePiece [1, 1, 1, 1] (LIGHT_HARD, DASHED_NONE) = 0x253C
    ∧ (0x253C, [1, 1, 1, 1]) ∈ Keys.LineDrawing
    ∧ dlineCstyle LIGHT_HARD true = 1 ∧ dlineCstyle LIGHT_HARD false = 1 := by
  decide!

/-- A LIGHT_HARD box whose top left corner `(P, Q)` is a cell that is entered from above
and from the left by mergeable lines, on a window that offers no connection below or to
the right of that cell: the four lines leave the light cross in `(P, Q)`. -/
theorem box_over_corner {w1 : Window} (hw1 : w1.WF) {P Q H2 W2 : Nat} (hP : 1 ≤ P)
    (hQ : 1 ≤ Q) (hH2 : 2 ≤ H2) (hW2 : 2 ≤ W2) (hY : P + H2 ≤ w1.DimY)
    (hX : Q + W2 ≤ w1.DimX) (color : Nat)
    (hU : w1.getConnectStyle (P - 1) Q DIR_DOWN = 1)
    (hL : w1.getConnectStyle P (Q - 1) DIR_RIGHT = 1)
    (hS : w1.getConnectStyle P Q DIR_DOWN = 0)
    (hZ : ∀ a b dir, dir ≤ 3 → (P < a ∨ Q < b) → w1.getConnectStyle a b dir = 0) :
    ((((w1.dline P Q H2 true false (LIGHT_HARD, DASHED_NONE) color true true).dline
        P (Q + W2 - 1) H2 true false (LIGHT_HARD, DASHED_NONE) color true true).dline
        P Q W2 false false (LIGHT_HARD, DASHED_NONE) color true true).dline
        (P + H2 - 1) Q W2 false false (LIGHT_HARD, DASHED_NONE) color true true).cellAt P Q
      = lineCell 0x253C color true := by
  have hj := light_hard_junctions
  have hs : LIGHT_HARD < 8 := by decide
  have hd : DASHED_NONE < 6 := by decide
  have hWFa := dline_WF hw1 P Q H2 true false (LIGHT_HARD, DASHED_NONE) color true true
  have hWFb := dline_WF hWFa.1 P (Q + W2 - 1) H2 true false (LIGHT_HARD, DASHED_NONE) color
    true true
  have hWFc := dline_WF hWFb.1 P Q W2 false false (LIGHT_HARD, DASHED_NONE) color true true
  have hbY := hWFb.2.1.trans hWFa.2.1
  have hbX := hWFb.2.2.trans hWFa.2.2
  have hcY := hWFc.2.1.trans hbY
  have hcX := hWFc.2.2.trans hbX
  -- the left side
  have hDa := fun y' x' => dline_forward_cells (y := P) (x := Q) (L := H2) hw1 true (by omega)
    (by simpa using hY) (by simp; omega) hs hd color y' x'
  simp only [if_true] at hDa
  have hAS : (w1.dline P Q H2 true false (LIGHT_HARD, DASHED_NONE) color true true).cellAt P Q
      = lineCell (dlinePiece [1, 1, 1, 0] (LIGHT_HARD, DASHED_NONE)) color true := by
    rw [hDa, if_pos (by omega), dlineNeighbours_eq hw1.1 hw1.2.1 (by omega) (by omega),
      if_neg (by omega), if_neg (by omega), hU, hL, hZ _ _ _ (by decide) (Or.inl (by omega)),
      hZ _ _ _ (by decide) (Or.inr (by omega)), dlineDirs_vertical, hj.2.2.2.2.1]
    congr 2
    simp
    omega
  have hAD : (w1.dline P Q H2 true false (LIGHT_HARD, DASHED_NONE) color true true).cellAt
        (P + 1) Q
      = lineCell (dlinePiece [1, 1, 0, 0] (LIGHT_HARD, DASHED_NONE)) color true := by
    rw [hDa, if_pos (by omega), dlineNeighbours_eq hw1.1 hw1.2.1 (by omega) (by omega),
      if_neg (by omega), if_neg (by omega), Nat.add_sub_cancel, hS,
      hZ _ _ _ (by decide) (Or.inl (by omega)), hZ _ _ _ (by decide) (Or.inl (by omega)),
      hZ _ _ _ (by decide) (Or.inl (by omega)), dlineDirs_vertical, hj.2.2.2.2.1]
    congr 2
    simp
  have hAoff : ∀ a b, (b ≠ Q ∨ a < P) →
      (w1.dline P Q H2 true false (LIGHT_HARD, DASHED_NONE) color true true).cellAt a b
        = w1.cellAt a b := by
    intro a b hab
    rw [hDa, if_neg (by omega)]
  have gA : ∀ a b dir, (b ≠ Q ∨ a < P) →
      (w1.dline P Q H2 true false (LIGHT_HARD, DASHED_NONE) color true true).getConnectStyle
        a b dir = w1.getConnectStyle a b dir :=
    fun a b dir hab => getConnectStyle_congr hWFa.2.1 hWFa.2.2 (fun _ => hAoff a b hab) dir
  have gAS : (w1.dline P Q H2 true false (LIGHT_HARD, DASHED_NONE) color true
      true).getConnectStyle P Q DIR_RIGHT = 0 :=
    getConnectStyle_piece (by rw [hWFa.2.1]; omega) (by rw [hWFa.2.2]; omega) hAS hj.2.1
      (by decide)
  have gAD : (w1.dline P Q H2 true false (LIGHT_HARD, DASHED_NONE) color true
      true).getConnectStyle (P + 1) Q DIR_UP = 1 :=
    getConnectStyle_piece (by rw [hWFa.2.1]; omega) (by rw [hWFa.2.2]; omega) hAD hj.1
      (by decide)
  -- the right side
  have hDb := fun y' x' => dline_forward_cells (y := P) (x := Q + W2 - 1) (L := H2) hWFa.1 true
    (by omega) (by rw [hWFa.2.1]; simpa using hY) (by rw [hWFa.2.2]; simp; omega) hs hd color
    y' x'
  simp only [if_true] at hDb
  have hBoff : ∀ a b, (b ≠ Q + W2 - 1 ∨ a < P) →
      ((w1.dline P Q H2 true false (LIGHT_HARD, DASHED_NONE) color true true).dline
        P (Q + W2 - 1) H2 true false (LIGHT_HARD, DASHED_NONE) color true true).cellAt a b
        = (w1.dline P Q H2 true false (LIGHT_HARD, DASHED_NONE) color true true).cellAt a b := by
    intro a b hab
    rw [hDb, if_neg (by omega)]
  have gB : ∀ a b dir, (b ≠ Q + W2 - 1 ∨ a < P) →
      ((w1.dline P Q H2 true false (LIGHT_HARD, DASHED_NONE) color true true).dline
        P (Q + W2 - 1) H2 true false (LIGHT_HARD, DASHED_NONE) color true true).getConnectStyle
        a b dir
      = (w1.dline P Q H2 true false (LIGHT_HARD, DASHED_NONE) color true true).getConnectStyle
        a b dir :=
    fun a b dir hab => getConnectStyle_congr hWFb.2.1 hWFb.2.2 (fun _ => hBoff a b hab) dir
  have gBR : ((w1.dline P Q H2 true false (LIGHT_HARD, DASHED_NONE) color true true).dline
        P (Q + W2 - 1) H2 true false (LIGHT_HARD, DASHED_NONE) color true true).getConnectStyle
        P (Q + 1) DIR_LEFT = 0 := by
    by_cases h2 : W2 = 2
    · subst h2
      have hcell : ((w1.dline P Q H2 true false (LIGHT_HARD, DASHED_NONE) color true true).dline
          P (Q + 2 - 1) H2 true false (LIGHT_HARD, DASHED_NONE) color true true).cellAt P (Q + 1)
          = lineCell (dlinePiece [1, 1, 0, 0] (LIGHT_HARD, DASHED_NONE)) color true := by
        rw [hDb, if_pos (by omega), dlineNeighbours_eq hWFa.1.1 hWFa.1.2.1
          (by rw [hWFa.2.1]; omega) (by rw [hWFa.2.2]; omega),
          if_neg (by omega), if_neg (by omega), Nat.add_sub_cancel, gAS,
          gA _ _ _ (Or.inl (by omega)), gA _ _ _ (Or.inl (by omega)),
          gA _ _ _ (Or.inl (by omega)), hZ _ _ _ (by decide) (Or.inr (by omega)),
          hZ _ _ _ (by decide) (Or.inr (by omega)), hZ _ _ _ (by decide) (Or.inr (by omega)),
          dlineDirs_vertical, hj.2.2.2.2.1]
        congr 2
        simp
      exact getConnectStyle_piece (by rw [hbY]; omega) (by rw [hbX]; omega) hcell hj.1
        (by decide)
    · rw [gB _ _ _ (Or.inl (by omega)), gA _ _ _ (Or.inl (by omega)),
        hZ _ _ _ (by decide) (Or.inr (by omega))]
  -- the top
  have hDc := fun y' x' => dline_forward_cells (y := P) (x := Q) (L := W2) hWFb.1 false
    (by omega) (by rw [hbY]; simp; omega) (by rw [hbX]; simpa using hX) hs hd color y' x'
  simp only [Bool.false_eq_true, if_false] at hDc
  have hCS : (((w1.dline P Q H2 true false (LIGHT_HARD, DASHED_NONE) color true true).dline
        P (Q + W2 - 1) H2 true false (LIGHT_HARD, DASHED_NONE) color true true).dline
        P Q W2 false false (LIGHT_HARD, DASHED_NONE) color true true).cellAt P Q
      = lineCell 0x253C color true := by
    rw [hDc, if_pos (by omega), dlineNeighbours_eq hWFb.1.1 hWFb.1.2.1 (by rw [hbY]; omega)
      (by rw [hbX]; omega), if_neg (by omega), if_neg (by omega), gBR,
      gB _ _ _ (Or.inr (by omega)), gA _ _ _ (Or.inr (by omega)), hU,
      gB _ _ _ (Or.inl (by omega)), gAD,
      gB _ _ _ (Or.inl (by omega)), gA _ _ _ (Or.inl (by omega)), hL,
      dlineDirs_horizontal, hj.2.2.2.2.2, ← hj.2.2.1]
    congr 2
    simp
    omega
  -- the bottom
  have hDd := dline_forward_cells (y := P + H2 - 1) (x := Q) (L := W2) hWFc.1 false
    (by omega) (by rw [hcY]; simp; omega) (by rw [hcX]; simpa using hX) hs hd color P Q
  simp only [Bool.false_eq_true, if_false] at hDd
  rw [hDd, if_neg (by omega), hCS]

end Window

end npp

namespace npp

namespace Window

/-- Two LIGHT_HARD boxes, the second starting in the bottom right corner of the first,
on a window without mergeable cells: both calls return and the shared cell holds the
light cross. -/
theorem dbox_shared_corner_cells {w : Window} (hw : w.WF)
    (hfresh : ∀ y x, (w.cellAt y x).CanMerge = false) {y x H1 W1 H2 W2 : Nat}
    (hH1 : 2 ≤ H1) (hW1 : 2 ≤ W1) (hH2 : 2 ≤ H2) (hW2 : 2 ≤ W2)
    (hY : y + H1 - 1 + H2 < w.DimY) (hX : x + W1 - 1 + W2 < w.DimX) (c1 c2 : Nat) :
    ∃ w1 w2, w.dbox y x H1 W1 (LIGHT_HARD, DASHED_NONE) c1 true true = some w1
      ∧ w1.dbox (y + H1 - 1) (x + W1 - 1) H2 W2 (LIGHT_HARD, DASHED_NONE) c2 true true = some w2
      ∧ w2.DimY = w.DimY ∧ w2.DimX = w.DimX
      ∧ w2.cellAt (y + H1 - 1) (x + W1 - 1) = lineCell 0x253C c2 true := by
  have hj := light_hard_junctions
  have hs : LIGHT_HARD < 8 := by decide
  have hd : DASHED_NONE < 6 := by decide
  have hWF1 := box_lines_WF hw y x H1 W1 (LIGHT_HARD, DASHED_NONE) c1 true true
  have hWF2 := box_lines_WF hWF1.1 (y + H1 - 1) (x + W1 - 1) H2 W2 (LIGHT_HARD, DASHED_NONE) c2
    true true
  have hG := fun a b dir (h : dir ≤ 3) =>
    @box_lines_connect w hw hfresh y x H1 W1 hH1 hW1 (by omega) (by omega) LIGHT_HARD
      DASHED_NONE hs hd c1 a b dir h
  refine ⟨_, _, dbox_eq_lines hw.1 hw.2.1 (by omega) (by omega) hH1 hW1 _ c1 true true,
    dbox_eq_lines hWF1.1.1 hWF1.1.2.1 (by rw [hWF1.2.1]; omega) (by rw [hWF1.2.2]; omega)
      hH2 hW2 _ c2 true true, hWF2.2.1.trans hWF1.2.1, hWF2.2.2.trans hWF1.2.2, ?_⟩
  apply box_over_corner hWF1.1 (by omega) (by omega) hH2 hW2 (by rw [hWF1.2.1]; omega)
    (by rw [hWF1.2.2]; omega) c2
  · rw [hG _ _ _ (by decide), hj.2.2.2.2.1, hj.2.2.2.2.2]
    simp only [DIR_DOWN, List.getD_cons_zero, List.getD_cons_succ, or_true, true_or,
      true_and, and_true]
    split_ifs <;> first | rfl | omega
  · rw [hG _ _ _ (by decide), hj.2.2.2.2.1, hj.2.2.2.2.2]
    simp only [DIR_RIGHT, List.getD_cons_zero, List.getD_cons_succ, or_true, true_or,
      true_and, and_true]
    split_ifs <;> first | rfl | omega
  · rw [hG _ _ _ (by decide), hj.2.2.2.2.1, hj.2.2.2.2.2]
    simp only [DIR_DOWN, List.getD_cons_zero, List.getD_cons_succ, or_true, true_or,
      true_and, and_true]
    split_ifs <;> first | rfl | omega
  · intro a b dir hdir hab
    rw [hG _ _ _ hdir]
    split_ifs <;> first | rfl | omega

/-- C13, instance: a 3x3 LIGHT_HARD box at (0, 0) of a fresh 5x5 window has the corners
U+250C, U+2510, U+2514 and U+2518 at (0, 0), (0, 2), (2, 0) and (2, 2). -/
theorem dbox_fresh_outline_witness :
    ∃ w', (Window.create 24 80 0 0 5 5).dbox 0 0 3 3 (LIGHT_HARD, DASHED_NONE) 1 true true
        = some w'
      ∧ w'.schar 0 0 = 0x250C ∧ w'.schar 0 2 = 0x2510 ∧ w'.schar 2 0 = 0x2514
      ∧ w'.schar 2 2 = 0x2518 := by
  obtain ⟨w', h, -, -, -, -, -, -, -, -, hl⟩ := dbox_fresh_outline (Window.create 24 80 0 0 5 5)
    (by decide) (fun y x => by rw [cellAt_create]) 0 0 3 3 LIGHT_HARD DASHED_NONE 1 (by decide)
    (by decide) (by decide) (by decide) (by decide) (by decide)
  exact ⟨w', h, (hl rfl).1, (hl rfl).2.1, (hl rfl).2.2.1, (hl rfl).2.2.2⟩

/-- C14. Merging works across independent draw calls: on a window without mergeable
cells (every fresh window is one) that is large enough for both boxes, for all
`H1, W1, H2, W2 ≥ 2`, `dbox(y, x, H1, W1)` followed by
`dbox(y + H1 - 1, x + W1 - 1, H2, W2)`, both LIGHT_HARD with the default merge flags,
both return, and the shared cell holds the light cross U+253C, a mergeable glyph of the
key whose four components are light. -/
theorem dbox_shared_corner_cross (w : Window) (hw : w.WF)
    (hfresh : ∀ y x, (w.cellAt y x).CanMerge = false) (y x H1 W1 H2 W2 c1 c2 : Nat)
    (hH1 : 2 ≤ H1) (hW1 : 2 ≤ W1) (hH2 : 2 ≤ H2) (hW2 : 2 ≤ W2)
    (hY : y + H1 - 1 + H2 < w.DimY) (hX : x + W1 - 1 + W2 < w.DimX) :
    ∃ w1 w2, w.dbox y x H1 W1 (LIGHT_HARD, DASHED_NONE) c1 Defaults.Mergeable Defaults.CanMerge
        = some w1
      ∧ w1.dbox (y + H1 - 1) (x + W1 - 1) H2 W2 (LIGHT_HARD, DASHED_NONE) c2 Defaults.Mergeable
          Defaults.CanMerge = some w2
      ∧ w2.schar (y + H1 - 1) (x + W1 - 1) = 0x253C
      ∧ (0x253C, [STYLE_LIGHT, STYLE_LIGHT, STYLE_LIGHT, STYLE_LIGHT]) ∈ Keys.LineDrawing
      ∧ w2.smerge (y + H1 - 1) (x + W1 - 1) = true
      ∧ ∀ dir, dir ≤ 3 → w2.getConnectStyle (y + H1 - 1) (x + W1 - 1) dir = STYLE_LIGHT := by
  obtain ⟨w1, w2, h1, h2, hDY, hDX, hc⟩ :=
    dbox_shared_corner_cells hw hfresh hH1 hW1 hH2 hW2 hY hX c1 c2
  have hin : w2.checkCoord (y + H1 - 1) (x + W1 - 1) = true :=
    (checkCoord_iff _ _ _).2 ⟨by rw [hDY]; omega, by rw [hDX]; omega⟩
  refine ⟨w1, w2, h1, h2, ?_, light_hard_junctions.2.2.2.1, ?_, fun dir hdir => ?_⟩
  · unfold schar
    rw [hin, hc]
    rfl
  · unfold smerge
    rw [hin, hc]
    rfl
  · rw [getConnectStyle_lineCell (by rw [hDY]; omega) (by rw [hDX]; omega) hc
      light_hard_junctions.2.2.2.1 hdir]
    have : dir = 0 ∨ dir = 1 ∨ dir = 2 ∨ dir = 3 := by omega
    rcases this with rfl | rfl | rfl | rfl <;> rfl

/-- C14, instance: on a fresh 9x9 window a 3x3 box at (1, 1) and a 2x4 box at (3, 3)
leave U+253C in (3, 3). -/
theorem dbox_shared_corner_cross_witness :
    ∃ w1 w2, (Window.create 24 80 0 0 9 9).dbox 1 1 3 3 (LIGHT_HARD, DASHED_NONE) 1 true true
        = some w1
      ∧ w1.dbox 3 3 2 4 (LIGHT_HARD, DASHED_NONE) 2 true true = some w2
      ∧ w2.schar 3 3 = 0x253C := by
  obtain ⟨w1, w2, h1, h2, h3, -⟩ := dbox_shared_corner_cross (Window.create 24 80 0 0 9 9)
    (by decide) (fun y x => by rw [cellAt_create]) 1 1 3 3 2 4 1 2 (by decide) (by decide)
    (by decide) (by decide) (by decide) (by decide)
  exact ⟨w1, w2, h1, h2, h3⟩

end Window

end npp

namespace npp

namespace Window

/-! ### The centred grid and the column of matrix text -/

set_option maxRecDepth 1000000 in
/-- C22 at its failing input: `dcgrid` moves the start by the whole extent of the grid,
not by half of it as `dcbox` does.  For every argument `dcgrid(y, x, ..)` is
`dgrid(y - h, x - w, ..)` with `(h, w) = gGridDims(..)`, while `dcbox(y, x, dimy, dimx)`
is `dbox(y - dimy / 2, x - dimx / 2, dimy, dimx)`.  On a fresh 12x12 window
`dcgrid(6, 6, 1, 1, 1, 1)`, a grid of extent 3x3, spans (3, 3) to (5, 5), so that the
requested centre (6, 6) lies outside it, whereas `dgrid(6 - 3 / 2, 6 - 3 / 2, 1, 1, 1, 1)`
spans (5, 5) to (7, 7) around (6, 6). -/
theorem dcgrid_not_centred :
    (∀ (w : Window) (y x rows cols celly cellx : Nat) (style : Nat × Nat) (color : Nat)
        (mergeable canMerge : Bool),
      w.dcgrid y x rows cols celly cellx style color mergeable canMerge
        = w.dgrid (toUShort ((y : Int) - (gGridDims rows cols celly cellx).1))
            (toUShort ((x : Int) - (gGridDims rows cols celly cellx).2))
            rows cols celly cellx style color mergeable canMerge)
    ∧ (∀ (w : Window) (y x dimy dimx : Nat) (style : Nat × Nat) (color : Nat)
        (mergeable canMerge : Bool),
      w.dcbox y x dimy dimx style color mergeable canMerge
        = w.dbox (toUShort ((y : Int) - (dimy / 2 : Nat))) (toUShort ((x : Int) - (dimx / 2 : Nat)))
            dimy dimx style color mergeable canMerge)
    ∧ gGridDims 1 1 1 1 = (3, 3)
    ∧ ((Window.create 24 80 0 0 12 12).dcgrid 6 6 1 1 1 1).map (fun w => w.schar 3 3)
        = some 0x250C
    ∧ ((Window.create 24 80 0 0 12 12).dcgrid 6 6 1 1 1 1).map (fun w => w.schar 5 5)
        = some 0x2518
    ∧ ((Window.create 24 80 0 0 12 12).dcgrid 6 6 1 1 1 1).map (fun w => w.schar 7 7)
        = some BLANK
    ∧ ((Window.create 24 80 0 0 12 12).dgrid (6 - 3 / 2) (6 - 3 / 2) 1 1 1 1).map
        (fun w => w.schar 5 5) = some 0x250C
    ∧ ((Window.create 24 80 0 0 12 12).dgrid (6 - 3 / 2) (6 - 3 / 2) 1 1 1 1).map
        (fun w => w.schar 7 7) = some 0x2518
    ∧ ((Window.create 24 80 0 0 12 12).dgrid (6 - 3 / 2) (6 - 3 / 2) 1 1 1 1).map
        (fun w => w.schar 3 3) = some BLANK
    ∧ (Window.create 24 80 0 0 12 12).dcgrid 6 6 1 1 1 1
        ≠ (Window.create 24 80 0 0 12 12).dgrid (6 - 3 / 2) (6 - 3 / 2) 1 1 1 1 := by
  refine ⟨fun _ _ _ _ _ _ _ _ _ _ _ => rfl, fun _ _ _ _ _ _ _ _ _ => rfl, ?_⟩
  decide!

set_option maxRecDepth 1000000 in
/-- C28 at its failing input: the overload `wmstrx(y, x, ..)` returns what
`wmstry(y, x, ..)` returns, the row of the position, for every argument; only the
overload `wmstrx(pos, ..)` returns the column.  On a fresh 6x8 window, for the text
`a` at (0, 0) with the default arguments `wmstrp(0, 0, ..)` returns (2, 3) and
`wmstrx(0, 0, ..)` returns 2, not 3. -/
theorem wmstrx_yx_returns_row :
    (∀ (w : Window) (y x : Nat) (input : String) (color : Nat) (danglingLetters : Bool)
        (kerning leading : Nat) (offset : Nat × Nat) (wrap : Bool),
      w.wmstrxYX y x input color danglingLetters kerning leading offset wrap
        = (w.wmstrpYX y x input color danglingLetters kerning leading offset wrap).map
            fun r => (r.1, r.2.1))
    ∧ (∀ (w : Window) (y x : Nat) (input : String) (color : Nat) (danglingLetters : Bool)
        (kerning leading : Nat) (offset : Nat × Nat) (wrap : Bool),
      w.wmstryYX y x input color danglingLetters kerning leading offset wrap
        = (w.wmstrpYX y x input color danglingLetters kerning leading offset wrap).map
            fun r => (r.1, r.2.1))
    ∧ (∀ (w : Window) (pos : Nat × Nat) (input : String) (color : Nat) (danglingLetters : Bool)
        (kerning leading : Nat) (offset : Nat × Nat) (wrap : Bool),
      w.wmstrx pos input color danglingLetters kerning leading offset wrap
        = (w.wmstrp pos input color danglingLetters kerning leading offset wrap).map
            fun r => (r.1, r.2.2))
    ∧ ((Window.create 24 80 0 0 6 8).wmstrpYX 0 0 "a").map Prod.snd = some (2, 3)
    ∧ ((Window.create 24 80 0 0 6 8).wmstrxYX 0 0 "a").map Prod.snd = some 2 := by
  refine ⟨fun _ _ _ _ _ _ _ _ _ _ => rfl, fun _ _ _ _ _ _ _ _ _ _ => rfl,
    fun _ _ _ _ _ _ _ _ _ => rfl, ?_⟩
  decide!

end Window

end npp

namespace npp

namespace Window

/-! ### Attribute strings -/

theorem strFind_nil (p q : Char) : strFind [p, q] [] = false := by
  simp [strFind, List.tails, List.isPrefixOf]

theorem strFind_cons (n : List Char) (a : Char) (l : List Char) :
    strFind n (a :: l) = (n.isPrefixOf (a :: l) || strFind n l) := by
  simp [strFind, List.tails]

/-- A two-letter needle in a text that starts with two letters: it is these two
letters, or it straddles them and the rest, or it is found in the rest. -/
theorem strFind_two (p q a b : Char) (R : List Char) :
    strFind [p, q] (a :: b :: R) = true
      ↔ (p = a ∧ q = b) ∨ (p = b ∧ R.head? = some q) ∨ strFind [p, q] R = true := by
  rw [strFind_cons, strFind_cons]
  cases R with
  | nil => simp [List.isPrefixOf, strFind_nil]
  | cons c R' =>
    simp only [List.isPrefixOf, Bool.or_eq_true, Bool.and_eq_true, beq_iff_eq, List.head?_cons,
      Option.some.injEq, Bool.and_true, or_assoc]
    constructor
    · rintro (h | h | h)
      · exact Or.inl h
      · exact Or.inr (Or.inl ⟨h.1, h.2.symm⟩)
      · exact Or.inr (Or.inr h)
    · rintro (h | h | h)
      · exact Or.inl h
      · exact Or.inr (Or.inl ⟨h.1, h.2.symm⟩)
      · exact Or.inr (Or.inr h)

/-- Where a two-letter needle is found in a text made of two-letter tokens: it is one
of the tokens, or its letters are the last letter of a token and the first letter of
the token after it. -/
theorem strFind_tokens (p q : Char) : ∀ us : List (Char × Char),
    strFind [p, q] (us.flatMap fun e => [e.1, e.2]) = true
      ↔ (p, q) ∈ us ∨ ∃ e ∈ us.zip us.tail, e.1.2 = p ∧ e.2.1 = q
  | [] => by simp [strFind_nil]
  | [u] => by
    simp only [List.flatMap_cons, List.flatMap_nil, List.append_nil, List.cons_append,
      List.nil_append, List.mem_singleton, List.tail_cons, List.zip_nil_right,
      List.not_mem_nil, false_and, exists_false, or_false]
    rw [strFind_two]
    simp only [List.head?_nil, and_false, strFind_nil, or_false, reduceCtorEq,
      Bool.false_eq_true]
    constructor
    · rintro ⟨h1, h2⟩
      exact Prod.ext h1 h2
    · intro h
      rw [← h]
      exact ⟨rfl, rfl⟩
  | u :: v :: rest => by
    have ih := strFind_tokens p q (v :: rest)
    simp only [List.flatMap_cons, List.cons_append, List.nil_append] at ih ⊢
    rw [strFind_two, ih]
    simp only [List.head?_cons, Option.some.injEq, List.mem_cons, List.tail_cons, List.zip_cons_cons,
      exists_eq_or_imp]
    constructor
    · rintro (h | h | h | h)
      · exact Or.inl (Or.inl (Prod.ext h.1 h.2))
      · exact Or.inr (Or.inl ⟨h.1.symm, h.2⟩)
      · exact Or.inl (Or.inr h)
      · exact Or.inr (Or.inr h)
    · rintro ((h | h) | h | h)
      · rw [← h]
        exact Or.inl ⟨rfl, rfl⟩
      · exact Or.inr (Or.inr (Or.inl h))
      · exact Or.inr (Or.inl ⟨h.1.symm, h.2⟩)
      · exact Or.inr (Or.inr (Or.inr h))

/-- Function `extractAttributes` on a text of two-letter tokens: one search per token of
`attTokens` in the text in lower case. -/
theorem extractAttributes_tokenText (ts : List (Char × Char)) :
    extractAttributes (tokenText ts)
      = attTokens.map fun tok =>
          strFind [tok.1, tok.2] ((lowerTokens ts).flatMap fun e => [e.1, e.2]) := by
  have e' : ∀ l : List (Char × Char), (l.flatMap fun e => [e.1, e.2]).map Char.toLower
      = (l.map fun e => (e.1.toLower, e.2.toLower)).flatMap fun e => [e.1, e.2] := by
    intro l
    induction l with
    | nil => rfl
    | cons t l ih =>
      simp only [List.flatMap_cons, List.map_cons, List.cons_append, List.nil_append] at ih ⊢
      rw [ih]
  have e : (tokenText ts).toList.map Char.toLower
      = (lowerTokens ts).flatMap fun e => [e.1, e.2] := e' ts
  unfold extractAttributes
  simp only [e]
  rfl

/-- For `us` whose tokens are all recognised, no recognised token straddles two
adjacent tokens. -/
theorem attTokens_no_straddle : ∀ tok ∈ attTokens, ∀ u ∈ attTokens, ∀ v ∈ attTokens,
    ¬ (u.2 = tok.1 ∧ v.1 = tok.2) := by
  decide

/-- C23. For every finite sequence of the ten recognised tokens, in any order, with
repetitions and in any mix of upper and lower case, `extractAttributes` of their
concatenation returns exactly 10 booleans, entry `k` being true if and only if token
`k` occurs in the sequence. -/
theorem extractAttributes_recognised (ts : List (Char × Char))
    (h : ∀ t ∈ ts, (t.1.toLower, t.2.toLower) ∈ attTokens) :
    extractAttributes (tokenText ts) = attTokens.map (fun tok => decide (tok ∈ lowerTokens ts))
    ∧ (extractAttributes (tokenText ts)).length = 10
    ∧ ∀ k, k < 10 → ((extractAttributes (tokenText ts)).getD k false = true
        ↔ attTokens.getD k (' ', ' ') ∈ lowerTokens ts) := by
  have hl : ∀ u ∈ lowerTokens ts, u ∈ attTokens := by
    intro u hu
    unfold lowerTokens at hu
    obtain ⟨t, ht, rfl⟩ := List.mem_map.1 hu
    exact h t ht
  have key : extractAttributes (tokenText ts)
      = attTokens.map (fun tok => decide (tok ∈ lowerTokens ts)) := by
    rw [extractAttributes_tokenText]
    apply List.map_congr_left
    intro tok htok
    rw [Bool.eq_iff_iff, strFind_tokens, decide_eq_true_iff]
    constructor
    · rintro (h1 | ⟨e, he, h2⟩)
      · exact h1
      · exfalso
        have hz := List.of_mem_zip he
        exact attTokens_no_straddle tok htok e.1 (hl _ hz.1) e.2
          (hl _ (List.mem_of_mem_tail hz.2)) h2
    · exact Or.inl
  refine ⟨key, by rw [key]; rfl, fun k hk => ?_⟩
  rw [key]
  have hk' : k = 0 ∨ k = 1 ∨ k = 2 ∨ k = 3 ∨ k = 4 ∨ k = 5 ∨ k = 6 ∨ k = 7 ∨ k = 8 ∨ k = 9 := by
    omega
  rcases hk' with rfl | rfl | rfl | rfl | rfl | rfl | rfl | rfl | rfl | rfl <;>
    simp [attTokens]

/-- C23, instance: for the text `BoiTbO`, the tokens `Bo`, `iT`, `bO`, bold and italic
are on and the other eight attributes are off. -/
theorem extractAttributes_recognised_witness :
    extractAttributes "BoiTbO"
      = [true, true, false, false, false, false, false, false, false, false] :=
  (extractAttributes_recognised [('B', 'o'), ('i', 'T'), ('b', 'O')] (by decide)).1.trans
    (by decide)

/-- C24, counterexample: the text `xbox` is made of the two-letter tokens `xb` and `ox`,
neither of which is recognised, yet `extractAttributes` switches bold on. -/
theorem extractAttributes_straddle_counterexample :
    tokenText [('x', 'b'), ('o', 'x')] = "xbox"
    ∧ ('x', 'b') ∉ attTokens ∧ ('o', 'x') ∉ attTokens
    ∧ attTokens.getD 0 (' ', ' ') = ('b', 'o')
    ∧ extractAttributes "xbox"
      = [true, false, false, false, false, false, false, false, false, false] := by
  decide

/-- C24, amended. For every text made of two-letter tokens, attribute `k` is on if and
only if token `k` is, in lower case, one of the tokens of the text or its two letters
are the last letter of one token and the first letter of the next; so a text without
recognised tokens switches on exactly the attributes whose token straddles two adjacent
tokens, and none if there is no such token. -/
theorem extractAttributes_two_letter_tokens (ts : List (Char × Char)) :
    extractAttributes (tokenText ts)
      = attTokens.map (fun tok => decide (tok ∈ lowerTokens ts
          ∨ ∃ e ∈ (lowerTokens ts).zip (lowerTokens ts).tail, e.1.2 = tok.1 ∧ e.2.1 = tok.2))
    ∧ ((∀ t ∈ lowerTokens ts, t ∉ attTokens)
        → (∀ e ∈ (lowerTokens ts).zip (lowerTokens ts).tail, (e.1.2, e.2.1) ∉ attTokens)
        → extractAttributes (tokenText ts)
          = [false, false, false, false, false, false, false, false, false, false]) := by
  have key : extractAttributes (tokenText ts)
      = attTokens.map (fun tok => decide (tok ∈ lowerTokens ts
          ∨ ∃ e ∈ (lowerTokens ts).zip (lowerTokens ts).tail,
              e.1.2 = tok.1 ∧ e.2.1 = tok.2)) := by
    rw [extractAttributes_tokenText]
    apply List.map_congr_left
    intro tok _
    rw [Bool.eq_iff_iff, strFind_tokens, decide_eq_true_iff]
  refine ⟨key, fun h1 h2 => ?_⟩
  rw [key]
  have hall : ∀ tok ∈ attTokens, decide (tok ∈ lowerTokens ts
      ∨ ∃ e ∈ (lowerTokens ts).zip (lowerTokens ts).tail, e.1.2 = tok.1 ∧ e.2.1 = tok.2)
      = false := by
    intro tok htok
    rw [decide_eq_false_iff_not]
    rintro (h | ⟨e, he, h3, h4⟩)
    · exact h1 tok h htok
    · apply h2 e he
      rw [h3, h4]
      exact htok
  rw [List.map_congr_left hall]
  rfl

/-- C24 amended, instances: `xyzw` switches nothing on; `xbox` switches on bold only,
by the letters `bo` that straddle its two tokens. -/
theorem extractAttributes_two_letter_tokens_witness :
    extractAttributes (tokenText [('x', 'y'), ('z', 'w')])
      = [false, false, false, false, false, false, false, false, false, false]
    ∧ extractAttributes (tokenText [('x', 'b'), ('o', 'x')])
      = [true, false, false, false, false, false, false, false, false, false] :=
  ⟨(extractAttributes_two_letter_tokens [('x', 'y'), ('z', 'w')]).2 (by decide) (by decide),
   (extractAttributes_two_letter_tokens [('x', 'b'), ('o', 'x')]).1.trans (by decide)⟩

end Window

end npp

namespace npp

namespace Window

/-! ### Integers -/

/-- The zeros `wintp` inserts go between the sign and the rest of the text. -/
theorem wintpPad_eq (input : Int) : ∀ (n : Nat) (rest : List Nat),
    wintpPad input n ((if input < 0 then [0x2D] else []) ++ rest)
      = (if input < 0 then [0x2D] else []) ++ List.replicate n 0x30 ++ rest
  | 0, rest => by simp [wintpPad]
  | n + 1, rest => by
    have ih := wintpPad_eq input n (0x30 :: rest)
    rw [wintpPad]
    by_cases h : input < 0
    · simp only [if_pos h, List.singleton_append, List.take_succ_cons, List.take_zero,
        List.drop_succ_cons, List.drop_zero] at ih ⊢
      rw [ih, List.replicate_succ']
      simp
    · simp only [if_neg h, List.nil_append] at ih ⊢
      rw [ih, List.replicate_succ']
      simp

/-- The decimal text of a 32-bit `int` has at most 11 characters. -/
theorem to_wstring_length_le {input : Int} (h1 : -2147483648 ≤ input)
    (h2 : input ≤ 2147483647) : (to_wstring input).length ≤ 11 := by
  have hd : (Nat.toDigits 10 input.natAbs).length ≤ 10 := by
    unfold Nat.toDigits
    exact Nat.toDigitsCore_length 10 (by decide) _ _ 10 (by omega) (by decide)
  unfold to_wstring
  rw [List.length_append, List.length_map]
  split_ifs <;> simp <;> omega

/-- C27. For a 32-bit `input` and an `unsigned short` minimum width, `wintp` is `wstrp`
of the text made of the sign `-` of a negative number, then zeros, then the decimal
digits of `|input|`; the zeros fill the text up to the minimum width, so its length is
the larger of `minWidth` and the length of the unpadded text with its sign; the text is
placed and the position returned as by `wstrp`. -/
theorem wintp_text (w : Window) (pos : Nat × Nat) (input : Int) (minWidth color : Nat)
    (att : String) (offset : Nat × Nat) (wrap : Bool) (h1 : -2147483648 ≤ input)
    (h2 : input ≤ 2147483647) :
    w.wintp pos input minWidth color att offset wrap
      = w.wstrp pos (wintText input minWidth) color att offset wrap
    ∧ wintText input minWidth
      = (if input < 0 then [0x2D] else [])
        ++ List.replicate (minWidth - (to_wstring input).length) 0x30
        ++ (Nat.toDigits 10 input.natAbs).map Char.toNat
    ∧ (wintText input minWidth).length = max minWidth (to_wstring input).length
    ∧ to_wstring input
      = (if input < 0 then [0x2D] else []) ++ (Nat.toDigits 10 input.natAbs).map Char.toNat := by
  have hlen := to_wstring_length_le h1 h2
  refine ⟨?_, rfl, ?_, rfl⟩
  · unfold wintp
    by_cases hin : w.checkCoord pos.1 pos.2 = true
    · simp only [hin, Bool.not_true, Bool.false_eq_true, if_false]
      have hc : ((minWidth : Int) - ((to_wstring input).length % 65536 : Nat)).toNat
          = minWidth - (to_wstring input).length := by
        rw [Nat.mod_eq_of_lt (by omega)]
        omega
      rw [hc]
      have hp := wintpPad_eq input (minWidth - (to_wstring input).length)
        ((Nat.toDigits 10 input.natAbs).map Char.toNat)
      unfold wintText
      rw [← hp]
      rfl
    · have hin' : w.checkCoord pos.1 pos.2 = false := by simpa using hin
      unfold wstrp
      simp only [hin', Bool.not_false, if_true]
  · have hl : (to_wstring input).length
        = (if input < 0 then [0x2D] else ([] : List Nat)).length
          + ((Nat.toDigits 10 input.natAbs).map Char.toNat).length := by
      unfold to_wstring
      rw [List.length_append]
    unfold wintText
    rw [List.length_append, List.length_append, List.length_replicate]
    omega

set_option maxRecDepth 1000000 in
/-- C27, instances: `-129` is written as `-129` with minimum width 0 and as `-00129`
with minimum width 6, by `wstrp` of that text. -/
theorem wintp_text_witness :
    (Window.create 24 80 0 0 3 9).wintp (1, 2) (-129) 6 2 "" (0, 1) true
      = (Window.create 24 80 0 0 3 9).wstrp (1, 2) [0x2D, 0x30, 0x30, 0x31, 0x32, 0x39] 2 ""
          (0, 1) true
    ∧ wintText (-129) 0 = [0x2D, 0x31, 0x32, 0x39]
    ∧ wintText (-129) 6 = [0x2D, 0x30, 0x30, 0x31, 0x32, 0x39] :=
  have e6 : wintText (-129) 6 = [0x2D, 0x30, 0x30, 0x31, 0x32, 0x39] := by decide!
  ⟨by
    have h := (wintp_text (Window.create 24 80 0 0 3 9) (1, 2) (-129) 6 2 "" (0, 1) true
      (by decide) (by decide)).1
    rw [e6] at h
    exact h, by decide!, e6⟩

end Window

end npp

namespace npp

namespace Window

/-! ### Rendering line by line -/

/-- The write of `rline` for counters inside the bounds of its loops. -/
theorem rlineWrite_eq {w : Window} (hY : w.DimY < 65536) (hX : w.DimX < 65536) {dir : Nat}
    (hd : dir ≤ 3) (rev : Bool) {i j : Nat} (hi : i < (if dir < 2 then w.DimY else w.DimX))
    (hj : j < (if dir < 2 then w.DimX else w.DimY)) :
    w.rlineWrite dir rev i j
      = [Event.write (w.rlineCell dir rev i j).1 (w.rlineCell dir rev i j).2
          (w.cellAt (w.rlineCell dir rev i j).1 (w.rlineCell dir rev i j).2)]
    ∧ (w.rlineCell dir rev i j).1 < w.DimY ∧ (w.rlineCell dir rev i j).2 < w.DimX := by
  have e1 : ∀ k, k < w.DimX → toUShort ((w.DimX : Int) - 1 - k) = w.DimX - 1 - k := by
    intro k hk; unfold toUShort; omega
  have e2 : ∀ k, k < w.DimY → toUShort ((w.DimY : Int) - 1 - k) = w.DimY - 1 - k := by
    intro k hk; unfold toUShort; omega
  have hw : ∀ y x, y < w.DimY → x < w.DimX → w.write y x = [Event.write y x (w.cellAt y x)] := by
    intro y x hy hx
    unfold write
    rw [if_neg (by omega)]
  have hdir : dir = 0 ∨ dir = 1 ∨ dir = 2 ∨ dir = 3 := by omega
  rcases hdir with rfl | rfl | rfl | rfl <;> cases rev <;>
    simp only [rlineWrite, rlineCell, Nat.lt_irrefl, if_true, if_false, Bool.false_eq_true,
      OfNat.ofNat_ne_zero, OfNat.ofNat_ne_one, Nat.one_lt_ofNat, Nat.zero_lt_succ,
      Nat.reduceLT, Nat.reduceEqDiff, one_ne_zero] at hi hj ⊢
  all_goals first
    | exact ⟨hw _ _ (by omega) (by omega), by omega, by omega⟩
    | (rw [e1 _ (by omega)]; exact ⟨hw _ _ (by omega) (by omega), by omega, by omega⟩)
    | (rw [e2 _ (by omega)]; exact ⟨hw _ _ (by omega) (by omega), by omega, by omega⟩)
    | (rw [e1 _ (by omega), e2 _ (by omega)];
       exact ⟨hw _ _ (by omega) (by omega), by omega, by omega⟩)

/-- The events of `write` are no skipped waits. -/
theorem rlineWrite_noSkip (w : Window) (dir : Nat) (rev : Bool) (i j : Nat) :
    ∀ e ∈ w.rlineWrite dir rev i j, e.isSkip = false := by
  have hw : ∀ y x, ∀ e ∈ w.write y x, e.isSkip = false := by
    intro y x e he
    unfold write at he
    split_ifs at he
    · simp at he
    · rw [List.mem_singleton] at he
      rw [he]
      rfl
  intro e he
  unfold rlineWrite at he
  split at he
  · exact hw _ _ e he
  · exact hw _ _ e he
  · exact hw _ _ e he
  · exact hw _ _ e he
  · simp at he

/-- The inner loop of `rline`: either no wait was skipped and the loop made its writes
(each followed by a refresh and a wait unless `full`), or a wait was skipped and the
events end with that wait and those of `rinst`. -/
theorem rlineInner_shape (w : Window) (keys : Nat → Bool) (dir : Nat) (full rev : Bool)
    (millis i : Nat) : ∀ (n j polls : Nat),
    ((w.rlineInner keys dir full rev millis i n j polls).2.2 = false
      ∧ (w.rlineInner keys dir full rev millis i n j polls).1
        = (List.range' j n).flatMap fun j =>
            w.rlineWrite dir rev i j
              ++ (if full then [] else [Event.refresh, Event.wait millis false]))
    ∨ ((w.rlineInner keys dir full rev millis i n j polls).2.2 = true
      ∧ ∃ pre, (w.rlineInner keys dir full rev millis i n j polls).1
          = pre ++ Event.refresh :: Event.wait millis true :: w.rinst
        ∧ ∀ e ∈ pre, e.isSkip = false)
  | 0, j, polls => by
    left
    exact ⟨rfl, rfl⟩
  | n + 1, j, polls => by
    rw [rlineInner]
    cases full
    · simp only [Bool.not_false, if_true, Bool.false_eq_true, if_false]
      by_cases hs : (w.wait keys millis polls).1 = true
      · right
        simp only [hs, if_true]
        refine ⟨trivial, w.rlineWrite dir rev i j, by simp, rlineWrite_noSkip w dir rev i j⟩
      · simp only [hs, if_false, Bool.false_eq_true]
        rcases rlineInner_shape w keys dir false rev millis i n (j + 1)
          (w.wait keys millis polls).2 with ⟨h1, h2⟩ | ⟨h1, pre, h2, h3⟩
        · left
          refine ⟨h1, ?_⟩
          rw [h2, List.range'_succ, List.flatMap_cons]
          simp
        · right
          refine ⟨h1, w.rlineWrite dir rev i j ++ [Event.refresh, Event.wait millis false] ++ pre,
            by rw [h2]; simp, ?_⟩
          intro e he
          simp only [List.mem_append, List.mem_cons, List.mem_singleton, List.not_mem_nil,
            or_false] at he
          rcases he with (he | he | he) | he
          · exact rlineWrite_noSkip w dir rev i j e he
          · rw [he]; rfl
          · rw [he]; rfl
          · exact h3 e he
    · simp only [Bool.not_true, Bool.false_eq_true, if_false, if_true]
      rcases rlineInner_shape w keys dir true rev millis i n (j + 1) polls
        with ⟨h1, h2⟩ | ⟨h1, pre, h2, h3⟩
      · left
        refine ⟨h1, ?_⟩
        rw [h2, List.range'_succ, List.flatMap_cons]
        simp
      · right
        refine ⟨h1, w.rlineWrite dir rev i j ++ pre, by rw [h2]; simp, ?_⟩
        intro e he
        rcases List.mem_append.1 he with he | he
        · exact rlineWrite_noSkip w dir rev i j e he
        · exact h3 e he

/-- The events of a loop of `rline` that ran without a skipped wait hold no skipped
wait. -/
theorem rlineRaw_noSkip (w : Window) (dir : Nat) (full rev : Bool) (millis i : Nat)
    (l : List Nat) :
    ∀ e ∈ (l.flatMap fun j => w.rlineWrite dir rev i j
        ++ (if full then [] else [Event.refresh, Event.wait millis false])),
      e.isSkip = false := by
  intro e he
  obtain ⟨j, _, hj⟩ := List.mem_flatMap.1 he
  rcases List.mem_append.1 hj with h | h
  · exact rlineWrite_noSkip w dir rev i j e h
  · cases full
    · simp only [Bool.false_eq_true, if_false, List.mem_cons, List.mem_singleton,
        List.not_mem_nil, or_false] at h
      rcases h with h | h <;> rw [h] <;> rfl
    · simp at h

/-- The outer loop of `rline`: either no wait was skipped and the loop went through its
lines, each followed by a refresh and a wait, or a wait was skipped and the events end
with that wait and those of `rinst`. -/
theorem rlineOuter_shape (w : Window) (keys : Nat → Bool) (dir : Nat) (full rev : Bool)
    (millis l2 : Nat) : ∀ (n i polls : Nat),
    ((w.rlineOuter keys dir full rev millis l2 n i polls).1
        = (List.range' i n).flatMap fun i =>
            ((List.range' 0 l2).flatMap fun j =>
              w.rlineWrite dir rev i j
                ++ (if full then [] else [Event.refresh, Event.wait millis false]))
            ++ [Event.refresh, Event.wait millis false])
    ∨ (∃ pre, (w.rlineOuter keys dir full rev millis l2 n i polls).1
          = pre ++ Event.refresh :: Event.wait millis true :: w.rinst
        ∧ ∀ e ∈ pre, e.isSkip = false)
  | 0, i, polls => Or.inl rfl
  | n + 1, i, polls => by
    rw [rlineOuter]
    rcases rlineInner_shape w keys dir full rev millis i l2 0 polls
      with ⟨h1, h2⟩ | ⟨h1, pre, h2, h3⟩
    · simp only [h1, Bool.false_eq_true, if_false]
      by_cases hs : (w.wait keys millis
          (w.rlineInner keys dir full rev millis i l2 0 polls).2.1).1 = true
      · right
        simp only [hs, if_true]
        refine ⟨(w.rlineInner keys dir full rev millis i l2 0 polls).1, by simp, ?_⟩
        rw [h2]
        exact rlineRaw_noSkip w dir full rev millis i _
      · simp only [hs, if_false, Bool.false_eq_true]
        rcases rlineOuter_shape w keys dir full rev millis l2 n (i + 1)
          (w.wait keys millis (w.rlineInner keys dir full rev millis i l2 0 polls).2.1).2
          with h4 | ⟨pre, h4, h5⟩
        · left
          rw [h4, h2, List.range'_succ, List.flatMap_cons]
        · right
          refine ⟨(w.rlineInner keys dir full rev millis i l2 0 polls).1
            ++ [Event.refresh, Event.wait millis false] ++ pre, by rw [h4]; simp, ?_⟩
          intro e he
          simp only [List.mem_append, List.mem_cons, List.mem_singleton, List.not_mem_nil,
            or_false] at he
          rcases he with (he | he | he) | he
          · rw [h2] at he
            exact rlineRaw_noSkip w dir full rev millis i _ e he
          · rw [he]; rfl
          · rw [he]; rfl
          · exact h5 e he
    · right
      simp only [h1, if_true]
      exact ⟨pre, h2, h3⟩

end Window

end npp

namespace npp

namespace Window

/-- Two places of the lines of `rline` hold the same cell only if they are the same
place of the same line. -/
theorem rlineCell_inj {w : Window} {dir : Nat} (hd : dir ≤ 3) (rev : Bool) {i j i' j' : Nat}
    (hi : i < (if dir < 2 then w.DimY else w.DimX))
    (hj : j < (if dir < 2 then w.DimX else w.DimY))
    (hi' : i' < (if dir < 2 then w.DimY else w.DimX))
    (hj' : j' < (if dir < 2 then w.DimX else w.DimY))
    (h : w.rlineCell dir rev i j = w.rlineCell dir rev i' j') : i = i' ∧ j = j' := by
  have hdir : dir = 0 ∨ dir = 1 ∨ dir = 2 ∨ dir = 3 := by omega
  rcases hdir with rfl | rfl | rfl | rfl <;> cases rev <;>
    simp only [rlineCell, Nat.lt_irrefl, if_true, if_false, Bool.false_eq_true,
      OfNat.ofNat_ne_zero, OfNat.ofNat_ne_one, Nat.one_lt_ofNat, Nat.zero_lt_succ,
      Nat.reduceLT, Nat.reduceEqDiff, one_ne_zero, Prod.mk.injEq] at hi hj hi' hj' h ⊢ <;>
    omega

/-- Every cell of the window is a place of a line of `rline`. -/
theorem rlineCell_surj {w : Window} {dir : Nat} (hd : dir ≤ 3) (rev : Bool) {y x : Nat}
    (hy : y < w.DimY) (hx : x < w.DimX) :
    ∃ i j, i < (if dir < 2 then w.DimY else w.DimX) ∧ j < (if dir < 2 then w.DimX else w.DimY)
      ∧ w.rlineCell dir rev i j = (y, x) := by
  have hdir : dir = 0 ∨ dir = 1 ∨ dir = 2 ∨ dir = 3 := by omega
  rcases hdir with rfl | rfl | rfl | rfl <;> cases rev <;>
    simp only [rlineCell, Nat.lt_irrefl, if_true, if_false, Bool.false_eq_true,
      OfNat.ofNat_ne_zero, OfNat.ofNat_ne_one, Nat.one_lt_ofNat, Nat.zero_lt_succ,
      Nat.reduceLT, Nat.reduceEqDiff, one_ne_zero, Prod.mk.injEq]
  · exact ⟨y, x, hy, hx, rfl, rfl⟩
  · exact ⟨y, w.DimX - 1 - x, hy, by omega, rfl, by omega⟩
  · exact ⟨w.DimY - 1 - y, x, by omega, hx, by omega, rfl⟩
  · exact ⟨w.DimY - 1 - y, w.DimX - 1 - x, by omega, by omega, by omega, by omega⟩
  · exact ⟨x, y, hx, hy, rfl, rfl⟩
  · exact ⟨x, w.DimY - 1 - y, hx, by omega, by omega, rfl⟩
  · exact ⟨w.DimX - 1 - x, y, by omega, hy, rfl, by omega⟩
  · exact ⟨w.DimX - 1 - x, w.DimY - 1 - y, by omega, by omega, by omega, by omega⟩

/-- The cells written by a run of `rline` without a skipped wait, in the order of the
writes. -/
theorem rlineEvents_cells (w : Window) (dir : Nat) (full rev : Bool) (millis : Nat) :
    (w.rlineEvents dir full rev millis).filterMap Event.cell
      = (List.range (if dir < 2 then w.DimY else w.DimX)).flatMap fun i =>
          (List.range (if dir < 2 then w.DimX else w.DimY)).map fun j => w.rlineCell dir rev i j := by
  unfold rlineEvents
  rw [List.filterMap_flatMap]
  apply List.flatMap_congr
  intro i _
  rw [List.filterMap_append, List.filterMap_flatMap]
  have e : ([Event.refresh, Event.wait millis false] : List Event).filterMap Event.cell = [] := rfl
  rw [e, List.append_nil]
  generalize List.range (if dir < 2 then w.DimX else w.DimY) = l
  induction l with
  | nil => rfl
  | cons j l ih =>
    rw [List.flatMap_cons, List.map_cons, ih]
    cases full <;> rfl

/-- The events of a run of `rline` for `dir ≤ 3`: those of `rlineEvents` when no wait
is skipped, and otherwise events without a skipped wait, a refresh, the skipped wait and
the events of `rinst`. -/
theorem rline_shape {w : Window} (hY : w.DimY < 65536) (hX : w.DimX < 65536)
    (keys : Nat → Bool) {dir : Nat} (hd : dir ≤ 3) (full rev : Bool) (millis polls : Nat) :
    (w.rline keys dir full rev millis polls).1 = w.rlineEvents dir full rev millis
    ∨ ∃ pre, (w.rline keys dir full rev millis polls).1
          = pre ++ Event.refresh :: Event.wait millis true :: w.rinst
        ∧ ∀ e ∈ pre, e.isSkip = false := by
  unfold rline
  rw [if_neg (by omega)]
  rcases rlineOuter_shape w keys dir full rev millis (if dir < 2 then w.DimX else w.DimY)
    (if dir < 2 then w.DimY else w.DimX) 0 polls with h | h
  · left
    rw [h]
    unfold rlineEvents
    rw [← List.range_eq_range', ← List.range_eq_range']
    apply List.flatMap_congr
    intro i hi
    congr 1
    apply List.flatMap_congr
    intro j hj
    rw [(rlineWrite_eq hY hX hd rev (List.mem_range.1 hi) (List.mem_range.1 hj)).1]
    rfl
  · exact Or.inr h

/-- The events of `rinst`: no wait, every cell of the window, and a refresh at the end. -/
theorem rinst_events (w : Window) :
    (∀ e ∈ w.rinst, e.isSkip = false)
    ∧ (∀ y x, y < w.DimY → x < w.DimX → Event.write y x (w.cellAt y x) ∈ w.rinst)
    ∧ ∃ init, w.rinst = init ++ [Event.refresh] := by
  refine ⟨?_, ?_, _, rfl⟩
  · intro e he
    unfold rinst at he
    rcases List.mem_append.1 he with h | h
    · obtain ⟨i, _, hi⟩ := List.mem_flatMap.1 h
      obtain ⟨j, _, hj⟩ := List.mem_flatMap.1 hi
      unfold write at hj
      split_ifs at hj
      · simp at hj
      · rw [List.mem_singleton] at hj
        rw [hj]; rfl
    · rw [List.mem_singleton] at h
      rw [h]; rfl
  · intro y x hy hx
    unfold rinst
    apply List.mem_append_left
    refine List.mem_flatMap.2 ⟨y, List.mem_range.2 hy, List.mem_flatMap.2 ⟨x, List.mem_range.2 hx, ?_⟩⟩
    unfold write
    rw [if_neg (by omega)]
    exact List.mem_singleton.2 rfl

end Window

end npp

namespace npp

/-! ### Writes and the refresh after them -/

theorem Flushed.of_no_write {l : List Event} (h : ∀ e ∈ l, e.cell = none) : Flushed l := by
  intro pre e post hl he
  exfalso
  apply he
  apply h
  rw [hl]
  simp

theorem Flushed.append_refresh (a : List Event) {b : List Event} (hr : Event.refresh ∈ b)
    (hb : Flushed b) : Flushed (a ++ b) := by
  intro pre e post hl he
  rcases List.append_eq_append_iff.1 hl with ⟨a', h1, h2⟩ | ⟨c', h1, h2⟩
  · -- pre = a ++ a', b = a' ++ e :: post
    exact hb a' e post h2 he
  · -- a = pre ++ c', e :: post = c' ++ b
    cases c' with
    | nil =>
      rw [List.nil_append] at h2
      exact hb [] e post h2.symm he
    | cons c c'' =>
      rw [List.cons_append, List.cons.injEq] at h2
      rw [h2.2]
      exact List.mem_append_right _ hr

theorem Flushed.append {a b : List Event} (ha : Flushed a) (hb : Flushed b) :
    Flushed (a ++ b) := by
  intro pre e post hl he
  rcases List.append_eq_append_iff.1 hl with ⟨a', h1, h2⟩ | ⟨c', h1, h2⟩
  · exact hb a' e post h2 he
  · cases c' with
    | nil =>
      rw [List.nil_append] at h2
      exact hb [] e post h2.symm he
    | cons c c'' =>
      rw [List.cons_append, List.cons.injEq] at h2
      rw [h2.2]
      apply List.mem_append_left
      apply ha pre e c'' _ he
      rw [h1, h2.1]

/-- The place of the first skipped wait: what follows it is determined. -/
theorem split_at_skip : ∀ (a : List Event) {b pre post : List Event} {x e : Event},
    (∀ y ∈ a, y.isSkip = false) → (∀ y ∈ b, y.isSkip = false) → e.isSkip = true →
    a ++ x :: b = pre ++ e :: post → post = b
  | [], b, pre, post, x, e, _, hb, he, h => by
    cases pre with
    | nil =>
      rw [List.nil_append, List.nil_append, List.cons.injEq] at h
      exact h.2.symm
    | cons p pre' =>
      rw [List.nil_append, List.cons_append, List.cons.injEq] at h
      exfalso
      have : e ∈ b := by rw [h.2]; simp
      rw [hb e this] at he
      exact Bool.false_ne_true he
  | y :: a', b, pre, post, x, e, ha, hb, he, h => by
    cases pre with
    | nil =>
      rw [List.nil_append, List.cons_append, List.cons.injEq] at h
      exfalso
      have hy := ha y (List.mem_cons_self _ _)
      rw [h.1, he] at hy
      exact Bool.false_ne_true hy.symm
    | cons p pre' =>
      rw [List.cons_append, List.cons_append, List.cons.injEq] at h
      exact split_at_skip a' (fun z hz => ha z (List.mem_cons_of_mem _ hz)) hb he h.2

namespace Window

theorem rinst_flushed (w : Window) : Flushed w.rinst := by
  unfold rinst
  exact Flushed.append_refresh _ (List.mem_singleton.2 rfl)
    (Flushed.of_no_write (fun e he => by rw [List.mem_singleton.1 he]; rfl))

theorem rlineEvents_noSkip (w : Window) (dir : Nat) (full rev : Bool) (millis : Nat) :
    ∀ e ∈ w.rlineEvents dir full rev millis, e.isSkip = false := by
  intro e he
  unfold rlineEvents at he
  obtain ⟨i, _, hi⟩ := List.mem_flatMap.1 he
  rcases List.mem_append.1 hi with h | h
  · obtain ⟨j, _, hj⟩ := List.mem_flatMap.1 h
    rcases List.mem_cons.1 hj with h' | h'
    · rw [h']; rfl
    · cases full
      · simp only [Bool.false_eq_true, if_false, List.mem_cons, List.mem_singleton,
          List.not_mem_nil, or_false] at h'
        rcases h' with h' | h' <;> rw [h'] <;> rfl
      · simp at h'
  · simp only [List.mem_cons, List.mem_singleton, List.not_mem_nil, or_false] at h
    rcases h with h | h <;> rw [h] <;> rfl

theorem rlineEvents_flushed (w : Window) (dir : Nat) (full rev : Bool) (millis : Nat) :
    Flushed (w.rlineEvents dir full rev millis) := by
  unfold rlineEvents
  generalize List.range (if dir < 2 then w.DimY else w.DimX) = l
  induction l with
  | nil => exact Flushed.of_no_write (fun e he => by simp at he)
  | cons i l ih =>
    rw [List.flatMap_cons]
    apply Flushed.append _ ih
    exact Flushed.append_refresh _ (List.mem_cons_self _ _)
      (Flushed.of_no_write (fun e he => by
        simp only [List.mem_cons, List.mem_singleton, List.not_mem_nil, or_false] at he
        rcases he with h | h <;> rw [h] <;> rfl))

end Window

end npp

namespace npp

namespace Window

/-- C29. When no wait is skipped, `rline(dir, full, rev, millis)` with `dir ≤ 3` produces
the events of `rlineEvents`: line after line, in each line its cells one after the
other, a refresh and a wait after every line and, when `full` is false, after every
cell as well.  The lines are the rows from the top (`dir = 0`) or from the bottom
(`dir = 1`), or the columns from the left (`dir = 2`) or from the right (`dir = 3`);
the cells of a row go left to right, those of a column top to bottom, the other way
round with `rev`.  The writes hit cells of the window only, every cell, none twice.
For `dir > 3` the events are those of `rinst`. -/
theorem rline_order (w : Window) (hY : w.DimY < 65536) (hX : w.DimX < 65536)
    (keys : Nat → Bool) (dir : Nat) (full rev : Bool) (millis polls : Nat) :
    (dir ≤ 3 → (∀ e ∈ (w.rline keys dir full rev millis polls).1, e.isSkip = false) →
      (w.rline keys dir full rev millis polls).1
        = ((List.range (if dir < 2 then w.DimY else w.DimX)).flatMap fun i =>
            ((List.range (if dir < 2 then w.DimX else w.DimY)).flatMap fun j =>
              Event.write (w.rlineCell dir rev i j).1 (w.rlineCell dir rev i j).2
                  (w.cellAt (w.rlineCell dir rev i j).1 (w.rlineCell dir rev i j).2)
                :: (if full then [] else [Event.refresh, Event.wait millis false]))
            ++ [Event.refresh, Event.wait millis false])
      ∧ (w.rline keys dir full rev millis polls).1.filterMap Event.cell
        = ((List.range (if dir < 2 then w.DimY else w.DimX)).flatMap fun i =>
            (List.range (if dir < 2 then w.DimX else w.DimY)).map fun j =>
              w.rlineCell dir rev i j)
      ∧ ((w.rline keys dir full rev millis polls).1.filterMap Event.cell).Nodup
      ∧ (∀ y x, y < w.DimY → x < w.DimX →
          (y, x) ∈ (w.rline keys dir full rev millis polls).1.filterMap Event.cell)
      ∧ (∀ p ∈ (w.rline keys dir full rev millis polls).1.filterMap Event.cell,
          p.1 < w.DimY ∧ p.2 < w.DimX))
    ∧ (∀ i j, w.rlineCell 0 rev i j = (i, if rev then w.DimX - 1 - j else j))
    ∧ (∀ i j, w.rlineCell 1 rev i j = (w.DimY - 1 - i, if rev then w.DimX - 1 - j else j))
    ∧ (∀ i j, w.rlineCell 2 rev i j = (if rev then w.DimY - 1 - j else j, i))
    ∧ (∀ i j, w.rlineCell 3 rev i j = (if rev then w.DimY - 1 - j else j, w.DimX - 1 - i))
    ∧ (3 < dir → w.rline keys dir full rev millis polls = (w.rinst, polls)) := by
  refine ⟨fun hd hns => ?_, fun _ _ => rfl, fun _ _ => rfl, fun _ _ => rfl, fun _ _ => rfl,
    fun hd => ?_⟩
  · have htr : (w.rline keys dir full rev millis polls).1 = w.rlineEvents dir full rev millis := by
      rcases rline_shape hY hX keys hd full rev millis polls with h | ⟨pre, h, _⟩
      · exact h
      · exfalso
        have hm : Event.wait millis true ∈ (w.rline keys dir full rev millis polls).1 := by
          rw [h]; simp
        have := hns _ hm
        exact Bool.noConfusion this
    have hcells := rlineEvents_cells w dir full rev millis
    rw [htr]
    refine ⟨rfl, hcells, ?_, ?_, ?_⟩
    · rw [hcells, List.nodup_flatMap]
      constructor
      · intro i hi
        apply (List.nodup_range _).map_on
        intro j hj j' hj' h
        exact (rlineCell_inj hd rev (List.mem_range.1 hi) (List.mem_range.1 hj)
          (List.mem_range.1 hi) (List.mem_range.1 hj') h).2
      · apply (List.pairwise_lt_range _).imp_of_mem
        intro i i' hi hi' hlt p hp hp'
        obtain ⟨j, hj, rfl⟩ := List.mem_map.1 hp
        obtain ⟨j', hj', h⟩ := List.mem_map.1 hp'
        have := (rlineCell_inj hd rev (List.mem_range.1 hi') (List.mem_range.1 hj')
          (List.mem_range.1 hi) (List.mem_range.1 hj) h).1
        omega
    · intro y x hy hx
      rw [hcells]
      obtain ⟨i, j, hi, hj, h⟩ := rlineCell_surj hd rev hy hx
      exact List.mem_flatMap.2 ⟨i, List.mem_range.2 hi, List.mem_map.2 ⟨j, List.mem_range.2 hj, h⟩⟩
    · intro p hp
      rw [hcells] at hp
      obtain ⟨i, hi, hp⟩ := List.mem_flatMap.1 hp
      obtain ⟨j, hj, rfl⟩ := List.mem_map.1 hp
      exact (rlineWrite_eq hY hX hd rev (List.mem_range.1 hi) (List.mem_range.1 hj)).2
  · unfold rline
    rw [if_pos hd]

/-- C29, instance: on a 2x3 window with no key pressed, `rline(1, false, true, 1)`
writes the cells (1, 2), (1, 1), (1, 0), (0, 2), (0, 1), (0, 0) in this order. -/
theorem rline_order_witness :
    ((Window.create 24 80 0 0 2 3).rline (fun _ => false) 1 false true 1 0).1.filterMap
        Event.cell = [(1, 2), (1, 1), (1, 0), (0, 2), (0, 1), (0, 0)] :=
  ((rline_order (Window.create 24 80 0 0 2 3) (by decide) (by decide) (fun _ => false)
    1 false true 1 0).1 (by decide) (by decide)).2.1.trans (by decide)

/-- C30. Skipping falls back to an instant flush: for every `dir`, `full`, `rev`,
`millis` and every input source, what follows a skipped wait in the events of `rline`
is exactly the events of `rinst`, which holds one write for every cell, then one
refresh, and no wait; and in every run each cell of the window is written and every
write is followed by a refresh. -/
theorem rline_skip_is_rinst (w : Window) (hY : w.DimY < 65536) (hX : w.DimX < 65536)
    (keys : Nat → Bool) (dir : Nat) (full rev : Bool) (millis polls : Nat) :
    (∀ pre m post, (w.rline keys dir full rev millis polls).1
        = pre ++ Event.wait m true :: post → post = w.rinst)
    ∧ w.rinst = ((List.range w.DimY).flatMap fun i => (List.range w.DimX).flatMap fun j =>
        w.write i j) ++ [Event.refresh]
    ∧ (∀ e ∈ w.rinst, ∀ m s, e ≠ Event.wait m s)
    ∧ (∀ y x, y < w.DimY → x < w.DimX →
        Event.write y x (w.cellAt y x) ∈ (w.rline keys dir full rev millis polls).1)
    ∧ (∀ pre y x c post, (w.rline keys dir full rev millis polls).1
        = pre ++ Event.write y x c :: post → Event.refresh ∈ post) := by
  have hri := rinst_events w
  have hnw : ∀ e ∈ w.rinst, ∀ m s, e ≠ Event.wait m s := by
    intro e he m s h
    subst h
    unfold rinst at he
    rcases List.mem_append.1 he with h | h
    · obtain ⟨i, _, hi⟩ := List.mem_flatMap.1 h
      obtain ⟨j, _, hj⟩ := List.mem_flatMap.1 hi
      unfold write at hj
      split_ifs at hj
      · simp at hj
      · simp at hj
    · simp at h
  have key : (∀ pre m post, (w.rline keys dir full rev millis polls).1
        = pre ++ Event.wait m true :: post → post = w.rinst)
      ∧ (∀ y x, y < w.DimY → x < w.DimX →
        Event.write y x (w.cellAt y x) ∈ (w.rline keys dir full rev millis polls).1)
      ∧ Flushed (w.rline keys dir full rev millis polls).1 := by
    by_cases hd : dir ≤ 3
    · rcases rline_shape hY hX keys hd full rev millis polls with h | ⟨pre0, h, hpre⟩
      · rw [h]
        refine ⟨fun pre m post hp => ?_, fun y x hy hx => ?_, rlineEvents_flushed w dir full rev millis⟩
        · exfalso
          have hm : Event.wait m true ∈ w.rlineEvents dir full rev millis := by
            rw [hp]; simp
          have := rlineEvents_noSkip w dir full rev millis _ hm
          exact Bool.noConfusion this
        · obtain ⟨i, j, hi, hj, hc⟩ := rlineCell_surj hd rev hy hx
          unfold rlineEvents
          refine List.mem_flatMap.2 ⟨i, List.mem_range.2 hi, List.mem_append_left _
            (List.mem_flatMap.2 ⟨j, List.mem_range.2 hj, ?_⟩)⟩
          rw [hc]
          exact List.mem_cons_self _ _
      · rw [h]
        refine ⟨fun pre m post hp => ?_, fun y x hy hx => ?_, ?_⟩
        · have h' : (pre0 ++ [Event.refresh]) ++ Event.wait millis true :: w.rinst
              = pre ++ Event.wait m true :: post := by
            rw [← hp]; simp
          refine split_at_skip (pre0 ++ [Event.refresh]) ?_ hri.1
            (show (Event.wait m true).isSkip = true from rfl) h'
          intro y hy
          rcases List.mem_append.1 hy with hy | hy
          · exact hpre y hy
          · rw [List.mem_singleton.1 hy]; rfl
        · apply List.mem_append_right
          exact List.mem_cons_of_mem _ (List.mem_cons_of_mem _ (hri.2.1 y x hy hx))
        · apply Flushed.append_refresh _ (List.mem_cons_self _ _)
          have : Event.refresh :: Event.wait millis true :: w.rinst
              = [Event.refresh, Event.wait millis true] ++ w.rinst := rfl
          rw [this]
          exact Flushed.append (Flushed.of_no_write (fun e he => by
            simp only [List.mem_cons, List.mem_singleton, List.not_mem_nil, or_false] at he
            rcases he with h | h <;> rw [h] <;> rfl)) (rinst_flushed w)
    · have h : (w.rline keys dir full rev millis polls).1 = w.rinst := by
        unfold rline
        rw [if_pos (by omega)]
      rw [h]
      refine ⟨fun pre m post hp => ?_, hri.2.1, rinst_flushed w⟩
      exfalso
      exact hnw (Event.wait m true) (by rw [hp]; simp) m true rfl
  refine ⟨key.1, rfl, hnw, key.2.1, fun pre y x c post hp => ?_⟩
  exact key.2.2 pre (Event.write y x c) post hp (by simp [Event.cell])

/-- C30, instance: on a 2x3 window, with a key found by the second poll,
`rline(0, false, false, 1)` writes (0, 0) and (0, 1), is skipped in the wait after
(0, 1), and ends with the events of `rinst`; the cell (1, 2) has been written. -/
theorem rline_skip_is_rinst_witness :
    ((Window.create 24 80 0 0 2 3).rline (fun p => decide (p = 1)) 0 false false 1 0).1
      = [Event.write 0 0 {}, Event.refresh, Event.wait 1 false,
          Event.write 0 1 {}, Event.refresh, Event.wait 1 true]
        ++ (Window.create 24 80 0 0 2 3).rinst
    ∧ Event.write 1 2 ((Window.create 24 80 0 0 2 3).cellAt 1 2)
      ∈ ((Window.create 24 80 0 0 2 3).rline (fun p => decide (p = 1)) 0 false false 1 0).1 :=
  ⟨by decide,
   (rline_skip_is_rinst (Window.create 24 80 0 0 2 3) (by decide) (by decide)
    (fun p => decide (p = 1)) 0 false false 1 0).2.2.2.1 1 2 (by decide) (by decide)⟩

end Window

end npp

namespace npp

namespace Window

/-! ### Where `wstrp` puts its characters -/

/-- Quotient of a successor: it stays, or it goes up by one when the successor reaches
the next multiple. -/
theorem div_succ_cases (a wd : Nat) (h : 0 < wd) :
    ((a + 1) / wd = a / wd ∧ a + 1 < wd * (a / wd) + wd)
    ∨ ((a + 1) / wd = a / wd + 1 ∧ a + 1 = wd * (a / wd) + wd) := by
  have h1 := Nat.div_add_mod a wd
  have h2 := Nat.mod_lt a h
  by_cases hc : a + 1 < wd * (a / wd) + wd
  · left
    refine ⟨?_, hc⟩
    apply Nat.div_eq_of_lt_le
    · rw [Nat.mul_comm]; omega
    · rw [Nat.succ_mul, Nat.mul_comm]; omega
  · right
    have he : a + 1 = wd * (a / wd) + wd := by omega
    refine ⟨?_, he⟩
    apply Nat.div_eq_of_lt_le
    · rw [Nat.succ_mul, Nat.mul_comm]; omega
    · rw [Nat.succ_mul, Nat.succ_mul, Nat.mul_comm]; omega

theorem div_bounds (a wd : Nat) (h : 0 < wd) :
    wd * (a / wd) ≤ a ∧ a < wd * (a / wd) + wd ∧ a % wd = a - wd * (a / wd) := by
  have h1 := Nat.div_add_mod a wd
  have h2 := Nat.mod_lt a h
  omega

/-- The cell of character `i` in terms of its row offset. -/
theorem wstrpCell_eq {w : Window} {r c : Nat} (hc : c < w.DimX) (wrap : Bool) (i : Nat) :
    w.wstrpCell (r, c) wrap i
      = (r + w.wstrpRow (r, c) wrap i,
         c + i - w.wstrpWidth (r, c) wrap * w.wstrpRow (r, c) wrap i)
    ∧ c + i - w.wstrpWidth (r, c) wrap * w.wstrpRow (r, c) wrap i < w.DimX
    ∧ w.wstrpWidth (r, c) wrap * w.wstrpRow (r, c) wrap i ≤ c + i
    ∧ 0 < w.wstrpWidth (r, c) wrap := by
  unfold wstrpCell wstrpRow wstrpWidth
  cases wrap
  · simp only [Bool.false_eq_true, if_false]
    have h := div_bounds (c + i) w.DimX (by omega)
    refine ⟨?_, by omega, by omega, by omega⟩
    rw [h.2.2]
  · simp only [if_true, Nat.zero_add]
    have h := div_bounds i (w.DimX - c) (by omega)
    refine ⟨?_, by omega, by omega, by omega⟩
    rw [h.2.2]
    congr 1
    omega

/-- The row offsets of consecutive characters: the same row or the next one, the next
one exactly when the text has reached the right edge. -/
theorem wstrpRow_succ {w : Window} {r c : Nat} (hc : c < w.DimX) (wrap : Bool) (i : Nat) :
    (w.wstrpRow (r, c) wrap (i + 1) = w.wstrpRow (r, c) wrap i
      ∧ c + (i + 1) - w.wstrpWidth (r, c) wrap * w.wstrpRow (r, c) wrap i < w.DimX)
    ∨ (w.wstrpRow (r, c) wrap (i + 1) = w.wstrpRow (r, c) wrap i + 1
      ∧ c + (i + 1) - w.wstrpWidth (r, c) wrap * w.wstrpRow (r, c) wrap i = w.DimX) := by
  unfold wstrpRow wstrpWidth
  cases wrap
  · simp only [Bool.false_eq_true, if_false]
    have h := div_bounds (c + i) w.DimX (by omega)
    rcases div_succ_cases (c + i) w.DimX (by omega) with h' | h'
    · left; exact ⟨h'.1, by omega⟩
    · right; exact ⟨h'.1, by omega⟩
  · simp only [if_true, Nat.zero_add]
    have h := div_bounds i (w.DimX - c) (by omega)
    rcases div_succ_cases i (w.DimX - c) (by omega) with h' | h'
    · left; exact ⟨h'.1, by omega⟩
    · right; exact ⟨h'.1, by omega⟩

theorem wstrpRow_zero {w : Window} {r c : Nat} (hc : c < w.DimX) (wrap : Bool) :
    w.wstrpRow (r, c) wrap 0 = 0 := by
  unfold wstrpRow wstrpWidth
  cases wrap
  · simp only [Bool.false_eq_true, if_false, Nat.add_zero]
    exact Nat.div_eq_of_lt hc
  · simp

theorem wstrpRow_mono {w : Window} {r c : Nat} (wrap : Bool) {i j : Nat} (h : i ≤ j) :
    w.wstrpRow (r, c) wrap i ≤ w.wstrpRow (r, c) wrap j := by
  unfold wstrpRow
  exact Nat.div_le_div_right (by omega)

end Window

end npp

namespace npp

namespace Window

/-- Writing text keeps the dimensions and the shape of the grid. -/
theorem wstrpDraw_WF {w : Window} (hw : w.WF) (pos : Nat × Nat) (input : List Nat) (color : Nat)
    (att : String) (wrap : Bool) : ∀ n,
    (wstrpDraw w pos input color att wrap n).WF
    ∧ (wstrpDraw w pos input color att wrap n).DimY = w.DimY
    ∧ (wstrpDraw w pos input color att wrap n).DimX = w.DimX
  | 0 => ⟨hw, rfl, rfl⟩
  | n + 1 => by
    have ih := wstrpDraw_WF hw pos input color att wrap n
    have h := wchar_writes (wstrpDraw w pos input color att wrap n) (w.wstrpCell pos wrap n)
      (input.getD n 0) color att
    exact ⟨h.2.2.1 ih.1, h.1.trans ih.2.1, h.2.1.trans ih.2.2⟩

/-- The wrap test of `wstrp` in iteration `i`, entered with the offsets of the character
before: it leaves the offsets of character `i`. -/
theorem wstrpWrap_eq {w wi : Window} (hX : wi.DimX = w.DimX) {r c : Nat} (hc : c < w.DimX)
    (wrap : Bool) {i : Nat} (hlim : c + i < 65536) {xo : Nat}
    (hxo : xo = w.wstrpWidth (r, c) wrap * w.wstrpRowBefore (r, c) wrap i) :
    wstrpWrap wi (r, c) wrap i (w.wstrpRowBefore (r, c) wrap i) xo
      = (w.wstrpRow (r, c) wrap i, w.wstrpWidth (r, c) wrap * w.wstrpRow (r, c) wrap i) := by
  have hwd : w.wstrpWidth (r, c) wrap = if wrap then w.DimX - c else w.DimX := rfl
  unfold wstrpWrap
  rw [hX]
  cases i with
  | zero =>
    have h0 : w.wstrpRowBefore (r, c) wrap 0 = 0 := rfl
    rw [h0] at hxo ⊢
    rw [Nat.mul_zero] at hxo
    subst hxo
    rw [wstrpRow_zero hc, Nat.mul_zero, if_neg]
    simp only [Nat.cast_zero, add_zero, sub_zero, ge_iff_le, Nat.cast_le, not_le]
    exact hc
  | succ k =>
    have hb : w.wstrpRowBefore (r, c) wrap (k + 1) = w.wstrpRow (r, c) wrap k := rfl
    rw [hb] at hxo ⊢
    have hk := (wstrpCell_eq (r := r) hc wrap k).2.2.1
    have hk1 := (wstrpCell_eq (r := r) hc wrap (k + 1)).2.2.1
    have hpos := (wstrpCell_eq (r := r) hc wrap k).2.2.2
    rcases wstrpRow_succ (r := r) hc wrap k with ⟨h1, h2⟩ | ⟨h1, h2⟩
    · rw [h1, ← hxo, if_neg]
      rw [← hxo] at h2 hk
      simp only [ge_iff_le, not_le]
      omega
    · rw [h1] at hk1 ⊢
      rw [Nat.mul_succ, ← hxo] at hk1 ⊢
      rw [← hxo] at h2 hk
      have hq : w.wstrpRow (r, c) wrap k + 1 ≤ xo + w.wstrpWidth (r, c) wrap := by
        have := Nat.le_mul_of_pos_left (w.wstrpRow (r, c) wrap k + 1) hpos
        rw [Nat.mul_succ, ← hxo] at this
        exact this
      rw [if_pos (by simp only [ge_iff_le]; omega), Nat.mod_eq_of_lt (by omega)]
      congr 1
      rw [hwd] at hk1 hq ⊢
      unfold toUShort
      cases wrap
      · simp only [Bool.false_eq_true, if_false] at hk1 ⊢
        omega
      · simp only [if_true] at hk1 ⊢
        omega

/-- The loop of `wstrp`, entered in iteration `i` after the first `i` characters were
written: it ends after `n` characters, at the end of the text or at the first character
whose row is outside the window, with the offsets it had in the last iteration. -/
theorem wstrpLoop_spec {w : Window} (hw : w.WF) {r c : Nat} (hr : r < w.DimY)
    (hc : c < w.DimX) (input : List Nat) (color : Nat) (att : String) (wrap : Bool)
    (hlen : c + input.length < 65536) :
    ∀ (fuel i : Nat), input.length - i < fuel → i ≤ input.length →
      (∀ j, j < i → r + w.wstrpRow (r, c) wrap j < w.DimY) →
      ∃ n, i ≤ n ∧ n ≤ input.length
        ∧ (∀ j, j < n → r + w.wstrpRow (r, c) wrap j < w.DimY)
        ∧ (n < input.length → w.DimY ≤ r + w.wstrpRow (r, c) wrap n)
        ∧ wstrpLoop (r, c) input color att wrap fuel i (w.wstrpRowBefore (r, c) wrap i)
            (w.wstrpWidth (r, c) wrap * w.wstrpRowBefore (r, c) wrap i)
            (wstrpDraw w (r, c) input color att wrap i)
          = some (wstrpDraw w (r, c) input color att wrap n,
              if n < input.length then
                (w.wstrpRow (r, c) wrap n, w.wstrpWidth (r, c) wrap * w.wstrpRow (r, c) wrap n)
              else (w.wstrpRowBefore (r, c) wrap n,
                w.wstrpWidth (r, c) wrap * w.wstrpRowBefore (r, c) wrap n))
  | 0, i, hf, _, _ => by omega
  | fuel + 1, i, hf, hi, hrows => by
    have hD := wstrpDraw_WF hw (r, c) input color att wrap i
    rw [wstrpLoop]
    by_cases hil : i < input.length
    · rw [if_pos hil]
      rw [wstrpWrap_eq hD.2.2 hc wrap (by omega) rfl]
      have hcell := wstrpCell_eq (r := r) hc wrap i
      have hrow : r + w.wstrpRow (r, c) wrap i < 65536 := by
        have hY := hw.1
        cases i with
        | zero => rw [wstrpRow_zero hc]; omega
        | succ k =>
          have := hrows k (by omega)
          rcases wstrpRow_succ (r := r) hc wrap k with ⟨h1, _⟩ | ⟨h1, _⟩ <;> omega
      have hcx : toUShort ((c : Int) + (i : Nat)
          - ((w.wstrpWidth (r, c) wrap * w.wstrpRow (r, c) wrap i : Nat) : Int))
          = c + i - w.wstrpWidth (r, c) wrap * w.wstrpRow (r, c) wrap i := by
        have h1 := hcell.2.2.1
        have h2 := hcell.2.1
        have hX := hw.2.1
        generalize w.wstrpWidth (r, c) wrap * w.wstrpRow (r, c) wrap i = t at h1 h2 ⊢
        unfold toUShort
        omega
      simp only [Nat.mod_eq_of_lt hrow, hcx]
      by_cases hin : r + w.wstrpRow (r, c) wrap i < w.DimY
      · have hcc : (wstrpDraw w (r, c) input color att wrap i).checkCoord
            (r + w.wstrpRow (r, c) wrap i)
            (c + i - w.wstrpWidth (r, c) wrap * w.wstrpRow (r, c) wrap i) = true := by
          rw [checkCoord_iff, hD.2.1, hD.2.2]
          exact ⟨hin, hcell.2.1⟩
        simp only [hcc, Bool.not_true, Bool.false_eq_true, if_false]
        have hnext : (i + 1) % 65536 = i + 1 := Nat.mod_eq_of_lt (by omega)
        have hdraw : (wstrpDraw w (r, c) input color att wrap i).wchar
            (r + w.wstrpRow (r, c) wrap i,
              c + i - w.wstrpWidth (r, c) wrap * w.wstrpRow (r, c) wrap i)
            (input.getD i 0) color att = wstrpDraw w (r, c) input color att wrap (i + 1) := by
          rw [wstrpDraw, hcell.1]
        have hbef : w.wstrpRowBefore (r, c) wrap (i + 1) = w.wstrpRow (r, c) wrap i := rfl
        rw [hnext, hdraw, ← hbef]
        obtain ⟨n, h1, h2, h3, h4, h5⟩ := wstrpLoop_spec hw hr hc input color att wrap hlen
          fuel (i + 1) (by omega) (by omega) (by
            intro j hj
            rcases Nat.lt_succ_iff_lt_or_eq.1 hj with h | h
            · exact hrows j h
            · rw [h]; exact hin)
        exact ⟨n, by omega, h2, h3, h4, h5⟩
      · have hcc : (wstrpDraw w (r, c) input color att wrap i).checkCoord
            (r + w.wstrpRow (r, c) wrap i)
            (c + i - w.wstrpWidth (r, c) wrap * w.wstrpRow (r, c) wrap i) = false := by
          rw [checkCoord_false_iff, hD.2.1, hD.2.2]
          left; omega
        simp only [hcc, Bool.not_false, if_true]
        refine ⟨i, le_refl _, hi, hrows, fun _ => by omega, ?_⟩
        rw [if_pos hil]
    · rw [if_neg hil]
      refine ⟨i, le_refl _, hi, hrows, fun h => absurd h hil, ?_⟩
      rw [if_neg hil]

end Window

end npp

namespace npp

namespace Window

/-- Different characters of a text lie in different cells. -/
theorem wstrpCell_inj {w : Window} {r c : Nat} (hc : c < w.DimX) (wrap : Bool) {i j : Nat}
    (h : w.wstrpCell (r, c) wrap i = w.wstrpCell (r, c) wrap j) : i = j := by
  have hi := wstrpCell_eq (r := r) hc wrap i
  have hj := wstrpCell_eq (r := r) hc wrap j
  rw [hi.1, hj.1] at h
  have h1 := (Prod.mk.inj h).1
  have h2 := (Prod.mk.inj h).2
  have hq : w.wstrpRow (r, c) wrap i = w.wstrpRow (r, c) wrap j := by omega
  rw [hq] at h2 hi
  have h3 := hi.2.2.1
  have h4 := hj.2.2.1
  omega

/-- The cell `wchar` leaves at a position inside the window. -/
theorem wchar_cellAt_self {w : Window} (hw : w.WF) {y x : Nat} (hy : y < w.DimY)
    (hx : x < w.DimX) (input color : Nat) (att : String) :
    (w.wchar (y, x) input color att).cellAt y x = textCell input color att := by
  unfold wchar
  rw [wcharp_of_in ((checkCoord_iff w y x).2 ⟨hy, hx⟩), cellAt_setCell_of_WF hw hy hx,
    if_pos ⟨rfl, rfl⟩]
  rfl

/-- The cells of the window after the first `n` characters, all of them in rows of the
window: each character in its cell, every other cell as before. -/
theorem wstrpDraw_cells {w : Window} (hw : w.WF) {r c : Nat} (hc : c < w.DimX)
    (input : List Nat) (color : Nat) (att : String) (wrap : Bool) : ∀ n,
    (∀ j, j < n → r + w.wstrpRow (r, c) wrap j < w.DimY) →
    (∀ j, j < n →
      (wstrpDraw w (r, c) input color att wrap n).cellAt (w.wstrpCell (r, c) wrap j).1
          (w.wstrpCell (r, c) wrap j).2 = textCell (input.getD j 0) color att)
    ∧ (∀ y x, (∀ j, j < n → w.wstrpCell (r, c) wrap j ≠ (y, x)) →
      (wstrpDraw w (r, c) input color att wrap n).cellAt y x = w.cellAt y x)
  | 0, _ => ⟨fun j hj => by omega, fun _ _ _ => rfl⟩
  | n + 1, hrows => by
    have ih := wstrpDraw_cells hw hc input color att wrap n (fun j hj => hrows j (by omega))
    have hD := wstrpDraw_WF hw (r, c) input color att wrap n
    have hcell := wstrpCell_eq (r := r) hc wrap n
    have hn := hrows n (by omega)
    constructor
    · intro j hj
      rw [wstrpDraw]
      rcases Nat.lt_succ_iff_lt_or_eq.1 hj with h | h
      · rw [wchar_cellAt_ne _ _ _ _ _ (fun e => by
          have := wstrpCell_inj hc wrap (Prod.ext (Prod.mk.inj e).1 (Prod.mk.inj e).2)
          omega)]
        exact ih.1 j h
      · subst h
        have hp : w.wstrpCell (r, c) wrap j
            = ((w.wstrpCell (r, c) wrap j).1, (w.wstrpCell (r, c) wrap j).2) := rfl
        rw [hp]
        apply wchar_cellAt_self hD.1
        · rw [hD.2.1, hcell.1]; exact hn
        · rw [hD.2.2, hcell.1]; exact hcell.2.1
    · intro y x hne
      rw [wstrpDraw, wchar_cellAt_ne _ _ _ _ _ (fun e => hne n (by omega) e.symm)]
      exact ih.2 y x (fun j hj => hne j (by omega))

/-- What `wstrp` does at a start inside the window, for a text that does not take the
counters past 2^16: it writes the first `n` characters, `n` being the whole text or the
index of the first character whose row is outside, and returns the position made of
the offsets of its last iteration. -/
theorem wstrp_result {w : Window} (hw : w.WF) {r c : Nat} (hr : r < w.DimY) (hc : c < w.DimX)
    (input : List Nat) (color : Nat) (att : String) (offset : Nat × Nat) (wrap : Bool)
    (hlen : c + input.length < 65536) :
    ∃ n, n ≤ input.length
      ∧ (∀ j, j < n → r + w.wstrpRow (r, c) wrap j < w.DimY)
      ∧ (n < input.length → w.DimY ≤ r + w.wstrpRow (r, c) wrap n)
      ∧ w.wstrp (r, c) input color att offset wrap
        = some (wstrpDraw w (r, c) input color att wrap n,
            ((r + (if n < input.length then w.wstrpRow (r, c) wrap n
                    else w.wstrpRowBefore (r, c) wrap n) + offset.1) % 65536,
             toUShort ((c : Int) + input.length - 1
                - ((w.wstrpWidth (r, c) wrap
                    * (if n < input.length then w.wstrpRow (r, c) wrap n
                        else w.wstrpRowBefore (r, c) wrap n) : Nat) : Int) + offset.2))) := by
  obtain ⟨n, _, h2, h3, h4, h5⟩ := wstrpLoop_spec hw hr hc input color att wrap hlen
    wstrpFuel 0 (by rw [wstrpFuel_eq]; omega) (Nat.zero_le _) (fun j hj => by omega)
  refine ⟨n, h2, h3, h4, ?_⟩
  have h0 : w.wstrpRowBefore (r, c) wrap 0 = 0 := rfl
  rw [h0, Nat.mul_zero] at h5
  have hd0 : wstrpDraw w (r, c) input color att wrap 0 = w := rfl
  rw [hd0] at h5
  unfold wstrp
  simp only [(checkCoord_iff w r c).2 ⟨hr, hc⟩, Bool.not_true, Bool.false_eq_true, if_false, h5,
    Option.map_some']
  by_cases hn : n < input.length
  · simp only [if_pos hn]
  · simp only [if_neg hn]

end Window

end npp

namespace npp

namespace Window

/-- C25. `wstrp` places characters with wrapping.  For a start `(r, c)` inside the
window and a text with `c + length < 2^16`, character `i` has the cell
`(r + i / (DimX - c), c + i % (DimX - c))` with `wrap` and
`(r + (c + i) / DimX, (c + i) % DimX)` without; `wstrp` returns, having written the
first `n` characters, and these are exactly the characters whose row is inside the
window (the rows never decrease, so writing stops at the first character whose row is
outside); each written character is in its cell with the colour and the attributes,
and every other cell is as before. -/
theorem wstrp_places (w : Window) (hw : w.WF) (r c : Nat) (hr : r < w.DimY) (hc : c < w.DimX)
    (input : List Nat) (color : Nat) (att : String) (offset : Nat × Nat) (wrap : Bool)
    (hlen : c + input.length < 65536) :
    ∃ n w' ret, w.wstrp (r, c) input color att offset wrap = some (w', ret)
      ∧ n ≤ input.length
      ∧ (∀ i, i < input.length → (i < n ↔ (w.wstrpCell (r, c) wrap i).1 < w.DimY))
      ∧ (∀ i j, i ≤ j → (w.wstrpCell (r, c) wrap i).1 ≤ (w.wstrpCell (r, c) wrap j).1)
      ∧ (∀ i, i < n → (w.wstrpCell (r, c) wrap i).2 < w.DimX
          ∧ w'.cellAt (w.wstrpCell (r, c) wrap i).1 (w.wstrpCell (r, c) wrap i).2
            = textCell (input.getD i 0) color att)
      ∧ (∀ y x, (∀ i, i < n → w.wstrpCell (r, c) wrap i ≠ (y, x)) →
          w'.cellAt y x = w.cellAt y x)
      ∧ (∀ i, w.wstrpCell (r, c) wrap i
          = if wrap then (r + i / (w.DimX - c), c + i % (w.DimX - c))
            else (r + (c + i) / w.DimX, (c + i) % w.DimX)) := by
  obtain ⟨n, h1, h2, h3, h4⟩ := wstrp_result hw hr hc input color att offset wrap hlen
  have hrow : ∀ i, (w.wstrpCell (r, c) wrap i).1 = r + w.wstrpRow (r, c) wrap i := by
    intro i
    rw [(wstrpCell_eq (r := r) hc wrap i).1]
  have hcells := wstrpDraw_cells hw hc input color att wrap n h2
  refine ⟨n, _, _, h4, h1, fun i hi => ?_, fun i j hij => ?_, fun i hi => ?_, hcells.2,
    fun _ => rfl⟩
  · rw [hrow]
    constructor
    · exact h2 i
    · intro hlt
      by_contra hni
      have hn : n < input.length := by omega
      have := h3 hn
      have := wstrpRow_mono (w := w) (r := r) (c := c) wrap (show n ≤ i by omega)
      omega
  · rw [hrow, hrow]
    have := wstrpRow_mono (w := w) (r := r) (c := c) wrap hij
    omega
  · refine ⟨?_, hcells.1 i hi⟩
    rw [(wstrpCell_eq (r := r) hc wrap i).1]
    exact (wstrpCell_eq (r := r) hc wrap i).2.1

set_option maxRecDepth 1000000 in
/-- C25, instance: on a 3x5 window the text `abcdefg` written from (1, 3) with `wrap`
fills (1, 3), (1, 4), (2, 3), (2, 4) with `abcd` and stops, the fifth character having
the row 3; without `wrap` the third character goes to (2, 0). -/
theorem wstrp_places_witness :
    (∃ n w' ret, (Window.create 24 80 0 0 3 5).wstrp (1, 3) [97, 98, 99, 100, 101, 102, 103] 2 ""
          (0, 1) true = some (w', ret)
      ∧ n = 4 ∧ w'.cellAt 2 4 = textCell 100 2 "" ∧ w'.cellAt 2 0 = {})
    ∧ (Window.create 24 80 0 0 3 5).wstrpCell (1, 3) true 4 = (3, 3)
    ∧ (Window.create 24 80 0 0 3 5).wstrpCell (1, 3) false 2 = (2, 0) := by
  obtain ⟨n, w', ret, h1, h2, h3, -, h5, h6, -⟩ := wstrp_places (Window.create 24 80 0 0 3 5)
    (by decide) 1 3 (by decide) (by decide) [97, 98, 99, 100, 101, 102, 103] 2 "" (0, 1) true
    (by decide)
  have hn3 : 3 < n := (h3 3 (by decide)).2 (by decide!)
  have hn4 : ¬ 4 < n := fun h => absurd ((h3 4 (by decide)).1 h) (by decide!)
  have e3 : (Window.create 24 80 0 0 3 5).wstrpCell (1, 3) true 3 = (2, 4) := by decide!
  have hc3 := (h5 3 hn3).2
  rw [e3] at hc3
  refine ⟨⟨n, w', ret, h1, by omega, hc3, ?_⟩, by decide!, by decide!⟩
  rw [h6 2 0 (fun i hi => ?_)]
  · exact cellAt_create _ _ _ _ _ _ _ _
  · have hi4 : i = 0 ∨ i = 1 ∨ i = 2 ∨ i = 3 := by omega
    rcases hi4 with rfl | rfl | rfl | rfl <;> decide!

/-- C26. `wstrp` returns the position of the last character plus the offset: for a
start inside the window and a non-empty text with `c + length < 2^16` all of whose
characters have their row inside the window, the result is the row of the last
character plus `offset.y` and its column plus `offset.x`, each as an `unsigned short`;
with the default offset (0, 1) this is the cell right of the last character; and
`wstrx(0, 0, s)` with the default arguments returns the length of `s` when `s` fits in
the first row. -/
theorem wstrp_returns (w : Window) (hw : w.WF) (r c : Nat) (hr : r < w.DimY) (hc : c < w.DimX)
    (input : List Nat) (color : Nat) (att : String) (offset : Nat × Nat) (wrap : Bool)
    (hlen : c + input.length < 65536) :
    (input ≠ [] → (∀ i, i < input.length → (w.wstrpCell (r, c) wrap i).1 < w.DimY) →
      (w.wstrp (r, c) input color att offset wrap).map Prod.snd
        = some (((w.wstrpCell (r, c) wrap (input.length - 1)).1 + offset.1) % 65536,
                ((w.wstrpCell (r, c) wrap (input.length - 1)).2 + offset.2) % 65536)
      ∧ (w.wstrp (r, c) input color att Defaults.Offset wrap).map Prod.snd
        = some ((w.wstrpCell (r, c) wrap (input.length - 1)).1,
                (w.wstrpCell (r, c) wrap (input.length - 1)).2 + 1))
    ∧ (∀ (s : List Nat) (color : Nat) (att : String), s.length ≤ w.DimX →
        (w.wstrx (0, 0) s color att).map Prod.snd = some s.length) := by
  have hY := hw.1
  have hX := hw.2.1
  have key : ∀ (r c : Nat) (hr : r < w.DimY) (hc : c < w.DimX) (input : List Nat) (color : Nat)
      (att : String) (offset : Nat × Nat) (wrap : Bool), c + input.length < 65536 →
      input ≠ [] → (∀ i, i < input.length → (w.wstrpCell (r, c) wrap i).1 < w.DimY) →
      (w.wstrp (r, c) input color att offset wrap).map Prod.snd
        = some (((w.wstrpCell (r, c) wrap (input.length - 1)).1 + offset.1) % 65536,
                ((w.wstrpCell (r, c) wrap (input.length - 1)).2 + offset.2) % 65536) := by
    intro r c hr hc input color att offset wrap hlen hne hall
    obtain ⟨n, h1, h2, h3, h4⟩ := wstrp_result hw hr hc input color att offset wrap hlen
    have hpos : 0 < input.length := List.length_pos.2 hne
    have hn : ¬ n < input.length := by
      intro hn
      have := h3 hn
      have := hall n hn
      rw [(wstrpCell_eq (r := r) hc wrap n).1] at this
      omega
    rw [h4, Option.map_some']
    simp only [if_neg hn]
    have hnl : n = input.length := by omega
    subst hnl
    have hb : w.wstrpRowBefore (r, c) wrap input.length
        = w.wstrpRow (r, c) wrap (input.length - 1) := by
      unfold wstrpRowBefore
      rw [if_neg (by omega)]
    have hcell := wstrpCell_eq (r := r) hc wrap (input.length - 1)
    rw [hb, hcell.1]
    have h5 := hcell.2.2.1
    have h6 := hcell.2.1
    generalize w.wstrpWidth (r, c) wrap * w.wstrpRow (r, c) wrap (input.length - 1) = t
      at h5 h6 ⊢
    congr 2
    unfold toUShort
    omega
  refine ⟨fun hne hall => ⟨key r c hr hc input color att offset wrap hlen hne hall, ?_⟩,
    fun s color att hs => ?_⟩
  · rw [key r c hr hc input color att Defaults.Offset wrap hlen hne hall]
    have hcell := wstrpCell_eq (r := r) hc wrap (input.length - 1)
    have hrow := hall (input.length - 1) (by have := List.length_pos.2 hne; omega)
    have hcol : (w.wstrpCell (r, c) wrap (input.length - 1)).2 < w.DimX := by
      rw [hcell.1]; exact hcell.2.1
    have ho : Defaults.Offset = (0, 1) := rfl
    rw [ho]
    simp only [Nat.add_zero]
    rw [Nat.mod_eq_of_lt (by omega), Nat.mod_eq_of_lt (by omega)]
  · have h0y : 0 < w.DimY := by omega
    have h0x : 0 < w.DimX := by omega
    unfold wstrx
    rw [Option.map_map]
    by_cases hne : s = []
    · subst hne
      obtain ⟨n, h1, _, _, h4⟩ := wstrp_result hw h0y h0x [] color att Defaults.Offset
        Defaults.Wrap (by simp)
      rw [h4, Option.map_some']
      have hn : n = 0 := by simpa using h1
      subst hn
      simp only [List.length_nil, Nat.lt_irrefl, if_false, Function.comp]
      have hb : w.wstrpRowBefore (0, 0) Defaults.Wrap 0 = 0 := rfl
      rw [hb]
      have ho : Defaults.Offset = (0, 1) := rfl
      rw [ho]
      simp [toUShort]
    · have hw' : Defaults.Wrap = true := rfl
      have hrows : ∀ i, i < s.length → (w.wstrpCell (0, 0) Defaults.Wrap i).1 < w.DimY := by
        intro i hi
        rw [hw']
        unfold wstrpCell
        simp only [if_true, Nat.sub_zero, Nat.zero_add]
        rw [Nat.div_eq_of_lt (by omega)]
        exact h0y
      have hk := key 0 0 h0y h0x s color att Defaults.Offset Defaults.Wrap (by omega) hne hrows
      have hcomp : (w.wstrp (0, 0) s color att Defaults.Offset Defaults.Wrap).map
          ((Prod.snd : Window × Nat → Nat) ∘ fun r => (r.1, r.2.2))
          = ((w.wstrp (0, 0) s color att Defaults.Offset Defaults.Wrap).map Prod.snd).map
              Prod.snd := by
        rw [Option.map_map]
        rfl
      rw [hcomp, hk, Option.map_some']
      have hpos : 0 < s.length := List.length_pos.2 hne
      rw [hw']
      unfold wstrpCell
      simp only [if_true, Nat.sub_zero, Nat.zero_add]
      rw [Nat.mod_eq_of_lt (show s.length - 1 < w.DimX by omega)]
      have ho : Defaults.Offset = (0, 1) := rfl
      rw [ho]
      simp only
      rw [Nat.mod_eq_of_lt (by omega)]
      congr 1
      omega

set_option maxRecDepth 1000000 in
/-- C26, instances on a 3x9 window: `wstrp` of a text of three characters at (1, 2) with
the default offset returns (1, 5), and `wstrx(0, 0, ..)` of a text of four characters
returns 4. -/
theorem wstrp_returns_witness :
    ((Window.create 24 80 0 0 3 9).wstrp (1, 2) [97, 98, 99] 2 "" Defaults.Offset true).map
        Prod.snd = some (1, 5)
    ∧ ((Window.create 24 80 0 0 3 9).wstrx (0, 0) [108, 111, 111, 107]).map Prod.snd = some 4 :=
  have h := wstrp_returns (Window.create 24 80 0 0 3 9) (by decide) 1 2 (by decide) (by decide)
    [97, 98, 99] 2 "" (0, 1) true (by decide)
  ⟨(h.1 (by decide) (fun i hi => by
      have hi3 : i = 0 ∨ i = 1 ∨ i = 2 := by
        have : i < 3 := hi
        omega
      rcases hi3 with rfl | rfl | rfl <;> decide!)).2.trans (by decide!),
   h.2 [108, 111, 111, 107] Defaults.Color Defaults.Attributes (by decide)⟩

end Window

end npp

namespace npp

namespace Window

/-- A loop of `dgrid` with `count < 65535` returns, and a property that every iteration
keeps holds of its result. -/
theorem dgridLoop_inv {count : Nat} (body : Nat → Window → Window) (P : Nat → Window → Prop)
    (hcount : count < 65535)
    (hstep : ∀ i w, i ≤ count → P i w → P (i + 1) (body i w)) :
    ∀ fuel i w, i ≤ count + 1 → count + 2 ≤ fuel + i → P i w →
      ∃ w', dgridLoop count body fuel i w = some w' ∧ P (count + 1) w' := by
  intro fuel
  induction fuel with
  | zero => intro i w h1 h2 _; omega
  | succ n ih =>
    intro i w h1 h2 hP
    unfold dgridLoop
    by_cases hi : i ≤ count
    · rw [if_pos hi, Nat.mod_eq_of_lt (by omega)]
      exact ih (i + 1) (body i w) (by omega) (by omega) (hstep i w hi hP)
    · rw [if_neg hi]
      have : i = count + 1 := by omega
      subst this
      exact ⟨w, rfl, hP⟩

set_option maxRecDepth 1000000 in
/-- The glyphs of the `LIGHT_HARD` style a grid is made of are in the key with the
directions they were asked for. -/
theorem grid_glyphs_catalog : ∀ d ∈ List.range 6,
    ∀ v ∈ [[1, 1, 0, 0], [0, 0, 1, 1], [1, 1, 1, 1], [0, 1, 1, 1], [1, 0, 1, 1], [1, 1, 0, 1],
           [1, 1, 1, 0], [0, 1, 0, 1], [0, 1, 1, 0], [1, 0, 0, 1], [1, 0, 1, 0]],
    (dlinePiece v (LIGHT_HARD, d), v) ∈ Keys.LineDrawing := by
  decide!

set_option maxRecDepth 1000000 in
/-- The junction glyphs of the `LIGHT_HARD` style. -/
theorem light_hard_tees : ∀ d ∈ List.range 6,
    dlinePiece [1, 1, 1, 1] (LIGHT_HARD, d) = 0x253C
    ∧ dlinePiece [0, 1, 1, 1] (LIGHT_HARD, d) = 0x252C
    ∧ dlinePiece [1, 0, 1, 1] (LIGHT_HARD, d) = 0x2534
    ∧ dlinePiece [1, 1, 0, 1] (LIGHT_HARD, d) = 0x251C
    ∧ dlinePiece [1, 1, 1, 0] (LIGHT_HARD, d) = 0x2524 := by
  decide!

/-- One vertical line of a grid: the lines drawn before are to its left and offer no
connection sideways, so the line comes out plain, and the lines drawn before are kept. -/
theorem grid_verticals_step {w V : Window}
    (hfresh : ∀ y x, (w.cellAt y x).CanMerge = false)
    (hV : V.WF) (hdY : V.DimY = w.DimY) (hdX : V.DimX = w.DimX)
    {y H : Nat} (hH : 1 ≤ H) (hY : y + H ≤ w.DimY) (Xs : Nat → Nat) {n : Nat}
    (hmono : ∀ a, a < n → Xs a < Xs n) (hin : Xs n < w.DimX)
    {d : Nat} (hd : d < 6) (color : Nat)
    (hpath : ∀ j, j < n → ∀ y', y ≤ y' → y' < y + H →
      V.cellAt y' (Xs j) = lineCell (dlinePiece [1, 1, 0, 0] (LIGHT_HARD, d)) color true)
    (hoff : ∀ y' x', (∀ j, j < n → ¬ (x' = Xs j ∧ y ≤ y' ∧ y' < y + H)) →
      V.cellAt y' x' = w.cellAt y' x') :
    (V.dline y (Xs n) H true false (LIGHT_HARD, d) color true true).WF
    ∧ (V.dline y (Xs n) H true false (LIGHT_HARD, d) color true true).DimY = w.DimY
    ∧ (V.dline y (Xs n) H true false (LIGHT_HARD, d) color true true).DimX = w.DimX
    ∧ (∀ j, j < n + 1 → ∀ y', y ≤ y' → y' < y + H →
        (V.dline y (Xs n) H true false (LIGHT_HARD, d) color true true).cellAt y' (Xs j)
          = lineCell (dlinePiece [1, 1, 0, 0] (LIGHT_HARD, d)) color true)
    ∧ (∀ y' x', (∀ j, j < n + 1 → ¬ (x' = Xs j ∧ y ≤ y' ∧ y' < y + H)) →
        (V.dline y (Xs n) H true false (LIGHT_HARD, d) color true true).cellAt y' x'
          = w.cellAt y' x') := by
  have hdm := dline_WF hV y (Xs n) H true false (LIGHT_HARD, d) color true true
  have hcs : dlineCstyle LIGHT_HARD true = 1 := rfl
  have hbar : (dlinePiece [1, 1, 0, 0] (LIGHT_HARD, d), [1, 1, 0, 0]) ∈ Keys.LineDrawing :=
    grid_glyphs_catalog d (List.mem_range.2 hd) _ (by simp)
  -- what the lines drawn so far offer
  have hconn : ∀ p q dir, dir ≤ 3 → (dir = 2 ∨ dir = 3 ∨ ∀ j, j < n → q ≠ Xs j) →
      V.getConnectStyle p q dir = 0 := by
    intro p q dir hdir hcase
    by_cases hc : ∃ j, j < n ∧ q = Xs j ∧ y ≤ p ∧ p < y + H
    · obtain ⟨j, hj, hq, hp1, hp2⟩ := hc
      have hcell := hpath j hj p hp1 hp2
      rw [hq, getConnectStyle_piece (by omega) (by have := hmono j hj; omega) hcell hbar hdir]
      rcases hcase with h | h | h
      · subst h; rfl
      · subst h; rfl
      · exact absurd hq (h j hj)
    · apply getConnectStyle_not_mergeable
      rw [hoff p q (fun j hj hh => hc ⟨j, hj, hh⟩)]
      exact hfresh p q
  have hN : ∀ y', y ≤ y' → y' < y + H → dlineNeighbours V y' (Xs n) true = [0, 0, 0, 0] := by
    intro y' h1 h2
    have hne : ∀ j, j < n → Xs n ≠ Xs j := fun j hj => by have := hmono j hj; omega
    rw [dlineNeighbours_eq hV.1 hV.2.1 (show y' < V.DimY by omega) (show Xs n < V.DimX by omega),
      hconn _ _ DIR_DOWN (by decide) (Or.inr (Or.inr hne)),
      hconn _ _ DIR_UP (by decide) (Or.inr (Or.inr hne)),
      hconn _ _ DIR_RIGHT (by decide) (Or.inr (Or.inl rfl)),
      hconn _ _ DIR_LEFT (by decide) (Or.inl rfl)]
    simp
  have hcells := dvline_free_cells hV hH (show y + H ≤ V.DimY by omega)
    (show Xs n < V.DimX by omega) (show LIGHT_HARD < 8 by decide) hd color hN
  rw [hcs] at hcells
  refine ⟨hdm.1, hdm.2.1.trans hdY, hdm.2.2.trans hdX, fun j hj y' h1 h2 => ?_,
    fun y' x' h => ?_⟩
  · rw [hcells]
    by_cases hjn : Xs j = Xs n
    · rw [if_pos ⟨hjn, h1, h2⟩]
    · rw [if_neg (fun hh => hjn hh.1)]
      have hj' : j < n := by
        rcases Nat.lt_succ_iff_lt_or_eq.1 hj with h | h
        · exact h
        · exact absurd (by rw [h]) hjn
      exact hpath j hj' y' h1 h2
  · rw [hcells, if_neg (h n (Nat.lt_succ_self n))]
    exact hoff y' x' (fun j hj => h j (Nat.lt_succ_of_lt hj))

end Window

end npp

namespace npp

namespace Window

/-- The directions of a cell of a horizontal line of a grid: the ends keep what the
crossing vertical line gives, every other cell gets both in-line directions. -/
theorem dlineDirs_grid_row (a b c e k L : Nat)
    (hab : a ≠ 0 ∨ b ≠ 0 ∨ (0 < k ∧ k + 1 < L)) (hL : 1 ≤ L)
    (hc : k = 0 → c = 0) (he : k + 1 = L → e = 0) :
    dlineDirs [a, b, c, e] k L false (dlineTdir1 false false) (dlineTdir2 false false) 1
      = [a, b, if k = 0 then 0 else 1, if k + 1 = L then 0 else 1] := by
  rw [dlineDirs_horizontal]
  have e1 : (if k = 0 then (if c = 0 ∧ a = 0 ∧ b = 0 then 1 else c) else 1)
      = if k = 0 then 0 else 1 := by
    by_cases h0 : k = 0
    · rw [if_pos h0, if_pos h0, hc h0, if_neg (by omega)]
    · rw [if_neg h0, if_neg h0]
  have e2 : (if k = L - 1 then (if e = 0 ∧ a = 0 ∧ b = 0 then 1 else e) else 1)
      = if k + 1 = L then 0 else 1 := by
    by_cases h0 : k + 1 = L
    · rw [if_pos (by omega), if_pos h0, he h0, if_neg (by omega)]
    · rw [if_neg (by omega), if_neg h0]
  rw [e1, e2]

/-- One horizontal line of a grid, drawn over the vertical lines and the horizontal
lines above it: every cell on a vertical line becomes the junction of the directions
that exist there, every other cell the plain horizontal glyph; the rows drawn before
and all other cells are kept. -/
theorem grid_horizontals_step {V U : Window}
    (hU : U.WF) (hdY : U.DimY = V.DimY) (hdX : U.DimX = V.DimX)
    {y x H W rows cols : Nat} (hrows : 1 ≤ rows) (hcols : 1 ≤ cols)
    (hY : y + H ≤ V.DimY) (hX : x + W ≤ V.DimX) (Ys Xs : Nat → Nat)
    (hYs : ∀ a b, a < b → b ≤ rows → Ys a < Ys b) (hY0 : Ys 0 = y) (hYr : Ys rows + 1 = y + H)
    (hXs : ∀ a b, a < b → b ≤ cols → Xs a < Xs b) (hX0 : Xs 0 = x) (hXc : Xs cols + 1 = x + W)
    {d : Nat} (hd : d < 6) (color : Nat)
    (hVp : ∀ j, j ≤ cols → ∀ y', y ≤ y' → y' < y + H →
      V.cellAt y' (Xs j) = lineCell (dlinePiece [1, 1, 0, 0] (LIGHT_HARD, d)) color true)
    (hVo : ∀ y' x', (∀ j, j ≤ cols → ¬ (x' = Xs j ∧ y ≤ y' ∧ y' < y + H)) →
      (V.cellAt y' x').CanMerge = false)
    {m : Nat} (hm : m ≤ rows)
    (ha1 : ∀ i, i < m → ∀ j, j ≤ cols → U.cellAt (Ys i) (Xs j)
      = lineCell (dlinePiece [if 0 < i then 1 else 0, if i < rows then 1 else 0,
          if 0 < j then 1 else 0, if j < cols then 1 else 0] (LIGHT_HARD, d)) color true)
    (ha2 : ∀ i, i < m → ∀ x', x ≤ x' → x' < x + W → (∀ j, j ≤ cols → x' ≠ Xs j) →
      U.cellAt (Ys i) x' = lineCell (dlinePiece [0, 0, 1, 1] (LIGHT_HARD, d)) color true)
    (hb : ∀ y' x', (∀ i, i < m → ¬ (y' = Ys i ∧ x ≤ x' ∧ x' < x + W)) →
      U.cellAt y' x' = V.cellAt y' x') :
    (U.dline (Ys m) x W false false (LIGHT_HARD, d) color true true).WF
    ∧ (U.dline (Ys m) x W false false (LIGHT_HARD, d) color true true).DimY = V.DimY
    ∧ (U.dline (Ys m) x W false false (LIGHT_HARD, d) color true true).DimX = V.DimX
    ∧ (∀ i, i < m + 1 → ∀ j, j ≤ cols →
      (U.dline (Ys m) x W false false (LIGHT_HARD, d) color true true).cellAt (Ys i) (Xs j)
      = lineCell (dlinePiece [if 0 < i then 1 else 0, if i < rows then 1 else 0,
          if 0 < j then 1 else 0, if j < cols then 1 else 0] (LIGHT_HARD, d)) color true)
    ∧ (∀ i, i < m + 1 → ∀ x', x ≤ x' → x' < x + W → (∀ j, j ≤ cols → x' ≠ Xs j) →
      (U.dline (Ys m) x W false false (LIGHT_HARD, d) color true true).cellAt (Ys i) x'
        = lineCell (dlinePiece [0, 0, 1, 1] (LIGHT_HARD, d)) color true)
    ∧ (∀ y' x', (∀ i, i < m + 1 → ¬ (y' = Ys i ∧ x ≤ x' ∧ x' < x + W)) →
      (U.dline (Ys m) x W false false (LIGHT_HARD, d) color true true).cellAt y' x'
        = V.cellAt y' x') := by
  have hdm := dline_WF hU (Ys m) x W false false (LIGHT_HARD, d) color true true
  have hch : dlineCstyle LIGHT_HARD false = 1 := rfl
  have hcat := grid_glyphs_catalog d (List.mem_range.2 hd)
  have hYlo : y ≤ Ys m := by
    rcases Nat.eq_zero_or_pos m with h | h
    · rw [h, hY0]
    · have := hYs 0 m h hm; omega
  have hYhi : Ys m + 1 ≤ y + H := by
    rcases Nat.lt_or_eq_of_le hm with h | h
    · have := hYs m rows h (le_refl _); omega
    · rw [h, hYr]
  have hXlo : ∀ j, j ≤ cols → x ≤ Xs j ∧ (0 < j → x < Xs j) := by
    intro j hj
    rcases Nat.eq_zero_or_pos j with h | h
    · rw [h, hX0]; exact ⟨le_refl _, fun h => absurd h (lt_irrefl _)⟩
    · have := hXs 0 j h hj; omega
  have hXhi : ∀ j, j ≤ cols → Xs j + 1 ≤ x + W ∧ (j < cols → Xs j + 1 < x + W) := by
    intro j hj
    rcases Nat.lt_or_eq_of_le hj with h | h
    · have := hXs j cols h (le_refl _); omega
    · rw [h, hXc]; exact ⟨le_refl _, fun h => absurd h (lt_irrefl _)⟩
  have hYne : ∀ i, i < m → Ys i < Ys m := fun i hi => hYs i m hi hm
  -- what the cells around the line offer
  have hVc1 : ∀ j, j ≤ cols → ∀ p, y ≤ p → p < y + H → ∀ dir, dir ≤ 3 →
      V.getConnectStyle p (Xs j) dir = [1, 1, 0, 0].getD dir 0 := by
    intro j hj p h1 h2 dir hdir
    exact getConnectStyle_piece (by omega) (by have := hXhi j hj; omega) (hVp j hj p h1 h2)
      (hcat _ (by simp)) hdir
  have hVc0 : ∀ p q dir, (∀ j, j ≤ cols → ¬ (q = Xs j ∧ y ≤ p ∧ p < y + H)) →
      V.getConnectStyle p q dir = 0 :=
    fun p q dir h => getConnectStyle_not_mergeable (hVo p q h) dir
  have hUV : ∀ p q dir, (∀ i, i < m → ¬ (p = Ys i ∧ x ≤ q ∧ q < x + W)) →
      U.getConnectStyle p q dir = V.getConnectStyle p q dir :=
    fun p q dir h => getConnectStyle_congr hdY hdX (fun _ => hb p q h) dir
  have hU1 : ∀ i, i < m → ∀ j, j ≤ cols → ∀ dir, dir ≤ 3 →
      U.getConnectStyle (Ys i) (Xs j) dir
        = [if 0 < i then 1 else 0, if i < rows then 1 else 0,
            if 0 < j then 1 else 0, if j < cols then 1 else 0].getD dir 0 := by
    intro i hi j hj dir hdir
    have hy : Ys i < U.DimY := by have := hYne i hi; omega
    have hx : Xs j < U.DimX := by have := hXhi j hj; omega
    refine getConnectStyle_piece hy hx (ha1 i hi j hj) (hcat _ ?_) hdir
    split_ifs <;> first | omega | simp
  have hU0 : ∀ i, i < m → ∀ x', x ≤ x' → x' < x + W → (∀ j, j ≤ cols → x' ≠ Xs j) →
      ∀ dir, dir ≤ 3 → U.getConnectStyle (Ys i) x' dir = [0, 0, 1, 1].getD dir 0 := by
    intro i hi x' h1 h2 h3 dir hdir
    have hy : Ys i < U.DimY := by have := hYne i hi; omega
    exact getConnectStyle_piece hy (by omega) (ha2 i hi x' h1 h2 h3) (hcat _ (by simp)) hdir
  -- the neighbours of a cell of the line
  have hup1 : ∀ j, j ≤ cols →
      (if Ys m = 0 then 0 else U.getConnectStyle (Ys m - 1) (Xs j) DIR_DOWN)
        = if 0 < m then 1 else 0 := by
    intro j hj
    by_cases hm0 : 0 < m
    · have hlt := hYs 0 m hm0 hm
      rw [if_pos hm0, if_neg (by omega)]
      by_cases hr : ∃ i, i < m ∧ Ys m - 1 = Ys i
      · obtain ⟨i, hi, he⟩ := hr
        rw [he, hU1 i hi j hj _ (by decide)]
        show (if i < rows then 1 else 0) = 1
        rw [if_pos (by omega)]
      · rw [hUV _ _ _ (fun i hi hh => hr ⟨i, hi, hh.1⟩),
          hVc1 j hj _ (by omega) (by omega) _ (by decide)]
        rfl
    · rw [if_neg hm0]
      have hm' : m = 0 := by omega
      subst hm'
      by_cases h0 : Ys 0 = 0
      · rw [if_pos h0]
      · rw [if_neg h0, hUV _ _ _ (fun i hi => absurd hi (Nat.not_lt_zero i)),
          hVc0 _ _ _ (fun j' _ hh => by omega)]
  have hup0 : ∀ x', x ≤ x' → x' < x + W → (∀ j, j ≤ cols → x' ≠ Xs j) →
      (if Ys m = 0 then 0 else U.getConnectStyle (Ys m - 1) x' DIR_DOWN) = 0 := by
    intro x' h1 h2 h3
    by_cases h0 : Ys m = 0
    · rw [if_pos h0]
    · rw [if_neg h0]
      by_cases hr : ∃ i, i < m ∧ Ys m - 1 = Ys i
      · obtain ⟨i, hi, he⟩ := hr
        rw [he, hU0 i hi x' h1 h2 h3 _ (by decide)]
        rfl
      · rw [hUV _ _ _ (fun i hi hh => hr ⟨i, hi, hh.1⟩),
          hVc0 _ _ _ (fun j hj hh => h3 j hj hh.1)]
  have hnd : ∀ q i, i < m → ¬ (Ys m + 1 = Ys i ∧ x ≤ q ∧ q < x + W) :=
    fun q i hi hh => by have := hYne i hi; omega
  have hdn1 : ∀ j, j ≤ cols →
      U.getConnectStyle (Ys m + 1) (Xs j) DIR_UP = if m < rows then 1 else 0 := by
    intro j hj
    rw [hUV _ _ _ (hnd _)]
    by_cases hmr : m < rows
    · have hlt := hYs m rows hmr (le_refl _)
      rw [if_pos hmr, hVc1 j hj _ (by omega) (by omega) _ (by decide)]
      rfl
    · rw [if_neg hmr, hVc0 _ _ _ (fun j' _ hh => by
        have hm' : m = rows := by omega
        rw [hm'] at hh
        omega)]
  have hdn0 : ∀ x', (∀ j, j ≤ cols → x' ≠ Xs j) →
      U.getConnectStyle (Ys m + 1) x' DIR_UP = 0 := by
    intro x' h3
    rw [hUV _ _ _ (hnd _), hVc0 _ _ _ (fun j hj hh => h3 j hj hh.1)]
  have hrow : ∀ q, (x ≤ q → q < x + W → False) → ∀ dir,
      U.getConnectStyle (Ys m) q dir = 0 := by
    intro q hq dir
    rw [hUV _ _ _ (fun i hi hh => hq hh.2.1 hh.2.2),
      hVc0 _ _ _ (fun j hj hh => by
        have h1 := (hXlo j hj).1
        have h2 := (hXhi j hj).1
        exact hq (by omega) (by omega))]
  have hleft : ∀ x', x' - x = 0 → x ≤ x' →
      (if x' = 0 then 0 else U.getConnectStyle (Ys m) (x' - 1) DIR_RIGHT) = 0 := by
    intro x' h1 h2
    by_cases h0 : x' = 0
    · rw [if_pos h0]
    · rw [if_neg h0, hrow _ (fun _ _ => by omega)]
  have hright : ∀ x', x' - x + 1 = W → x ≤ x' →
      U.getConnectStyle (Ys m) (x' + 1) DIR_LEFT = 0 := by
    intro x' h1 h2
    rw [hrow _ (fun _ _ => by omega)]
  have hcells := fun y' x' => dline_forward_cells (y := Ys m) (x := x) (L := W) hU false
    (by have := hXs 0 cols hcols (le_refl _); omega) (by simp; omega) (by simpa using (by omega))
    (show LIGHT_HARD < 8 by decide) hd color y' x'
  simp only [Bool.false_eq_true, if_false] at hcells
  rw [hch] at hcells
  have hYU : Ys m < U.DimY := by omega
  refine ⟨hdm.1, hdm.2.1.trans hdY, hdm.2.2.trans hdX, fun i hi j hj => ?_,
    fun i hi x' h1 h2 h3 => ?_, fun y' x' h => ?_⟩
  · rw [hcells]
    have hxl := hXlo j hj
    have hxh := hXhi j hj
    by_cases him : Ys i = Ys m
    · have hi' : i = m := by
        by_contra hne
        have := hYne i (by omega)
        omega
      subst hi'
      rw [if_pos ⟨rfl, hxl.1, by omega⟩]
      congr 2
      rw [dlineNeighbours_eq hU.1 hU.2.1 hYU (show Xs j < U.DimX by omega),
        dlineDirs_grid_row _ _ _ _ _ _ ?_ (by omega) (fun h => hleft _ h hxl.1)
          (fun h => hright _ h hxl.1), hup1 j hj, hdn1 j hj]
      · have hj0 : j = 0 → Xs j = x := fun h => by rw [h, hX0]
        have hjc : j = cols → Xs j + 1 = x + W := fun h => by rw [h, hXc]
        have e3 : (if Xs j - x = 0 then 0 else 1) = if 0 < j then 1 else 0 := by
          split_ifs <;> first | rfl | omega
        have e4 : (if Xs j - x + 1 = W then 0 else 1) = if j < cols then 1 else 0 := by
          split_ifs <;> first | rfl | omega
        rw [e3, e4]
      · rw [hup1 j hj, hdn1 j hj]
        split_ifs <;> omega
    · rw [if_neg (fun hh => him hh.1)]
      refine ha1 i ?_ j hj
      rcases Nat.lt_succ_iff_lt_or_eq.1 hi with h | h
      · exact h
      · exact absurd (by rw [h]) him
  · rw [hcells]
    by_cases him : Ys i = Ys m
    · have hi' : i = m := by
        by_contra hne
        have := hYne i (by omega)
        omega
      subst hi'
      rw [if_pos ⟨rfl, h1, h2⟩]
      congr 2
      have hn0 : x' ≠ x := fun h => h3 0 (Nat.zero_le _) (by rw [hX0]; exact h)
      have hnc : x' + 1 ≠ x + W := fun h => h3 cols (le_refl _) (by omega)
      rw [dlineNeighbours_eq hU.1 hU.2.1 hYU (show x' < U.DimX by omega),
        dlineDirs_grid_row _ _ _ _ _ _ (Or.inr (Or.inr (by omega))) (by omega)
          (fun h => hleft _ h h1) (fun h => hright _ h h1), hup0 x' h1 h2 h3, hdn0 x' h3,
        if_neg (by omega), if_neg (by omega)]
    · rw [if_neg (fun hh => him hh.1)]
      refine ha2 i ?_ x' h1 h2 h3
      rcases Nat.lt_succ_iff_lt_or_eq.1 hi with h | h
      · exact h
      · exact absurd (by rw [h]) him
  · rw [hcells, if_neg (h m (Nat.lt_succ_self m))]
    exact hb y' x' (fun i hi => h i (Nat.lt_succ_of_lt hi))

end Window

end npp

namespace npp

namespace Window

/-- The two loops of `dgrid` over lines at strictly increasing positions `Xs 0 .. Xs cols`
and `Ys 0 .. Ys rows` that span the rectangle: both loops return, and the cell where
horizontal line `i` crosses vertical line `j` holds the junction of the directions that
exist there. -/
theorem grid_lines {w : Window} (hw : w.WF)
    (hfresh : ∀ y x, (w.cellAt y x).CanMerge = false)
    {y x H W rows cols : Nat} (hrows : 1 ≤ rows) (hcols : 1 ≤ cols)
    (hcr : rows < 65535) (hcc : cols < 65535)
    (hY : y + H ≤ w.DimY) (hX : x + W ≤ w.DimX) (Ys Xs : Nat → Nat)
    (hYs : ∀ a b, a < b → b ≤ rows → Ys a < Ys b) (hY0 : Ys 0 = y) (hYr : Ys rows + 1 = y + H)
    (hXs : ∀ a b, a < b → b ≤ cols → Xs a < Xs b) (hX0 : Xs 0 = x) (hXc : Xs cols + 1 = x + W)
    {d : Nat} (hd : d < 6) (color : Nat) :
    ∃ w', ((dgridLoop cols (fun i w =>
          w.dvline y (Xs i) H false (LIGHT_HARD, d) color true true) 65537 0 w).bind fun w =>
        dgridLoop rows (fun i w =>
          w.dhline (Ys i) x W false (LIGHT_HARD, d) color true true) 65537 0 w) = some w'
      ∧ w'.DimY = w.DimY ∧ w'.DimX = w.DimX
      ∧ ∀ i, i ≤ rows → ∀ j, j ≤ cols → w'.cellAt (Ys i) (Xs j)
        = lineCell (dlinePiece [if 0 < i then 1 else 0, if i < rows then 1 else 0,
            if 0 < j then 1 else 0, if j < cols then 1 else 0] (LIGHT_HARD, d)) color true := by
  have hH : 1 ≤ H := by have := hYs 0 rows hrows (le_refl _); omega
  have hXin : ∀ j, j ≤ cols → Xs j < w.DimX := by
    intro j hj
    rcases Nat.lt_or_eq_of_le hj with h | h
    · have := hXs j cols h (le_refl _); omega
    · rw [h]; omega
  obtain ⟨V, hV, hV1, hV2, hV3, hV4, hV5⟩ := dgridLoop_inv
    (fun i w => w.dvline y (Xs i) H false (LIGHT_HARD, d) color true true)
    (fun n V => V.WF ∧ V.DimY = w.DimY ∧ V.DimX = w.DimX
      ∧ (∀ j, j < n → ∀ y', y ≤ y' → y' < y + H →
          V.cellAt y' (Xs j) = lineCell (dlinePiece [1, 1, 0, 0] (LIGHT_HARD, d)) color true)
      ∧ (∀ y' x', (∀ j, j < n → ¬ (x' = Xs j ∧ y ≤ y' ∧ y' < y + H)) →
          V.cellAt y' x' = w.cellAt y' x'))
    hcc
    (fun n V hn h => grid_verticals_step hfresh h.1 h.2.1 h.2.2.1 hH hY Xs
      (fun a ha => hXs a n ha hn) (hXin n hn) hd color h.2.2.2.1 h.2.2.2.2)
    65537 0 w (by omega) (by omega)
    ⟨hw, rfl, rfl, fun j hj => absurd hj (Nat.not_lt_zero j), fun _ _ _ => rfl⟩
  rw [hV, Option.some_bind]
  obtain ⟨U, hU, -, hU2, hU3, hU4, -, -⟩ := dgridLoop_inv
    (fun i w => w.dhline (Ys i) x W false (LIGHT_HARD, d) color true true)
    (fun m U => U.WF ∧ U.DimY = V.DimY ∧ U.DimX = V.DimX
      ∧ (∀ i, i < m → ∀ j, j ≤ cols → U.cellAt (Ys i) (Xs j)
          = lineCell (dlinePiece [if 0 < i then 1 else 0, if i < rows then 1 else 0,
              if 0 < j then 1 else 0, if j < cols then 1 else 0] (LIGHT_HARD, d)) color true)
      ∧ (∀ i, i < m → ∀ x', x ≤ x' → x' < x + W → (∀ j, j ≤ cols → x' ≠ Xs j) →
          U.cellAt (Ys i) x' = lineCell (dlinePiece [0, 0, 1, 1] (LIGHT_HARD, d)) color true)
      ∧ (∀ y' x', (∀ i, i < m → ¬ (y' = Ys i ∧ x ≤ x' ∧ x' < x + W)) →
          U.cellAt y' x' = V.cellAt y' x'))
    hcr
    (fun m U hm h => grid_horizontals_step h.1 h.2.1 h.2.2.1 hrows hcols
      (by rw [hV2]; exact hY) (by rw [hV3]; exact hX) Ys Xs hYs hY0 hYr hXs hX0 hXc hd color
      (fun j hj => hV4 j (Nat.lt_succ_of_le hj))
      (fun y' x' hh => by
        rw [hV5 y' x' (fun j hj => hh j (Nat.le_of_lt_succ hj))]
        exact hfresh y' x')
      hm h.2.2.2.1 h.2.2.2.2.1 h.2.2.2.2.2)
    65537 0 V (by omega) (by omega)
    ⟨hV1, rfl, rfl, fun i hi => absurd hi (Nat.not_lt_zero i),
      fun i hi => absurd hi (Nat.not_lt_zero i), fun _ _ _ => rfl⟩
  exact ⟨U, hU, hU2.trans hV2, hU3.trans hV3, fun i hi j hj => hU4 i (Nat.lt_succ_of_le hi) j hj⟩

end Window

end npp

namespace npp

namespace Window

set_option maxRecDepth 1000000 in
/-- C21, counterexample.  On a fresh 3x3 window `gGridDims(1, 1, 65535, 0)` is `(1, 2)`,
the sum `1 * 65535 + 2` being narrowed to `unsigned short`, so `(h, w) = (1, 2)` meets
`h < DimY`, `w < DimX`, `0 + h <= DimY` and `0 + w <= DimX`; `dgrid(0, 0, 1, 1, 65535, 0)`
then draws both horizontal lines in row 0 and leaves the plain horizontal glyph U+2500 at
the outer corner (0, 0), not U+250C. -/
theorem dgrid_overflow_counterexample :
    (Window.create 24 80 0 0 3 3).WF
    ∧ (∀ y x, (Window.create 24 80 0 0 3 3).cellAt y x = {})
    ∧ gGridDims 1 1 65535 0 = (1, 2)
    ∧ 1 < (Window.create 24 80 0 0 3 3).DimY ∧ 2 < (Window.create 24 80 0 0 3 3).DimX
    ∧ 0 + 1 ≤ (Window.create 24 80 0 0 3 3).DimY ∧ 0 + 2 ≤ (Window.create 24 80 0 0 3 3).DimX
    ∧ ((Window.create 24 80 0 0 3 3).dgrid 0 0 1 1 65535 0 (LIGHT_HARD, DASHED_NONE)
          Defaults.Color Defaults.Mergeable true).map
        (fun w' => w'.schar (0 + 0 * (65535 + 1)) (0 + 0 * (0 + 1))) = some 0x2500
    ∧ (0x2500 : Nat) ≠ 0x250C := by
  refine ⟨by decide, fun y x => cellAt_create _ _ _ _ _ _ _ _, by decide, by decide, by decide,
    by decide, by decide, by decide!, by decide⟩

/-- C21 (amended). `dgrid` draws verticals first and horizontals last so that every
separator crossing becomes a junction: on a window without mergeable cells (every fresh
window is one), with the LIGHT_HARD style, `mergeable = canMerge = true`,
`rows, cols >= 1` and `h = rows * celly + rows + 1`, `w = cols * cellx + cols + 1` (the
sums themselves, not narrowed to `unsigned short`) satisfying `h < DimY`, `w < DimX`,
`y + h <= DimY`, `x + w <= DimX`: `gGridDims` returns `(h, w)`, `dgrid` returns, and in
its result the cell `(y + i * (celly + 1), x + j * (cellx + 1))` holds U+253C for
`0 < i < rows`, `0 < j < cols`, the T-junctions U+252C (top), U+2534 (bottom), U+251C
(left), U+2524 (right) where exactly one of `i ∈ {0, rows}`, `j ∈ {0, cols}` holds, and
the corners U+250C, U+2510, U+2514, U+2518. -/
theorem dgrid_junctions (w : Window) (hw : w.WF)
    (hfresh : ∀ y x, (w.cellAt y x).CanMerge = false)
    (y x rows cols celly cellx d color : Nat) (hrows : 1 ≤ rows) (hcols : 1 ≤ cols)
    (hd : d < 6)
    (hH : rows * celly + rows + 1 < w.DimY) (hW : cols * cellx + cols + 1 < w.DimX)
    (hY : y + (rows * celly + rows + 1) ≤ w.DimY)
    (hX : x + (cols * cellx + cols + 1) ≤ w.DimX) :
    gGridDims rows cols celly cellx = (rows * celly + rows + 1, cols * cellx + cols + 1)
    ∧ ∃ w', w.dgrid y x rows cols celly cellx (LIGHT_HARD, d) color true true = some w'
      ∧ (∀ i j, 0 < i → i < rows → 0 < j → j < cols →
          w'.schar (y + i * (celly + 1)) (x + j * (cellx + 1)) = 0x253C)
      ∧ (∀ j, 0 < j → j < cols →
          w'.schar (y + 0 * (celly + 1)) (x + j * (cellx + 1)) = 0x252C
          ∧ w'.schar (y + rows * (celly + 1)) (x + j * (cellx + 1)) = 0x2534)
      ∧ (∀ i, 0 < i → i < rows →
          w'.schar (y + i * (celly + 1)) (x + 0 * (cellx + 1)) = 0x251C
          ∧ w'.schar (y + i * (celly + 1)) (x + cols * (cellx + 1)) = 0x2524)
      ∧ w'.schar (y + 0 * (celly + 1)) (x + 0 * (cellx + 1)) = 0x250C
      ∧ w'.schar (y + 0 * (celly + 1)) (x + cols * (cellx + 1)) = 0x2510
      ∧ w'.schar (y + rows * (celly + 1)) (x + 0 * (cellx + 1)) = 0x2514
      ∧ w'.schar (y + rows * (celly + 1)) (x + cols * (cellx + 1)) = 0x2518 := by
  have hDY := hw.1
  have hDX := hw.2.1
  have hdims : gGridDims rows cols celly cellx
      = (rows * celly + rows + 1, cols * cellx + cols + 1) := by
    unfold gGridDims
    rw [Nat.mod_eq_of_lt (by omega), Nat.mod_eq_of_lt (by omega)]
    rfl
  have hcy := Nat.mul_comm rows celly
  have hcx := Nat.mul_comm cols cellx
  have hmy : ∀ a b, a ≤ b → celly * a ≤ celly * b := fun a b h => Nat.mul_le_mul_left _ h
  have hmx : ∀ a b, a ≤ b → cellx * a ≤ cellx * b := fun a b h => Nat.mul_le_mul_left _ h
  have hYv : ∀ i, i ≤ rows → (y + celly * i + i) % 65536 = y + celly * i + i := fun i hi =>
    Nat.mod_eq_of_lt (by have := hmy i rows hi; omega)
  have hXv : ∀ j, j ≤ cols → (x + cellx * j + j) % 65536 = x + cellx * j + j := fun j hj =>
    Nat.mod_eq_of_lt (by have := hmx j cols hj; omega)
  have hYe : ∀ i, i ≤ rows → (y + celly * i + i) % 65536 = y + i * (celly + 1) := fun i hi => by
    rw [hYv i hi]; ring
  have hXe : ∀ j, j ≤ cols → (x + cellx * j + j) % 65536 = x + j * (cellx + 1) := fun j hj => by
    rw [hXv j hj]; ring
  obtain ⟨w', hres, hdy, hdx, hcell⟩ := grid_lines hw hfresh hrows hcols
    (show rows < 65535 by omega) (show cols < 65535 by omega) hY hX
    (fun i => (y + celly * i + i) % 65536) (fun j => (x + cellx * j + j) % 65536)
    (fun a b hab hb => by
      show (y + celly * a + a) % 65536 < (y + celly * b + b) % 65536
      rw [hYv a (by omega), hYv b hb]
      have := hmy a b (Nat.le_of_lt hab)
      omega)
    (by show (y + celly * 0 + 0) % 65536 = y
        rw [hYv 0 (Nat.zero_le _)]; simp)
    (by show (y + celly * rows + rows) % 65536 + 1 = y + (rows * celly + rows + 1)
        rw [hYv rows (le_refl _)]; omega)
    (fun a b hab hb => by
      show (x + cellx * a + a) % 65536 < (x + cellx * b + b) % 65536
      rw [hXv a (by omega), hXv b hb]
      have := hmx a b (Nat.le_of_lt hab)
      omega)
    (by show (x + cellx * 0 + 0) % 65536 = x
        rw [hXv 0 (Nat.zero_le _)]; simp)
    (by show (x + cellx * cols + cols) % 65536 + 1 = x + (cols * cellx + cols + 1)
        rw [hXv cols (le_refl _)]; omega)
    hd color
  have hgrid : w.dgrid y x rows cols celly cellx (LIGHT_HARD, d) color true true = some w' := by
    unfold dgrid
    simp only [hdims]
    rw [if_neg, hres]
    rw [(checkCoord_iff w y x).2 ⟨by omega, by omega⟩,
      (checkCoord_iff w _ _).2 ⟨hH, hW⟩]
    simp
    omega
  -- the glyph at the crossing of lines `i` and `j`
  have hch : ∀ i, i ≤ rows → ∀ j, j ≤ cols →
      w'.schar (y + i * (celly + 1)) (x + j * (cellx + 1))
        = dlinePiece [if 0 < i then 1 else 0, if i < rows then 1 else 0,
            if 0 < j then 1 else 0, if j < cols then 1 else 0] (LIGHT_HARD, d) := by
    intro i hi j hj
    have hc := hcell i hi j hj
    simp only [hYe i hi, hXe j hj] at hc
    have hy1 : y + i * (celly + 1) < w.DimY := by
      rw [← hYe i hi, hYv i hi]
      have := hmy i rows hi
      omega
    have hx1 : x + j * (cellx + 1) < w.DimX := by
      rw [← hXe j hj, hXv j hj]
      have := hmx j cols hj
      omega
    unfold schar
    rw [(checkCoord_iff _ _ _).2 ⟨by rw [hdy]; exact hy1, by rw [hdx]; exact hx1⟩, hc]
    rfl
  have ht := light_hard_tees d (List.mem_range.2 hd)
  have hk := light_hard_corners d (List.mem_range.2 hd)
  refine ⟨hdims, w', hgrid, fun i j h1 h2 h3 h4 => ?_, fun j h1 h2 => ⟨?_, ?_⟩,
    fun i h1 h2 => ⟨?_, ?_⟩, ?_, ?_, ?_, ?_⟩
  · rw [hch i (by omega) j (by omega), if_pos h1, if_pos h2, if_pos h3, if_pos h4]
    exact ht.1
  · rw [hch 0 (by omega) j (by omega), if_neg (lt_irrefl 0), if_pos (by omega), if_pos h1,
      if_pos h2]
    exact ht.2.1
  · rw [hch rows (le_refl _) j (by omega), if_pos (by omega), if_neg (lt_irrefl rows),
      if_pos h1, if_pos h2]
    exact ht.2.2.1
  · rw [hch i (by omega) 0 (by omega), if_pos h1, if_pos h2, if_neg (lt_irrefl 0),
      if_pos (by omega)]
    exact ht.2.2.2.1
  · rw [hch i (by omega) cols (le_refl _), if_pos h1, if_pos h2, if_pos (by omega),
      if_neg (lt_irrefl cols)]
    exact ht.2.2.2.2
  · rw [hch 0 (by omega) 0 (by omega), if_neg (lt_irrefl 0), if_pos (by omega),
      if_pos (by omega)]
    exact hk.1
  · rw [hch 0 (by omega) cols (le_refl _), if_neg (lt_irrefl 0), if_pos (by omega),
      if_pos (by omega), if_neg (lt_irrefl cols)]
    exact hk.2.1
  · rw [hch rows (le_refl _) 0 (by omega), if_pos (by omega), if_neg (lt_irrefl rows),
      if_neg (lt_irrefl 0), if_pos (by omega)]
    exact hk.2.2.1
  · rw [hch rows (le_refl _) cols (le_refl _), if_pos (by omega), if_neg (lt_irrefl rows),
      if_pos (by omega), if_neg (lt_irrefl cols)]
    exact hk.2.2.2

/-- C21 (amended), instance: a grid of 2x3 cells of height 1 and width 2 drawn at (1, 1)
on a fresh 8x12 window has U+253C at (3, 4) and (3, 7), the T-junctions U+252C at (1, 4),
U+2534 at (5, 7), U+251C at (3, 1), U+2524 at (3, 10), and the four corners. -/
theorem dgrid_junctions_witness :
    ∃ w', (Window.create 24 80 0 0 8 12).dgrid 1 1 2 3 1 2 = some w'
      ∧ w'.schar 3 4 = 0x253C ∧ w'.schar 3 7 = 0x253C
      ∧ w'.schar 1 4 = 0x252C ∧ w'.schar 5 7 = 0x2534
      ∧ w'.schar 3 1 = 0x251C ∧ w'.schar 3 10 = 0x2524
      ∧ w'.schar 1 1 = 0x250C ∧ w'.schar 1 10 = 0x2510
      ∧ w'.schar 5 1 = 0x2514 ∧ w'.schar 5 10 = 0x2518 := by
  obtain ⟨w', h, hc, ht, hs, k1, k2, k3, k4⟩ := (dgrid_junctions (Window.create 24 80 0 0 8 12)
    (by decide) (fun y x => by rw [cellAt_create]) 1 1 2 3 1 2 DASHED_NONE Defaults.Color
    (by decide) (by decide) (by decide) (by decide) (by decide) (by decide) (by decide)).2
  exact ⟨w', h, hc 1 1 (by decide) (by decide) (by decide) (by decide),
    hc 1 2 (by decide) (by decide) (by decide) (by decide),
    (ht 1 (by decide) (by decide)).1, (ht 2 (by decide) (by decide)).2,
    (hs 1 (by decide) (by decide)).1, (hs 1 (by decide) (by decide)).2, k1, k2, k3, k4⟩

end Window

end npp

namespace npp

namespace Window

/-- C34. `wcharp` changes one cell only: for every window whose grid has the shape
`DimY` x `DimX` and every position `pos`, after `wcharp(pos, ..)` every cell other than
`pos` is as before, with each of its thirteen fields (`Char`, `Color`, the ten attributes,
`CanMerge`), and the grid still has `DimY` rows of `DimX` cells, `DimY` and `DimX` being
unchanged. -/
theorem wcharp_frame (w : Window) (hw : w.WF) (pos : Nat × Nat) (input color : Nat)
    (att : String) (offset : Nat × Nat) :
    (∀ y x, (y, x) ≠ pos →
      (w.wcharp pos input color att offset).1.cellAt y x = w.cellAt y x
      ∧ ((w.wcharp pos input color att offset).1.cellAt y x).Char = (w.cellAt y x).Char
      ∧ ((w.wcharp pos input color att offset).1.cellAt y x).Color = (w.cellAt y x).Color
      ∧ ((w.wcharp pos input color att offset).1.cellAt y x).Bold = (w.cellAt y x).Bold
      ∧ ((w.wcharp pos input color att offset).1.cellAt y x).Italic = (w.cellAt y x).Italic
      ∧ ((w.wcharp pos input color att offset).1.cellAt y x).Under = (w.cellAt y x).Under
      ∧ ((w.wcharp pos input color att offset).1.cellAt y x).Rev = (w.cellAt y x).Rev
      ∧ ((w.wcharp pos input color att offset).1.cellAt y x).Blink = (w.cellAt y x).Blink
      ∧ ((w.wcharp pos input color att offset).1.cellAt y x).Dim = (w.cellAt y x).Dim
      ∧ ((w.wcharp pos input color att offset).1.cellAt y x).Invis = (w.cellAt y x).Invis
      ∧ ((w.wcharp pos input color att offset).1.cellAt y x).Stand = (w.cellAt y x).Stand
      ∧ ((w.wcharp pos input color att offset).1.cellAt y x).Prot = (w.cellAt y x).Prot
      ∧ ((w.wcharp pos input color att offset).1.cellAt y x).Alt = (w.cellAt y x).Alt
      ∧ ((w.wcharp pos input color att offset).1.cellAt y x).CanMerge
          = (w.cellAt y x).CanMerge)
    ∧ (w.wcharp pos input color att offset).1.DimY = w.DimY
    ∧ (w.wcharp pos input color att offset).1.DimX = w.DimX
    ∧ (w.wcharp pos input color att offset).1.Grid.length = w.DimY
    ∧ (∀ row ∈ (w.wcharp pos input color att offset).1.Grid, row.length = w.DimX) := by
  have hcell : ∀ y x, (y, x) ≠ pos →
      (w.wcharp pos input color att offset).1.cellAt y x = w.cellAt y x := by
    intro y x hne
    by_cases hin : w.checkCoord pos.1 pos.2 = true
    · rw [wcharp_of_in hin, cellAt_setCell, if_neg]
      intro h
      exact hne (Prod.ext h.1 h.2.1)
    · rw [wcharp_of_out (by simpa using hin)]
  have hW := wcharp_writes w pos input color att offset
  have hwf := hW.2.2.1 hw
  refine ⟨fun y x hne => ?_, hW.1, hW.2.1, ?_, ?_⟩
  · rw [hcell y x hne]
    simp
  · rw [hwf.2.2.1, hW.1]
  · intro row hrow
    rw [hwf.2.2.2 row hrow, hW.2.1]

/-- C34, instance: on a 3x4 window whose cell (1, 1) was written before, `wcharp` at
(1, 2) leaves (1, 1) as it was and keeps the three rows. -/
theorem wcharp_frame_witness :
    ((((Window.create 24 80 0 0 3 4).wchar (1, 1) 0x41 3 "bo").wcharp (1, 2) 0x42 5 "it"
        (0, 1)).1.cellAt 1 1).Char = 0x41
    ∧ (((Window.create 24 80 0 0 3 4).wchar (1, 1) 0x41 3 "bo").wcharp (1, 2) 0x42 5 "it"
        (0, 1)).1.Grid.length = 3 := by
  have h := wcharp_frame ((Window.create 24 80 0 0 3 4).wchar (1, 1) 0x41 3 "bo") (by decide)
    (1, 2) 0x42 5 "it" (0, 1)
  exact ⟨((h.1 1 1 (by decide)).2.1).trans (by decide), h.2.2.2.1.trans (by decide)⟩

/-- C39. Under a shape other than the three heavy ones (so under LIGHT_HARD and
LIGHT_SOFT as under the doubled shapes) the fallback of `dline` replaces every heavy
component by doubled and leaves the others; the glyph `dline` writes for the directions
`dirs` is that of `getPiece` for `dirs`, and, when that is the blank, that of one more
`getPiece` for the replaced directions, whatever it is.  Every cell that `dline` writes
holds the glyph chosen this way for the directions composed at that step. -/
theorem dlinePiece_light_fallback (dirs : List Nat) (style : Nat × Nat)
    (h1 : style.1 ≠ HEAVY_BOTH) (h2 : style.1 ≠ HEAVY_HORIZONTAL)
    (h3 : style.1 ≠ HEAVY_VERTICAL) :
    dlineFallback dirs style.1
        = dirs.map (fun d => if d = STYLE_HEAVY then STYLE_DOUBLED else d)
    ∧ dlineFallback dirs style.1 = dlineFallback dirs DOUBLED_BOTH
    ∧ dlinePiece dirs style
        = (if getPiece dirs style = BLANK
            then getPiece (dirs.map (fun d => if d = STYLE_HEAVY then STYLE_DOUBLED else d)) style
            else getPiece dirs style)
    ∧ (∀ (w : Window) (y x length : Nat) (vertical rev : Bool) (color : Nat)
        (mergeable canMerge : Bool) (k : Nat), w.WF → y < w.DimY → x < w.DimX →
        length < 65536 → k < dlineCount w y x length vertical rev →
        ((w.dline y x length vertical rev style color mergeable canMerge).cellAt
            (dlinePos y x vertical rev k).1 (dlinePos y x vertical rev k).2).Char
          = dlinePiece (dlineDirs
              (dlineNeighbours w (dlinePos y x vertical rev k).1 (dlinePos y x vertical rev k).2
                canMerge)
              k length vertical (dlineTdir1 vertical rev) (dlineTdir2 vertical rev)
              (dlineCstyle (dlineStyle style).1 vertical)) (dlineStyle style)) := by
  have e1 : dlineFallback dirs style.1
      = dirs.map (fun d => if d = STYLE_HEAVY then STYLE_DOUBLED else d) := by
    unfold dlineFallback
    apply List.map_congr_left
    intro d _
    rw [if_neg (by
      intro h
      rcases h with h | h | h
      · exact h1 h
      · exact h2 h
      · exact h3 h)]
  have e2 : dlineFallback dirs DOUBLED_BOTH
      = dirs.map (fun d => if d = STYLE_HEAVY then STYLE_DOUBLED else d) := by
    unfold dlineFallback
    apply List.map_congr_left
    intro d _
    rw [if_neg (by decide)]
  refine ⟨e1, e1.trans e2.symm, ?_, ?_⟩
  · unfold dlinePiece
    simp only [e1]
  · intro w y x length vertical rev color mergeable canMerge k hw hy hx hL hk
    rw [dline_cellAt_path hw hy hx hL vertical rev style color mergeable canMerge hk]
    rfl

set_option maxRecDepth 1000000 in
/-- C39, instance: for a heavy connection above, a doubled one below and both in-line
directions light there is no glyph, and under LIGHT_HARD the retry with (doubled,
doubled, light, light) gives U+256B; on a fresh 5x5 window with a heavy line above
(2, 2) and a doubled line below it, the interior cell (2, 2) of a light horizontal line
receives U+256B. -/
theorem dlinePiece_light_fallback_witness :
    getPiece [STYLE_HEAVY, STYLE_DOUBLED, STYLE_LIGHT, STYLE_LIGHT] (LIGHT_HARD, DASHED_NONE)
        = BLANK
    ∧ dlinePiece [STYLE_HEAVY, STYLE_DOUBLED, STYLE_LIGHT, STYLE_LIGHT]
        (LIGHT_HARD, DASHED_NONE) = 0x256B
    ∧ (0x256B, [STYLE_DOUBLED, STYLE_DOUBLED, STYLE_LIGHT, STYLE_LIGHT]) ∈ Keys.LineDrawing
    ∧ ((((Window.create 24 80 0 0 5 5).dvline 0 2 2 false (HEAVY_BOTH, DASHED_NONE)).dvline
          3 2 2 false (DOUBLED_BOTH, DASHED_NONE)).dhline 2 1 3 false
          (LIGHT_HARD, DASHED_NONE)).schar 2 2 = 0x256B :=
  ⟨by decide!,
   ((dlinePiece_light_fallback [STYLE_HEAVY, STYLE_DOUBLED, STYLE_LIGHT, STYLE_LIGHT]
      (LIGHT_HARD, DASHED_NONE) (by decide) (by decide) (by decide)).2.2.1).trans (by decide!),
   by decide!, by decide!⟩

end Window

end npp

namespace npp

namespace Window

/-- The directions a reversed horizontal line asks for at step `k`. -/
theorem dlineDirs_horizontal_rev (a b c e k L cs : Nat) :
    dlineDirs [a, b, c, e] k L false (dlineTdir1 false true) (dlineTdir2 false true) cs
      = [a, b, if k = L - 1 then (if c = 0 ∧ a = 0 ∧ b = 0 then cs else c) else cs,
          if k = 0 then (if e = 0 ∧ a = 0 ∧ b = 0 then cs else e) else cs] := by
  unfold dlineDirs
  by_cases h0 : k = 0
  · by_cases h1 : k = L - 1
    · simp only [if_pos h0, if_pos h1]
      simp [dlineTdir1, dlineTdir2, DIR_RIGHT, DIR_UP, DIR_DOWN, STYLE_NONE]
    · simp only [if_pos h0, if_neg h1]
      simp [dlineTdir1, dlineTdir2, DIR_RIGHT, DIR_UP, DIR_DOWN, STYLE_NONE]
  · by_cases h1 : k = L - 1
    · simp only [if_neg h0, if_pos h1]
      simp [dlineTdir1, dlineTdir2, DIR_RIGHT, DIR_UP, DIR_DOWN, STYLE_NONE]
    · simp only [if_neg h0, if_neg h1]
      simp [dlineTdir1, dlineTdir2, DIR_RIGHT, DIR_UP, DIR_DOWN, STYLE_NONE]

/-- The directions a reversed vertical line asks for at step `k`. -/
theorem dlineDirs_vertical_rev (a b c e k L cs : Nat) :
    dlineDirs [a, b, c, e] k L true (dlineTdir1 true true) (dlineTdir2 true true) cs
      = [if k = L - 1 then (if a = 0 ∧ c = 0 ∧ e = 0 then cs else a) else cs,
          if k = 0 then (if b = 0 ∧ c = 0 ∧ e = 0 then cs else b) else cs, c, e] := by
  unfold dlineDirs
  by_cases h0 : k = 0
  · by_cases h1 : k = L - 1
    · simp only [if_pos h0, if_pos h1]
      simp [dlineTdir1, dlineTdir2, DIR_RIGHT, DIR_LEFT, DIR_DOWN, STYLE_NONE]
    · simp only [if_pos h0, if_neg h1]
      simp [dlineTdir1, dlineTdir2, DIR_RIGHT, DIR_LEFT, DIR_DOWN, STYLE_NONE]
  · by_cases h1 : k = L - 1
    · simp only [if_neg h0, if_pos h1]
      simp [dlineTdir1, dlineTdir2, DIR_RIGHT, DIR_LEFT, DIR_DOWN, STYLE_NONE]
    · simp only [if_neg h0, if_neg h1]
      simp [dlineTdir1, dlineTdir2, DIR_RIGHT, DIR_LEFT, DIR_DOWN, STYLE_NONE]

/-- A line that starts inside the window makes at least one step. -/
theorem dlineCount_pos {w : Window} {y x length : Nat} (hy : y < w.DimY) (hx : x < w.DimX)
    (hL : 1 ≤ length) (vertical rev : Bool) : 0 < dlineCount w y x length vertical rev := by
  unfold dlineCount
  cases vertical <;> cases rev <;> simp <;> omega

set_option maxRecDepth 1000000 in
/-- C32, counterexample.  On a fresh 3x5 window the cell (1, 1) has no connection on any
side, yet the first cell of `dhline(1, 1, 3)` is U+2500, whose trailing (left) direction
is light: the trailing direction is fabricated exactly when the three neighbours show
none.  With a vertical line through column 1 drawn before, the neighbours above and
below show light and the one to the left none, and the first cell of `dhline(1, 1, 3)`
is U+251C, whose left direction is none: the trailing direction is not fabricated when
the neighbours do not all show none. -/
theorem dline_endpoint_counterexample :
    dlineNeighbours (Window.create 24 80 0 0 3 5) 1 1 true = [0, 0, 0, 0]
    ∧ ((Window.create 24 80 0 0 3 5).dhline 1 1 3).schar 1 1 = 0x2500
    ∧ (0x2500, [STYLE_NONE, STYLE_NONE, STYLE_LIGHT, STYLE_LIGHT]) ∈ Keys.LineDrawing
    ∧ dlineNeighbours ((Window.create 24 80 0 0 3 5).dvline 0 1 3) 1 1 true = [1, 1, 0, 0]
    ∧ (((Window.create 24 80 0 0 3 5).dvline 0 1 3).dhline 1 1 3).schar 1 1 = 0x251C
    ∧ (0x251C, [STYLE_LIGHT, STYLE_LIGHT, STYLE_NONE, STYLE_LIGHT]) ∈ Keys.LineDrawing := by
  decide!

/-- C32 (amended). Start-endpoint rule: at the first step of a `dline` the trailing
in-line direction (index `tdir2`, pointing away from the rest of the line) of the
directions the glyph is chosen for is the requested connection style if the trailing
in-line neighbour and both off-axis neighbours all show none, and otherwise it is what
the trailing in-line neighbour shows; the last step (`i = length - 1`) treats the leading
in-line direction (index `tdir1`) the same way; at every other step the in-line
directions are the requested style, and the off-axis directions are always those of the
neighbours.  The cell at the start of a line drawn with merging enabled holds the glyph
for the directions of the first step. -/
theorem dline_endpoint_rule (a b c e L cs : Nat) (vertical rev : Bool) (hL : 1 ≤ L) :
    (dlineDirs [a, b, c, e] 0 L vertical (dlineTdir1 vertical rev) (dlineTdir2 vertical rev)
        cs).getD (dlineTdir2 vertical rev) 0
      = (if [a, b, c, e].getD (dlineTdir2 vertical rev) 0 = STYLE_NONE
            ∧ [a, b, c, e].getD (if vertical then DIR_LEFT else DIR_UP) 0 = STYLE_NONE
            ∧ [a, b, c, e].getD (if vertical then DIR_RIGHT else DIR_DOWN) 0 = STYLE_NONE
          then cs else [a, b, c, e].getD (dlineTdir2 vertical rev) 0)
    ∧ (dlineDirs [a, b, c, e] (L - 1) L vertical (dlineTdir1 vertical rev)
        (dlineTdir2 vertical rev) cs).getD (dlineTdir1 vertical rev) 0
      = (if [a, b, c, e].getD (dlineTdir1 vertical rev) 0 = STYLE_NONE
            ∧ [a, b, c, e].getD (if vertical then DIR_LEFT else DIR_UP) 0 = STYLE_NONE
            ∧ [a, b, c, e].getD (if vertical then DIR_RIGHT else DIR_DOWN) 0 = STYLE_NONE
          then cs else [a, b, c, e].getD (dlineTdir1 vertical rev) 0)
    ∧ (∀ k, k ≠ 0 → (dlineDirs [a, b, c, e] k L vertical (dlineTdir1 vertical rev)
        (dlineTdir2 vertical rev) cs).getD (dlineTdir2 vertical rev) 0 = cs)
    ∧ (∀ k, k ≠ L - 1 → (dlineDirs [a, b, c, e] k L vertical (dlineTdir1 vertical rev)
        (dlineTdir2 vertical rev) cs).getD (dlineTdir1 vertical rev) 0 = cs)
    ∧ (∀ k, (dlineDirs [a, b, c, e] k L vertical (dlineTdir1 vertical rev)
          (dlineTdir2 vertical rev) cs).getD (if vertical then DIR_LEFT else DIR_UP) 0
        = [a, b, c, e].getD (if vertical then DIR_LEFT else DIR_UP) 0
      ∧ (dlineDirs [a, b, c, e] k L vertical (dlineTdir1 vertical rev)
          (dlineTdir2 vertical rev) cs).getD (if vertical then DIR_RIGHT else DIR_DOWN) 0
        = [a, b, c, e].getD (if vertical then DIR_RIGHT else DIR_DOWN) 0)
    ∧ (∀ (w : Window) (y x : Nat) (style : Nat × Nat) (color : Nat) (mergeable : Bool),
        w.WF → y < w.DimY → x < w.DimX → L < 65536 →
        (w.dline y x L vertical rev style color mergeable true).cellAt y x
          = lineCell (dlinePiece (dlineDirs (dlineNeighbours w y x true) 0 L vertical
              (dlineTdir1 vertical rev) (dlineTdir2 vertical rev)
              (dlineCstyle (dlineStyle style).1 vertical)) (dlineStyle style)) color mergeable) := by
  refine ⟨?_, ?_, ?_, ?_, ?_, ?_⟩
  · cases vertical <;> cases rev <;>
      simp only [dlineDirs_horizontal, dlineDirs_horizontal_rev, dlineDirs_vertical,
        dlineDirs_vertical_rev] <;>
      simp [dlineTdir1, dlineTdir2, DIR_UP, DIR_DOWN, DIR_LEFT, DIR_RIGHT, STYLE_NONE]
  · cases vertical <;> cases rev <;>
      simp only [dlineDirs_horizontal, dlineDirs_horizontal_rev, dlineDirs_vertical,
        dlineDirs_vertical_rev] <;>
      simp [dlineTdir1, dlineTdir2, DIR_UP, DIR_DOWN, DIR_LEFT, DIR_RIGHT, STYLE_NONE]
  · intro k hk
    cases vertical <;> cases rev <;>
      simp only [dlineDirs_horizontal, dlineDirs_horizontal_rev, dlineDirs_vertical,
        dlineDirs_vertical_rev] <;>
      simp [dlineTdir1, dlineTdir2, DIR_UP, DIR_DOWN, DIR_LEFT, DIR_RIGHT, hk]
  · intro k hk
    cases vertical <;> cases rev <;>
      simp only [dlineDirs_horizontal, dlineDirs_horizontal_rev, dlineDirs_vertical,
        dlineDirs_vertical_rev] <;>
      simp [dlineTdir1, dlineTdir2, DIR_UP, DIR_DOWN, DIR_LEFT, DIR_RIGHT, hk]
  · intro k
    cases vertical <;> cases rev <;>
      simp only [dlineDirs_horizontal, dlineDirs_horizontal_rev, dlineDirs_vertical,
        dlineDirs_vertical_rev] <;>
      simp [DIR_UP, DIR_DOWN, DIR_LEFT, DIR_RIGHT]
  · intro w y x style color mergeable hw hy hx hL'
    have h := dline_cellAt_path hw hy hx hL' vertical rev style color mergeable true
      (dlineCount_pos hy hx hL vertical rev)
    rw [dlinePos_zero y x vertical rev (by have := hw.1; omega) (by have := hw.2.1; omega)] at h
    rw [h]
    unfold dlineGlyph
    rw [dlinePos_zero y x vertical rev (by have := hw.1; omega) (by have := hw.2.1; omega)]

set_option maxRecDepth 1000000 in
/-- C32 (amended), instances for a forward horizontal line of length 3 in the light
style: with no neighbour showing anything the trailing (left) direction of the first
step is light; with light above and below and none to the left it stays none; with
a heavy connection to the left it is heavy. -/
theorem dline_endpoint_rule_witness :
    (dlineDirs [0, 0, 0, 0] 0 3 false (dlineTdir1 false false) (dlineTdir2 false false)
        STYLE_LIGHT).getD DIR_LEFT 0 = STYLE_LIGHT
    ∧ (dlineDirs [1, 1, 0, 0] 0 3 false (dlineTdir1 false false) (dlineTdir2 false false)
        STYLE_LIGHT).getD DIR_LEFT 0 = STYLE_NONE
    ∧ (dlineDirs [0, 0, 2, 0] 0 3 false (dlineTdir1 false false) (dlineTdir2 false false)
        STYLE_LIGHT).getD DIR_LEFT 0 = STYLE_HEAVY :=
  ⟨(dline_endpoint_rule 0 0 0 0 3 STYLE_LIGHT false false (by decide)).1.trans (by decide),
   (dline_endpoint_rule 1 1 0 0 3 STYLE_LIGHT false false (by decide)).1.trans (by decide),
   (dline_endpoint_rule 0 0 2 0 3 STYLE_LIGHT false false (by decide)).1.trans (by decide)⟩

end Window

end npp

namespace npp

namespace Window

/-- With `CanSkip` off, `wait` sleeps `millis` times without a poll and returns false. -/
theorem waitTicks_off {w : Window} (h : w.CanSkip = false) (input : Nat → Int) :
    ∀ n polls, w.waitTicks input n polls = (false, List.replicate n Tick.sleep)
  | 0, _ => rfl
  | n + 1, polls => by
    rw [waitTicks, h, waitTicks_off h input n polls]
    rfl

/-- With `CanSkip` off, `rwait` sleeps `millis` times without a poll and returns -1. -/
theorem rwait_off {w : Window} (h : w.CanSkip = false) (input : Nat → Int) :
    ∀ n polls, w.rwait input n polls = (-1, List.replicate n Tick.sleep)
  | 0, _ => rfl
  | n + 1, polls => by
    rw [rwait, h, rwait_off h input n polls]
    rfl

/-- With `CanSkip` off, `twait` sleeps `millis` times without a poll and returns false. -/
theorem twait_off {w : Window} (h : w.CanSkip = false) (input : Nat → Int)
    (targets : List Int) :
    ∀ n polls, w.twait input targets n polls = some (false, List.replicate n Tick.sleep)
  | 0, _ => rfl
  | n + 1, polls => by
    rw [twait, h, twait_off h input targets n polls]
    rfl

/-- A skippable `wait` whose polls before poll `k` find nothing and whose poll `k` finds
an input returns true at that poll, after `k` sleeps. -/
theorem waitTicks_skip {w : Window} (h : w.CanSkip = true) (input : Nat → Int) :
    ∀ n polls k, k < n → input (polls + k) ≠ ERR → (∀ j, j < k → input (polls + j) = ERR) →
      w.waitTicks input n polls
        = (true, (List.range' polls k).flatMap (fun p => [Tick.poll (input p), Tick.sleep])
            ++ [Tick.poll (input (polls + k))])
  | 0, _, k, hk, _, _ => absurd hk (Nat.not_lt_zero k)
  | n + 1, polls, k, hk, hin, hbefore => by
    rw [waitTicks, if_pos h]
    by_cases h0 : input polls ≠ ERR
    · have hk0 : k = 0 := by
        by_contra hne
        exact h0 (hbefore 0 (Nat.pos_of_ne_zero hne))
      subst hk0
      rw [if_pos h0]
      rfl
    · rw [if_neg h0]
      obtain ⟨k', rfl⟩ : ∃ k', k = k' + 1 := by
        cases k with
        | zero => exact absurd hin h0
        | succ k' => exact ⟨k', rfl⟩
      have ih := waitTicks_skip h input n (polls + 1) k' (by omega)
        (by rw [Nat.add_assoc, Nat.add_comm 1 k']; exact hin)
        (fun j hj => by
          have := hbefore (j + 1) (by omega)
          rw [Nat.add_assoc, Nat.add_comm 1 j]; exact this)
      rw [ih, List.range'_succ, List.flatMap_cons]
      simp only [List.cons_append, List.nil_append, Nat.add_assoc, Nat.add_comm 1 k']

/-- A skippable `wait` none of whose polls finds an input returns false after `millis`
polls, each followed by a sleep. -/
theorem waitTicks_none {w : Window} (h : w.CanSkip = true) (input : Nat → Int) :
    ∀ n polls, (∀ j, j < n → input (polls + j) = ERR) →
      w.waitTicks input n polls
        = (false, (List.range' polls n).flatMap (fun p => [Tick.poll (input p), Tick.sleep]))
  | 0, _, _ => rfl
  | n + 1, polls, hall => by
    rw [waitTicks, if_pos h, if_neg (by
      have := hall 0 (Nat.succ_pos n)
      simpa using this)]
    have ih := waitTicks_none h input n (polls + 1) (fun j hj => by
      have := hall (j + 1) (by omega)
      rw [Nat.add_assoc, Nat.add_comm 1 j]; exact this)
    rw [ih, List.range'_succ, List.flatMap_cons]
    rfl

/-- The number of sleeps in a run of polls each followed by a sleep. -/
theorem count_sleep_polls (input : Nat → Int) : ∀ k polls,
    ((List.range' polls k).flatMap (fun p => [Tick.poll (input p), Tick.sleep])).count
      Tick.sleep = k
  | 0, _ => rfl
  | k + 1, polls => by
    rw [List.range'_succ, List.flatMap_cons, List.count_append, count_sleep_polls input k]
    have : ([Tick.poll (input polls), Tick.sleep] : List Tick).count Tick.sleep = 1 := by
      simp [List.count_cons]
    rw [this]
    omega

/-- The inner loop of `twait` reports a match only for an input among the targets. -/
theorem twaitMatch_true (input : Int) (targets : List Int) :
    ∀ fuel j, twaitMatch input targets fuel j = some true → input ∈ targets
  | 0, _, h => by simp [twaitMatch] at h
  | fuel + 1, j, h => by
    rw [twaitMatch] at h
    by_cases hj : j < targets.length
    · rw [if_pos hj] at h
      by_cases he : input = targets.getD j 0
      · rw [he, List.getD_eq_getElem _ _ hj]
        exact List.getElem_mem _
      · rw [if_neg he] at h
        exact twaitMatch_true input targets fuel _ h
    · rw [if_neg hj] at h
      simp at h

/-- With fewer than 65536 targets the inner loop of `twait` ends. -/
theorem twaitMatch_returns (input : Int) (targets : List Int) (hlen : targets.length < 65536) :
    ∀ fuel j, j ≤ targets.length → targets.length + 2 ≤ fuel + j →
      ∃ b, twaitMatch input targets fuel j = some b
  | 0, j, h1, h2 => by omega
  | fuel + 1, j, h1, h2 => by
    rw [twaitMatch]
    by_cases hj : j < targets.length
    · rw [if_pos hj]
      by_cases he : input = targets.getD j 0
      · rw [if_pos he]
        exact ⟨true, rfl⟩
      · rw [if_neg he, Nat.mod_eq_of_lt (by omega)]
        exact twaitMatch_returns input targets hlen fuel (j + 1) (by omega) (by omega)
    · rw [if_neg hj]
      exact ⟨false, rfl⟩

/-- Function `twait` returns true only at a poll that found one of the targets, and that
poll is the last call it made. -/
theorem twait_true {w : Window} (input : Nat → Int) (targets : List Int) :
    ∀ n polls t, w.twait input targets n polls = some (true, t) →
      ∃ k, k < n ∧ input (polls + k) ≠ ERR ∧ input (polls + k) ∈ targets
        ∧ t.getLast? = some (Tick.poll (input (polls + k)))
  | 0, _, t, h => by simp [twait] at h
  | n + 1, polls, t, h => by
    rw [twait] at h
    have hrec : ∀ polls' (pre : List Tick),
        (w.twait input targets n polls').map (fun r => (r.1, pre ++ r.2)) = some (true, t) →
        ∃ k, k < n ∧ input (polls' + k) ≠ ERR ∧ input (polls' + k) ∈ targets
          ∧ t.getLast? = some (Tick.poll (input (polls' + k))) := by
      intro polls' pre hm
      rw [Option.map_eq_some'] at hm
      obtain ⟨r, hr, he⟩ := hm
      obtain ⟨b, t'⟩ := r
      simp only [Prod.mk.injEq] at he
      obtain ⟨hb, ht⟩ := he
      subst hb
      obtain ⟨k, hk, h1, h2, h3⟩ := twait_true input targets n polls' t' hr
      refine ⟨k, hk, h1, h2, ?_⟩
      rw [← ht, List.getLast?_append, h3]
      rfl
    by_cases hc : w.CanSkip = true
    · rw [if_pos hc] at h
      by_cases h0 : input polls ≠ ERR
      · rw [if_pos h0] at h
        cases hm : twaitMatch (input polls) targets 65537 0 with
        | none => rw [hm] at h; simp at h
        | some b =>
          rw [hm] at h
          cases b with
          | true =>
            simp only [Option.some.injEq, Prod.mk.injEq, true_and] at h
            refine ⟨0, Nat.succ_pos n, h0, twaitMatch_true _ _ _ _ hm, ?_⟩
            rw [← h]
            rfl
          | false =>
            obtain ⟨k, hk, h1, h2, h3⟩ := hrec (polls + 1)
              [Tick.poll (input polls), Tick.sleep] h
            exact ⟨k + 1, by omega, by rw [← Nat.add_assoc, Nat.add_right_comm]; exact h1,
              by rw [← Nat.add_assoc, Nat.add_right_comm]; exact h2,
              by rw [← Nat.add_assoc, Nat.add_right_comm]; exact h3⟩
      · rw [if_neg h0] at h
        obtain ⟨k, hk, h1, h2, h3⟩ := hrec (polls + 1)
          [Tick.poll (input polls), Tick.sleep] h
        exact ⟨k + 1, by omega, by rw [← Nat.add_assoc, Nat.add_right_comm]; exact h1,
          by rw [← Nat.add_assoc, Nat.add_right_comm]; exact h2,
          by rw [← Nat.add_assoc, Nat.add_right_comm]; exact h3⟩
    · rw [if_neg hc] at h
      have hoff := twait_off (by simpa using hc) input targets n polls
      rw [hoff] at h
      simp at h

/-- With fewer than 65536 targets `twait` returns. -/
theorem twait_returns {w : Window} (input : Nat → Int) (targets : List Int)
    (hlen : targets.length < 65536) :
    ∀ n polls, ∃ r, w.twait input targets n polls = some r
  | 0, _ => ⟨_, rfl⟩
  | n + 1, polls => by
    rw [twait]
    have ih1 := twait_returns (w := w) input targets hlen n (polls + 1)
    have ih0 := twait_returns (w := w) input targets hlen n polls
    by_cases hc : w.CanSkip = true
    · rw [if_pos hc]
      obtain ⟨r, hr⟩ := ih1
      by_cases h0 : input polls ≠ ERR
      · rw [if_pos h0]
        obtain ⟨b, hb⟩ := twaitMatch_returns (input polls) targets hlen 65537 0
          (Nat.zero_le _) (by omega)
        rw [hb]
        cases b with
        | true => exact ⟨_, rfl⟩
        | false => rw [hr]; exact ⟨_, rfl⟩
      · rw [if_neg h0, hr]
        exact ⟨_, rfl⟩
    · rw [if_neg hc]
      obtain ⟨r, hr⟩ := ih0
      rw [hr]
      exact ⟨_, rfl⟩

/-- The result of `wait` and the number of its polls are those of the run recorded by
`waitTicks`, a poll finding a key when it does not return `ERR`. -/
theorem wait_eq_waitTicks (w : Window) (input : Nat → Int) :
    ∀ n polls, w.wait (fun p => decide (input p ≠ ERR)) n polls
      = ((w.waitTicks input n polls).1,
          polls + ((w.waitTicks input n polls).2.filter (fun t => t ≠ Tick.sleep)).length)
  | 0, polls => rfl
  | n + 1, polls => by
    have ih1 := wait_eq_waitTicks w input n (polls + 1)
    have ih0 := wait_eq_waitTicks w input n polls
    unfold wait at ih1 ih0 ⊢
    rw [waitLoop, waitTicks]
    by_cases hc : w.CanSkip = true
    · rw [if_pos hc, if_pos hc]
      by_cases h0 : input polls ≠ ERR
      · rw [if_pos h0, if_pos (by simpa using h0)]
        rfl
      · rw [if_neg h0, if_neg (by simpa using h0), ih1]
        simp [List.filter_cons]
        omega
    · rw [if_neg hc, if_neg hc, ih0]
      simp

/-- C31. `wait(millis)` polls once before each 1 ms sleep.  On a skippable window, if
poll `k < millis` is the first that delivers an input, `wait` returns true at that poll,
after the `k` earlier polls each followed by a sleep (exactly `k` sleeps); if none of the
first `millis` polls delivers an input it returns false after `millis` polls and `millis`
sleeps; so it returns true if and only if the window is skippable and one of the first
`millis` polls delivered an input.  With `CanSkip` false (as `uskip(false)` sets it)
`wait`, `rwait` and `twait` make `millis` sleeps and no poll and return false, -1 and
false.  `twait` returns true only at a poll whose input is one of its targets, and it
returns for every list of fewer than 65536 targets.  The result and the poll count of
the `wait` used by `rline` are those of this run. -/
theorem wait_polls_before_sleeps (w : Window) (input : Nat → Int) (millis polls : Nat) :
    (w.CanSkip = true → ∀ k, k < millis → input (polls + k) ≠ ERR →
        (∀ j, j < k → input (polls + j) = ERR) →
        w.waitTicks input millis polls
          = (true, (List.range' polls k).flatMap (fun p => [Tick.poll (input p), Tick.sleep])
              ++ [Tick.poll (input (polls + k))])
        ∧ (w.waitTicks input millis polls).2.count Tick.sleep = k)
    ∧ (w.CanSkip = true → (∀ j, j < millis → input (polls + j) = ERR) →
        w.waitTicks input millis polls
          = (false,
              (List.range' polls millis).flatMap (fun p => [Tick.poll (input p), Tick.sleep]))
        ∧ (w.waitTicks input millis polls).2.count Tick.sleep = millis)
    ∧ ((w.waitTicks input millis polls).1 = true
        ↔ w.CanSkip = true ∧ ∃ k, k < millis ∧ input (polls + k) ≠ ERR)
    ∧ (w.CanSkip = false → ∀ targets,
        w.waitTicks input millis polls = (false, List.replicate millis Tick.sleep)
        ∧ w.rwait input millis polls = (-1, List.replicate millis Tick.sleep)
        ∧ w.twait input targets millis polls = some (false, List.replicate millis Tick.sleep))
    ∧ (∀ targets t, w.twait input targets millis polls = some (true, t) →
        ∃ k, k < millis ∧ input (polls + k) ≠ ERR ∧ input (polls + k) ∈ targets
          ∧ t.getLast? = some (Tick.poll (input (polls + k))))
    ∧ (∀ targets : List Int, targets.length < 65536 →
        ∃ r, w.twait input targets millis polls = some r)
    ∧ w.wait (fun p => decide (input p ≠ ERR)) millis polls
        = ((w.waitTicks input millis polls).1,
            polls + ((w.waitTicks input millis polls).2.filter
              (fun t => t ≠ Tick.sleep)).length)
    ∧ (w.uskip false).CanSkip = false ∧ (w.uskip true).CanSkip = true := by
  have hA : w.CanSkip = true → ∀ k, k < millis → input (polls + k) ≠ ERR →
      (∀ j, j < k → input (polls + j) = ERR) →
      w.waitTicks input millis polls
        = (true, (List.range' polls k).flatMap (fun p => [Tick.poll (input p), Tick.sleep])
            ++ [Tick.poll (input (polls + k))]) :=
    fun h k hk hin hb => waitTicks_skip h input millis polls k hk hin hb
  refine ⟨fun h k hk hin hb => ⟨hA h k hk hin hb, ?_⟩, fun h hall => ⟨waitTicks_none h input
    millis polls hall, ?_⟩, ?_, fun h targets => ⟨waitTicks_off h input millis polls,
    rwait_off h input millis polls, twait_off h input targets millis polls⟩,
    fun targets t h => twait_true input targets millis polls t h,
    fun targets hlen => twait_returns input targets hlen millis polls,
    wait_eq_waitTicks w input millis polls, rfl, rfl⟩
  · rw [hA h k hk hin hb]
    show List.count Tick.sleep _ = k
    rw [List.count_append, count_sleep_polls]
    simp [List.count_cons]
  · rw [waitTicks_none h input millis polls hall]
    exact count_sleep_polls input millis polls
  · constructor
    · intro ht
      have hc : w.CanSkip = true := by
        by_contra hc
        rw [waitTicks_off (by simpa using hc) input millis polls] at ht
        exact Bool.false_ne_true ht
      refine ⟨hc, ?_⟩
      by_contra hne
      rw [waitTicks_none hc input millis polls (fun j hj => by
        by_contra hj'
        exact hne ⟨j, hj, hj'⟩)] at ht
      exact Bool.false_ne_true ht
    · rintro ⟨hc, hex⟩
      classical
      have hk := Nat.find_spec hex
      rw [hA hc (Nat.find hex) hk.1 hk.2 (fun j hj => by
        by_contra hj'
        exact Nat.find_min hex hj ⟨by omega, hj'⟩)]

/-- C31, instance: with an input source that delivers the key 65 at its third poll, a
skippable `wait(5)` makes two polls each followed by a sleep and returns true at the
third poll; after `uskip(false)` it returns false after five sleeps without a poll. -/
theorem wait_polls_before_sleeps_witness :
    (Window.create 24 80 0 0 2 2).waitTicks (fun p => if p = 2 then 65 else -1) 5 0
      = (true, [Tick.poll (-1), Tick.sleep, Tick.poll (-1), Tick.sleep, Tick.poll 65])
    ∧ ((Window.create 24 80 0 0 2 2).uskip false).waitTicks
        (fun p => if p = 2 then 65 else -1) 5 0
      = (false, [Tick.sleep, Tick.sleep, Tick.sleep, Tick.sleep, Tick.sleep]) :=
  ⟨((wait_polls_before_sleeps (Window.create 24 80 0 0 2 2)
      (fun p => if p = 2 then 65 else -1) 5 0).1 rfl 2 (by decide) (by decide)
      (by decide)).1.trans (by decide),
   ((wait_polls_before_sleeps ((Window.create 24 80 0 0 2 2).uskip false)
      (fun p => if p = 2 then 65 else -1) 5 0).2.2.2.1 rfl []).1.trans (by decide)⟩

end Window

end npp

namespace npp

namespace Window

/-- The directions of a vertical step none of whose neighbours shows anything. -/
theorem dlineDirs_blank_vertical (i length c : Nat) (rev : Bool) :
    dlineDirs [STYLE_NONE, STYLE_NONE, STYLE_NONE, STYLE_NONE] i length true
      (dlineTdir1 true rev) (dlineTdir2 true rev) c = [c, c, 0, 0] := by
  cases rev <;> by_cases h0 : i = 0 <;> by_cases h1 : i = length - 1 <;>
    simp [dlineDirs, dlineTdir1, dlineTdir2, h0, h1, DIR_LEFT, DIR_RIGHT, DIR_UP, DIR_DOWN,
      STYLE_NONE]

/-- The cells of a line that is not reversed and fits in the window, for any merge
flags: the glyph of each cell is chosen from the neighbours in the window before the
call. -/
theorem dline_forward_cells_flags {w : Window} (hw : w.WF) {y x L : Nat} (vertical : Bool)
    (hL : 1 ≤ L) (hy : (if vertical then y + L else y + 1) ≤ w.DimY)
    (hx : (if vertical then x + 1 else x + L) ≤ w.DimX) {s d : Nat} (hs : s < 8) (hd : d < 6)
    (color : Nat) (mergeable canMerge : Bool) (y' x' : Nat) :
    (w.dline y x L vertical false (s, d) color mergeable canMerge).cellAt y' x'
      = if (if vertical then x' = x ∧ y ≤ y' ∧ y' < y + L else y' = y ∧ x ≤ x' ∧ x' < x + L)
        then lineCell (dlinePiece (dlineDirs (dlineNeighbours w y' x' canMerge)
            (if vertical then y' - y else x' - x) L vertical (dlineTdir1 vertical false)
            (dlineTdir2 vertical false) (dlineCstyle s vertical)) (s, d)) color mergeable
        else w.cellAt y' x' := by
  have hY := hw.1
  have hX := hw.2.1
  have hy0 : y < w.DimY := by cases vertical <;> simp at hy <;> omega
  have hx0 : x < w.DimX := by cases vertical <;> simp at hx <;> omega
  have hL' : L < 65536 := by cases vertical <;> simp at hy hx <;> omega
  have hcount : dlineCount w y x L vertical false = L := by
    unfold dlineCount
    cases vertical <;> simp at hy hx ⊢ <;> omega
  have hpf := dline_path_and_frame hw hy0 hx0 hL' vertical false (s, d) color mergeable canMerge
  rw [hcount] at hpf
  simp only [Bool.false_eq_true, if_false] at hpf
  by_cases hc : (if vertical then x' = x ∧ y ≤ y' ∧ y' < y + L else y' = y ∧ x ≤ x' ∧ x' < x + L)
  · rw [if_pos hc]
    have hk : (if vertical then y' - y else x' - x) < L := by
      cases vertical <;> simp at hc ⊢ <;> omega
    have hp := hpf.1 _ hk
    have e1 : (if vertical then y + (if vertical then y' - y else x' - x) else y) = y' := by
      cases vertical <;> simp at hc ⊢ <;> omega
    have e2 : (if vertical then x else x + (if vertical then y' - y else x' - x)) = x' := by
      cases vertical <;> simp at hc ⊢ <;> omega
    rw [e1, e2] at hp
    rw [hp]
    unfold dlineGlyph
    have hk' : (if vertical then y' - y else x' - x) < dlineCount w y x L vertical false := by
      rw [hcount]; exact hk
    rw [(dlinePos_of_lt_count hw hy0 hx0 vertical false hk').1, dlineStyle_valid hs hd]
    simp only [Bool.false_eq_true, if_false]
    rw [e1, e2]
  · rw [if_neg hc]
    apply hpf.2
    intro i hi h
    apply hc
    have h1 := (Prod.mk.inj h).1
    have h2 := (Prod.mk.inj h).2
    cases vertical <;> simp at h1 h2 ⊢ <;> omega

/-- A line drawn without looking at its neighbours, or into a window without mergeable
cells, comes out plain: every cell holds the straight glyph of its orientation. -/
theorem dline_plain_cells {w : Window} (hw : w.WF) {y x L : Nat} (vertical : Bool)
    (hL : 1 ≤ L) (hy : (if vertical then y + L else y + 1) ≤ w.DimY)
    (hx : (if vertical then x + 1 else x + L) ≤ w.DimX) {s d : Nat} (hs : s < 8) (hd : d < 6)
    (color : Nat) (mergeable canMerge : Bool)
    (h : canMerge = false ∨ ∀ y x, (w.cellAt y x).CanMerge = false) (y' x' : Nat) :
    (w.dline y x L vertical false (s, d) color mergeable canMerge).cellAt y' x'
      = if (if vertical then x' = x ∧ y ≤ y' ∧ y' < y + L else y' = y ∧ x ≤ x' ∧ x' < x + L)
        then lineCell (dlinePiece (if vertical then [dlineCstyle s true, dlineCstyle s true, 0, 0]
          else [0, 0, dlineCstyle s false, dlineCstyle s false]) (s, d)) color mergeable
        else w.cellAt y' x' := by
  rw [dline_forward_cells_flags hw vertical hL hy hx hs hd color mergeable canMerge y' x']
  have hN : dlineNeighbours w y' x' canMerge = [STYLE_NONE, STYLE_NONE, STYLE_NONE, STYLE_NONE] := by
    rcases h with h | h
    · rw [h]; rfl
    · exact dlineNeighbours_fresh h y' x' canMerge
  rw [hN]
  cases vertical
  · rw [dlineDirs_blank_horizontal]
    rfl
  · rw [dlineDirs_blank_vertical]
    rfl

set_option maxRecDepth 1000000 in
/-- For every valid style the straight horizontal glyph differs from the four corner
glyphs of the style. -/
theorem plain_ne_corner : ∀ s ∈ List.range 8, ∀ d ∈ List.range 6,
    ∀ v ∈ [[0, dlineCstyle s true, 0, dlineCstyle s false],
           [0, dlineCstyle s true, dlineCstyle s false, 0],
           [dlineCstyle s true, 0, 0, dlineCstyle s false],
           [dlineCstyle s true, 0, dlineCstyle s false, 0]],
    dlinePiece [0, 0, dlineCstyle s false, dlineCstyle s false] (s, d) ≠ dlinePiece v (s, d) := by
  decide!

/-- The four lines of a box drawn without merging: the top and bottom rows hold the
straight horizontal glyph, corners included, the rest of the sides the straight vertical
glyph, every other cell is as before. -/
theorem box_plain_cells {w : Window} (hw : w.WF)
    (hfresh : ∀ y x, (w.cellAt y x).CanMerge = false) {Y X H W : Nat} (hH : 2 ≤ H)
    (hW : 2 ≤ W) (hY : Y + H ≤ w.DimY) (hX : X + W ≤ w.DimX) {s d : Nat} (hs : s < 8)
    (hd : d < 6) (color : Nat) (mergeable canMerge : Bool)
    (hm : mergeable = false ∨ canMerge = false) (y' x' : Nat) :
    ((((w.dline Y X H true false (s, d) color mergeable canMerge).dline Y (X + W - 1) H true
        false (s, d) color mergeable canMerge).dline Y X W false false (s, d) color mergeable
        canMerge).dline (Y + H - 1) X W false false (s, d) color mergeable canMerge).cellAt y' x'
      = if (y' = Y ∨ y' = Y + H - 1) ∧ X ≤ x' ∧ x' < X + W
        then lineCell (dlinePiece [0, 0, dlineCstyle s false, dlineCstyle s false] (s, d))
          color mergeable
        else if (x' = X ∨ x' = X + W - 1) ∧ Y ≤ y' ∧ y' < Y + H
        then lineCell (dlinePiece [dlineCstyle s true, dlineCstyle s true, 0, 0] (s, d))
          color mergeable
        else w.cellAt y' x' := by
  have hWF1 := dline_WF hw Y X H true false (s, d) color mergeable canMerge
  have hWF2 := dline_WF hWF1.1 Y (X + W - 1) H true false (s, d) color mergeable canMerge
  have hWF3 := dline_WF hWF2.1 Y X W false false (s, d) color mergeable canMerge
  have hDY2 := hWF2.2.1.trans hWF1.2.1
  have hDX2 := hWF2.2.2.trans hWF1.2.2
  have hDY3 := hWF3.2.1.trans hDY2
  have hDX3 := hWF3.2.2.trans hDX2
  -- each line is drawn either blind or into a window without mergeable cells
  have c1 := fun a b => dline_plain_cells (y := Y) (x := X) (L := H) hw true (by omega)
    (by simp; omega) (by simp; omega) hs hd color mergeable canMerge
    (by rcases hm with h | h
        · exact Or.inr hfresh
        · exact Or.inl h) a b
  have f1 : mergeable = false → ∀ a b,
      ((w.dline Y X H true false (s, d) color mergeable canMerge).cellAt a b).CanMerge
        = false := by
    intro h a b
    rw [c1 a b, apply_ite Cell.CanMerge, hfresh a b, h]
    simp [lineCell]
  have c2 := fun a b => dline_plain_cells (y := Y) (x := X + W - 1) (L := H) hWF1.1 true
    (by omega) (by rw [hWF1.2.1]; simp; omega) (by rw [hWF1.2.2]; simp; omega) hs hd color
    mergeable canMerge
    (by rcases hm with h | h
        · exact Or.inr (f1 h)
        · exact Or.inl h) a b
  have f2 : mergeable = false → ∀ a b,
      (((w.dline Y X H true false (s, d) color mergeable canMerge).dline Y (X + W - 1) H true
        false (s, d) color mergeable canMerge).cellAt a b).CanMerge = false := by
    intro h a b
    rw [c2 a b, apply_ite Cell.CanMerge, f1 h a b, h]
    simp [lineCell]
  have c3 := fun a b => dline_plain_cells (y := Y) (x := X) (L := W) hWF2.1 false
    (by omega) (by rw [hDY2]; simp; omega) (by rw [hDX2]; simp; omega) hs hd color
    mergeable canMerge
    (by rcases hm with h | h
        · exact Or.inr (f2 h)
        · exact Or.inl h) a b
  have f3 : mergeable = false → ∀ a b,
      ((((w.dline Y X H true false (s, d) color mergeable canMerge).dline Y (X + W - 1) H true
        false (s, d) color mergeable canMerge).dline Y X W false false (s, d) color mergeable
        canMerge).cellAt a b).CanMerge = false := by
    intro h a b
    rw [c3 a b, apply_ite Cell.CanMerge, f2 h a b, h]
    simp [lineCell]
  have c4 := dline_plain_cells (y := Y + H - 1) (x := X) (L := W) hWF3.1 false
    (by omega) (by rw [hDY3]; simp; omega) (by rw [hDX3]; simp; omega) hs hd color
    mergeable canMerge
    (by rcases hm with h | h
        · exact Or.inr (f3 h)
        · exact Or.inl h) y' x'
  rw [c4, c3, c2, c1]
  simp only [Bool.false_eq_true, if_false, if_true]
  split_ifs <;> first | rfl | omega

set_option maxRecDepth 1000000 in
/-- C38, counterexample.  On a fresh 10x10 window `dbox(5, 1, 65535, 3)` is accepted: the
guard tests `checkCoord(5 + 65535, 1 + 3)` with the sums narrowed to `unsigned short`,
that is the cell (4, 4).  Drawn in the light style with `mergeable = canMerge = false`,
the call returns; the verticals run from row 5 to the bottom edge of the window, the
last horizontal line is drawn in row `(5 + 65535 - 1) mod 2^16 = 3`, and the bottom
corners of the box, in row `5 + 65535 - 1`, are outside the window and read as the
blank, not as the straight horizontal glyph U+2500; the cell of the left edge in row
`5 + 65535 - 2` reads as the blank, not as the straight vertical glyph U+2502. -/
theorem dbox_wrapped_counterexample :
    (Window.create 24 80 0 0 10 10).WF
    ∧ (∀ y x, (Window.create 24 80 0 0 10 10).cellAt y x = {})
    ∧ (Window.create 24 80 0 0 10 10).checkCoord 5 1 = true
    ∧ (Window.create 24 80 0 0 10 10).checkCoord ((5 + 65535) % 65536) ((1 + 3) % 65536) = true
    ∧ dlinePiece [0, 0, dlineCstyle LIGHT_HARD false, dlineCstyle LIGHT_HARD false]
        (LIGHT_HARD, DASHED_NONE) = 0x2500
    ∧ dlinePiece [dlineCstyle LIGHT_HARD true, dlineCstyle LIGHT_HARD true, 0, 0]
        (LIGHT_HARD, DASHED_NONE) = 0x2502
    ∧ ((Window.create 24 80 0 0 10 10).dbox 5 1 65535 3 (LIGHT_HARD, DASHED_NONE) 1 false
          false).map
        (fun w' => (w'.schar (5 + 65535 - 1) 1, w'.schar (5 + 65535 - 1) (1 + 3 - 1),
          w'.schar (5 + 65535 - 2) 1, w'.schar 3 1, w'.schar 3 3, w'.schar 9 1))
      = some (BLANK, BLANK, BLANK, 0x2500, 0x2500, 0x2502)
    ∧ (BLANK : Nat) ≠ 0x2500 ∧ (BLANK : Nat) ≠ 0x2502 := by
  refine ⟨by decide, fun y x => cellAt_create _ _ _ _ _ _ _ _, by decide, by decide,
    by decide!, by decide!, by decide!, by decide, by decide⟩

/-- C38 (amended). Box corners exist only through merging: on a window without mergeable
cells (every fresh window is one), for every valid style, `H, W ≥ 2` and a box with
`Y + H < DimY` and `X + W < DimX` (the sums themselves, not narrowed to
`unsigned short`; `dbox` accepts these boxes), if `mergeable = false` or
`canMerge = false` then `dbox(Y, X, H, W)` returns a window in which every cell of the top
and bottom rows of the box, the four corners included, holds the straight horizontal
glyph of the style, a non-blank glyph of the key with the vector (none, none, ch, ch)
that differs from the four corner glyphs of the style, and the remaining cells of the
left and right edges hold the straight vertical glyph, a non-blank glyph of the key with
the vector (cv, cv, none, none). -/
theorem dbox_no_merge_outline (w : Window) (hw : w.WF)
    (hfresh : ∀ y x, (w.cellAt y x).CanMerge = false) (Y X H W s d color : Nat)
    (mergeable canMerge : Bool) (hH : 2 ≤ H) (hW : 2 ≤ W) (hY : Y + H < w.DimY)
    (hX : X + W < w.DimX) (hs : s < 8) (hd : d < 6)
    (hm : mergeable = false ∨ canMerge = false) :
    ∃ w', w.dbox Y X H W (s, d) color mergeable canMerge = some w'
      ∧ dlineCstyle s true ≠ STYLE_NONE ∧ dlineCstyle s false ≠ STYLE_NONE
      ∧ dlinePiece [0, 0, dlineCstyle s false, dlineCstyle s false] (s, d) ≠ BLANK
      ∧ (dlinePiece [0, 0, dlineCstyle s false, dlineCstyle s false] (s, d),
          [STYLE_NONE, STYLE_NONE, dlineCstyle s false, dlineCstyle s false]) ∈ Keys.LineDrawing
      ∧ dlinePiece [dlineCstyle s true, dlineCstyle s true, 0, 0] (s, d) ≠ BLANK
      ∧ (dlinePiece [dlineCstyle s true, dlineCstyle s true, 0, 0] (s, d),
          [dlineCstyle s true, dlineCstyle s true, STYLE_NONE, STYLE_NONE]) ∈ Keys.LineDrawing
      ∧ w'.schar Y X = dlinePiece [0, 0, dlineCstyle s false, dlineCstyle s false] (s, d)
      ∧ w'.schar Y (X + W - 1)
          = dlinePiece [0, 0, dlineCstyle s false, dlineCstyle s false] (s, d)
      ∧ w'.schar (Y + H - 1) X
          = dlinePiece [0, 0, dlineCstyle s false, dlineCstyle s false] (s, d)
      ∧ w'.schar (Y + H - 1) (X + W - 1)
          = dlinePiece [0, 0, dlineCstyle s false, dlineCstyle s false] (s, d)
      ∧ (∀ y' x', (y' = Y ∨ y' = Y + H - 1) → X ≤ x' → x' < X + W →
          w'.schar y' x' = dlinePiece [0, 0, dlineCstyle s false, dlineCstyle s false] (s, d))
      ∧ (∀ y' x', (x' = X ∨ x' = X + W - 1) → Y < y' → y' < Y + H - 1 →
          w'.schar y' x' = dlinePiece [dlineCstyle s true, dlineCstyle s true, 0, 0] (s, d))
      ∧ dlinePiece [0, 0, dlineCstyle s false, dlineCstyle s false] (s, d)
          ≠ dlinePiece [0, dlineCstyle s true, 0, dlineCstyle s false] (s, d)
      ∧ dlinePiece [0, 0, dlineCstyle s false, dlineCstyle s false] (s, d)
          ≠ dlinePiece [0, dlineCstyle s true, dlineCstyle s false, 0] (s, d)
      ∧ dlinePiece [0, 0, dlineCstyle s false, dlineCstyle s false] (s, d)
          ≠ dlinePiece [dlineCstyle s true, 0, 0, dlineCstyle s false] (s, d)
      ∧ dlinePiece [0, 0, dlineCstyle s false, dlineCstyle s false] (s, d)
          ≠ dlinePiece [dlineCstyle s true, 0, dlineCstyle s false, 0] (s, d) := by
  have hcat := box_glyphs_catalog s (List.mem_range.2 hs) d (List.mem_range.2 hd)
  have hcv := dlineCstyle_pos s (List.mem_range.2 hs) true (by simp)
  have hch := dlineCstyle_pos s (List.mem_range.2 hs) false (by simp)
  have hne := plain_ne_corner s (List.mem_range.2 hs) d (List.mem_range.2 hd)
  have hWF := box_lines_WF hw Y X H W (s, d) color mergeable canMerge
  have hD := fun y' x' => box_plain_cells hw hfresh hH hW (Nat.le_of_lt hY) (Nat.le_of_lt hX)
    hs hd color mergeable canMerge hm y' x'
  have hchar : ∀ y' x', y' < w.DimY → x' < w.DimX →
      ((((w.dline Y X H true false (s, d) color mergeable canMerge).dline Y (X + W - 1) H true
        false (s, d) color mergeable canMerge).dline Y X W false false (s, d) color mergeable
        canMerge).dline (Y + H - 1) X W false false (s, d) color mergeable canMerge).schar y' x'
      = (((((w.dline Y X H true false (s, d) color mergeable canMerge).dline Y (X + W - 1) H
        true false (s, d) color mergeable canMerge).dline Y X W false false (s, d) color
        mergeable canMerge).dline (Y + H - 1) X W false false (s, d) color mergeable
        canMerge).cellAt y' x').Char := by
    intro y' x' h1 h2
    unfold schar
    rw [(checkCoord_iff _ y' x').2 ⟨by rw [hWF.2.1]; exact h1, by rw [hWF.2.2]; exact h2⟩]
    rfl
  have hrow : ∀ y' x', (y' = Y ∨ y' = Y + H - 1) → X ≤ x' → x' < X + W →
      ((((w.dline Y X H true false (s, d) color mergeable canMerge).dline Y (X + W - 1) H true
        false (s, d) color mergeable canMerge).dline Y X W false false (s, d) color mergeable
        canMerge).dline (Y + H - 1) X W false false (s, d) color mergeable canMerge).schar y' x'
      = dlinePiece [0, 0, dlineCstyle s false, dlineCstyle s false] (s, d) := by
    intro y' x' h1 h2 h3
    rw [hchar y' x' (by omega) (by omega), hD y' x', if_pos ⟨h1, h2, h3⟩]
    rfl
  refine ⟨_, dbox_eq_lines hw.1 hw.2.1 hY hX hH hW (s, d) color mergeable canMerge, hcv, hch,
    (hcat _ (by simp)).1, (hcat _ (by simp)).2, (hcat _ (by simp)).1, (hcat _ (by simp)).2,
    hrow _ _ (Or.inl rfl) (by omega) (by omega), hrow _ _ (Or.inl rfl) (by omega) (by omega),
    hrow _ _ (Or.inr rfl) (by omega) (by omega), hrow _ _ (Or.inr rfl) (by omega) (by omega),
    hrow, ?_, hne _ (by simp), hne _ (by simp), hne _ (by simp), hne _ (by simp)⟩
  intro y' x' h1 h2 h3
  rw [hchar y' x' (by omega) (by omega), hD y' x', if_neg (by omega), if_pos ⟨h1, by omega,
    by omega⟩]
  rfl

set_option maxRecDepth 1000000 in
/-- C38 (amended), instance: the 3x4 box at (1, 1) of a fresh 6x7 window in the light style, drawn
with `mergeable = false`, and the same box drawn with `canMerge = false`: the corners
hold U+2500 and the cell (2, 1) of the left edge U+2502. -/
theorem dbox_no_merge_outline_witness :
    (∃ w', (Window.create 24 80 0 0 6 7).dbox 1 1 3 4 (LIGHT_HARD, DASHED_NONE) 1 false true
        = some w'
      ∧ w'.schar 1 1 = 0x2500 ∧ w'.schar 1 4 = 0x2500 ∧ w'.schar 3 1 = 0x2500
      ∧ w'.schar 3 4 = 0x2500 ∧ w'.schar 2 1 = 0x2502 ∧ w'.schar 2 4 = 0x2502)
    ∧ (∃ w', (Window.create 24 80 0 0 6 7).dbox 1 1 3 4 (LIGHT_HARD, DASHED_NONE) 1 true false
        = some w'
      ∧ w'.schar 1 1 = 0x2500 ∧ w'.schar 1 4 = 0x2500 ∧ w'.schar 3 1 = 0x2500
      ∧ w'.schar 3 4 = 0x2500 ∧ w'.schar 2 1 = 0x2502 ∧ w'.schar 2 4 = 0x2502) := by
  have hh : dlinePiece [0, 0, dlineCstyle LIGHT_HARD false, dlineCstyle LIGHT_HARD false]
      (LIGHT_HARD, DASHED_NONE) = 0x2500 := by decide!
  have hv : dlinePiece [dlineCstyle LIGHT_HARD true, dlineCstyle LIGHT_HARD true, 0, 0]
      (LIGHT_HARD, DASHED_NONE) = 0x2502 := by decide!
  constructor
  · obtain ⟨w', h, -, -, -, -, -, -, k1, k2, k3, k4, -, hside, -⟩ :=
      dbox_no_merge_outline (Window.create 24 80 0 0 6 7) (by decide)
        (fun y x => by rw [cellAt_create]) 1 1 3 4 LIGHT_HARD DASHED_NONE 1 false true
        (by decide) (by decide) (by decide) (by decide) (by decide) (by decide) (Or.inl rfl)
    exact ⟨w', h, k1.trans hh, k2.trans hh, k3.trans hh, k4.trans hh,
      (hside 2 1 (Or.inl rfl) (by decide) (by decide)).trans hv,
      (hside 2 4 (Or.inr rfl) (by decide) (by decide)).trans hv⟩
  · obtain ⟨w', h, -, -, -, -, -, -, k1, k2, k3, k4, -, hside, -⟩ :=
      dbox_no_merge_outline (Window.create 24 80 0 0 6 7) (by decide)
        (fun y x => by rw [cellAt_create]) 1 1 3 4 LIGHT_HARD DASHED_NONE 1 true false
        (by decide) (by decide) (by decide) (by decide) (by decide) (by decide) (Or.inr rfl)
    exact ⟨w', h, k1.trans hh, k2.trans hh, k3.trans hh, k4.trans hh,
      (hside 2 1 (Or.inl rfl) (by decide) (by decide)).trans hv,
      (hside 2 4 (Or.inr rfl) (by decide) (by decide)).trans hv⟩

end Window

end npp

namespace npp

namespace Window

/-- Two well-formed windows with the same dimensions, position and skip flag and the
same cell at every coordinate are equal. -/
theorem ext_cells {w1 w2 : Window} (h1 : w1.WF) (h2 : w2.WF) (hY : w1.DimY = w2.DimY)
    (hX : w1.DimX = w2.DimX) (hPY : w1.PosY = w2.PosY) (hPX : w1.PosX = w2.PosX)
    (hS : w1.CanSkip = w2.CanSkip) (hc : ∀ y x, w1.cellAt y x = w2.cellAt y x) : w1 = w2 := by
  obtain ⟨dy1, dx1, py1, px1, s1, g1⟩ := w1
  obtain ⟨dy2, dx2, py2, px2, s2, g2⟩ := w2
  simp only at hY hX hPY hPX hS
  subst hY hX hPY hPX hS
  obtain ⟨_, _, hl1, hr1⟩ := h1
  obtain ⟨_, _, hl2, hr2⟩ := h2
  simp only at hl1 hr1 hl2 hr2
  have hg : g1 = g2 := by
    apply List.ext_getElem (by rw [hl1, hl2])
    intro i hi1 hi2
    have e1 := hr1 _ (List.getElem_mem hi1)
    have e2 := hr2 _ (List.getElem_mem hi2)
    apply List.ext_getElem (by rw [e1, e2])
    intro j hj1 hj2
    have := hc i j
    unfold cellAt at this
    simp only at this
    rw [List.getD_eq_getElem _ _ hi1, List.getD_eq_getElem _ _ hi2,
      List.getD_eq_getElem _ _ hj1, List.getD_eq_getElem _ _ hj2] at this
    exact this
  rw [hg]

/-- Function `wchar` writes the grid only. -/
theorem wchar_fields (w : Window) (pos : Nat × Nat) (input color : Nat) (att : String) :
    (w.wchar pos input color att).PosY = w.PosY ∧ (w.wchar pos input color att).PosX = w.PosX
    ∧ (w.wchar pos input color att).CanSkip = w.CanSkip := by
  unfold wchar wcharp
  split
  · exact ⟨rfl, rfl, rfl⟩
  · exact ⟨rfl, rfl, rfl⟩

/-- The loop of `dline` writes the grid only. -/
theorem dlineLoop_fields (y x length : Nat) (vertical rev : Bool) (style : Nat × Nat)
    (color : Nat) (mergeable canMerge : Bool) (tdir1 tdir2 cstyle : Nat) :
    ∀ (n i posy posx : Nat) (w : Window),
      (dlineLoop y x length vertical rev style color mergeable canMerge tdir1 tdir2 cstyle
          n i posy posx w).PosY = w.PosY
      ∧ (dlineLoop y x length vertical rev style color mergeable canMerge tdir1 tdir2 cstyle
          n i posy posx w).PosX = w.PosX
      ∧ (dlineLoop y x length vertical rev style color mergeable canMerge tdir1 tdir2 cstyle
          n i posy posx w).CanSkip = w.CanSkip := by
  intro n
  induction n with
  | zero => intro i py px w; exact ⟨rfl, rfl, rfl⟩
  | succ n ih =>
    intro i py px w
    rw [dlineLoop]
    split
    · exact ⟨rfl, rfl, rfl⟩
    · have h := ih (i + 1) (dlinePos y x vertical rev (i + 1)).1
        (dlinePos y x vertical rev (i + 1)).2
        (dlineStep w i length vertical style color mergeable canMerge tdir1 tdir2 cstyle py px)
      have hs : (dlineStep w i length vertical style color mergeable canMerge tdir1 tdir2
            cstyle py px).PosY = w.PosY
          ∧ (dlineStep w i length vertical style color mergeable canMerge tdir1 tdir2
            cstyle py px).PosX = w.PosX
          ∧ (dlineStep w i length vertical style color mergeable canMerge tdir1 tdir2
            cstyle py px).CanSkip = w.CanSkip := by
        unfold dlineStep
        exact wchar_fields w _ _ _ _
      exact ⟨h.1.trans hs.1, h.2.1.trans hs.2.1, h.2.2.trans hs.2.2⟩

/-- Function `dline` writes the grid only. -/
theorem dline_fields (w : Window) (y x length : Nat) (vertical rev : Bool) (style : Nat × Nat)
    (color : Nat) (mergeable canMerge : Bool) :
    (w.dline y x length vertical rev style color mergeable canMerge).PosY = w.PosY
    ∧ (w.dline y x length vertical rev style color mergeable canMerge).PosX = w.PosX
    ∧ (w.dline y x length vertical rev style color mergeable canMerge).CanSkip = w.CanSkip := by
  unfold dline
  split
  · exact ⟨rfl, rfl, rfl⟩
  · exact dlineLoop_fields _ _ _ _ _ _ _ _ _ _ _ _ _ _ _ _ w

/-- The directions asked for at a step depend on the off-axis neighbours, on the
trailing in-line neighbour at the first step only and on the leading in-line neighbour
at the last step only. -/
theorem dlineDirs_congr (a b c e a' b' c' e' k L : Nat) (vertical rev : Bool) (cs : Nat)
    (h : if vertical then
          (c' = c ∧ e' = e ∧ if rev then (k = 0 → b' = b) ∧ (k = L - 1 → a' = a)
            else (k = 0 → a' = a) ∧ (k = L - 1 → b' = b))
         else (a' = a ∧ b' = b ∧ if rev then (k = 0 → e' = e) ∧ (k = L - 1 → c' = c)
            else (k = 0 → c' = c) ∧ (k = L - 1 → e' = e))) :
    dlineDirs [a', b', c', e'] k L vertical (dlineTdir1 vertical rev)
        (dlineTdir2 vertical rev) cs
      = dlineDirs [a, b, c, e] k L vertical (dlineTdir1 vertical rev)
        (dlineTdir2 vertical rev) cs := by
  cases vertical <;> cases rev <;>
    simp only [Bool.false_eq_true, if_false, if_true] at h <;>
    obtain ⟨h1, h2, h3, h4⟩ := h <;> subst h1 <;> subst h2 <;>
    simp only [dlineDirs_horizontal, dlineDirs_horizontal_rev, dlineDirs_vertical,
      dlineDirs_vertical_rev] <;>
    by_cases hk0 : k = 0 <;> by_cases hk1 : k = L - 1 <;>
    (try (have h5 := h3 hk0; subst h5)) <;> (try (have h6 := h4 hk1; subst h6)) <;>
    split_ifs <;> rfl

end Window

end npp

namespace npp

namespace Window

/-- The directions asked for at step `k` of a line are the same in two windows that
agree in every cell off the path of the line. -/
theorem dlineDirs_off_path {w w2 : Window} (hw : w.WF) (hdY : w2.DimY = w.DimY)
    (hdX : w2.DimX = w.DimX) {y x length : Nat} (hy : y < w.DimY) (hx : x < w.DimX)
    (vertical rev : Bool) (canMerge : Bool) (cs : Nat) {k : Nat}
    (hk : k < dlineCount w y x length vertical rev)
    (hoff : ∀ qy qx, (∀ j, j < dlineCount w y x length vertical rev →
        dlinePos y x vertical rev j ≠ (qy, qx)) → w2.cellAt qy qx = w.cellAt qy qx) :
    dlineDirs
      (dlineNeighbours w2 (dlinePos y x vertical rev k).1 (dlinePos y x vertical rev k).2
        canMerge)
      k length vertical (dlineTdir1 vertical rev) (dlineTdir2 vertical rev) cs
    = dlineDirs
      (dlineNeighbours w (dlinePos y x vertical rev k).1 (dlinePos y x vertical rev k).2 canMerge)
      k length vertical (dlineTdir1 vertical rev) (dlineTdir2 vertical rev) cs := by
  have hY : w.DimY < 65536 := hw.1
  have hX : w.DimX < 65536 := hw.2.1
  cases canMerge
  · rfl
  have hgcs : ∀ qy qx : Nat,
      (qy < w.DimY → qx < w.DimX → ∀ j, j < dlineCount w y x length vertical rev →
        dlinePos y x vertical rev j ≠ (qy, qx)) →
      ∀ dir, w2.getConnectStyle qy qx dir = w.getConnectStyle qy qx dir := by
    intro qy qx hq dir
    refine getConnectStyle_congr hdY hdX (fun hin => ?_) dir
    have hb := (checkCoord_iff w2 qy qx).1 hin
    rw [hdY, hdX] at hb
    exact hoff qy qx (hq hb.1 hb.2)
  have hup : ∀ py px : Nat,
      (py ≠ 0 → py - 1 < w.DimY → px < w.DimX → ∀ j, j < dlineCount w y x length vertical rev →
        dlinePos y x vertical rev j ≠ (py - 1, px)) →
      (if py = 0 then 0 else w2.getConnectStyle (py - 1) px DIR_DOWN)
        = (if py = 0 then 0 else w.getConnectStyle (py - 1) px DIR_DOWN) := by
    intro py px h
    by_cases h0 : py = 0
    · rw [if_pos h0, if_pos h0]
    · rw [if_neg h0, if_neg h0, hgcs _ _ (h h0)]
  have hleft : ∀ py px : Nat,
      (px ≠ 0 → py < w.DimY → px - 1 < w.DimX → ∀ j, j < dlineCount w y x length vertical rev →
        dlinePos y x vertical rev j ≠ (py, px - 1)) →
      (if px = 0 then 0 else w2.getConnectStyle py (px - 1) DIR_RIGHT)
        = (if px = 0 then 0 else w.getConnectStyle py (px - 1) DIR_RIGHT) := by
    intro py px h
    by_cases h0 : px = 0
    · rw [if_pos h0, if_pos h0]
    · rw [if_neg h0, if_neg h0, hgcs _ _ (h h0)]
  have hposj : ∀ j, j < dlineCount w y x length vertical rev → dlinePos y x vertical rev j
      = (if vertical then (if rev then y - j else y + j) else y,
         if vertical then x else (if rev then x - j else x + j)) :=
    fun j hj => (dlinePos_of_lt_count hw hy hx vertical rev hj).1
  have hposk := hposj k hk
  have hink := (dlinePos_of_lt_count hw hy hx vertical rev hk).2
  rw [hposk] at hink ⊢
  rw [checkCoord_iff] at hink
  simp only at hink ⊢
  rw [dlineNeighbours_eq (show w2.DimY < 65536 by omega) (show w2.DimX < 65536 by omega)
      (by rw [hdY]; exact hink.1) (by rw [hdX]; exact hink.2),
    dlineNeighbours_eq hY hX hink.1 hink.2]
  apply dlineDirs_congr
  generalize hn : dlineCount w y x length vertical rev = n at *
  have hnL : n ≤ length := by rw [← hn]; exact dlineCount_le w y x length vertical rev
  unfold dlineCount at hn
  cases vertical <;> cases rev <;>
    simp only [Bool.false_eq_true, if_false, if_true] at hn hposj hink ⊢
  · refine ⟨hup _ _ (fun _ _ _ j hj h => ?_), hgcs _ _ (fun _ _ j hj h => ?_) _,
      fun h0 => hleft _ _ (fun _ _ _ j hj h => ?_), fun h1 => hgcs _ _ (fun _ _ j hj h => ?_) _⟩
    all_goals
      rw [hposj j hj] at h
      have h2 := (Prod.mk.inj h).1
      have h3 := (Prod.mk.inj h).2
      omega
  · refine ⟨hup _ _ (fun _ _ _ j hj h => ?_), hgcs _ _ (fun _ _ j hj h => ?_) _,
      fun h0 => hgcs _ _ (fun _ _ j hj h => ?_) _, fun h1 => hleft _ _ (fun _ _ _ j hj h => ?_)⟩
    all_goals
      rw [hposj j hj] at h
      have h2 := (Prod.mk.inj h).1
      have h3 := (Prod.mk.inj h).2
      omega
  · refine ⟨hleft _ _ (fun _ _ _ j hj h => ?_), hgcs _ _ (fun _ _ j hj h => ?_) _,
      fun h0 => hup _ _ (fun _ _ _ j hj h => ?_), fun h1 => hgcs _ _ (fun _ _ j hj h => ?_) _⟩
    all_goals
      rw [hposj j hj] at h
      have h2 := (Prod.mk.inj h).1
      have h3 := (Prod.mk.inj h).2
      omega
  · refine ⟨hleft _ _ (fun _ _ _ j hj h => ?_), hgcs _ _ (fun _ _ j hj h => ?_) _,
      fun h0 => hgcs _ _ (fun _ _ j hj h => ?_) _, fun h1 => hup _ _ (fun _ _ _ j hj h => ?_)⟩
    all_goals
      rw [hposj j hj] at h
      have h2 := (Prod.mk.inj h).1
      have h3 := (Prod.mk.inj h).2
      omega

/-- The glyph chosen at step `k` of a line is the same in two windows that agree in
every cell off the path of the line. -/
theorem dlineGlyph_off_path {w w2 : Window} (hw : w.WF) (hdY : w2.DimY = w.DimY)
    (hdX : w2.DimX = w.DimX) {y x length : Nat} (hy : y < w.DimY) (hx : x < w.DimX)
    (vertical rev : Bool) (style : Nat × Nat) (canMerge : Bool) {k : Nat}
    (hk : k < dlineCount w y x length vertical rev)
    (hoff : ∀ qy qx, (∀ j, j < dlineCount w y x length vertical rev →
        dlinePos y x vertical rev j ≠ (qy, qx)) → w2.cellAt qy qx = w.cellAt qy qx) :
    dlineGlyph w2 y x length vertical rev style canMerge k
      = dlineGlyph w y x length vertical rev style canMerge k := by
  unfold dlineGlyph
  rw [dlineDirs_off_path hw hdY hdX hy hx vertical rev canMerge _ hk hoff]

/-- The number of steps of a line depends on the dimensions of the window only. -/
theorem dlineCount_congr {w w2 : Window} (hdY : w2.DimY = w.DimY) (hdX : w2.DimX = w.DimX)
    (y x length : Nat) (vertical rev : Bool) :
    dlineCount w2 y x length vertical rev = dlineCount w y x length vertical rev := by
  unfold dlineCount
  rw [hdY, hdX]

/-- The line `dline` draws is determined by the cells off its path: two well-formed
windows of the same dimensions that agree off the path hold the same cells on the path
afterwards. -/
theorem dline_cells_off_path {w w2 : Window} (hw : w.WF) (hw2 : w2.WF) (hdY : w2.DimY = w.DimY)
    (hdX : w2.DimX = w.DimX) {y x length : Nat} (hy : y < w.DimY) (hx : x < w.DimX)
    (hL : length < 65536) (vertical rev : Bool) (style : Nat × Nat) (color : Nat)
    (mergeable canMerge : Bool)
    (hoff : ∀ qy qx, (∀ j, j < dlineCount w y x length vertical rev →
        dlinePos y x vertical rev j ≠ (qy, qx)) → w2.cellAt qy qx = w.cellAt qy qx)
    {k : Nat} (hk : k < dlineCount w y x length vertical rev) :
    (w2.dline y x length vertical rev style color mergeable canMerge).cellAt
        (dlinePos y x vertical rev k).1 (dlinePos y x vertical rev k).2
      = (w.dline y x length vertical rev style color mergeable canMerge).cellAt
        (dlinePos y x vertical rev k).1 (dlinePos y x vertical rev k).2 := by
  rw [dline_cellAt_path hw hy hx hL vertical rev style color mergeable canMerge hk,
    dline_cellAt_path hw2 (by rw [hdY]; exact hy) (by rw [hdX]; exact hx) hL vertical rev style
      color mergeable canMerge (by rw [dlineCount_congr hdY hdX]; exact hk),
    dlineGlyph_off_path hw hdY hdX hy hx vertical rev style canMerge hk hoff]

/-- C36. `dline` is idempotent: for every window whose grid has the shape `DimY` x `DimX`
and every argument tuple (the length an `unsigned short`), the same `dline` call applied
twice in a row gives the window that one application gives; and the cells a `dline`
leaves on its path are determined by the cells off the path: two windows of the same
dimensions that agree off the path have the same cells on the path afterwards. -/
theorem dline_idempotent (w : Window) (hw : w.WF) (y x length : Nat) (hL : length < 65536)
    (vertical rev : Bool) (style : Nat × Nat) (color : Nat) (mergeable canMerge : Bool) :
    (w.dline y x length vertical rev style color mergeable canMerge).dline y x length
        vertical rev style color mergeable canMerge
      = w.dline y x length vertical rev style color mergeable canMerge
    ∧ (∀ w2 : Window, w2.WF → w2.DimY = w.DimY → w2.DimX = w.DimX → y < w.DimY → x < w.DimX →
        (∀ qy qx, (∀ j, j < dlineCount w y x length vertical rev →
          dlinePos y x vertical rev j ≠ (qy, qx)) → w2.cellAt qy qx = w.cellAt qy qx) →
        ∀ k, k < dlineCount w y x length vertical rev →
          (w2.dline y x length vertical rev style color mergeable canMerge).cellAt
              (dlinePos y x vertical rev k).1 (dlinePos y x vertical rev k).2
            = (w.dline y x length vertical rev style color mergeable canMerge).cellAt
              (dlinePos y x vertical rev k).1 (dlinePos y x vertical rev k).2) := by
  refine ⟨?_, fun w2 hw2 hdY hdX hy hx hoff k hk =>
    dline_cells_off_path hw hw2 hdY hdX hy hx hL vertical rev style color mergeable canMerge
      hoff hk⟩
  by_cases hin : w.checkCoord y x = true ∧ 0 < length
  · obtain ⟨hc, hpos⟩ := hin
    have hyx := (checkCoord_iff w y x).1 hc
    have hWF := dline_WF hw y x length vertical rev style color mergeable canMerge
    have hWF2 := dline_WF hWF.1 y x length vertical rev style color mergeable canMerge
    have hF := dline_fields w y x length vertical rev style color mergeable canMerge
    have hF2 := dline_fields (w.dline y x length vertical rev style color mergeable canMerge)
      y x length vertical rev style color mergeable canMerge
    have hoff : ∀ qy qx, (∀ j, j < dlineCount w y x length vertical rev →
        dlinePos y x vertical rev j ≠ (qy, qx)) →
        (w.dline y x length vertical rev style color mergeable canMerge).cellAt qy qx
          = w.cellAt qy qx :=
      fun qy qx h => dline_cellAt_off hw hyx.1 hyx.2 vertical rev style color mergeable
        canMerge h
    refine ext_cells hWF2.1 hWF.1 hWF2.2.1 hWF2.2.2 hF2.1 hF2.2.1 hF2.2.2 (fun y' x' => ?_)
    by_cases hp : ∃ k, k < dlineCount w y x length vertical rev
        ∧ dlinePos y x vertical rev k = (y', x')
    · obtain ⟨k, hk, hpk⟩ := hp
      have h := dline_cells_off_path hw hWF.1 hWF.2.1 hWF.2.2 hyx.1 hyx.2 hL vertical rev style
        color mergeable canMerge hoff hk
      rw [hpk] at h
      exact h
    · refine dline_cellAt_off hWF.1 (by rw [hWF.2.1]; exact hyx.1) (by rw [hWF.2.2]; exact hyx.2)
        vertical rev style color mergeable canMerge (fun k hk hk' => hp ⟨k, ?_, hk'⟩)
      rw [dlineCount_congr hWF.2.1 hWF.2.2] at hk
      exact hk
  · have hrej : w.checkCoord y x = false ∨ length = 0 := by
      by_cases hc : w.checkCoord y x = true
      · right
        by_contra h0
        exact hin ⟨hc, Nat.pos_of_ne_zero h0⟩
      · left
        simpa using hc
    rw [dline_of_rejected w y x length vertical rev style color mergeable canMerge hrej,
      dline_of_rejected w y x length vertical rev style color mergeable canMerge hrej]

set_option maxRecDepth 1000000 in
/-- C36, instance: on a 4x6 window with a vertical line in column 2, the horizontal line
`dline(1, 0, 5)` drawn twice gives what it gives drawn once, with U+253C at (1, 2). -/
theorem dline_idempotent_witness :
    ((((Window.create 24 80 0 0 4 6).dvline 0 2 4).dline 1 0 5).dline 1 0 5)
      = ((Window.create 24 80 0 0 4 6).dvline 0 2 4).dline 1 0 5
    ∧ (((Window.create 24 80 0 0 4 6).dvline 0 2 4).dline 1 0 5).schar 1 2 = 0x253C :=
  ⟨(dline_idempotent ((Window.create 24 80 0 0 4 6).dvline 0 2 4) (by decide!) 1 0 5
      (by decide) false false Defaults.Style Defaults.Color Defaults.Mergeable
      Defaults.CanMerge).1,
   by decide!⟩

end Window

end npp

namespace npp

namespace Window

/-- Step `k` of a forward line and step `L - 1 - k` of the reversed line ask for the same
directions. -/
theorem dlineDirs_reverse (a b c e k L cs : Nat) (vertical : Bool) (hk : k < L) :
    dlineDirs [a, b, c, e] k L vertical (dlineTdir1 vertical false) (dlineTdir2 vertical false) cs
      = dlineDirs [a, b, c, e] (L - 1 - k) L vertical (dlineTdir1 vertical true)
          (dlineTdir2 vertical true) cs := by
  have e1 : (L - 1 - k = L - 1) ↔ k = 0 := by omega
  have e2 : (L - 1 - k = 0) ↔ k = L - 1 := by omega
  cases vertical
  · rw [dlineDirs_horizontal, dlineDirs_horizontal_rev]
    simp only [e1, e2]
  · rw [dlineDirs_vertical, dlineDirs_vertical_rev]
    simp only [e1, e2]

/-- The neighbours `dline` collects are four directions. -/
theorem dlineNeighbours_four (w : Window) (py px : Nat) (canMerge : Bool) :
    ∃ a b c e, dlineNeighbours w py px canMerge = [a, b, c, e] := by
  unfold dlineNeighbours
  cases canMerge
  · exact ⟨_, _, _, _, rfl⟩
  · exact ⟨_, _, _, _, rfl⟩

/-- A line that fits in the window is the same drawn from its first cell forwards and
from its last cell backwards. -/
theorem dline_reverse_eq {w : Window} (hw : w.WF) {y x L : Nat} (vertical : Bool)
    (hL : 1 ≤ L) (hy : (if vertical then y + L else y + 1) ≤ w.DimY)
    (hx : (if vertical then x + 1 else x + L) ≤ w.DimX) (style : Nat × Nat) (color : Nat)
    (mergeable canMerge : Bool) :
    w.dline y x L vertical false style color mergeable canMerge
      = w.dline (if vertical then y + L - 1 else y) (if vertical then x else x + L - 1) L
          vertical true style color mergeable canMerge := by
  have hY := hw.1
  have hX := hw.2.1
  have hy0 : y < w.DimY := by cases vertical <;> simp at hy <;> omega
  have hx0 : x < w.DimX := by cases vertical <;> simp at hx <;> omega
  have hy1 : (if vertical then y + L - 1 else y) < w.DimY := by
    cases vertical <;> simp at hy ⊢ <;> omega
  have hx1 : (if vertical then x else x + L - 1) < w.DimX := by
    cases vertical <;> simp at hx ⊢ <;> omega
  have hL' : L < 65536 := by cases vertical <;> simp at hy hx <;> omega
  have hcf : dlineCount w y x L vertical false = L := by
    unfold dlineCount
    cases vertical <;> simp at hy hx ⊢ <;> omega
  have hcr : dlineCount w (if vertical then y + L - 1 else y)
      (if vertical then x else x + L - 1) L vertical true = L := by
    unfold dlineCount
    cases vertical <;> simp at hy hx ⊢ <;> omega
  have hpf := fun k hk => dlinePos_of_lt_count hw hy0 hx0 vertical false
    (show k < dlineCount w y x L vertical false by rw [hcf]; exact hk)
  have hpr := fun k hk => dlinePos_of_lt_count hw hy1 hx1 vertical true
    (show k < dlineCount w (if vertical then y + L - 1 else y)
      (if vertical then x else x + L - 1) L vertical true by rw [hcr]; exact hk)
  -- the two runs visit the same cells in opposite order
  have hsame : ∀ k, k < L → dlinePos (if vertical then y + L - 1 else y)
      (if vertical then x else x + L - 1) vertical true (L - 1 - k)
        = dlinePos y x vertical false k := by
    intro k hk
    rw [(hpf k hk).1, (hpr (L - 1 - k) (by omega)).1]
    cases vertical <;> simp <;> omega
  have hWF := dline_WF hw y x L vertical false style color mergeable canMerge
  have hWR := dline_WF hw (if vertical then y + L - 1 else y)
    (if vertical then x else x + L - 1) L vertical true style color mergeable canMerge
  have hF := dline_fields w y x L vertical false style color mergeable canMerge
  have hR := dline_fields w (if vertical then y + L - 1 else y)
    (if vertical then x else x + L - 1) L vertical true style color mergeable canMerge
  refine ext_cells hWF.1 hWR.1 (hWF.2.1.trans hWR.2.1.symm) (hWF.2.2.trans hWR.2.2.symm)
    (hF.1.trans hR.1.symm) (hF.2.1.trans hR.2.1.symm) (hF.2.2.trans hR.2.2.symm)
    (fun y' x' => ?_)
  by_cases hp : ∃ k, k < L ∧ dlinePos y x vertical false k = (y', x')
  · obtain ⟨k, hk, hpk⟩ := hp
    have h1 := dline_cellAt_path hw hy0 hx0 hL' vertical false style color mergeable canMerge
      (show k < dlineCount w y x L vertical false by rw [hcf]; exact hk)
    have h2 := dline_cellAt_path hw hy1 hx1 hL' vertical true style color mergeable canMerge
      (show L - 1 - k < dlineCount w (if vertical then y + L - 1 else y)
        (if vertical then x else x + L - 1) L vertical true by rw [hcr]; omega)
    rw [hsame k hk] at h2
    rw [hpk] at h1 h2
    rw [h1, h2]
    congr 1
    unfold dlineGlyph
    rw [hsame k hk]
    obtain ⟨a, b, c, e, hN⟩ := dlineNeighbours_four w (dlinePos y x vertical false k).1
      (dlinePos y x vertical false k).2 canMerge
    rw [hN, dlineDirs_reverse a b c e k L _ vertical hk]
  · rw [dline_cellAt_off hw hy0 hx0 vertical false style color mergeable canMerge
        (fun k hk hk' => hp ⟨k, by rw [hcf] at hk; exact hk, hk'⟩),
      dline_cellAt_off hw hy1 hx1 vertical true style color mergeable canMerge
        (fun k hk hk' => hp ⟨L - 1 - k, by rw [hcr] at hk; omega, by
          rw [hcr] at hk
          rw [← hsame (L - 1 - k) (by omega)]
          have : L - 1 - (L - 1 - k) = k := by omega
          rw [this]
          exact hk'⟩)]

/-- C35. Direction of travel does not matter: for every window whose grid has the shape
`DimY` x `DimX`, every style, colour and merge flags, and every line that lies entirely
inside the window, `dline(y, x, L, horizontal, rev = false)` and
`dline(y, x + L - 1, L, horizontal, rev = true)` give the same window, and so do
`dline(y, x, L, vertical, rev = false)` and `dline(y + L - 1, x, L, vertical, rev = true)`. -/
theorem dline_direction_irrelevant (w : Window) (hw : w.WF) (y x L : Nat) (hL : 1 ≤ L)
    (style : Nat × Nat) (color : Nat) (mergeable canMerge : Bool) :
    (y < w.DimY → x + L ≤ w.DimX →
      w.dline y x L false false style color mergeable canMerge
        = w.dline y (x + L - 1) L false true style color mergeable canMerge)
    ∧ (x < w.DimX → y + L ≤ w.DimY →
      w.dline y x L true false style color mergeable canMerge
        = w.dline (y + L - 1) x L true true style color mergeable canMerge) :=
  ⟨fun hy hx => dline_reverse_eq hw false hL (by simpa using hy) (by simpa using hx) style color
      mergeable canMerge,
   fun hx hy => dline_reverse_eq hw true hL (by simpa using hy) (by simpa using hx) style color
      mergeable canMerge⟩

set_option maxRecDepth 1000000 in
/-- C35, instance: on a 4x6 window with a vertical line in column 2, the horizontal line
of length 5 from (1, 0) forwards and from (1, 4) backwards give the same window, with
U+253C at (1, 2). -/
theorem dline_direction_irrelevant_witness :
    ((Window.create 24 80 0 0 4 6).dvline 0 2 4).dline 1 0 5 false false
      = ((Window.create 24 80 0 0 4 6).dvline 0 2 4).dline 1 4 5 false true
    ∧ (((Window.create 24 80 0 0 4 6).dvline 0 2 4).dline 1 4 5 false true).schar 1 2 = 0x253C :=
  ⟨(dline_direction_irrelevant ((Window.create 24 80 0 0 4 6).dvline 0 2 4) (by decide!) 1 0 5
      (by decide) Defaults.Style Defaults.Color Defaults.Mergeable Defaults.CanMerge).1
      (by decide!) (by decide!),
   by decide!⟩

end Window

end npp

namespace npp

/-- The events cut at their refreshes are never an empty list of lists. -/
theorem frames_ne_nil (l : List Event) : frames l ≠ [] := by
  cases l with
  | nil => simp [frames]
  | cons e rest =>
    show framesCons e (frames rest) ≠ []
    unfold framesCons
    split_ifs
    · simp
    · split <;> simp

/-- Events other than a refresh put in front of a trace join its first frame. -/
theorem frames_append (ws : List Event) (hws : ∀ e ∈ ws, e ≠ Event.refresh) (t : List Event) :
    ∃ f fs, frames t = f :: fs ∧ frames (ws ++ t) = (ws ++ f) :: fs := by
  induction ws with
  | nil =>
    cases h : frames t with
    | nil => exact absurd h (frames_ne_nil t)
    | cons f fs => exact ⟨f, fs, rfl, by rw [List.nil_append, h, List.nil_append]⟩
  | cons e ws ih =>
    obtain ⟨f, fs, h1, h2⟩ := ih (fun e' he' => hws e' (List.mem_cons_of_mem _ he'))
    refine ⟨f, fs, h1, ?_⟩
    show framesCons e (frames (ws ++ t)) = _
    rw [h2]
    unfold framesCons
    rw [if_neg (hws e (List.mem_cons_self _ _))]
    rfl

/-- Two traces that begin with runs of the same events other than refreshes, in any
order, and continue with traces whose frames hold the same events, have frames that
hold the same events. -/
theorem frames_perm_append {ws1 ws2 t1 t2 : List Event} (hp : ws1.Perm ws2)
    (h1 : ∀ e ∈ ws1, e ≠ Event.refresh)
    (h : List.Forall₂ List.Perm (frames t1) (frames t2)) :
    List.Forall₂ List.Perm (frames (ws1 ++ t1)) (frames (ws2 ++ t2)) := by
  have h2 : ∀ e ∈ ws2, e ≠ Event.refresh := fun e he => h1 e (hp.mem_iff.2 he)
  obtain ⟨f1, fs1, e1, e1'⟩ := frames_append ws1 h1 t1
  obtain ⟨f2, fs2, e2, e2'⟩ := frames_append ws2 h2 t2
  rw [e1, e2] at h
  rw [e1', e2']
  cases h with
  | cons hf hfs => exact List.Forall₂.cons (hp.append hf) hfs

/-- A refresh put in front of two traces starts a new, empty frame in both. -/
theorem frames_perm_refresh {t1 t2 : List Event}
    (h : List.Forall₂ List.Perm (frames t1) (frames t2)) :
    List.Forall₂ List.Perm (frames (Event.refresh :: t1)) (frames (Event.refresh :: t2)) :=
  List.Forall₂.cons (List.Perm.refl _) h

/-- The frames of a trace hold the same events as themselves. -/
theorem frames_perm_refl (t : List Event) : List.Forall₂ List.Perm (frames t) (frames t) := by
  generalize frames t = fs
  induction fs with
  | nil => exact List.Forall₂.nil
  | cons f fs ih => exact List.Forall₂.cons (List.Perm.refl _) ih

namespace Window

/-- Function `write` produces nothing but a write of the cell of the grid. -/
theorem write_events (w : Window) (y x : Nat) :
    ∀ e ∈ w.write y x, e = Event.write y x (w.cellAt y x) := by
  intro e he
  unfold write at he
  split_ifs at he
  · simp at he
  · exact List.mem_singleton.1 he

/-- The events of one iteration of `rline` are writes of cells of the grid. -/
theorem rlineWrite_events (w : Window) (dir : Nat) (rev : Bool) (i j : Nat) :
    ∀ e ∈ w.rlineWrite dir rev i j, ∃ y x, e = Event.write y x (w.cellAt y x) := by
  intro e he
  unfold rlineWrite at he
  split at he
  · exact ⟨_, _, write_events w _ _ e he⟩
  · exact ⟨_, _, write_events w _ _ e he⟩
  · exact ⟨_, _, write_events w _ _ e he⟩
  · exact ⟨_, _, write_events w _ _ e he⟩
  · simp at he

/-- With `full` the inner loop of `rline` writes its line without a refresh, a wait or
a poll. -/
theorem rlineInner_full (w : Window) (keys : Nat → Bool) (dir : Nat) (rev : Bool)
    (millis i : Nat) : ∀ (n j polls : Nat),
    w.rlineInner keys dir true rev millis i n j polls
      = ((List.range' j n).flatMap (fun j => w.rlineWrite dir rev i j), polls, false)
  | 0, j, polls => rfl
  | n + 1, j, polls => by
    rw [rlineInner]
    simp only [Bool.not_true, Bool.false_eq_true, if_false]
    rw [rlineInner_full w keys dir rev millis i n (j + 1) polls, List.range'_succ,
      List.flatMap_cons]

/-- A reversed line of `rline` writes the cells of the line in the opposite order. -/
theorem rlineWrite_rev {w : Window} (hY : w.DimY < 65536) (hX : w.DimX < 65536) (dir : Nat)
    (i : Nat) {j : Nat} (hj : j < (if dir < 2 then w.DimX else w.DimY)) :
    w.rlineWrite dir true i j
      = w.rlineWrite dir false i ((if dir < 2 then w.DimX else w.DimY) - 1 - j) := by
  have e1 : ∀ k, k < w.DimX → toUShort ((w.DimX : Int) - 1 - k) = w.DimX - 1 - k := by
    intro k hk; unfold toUShort; omega
  have e2 : ∀ k, k < w.DimY → toUShort ((w.DimY : Int) - 1 - k) = w.DimY - 1 - k := by
    intro k hk; unfold toUShort; omega
  unfold rlineWrite
  split
  · simp only [Nat.zero_lt_two, if_true, Bool.false_eq_true, if_false] at hj ⊢
    rw [e1 j hj]
  · simp only [Nat.one_lt_two, if_true, Bool.false_eq_true, if_false] at hj ⊢
    rw [e1 j hj]
  · simp only [Nat.lt_irrefl, if_false, if_true, Bool.false_eq_true] at hj ⊢
    rw [e2 j hj]
  · simp only [Nat.reduceLT, if_false, if_true, Bool.false_eq_true] at hj ⊢
    rw [e2 j hj]
  · rfl

/-- The events of a line of `rline` with `rev` are those of the line without it, in
another order. -/
theorem rlineLine_perm {w : Window} (hY : w.DimY < 65536) (hX : w.DimX < 65536) (dir i : Nat) :
    ((List.range' 0 (if dir < 2 then w.DimX else w.DimY)).flatMap
        (fun j => w.rlineWrite dir false i j)).Perm
      ((List.range' 0 (if dir < 2 then w.DimX else w.DimY)).flatMap
        (fun j => w.rlineWrite dir true i j)) := by
  generalize hl : (if dir < 2 then w.DimX else w.DimY) = l2
  have h1 : (List.range' 0 l2).flatMap (fun j => w.rlineWrite dir true i j)
      = ((List.range' 0 l2).reverse).flatMap (fun j => w.rlineWrite dir false i j) := by
    rw [List.reverse_range', List.flatMap_map, ← List.range_eq_range']
    apply List.flatMap_congr
    intro j hj
    rw [rlineWrite_rev hY hX dir i (by rw [hl]; exact List.mem_range.1 hj), hl, Nat.zero_add]
  rw [h1]
  exact (List.Perm.flatMap_right _ (List.reverse_perm _)).symm

end Window

end npp

namespace npp

namespace Window

/-- A property of the writes of cells of the grid, of the refresh and of the waits holds
of every event of `rinst`. -/
theorem rinst_forall (w : Window) (P : Event → Prop)
    (hPw : ∀ y x, P (Event.write y x (w.cellAt y x))) (hPr : P Event.refresh) :
    ∀ e ∈ w.rinst, P e := by
  intro e he
  unfold rinst at he
  rcases List.mem_append.1 he with h | h
  · obtain ⟨i, _, hi⟩ := List.mem_flatMap.1 h
    obtain ⟨j, _, hj⟩ := List.mem_flatMap.1 hi
    rw [write_events w i j e hj]
    exact hPw i j
  · rw [List.mem_singleton.1 h]
    exact hPr

/-- A property of the writes of cells of the grid, of the refresh and of the waits holds
of every event of the inner loop of `rline`. -/
theorem rlineInner_forall (w : Window) (P : Event → Prop)
    (hPw : ∀ y x, P (Event.write y x (w.cellAt y x))) (hPr : P Event.refresh)
    (hPt : ∀ m b, P (Event.wait m b)) (keys : Nat → Bool) (dir : Nat) (full rev : Bool)
    (millis i : Nat) : ∀ (n j polls : Nat),
    ∀ e ∈ (w.rlineInner keys dir full rev millis i n j polls).1, P e
  | 0, j, polls => by
    intro e he
    simp [rlineInner] at he
  | n + 1, j, polls => by
    have hwr : ∀ e ∈ w.rlineWrite dir rev i j, P e := by
      intro e he
      obtain ⟨y, x, h⟩ := rlineWrite_events w dir rev i j e he
      rw [h]
      exact hPw y x
    have hfix : ∀ b, ∀ e ∈ ([Event.refresh, Event.wait millis b] : List Event), P e := by
      intro b e he
      simp only [List.mem_cons, List.mem_singleton, List.not_mem_nil, or_false] at he
      rcases he with h | h
      · rw [h]; exact hPr
      · rw [h]; exact hPt _ _
    intro e he
    rw [rlineInner] at he
    cases full
    · simp only [Bool.not_false, if_true] at he
      by_cases hs : (w.wait keys millis polls).1 = true
      · simp only [hs, if_true, List.mem_append] at he
        rcases he with (h | h) | h
        · exact hwr e h
        · exact hfix _ e h
        · exact rinst_forall w P hPw hPr e h
      · simp only [hs, if_false, Bool.false_eq_true, List.mem_append] at he
        rcases he with (h | h) | h
        · exact hwr e h
        · exact hfix _ e h
        · exact rlineInner_forall w P hPw hPr hPt keys dir false rev millis i n (j + 1) _ e h
    · simp only [Bool.not_true, Bool.false_eq_true, if_false, List.mem_append] at he
      rcases he with h | h
      · exact hwr e h
      · exact rlineInner_forall w P hPw hPr hPt keys dir true rev millis i n (j + 1) _ e h

/-- A property of the writes of cells of the grid, of the refresh and of the waits holds
of every event of the outer loop of `rline`. -/
theorem rlineOuter_forall (w : Window) (P : Event → Prop)
    (hPw : ∀ y x, P (Event.write y x (w.cellAt y x))) (hPr : P Event.refresh)
    (hPt : ∀ m b, P (Event.wait m b)) (keys : Nat → Bool) (dir : Nat) (full rev : Bool)
    (millis l2 : Nat) : ∀ (n i polls : Nat),
    ∀ e ∈ (w.rlineOuter keys dir full rev millis l2 n i polls).1, P e
  | 0, i, polls => by
    intro e he
    simp [rlineOuter] at he
  | n + 1, i, polls => by
    have hin := rlineInner_forall w P hPw hPr hPt keys dir full rev millis i l2 0 polls
    have hfix : ∀ b, ∀ e ∈ ([Event.refresh, Event.wait millis b] : List Event), P e := by
      intro b e he
      simp only [List.mem_cons, List.mem_singleton, List.not_mem_nil, or_false] at he
      rcases he with h | h
      · rw [h]; exact hPr
      · rw [h]; exact hPt _ _
    intro e he
    rw [rlineOuter] at he
    by_cases hr : (w.rlineInner keys dir full rev millis i l2 0 polls).2.2 = true
    · simp only [hr, if_true] at he
      exact hin e he
    · simp only [hr, if_false, Bool.false_eq_true] at he
      by_cases hs : (w.wait keys millis
          (w.rlineInner keys dir full rev millis i l2 0 polls).2.1).1 = true
      · simp only [hs, if_true, List.mem_append] at he
        rcases he with (h | h) | h
        · exact hin e h
        · exact hfix _ e h
        · exact rinst_forall w P hPw hPr e h
      · simp only [hs, if_false, Bool.false_eq_true, List.mem_append] at he
        rcases he with (h | h) | h
        · exact hin e h
        · exact hfix _ e h
        · exact rlineOuter_forall w P hPw hPr hPt keys dir full rev millis l2 n (i + 1) _ e h

/-- With `full`, the outer loop of `rline` with and without `rev`: between two refreshes
the same events, the same refreshes and waits in the same order, the same polls. -/
theorem rlineOuter_rev {w : Window} (hY : w.DimY < 65536) (hX : w.DimX < 65536)
    (keys : Nat → Bool) (dir millis : Nat) : ∀ (n i polls : Nat),
    List.Forall₂ List.Perm
      (frames (w.rlineOuter keys dir true false millis (if dir < 2 then w.DimX else w.DimY)
        n i polls).1)
      (frames (w.rlineOuter keys dir true true millis (if dir < 2 then w.DimX else w.DimY)
        n i polls).1)
    ∧ (w.rlineOuter keys dir true false millis (if dir < 2 then w.DimX else w.DimY)
        n i polls).1.filter (fun e => e.cell.isNone)
      = (w.rlineOuter keys dir true true millis (if dir < 2 then w.DimX else w.DimY)
        n i polls).1.filter (fun e => e.cell.isNone)
    ∧ (w.rlineOuter keys dir true false millis (if dir < 2 then w.DimX else w.DimY)
        n i polls).2
      = (w.rlineOuter keys dir true true millis (if dir < 2 then w.DimX else w.DimY)
        n i polls).2
  | 0, i, polls => ⟨frames_perm_refl _, rfl, rfl⟩
  | n + 1, i, polls => by
    have hperm := rlineLine_perm hY hX dir i
    have hnr : ∀ rev, ∀ e ∈ (List.range' 0 (if dir < 2 then w.DimX else w.DimY)).flatMap
        (fun j => w.rlineWrite dir rev i j), e ≠ Event.refresh ∧ e.cell.isNone = false := by
      intro rev e he
      obtain ⟨j, _, hj⟩ := List.mem_flatMap.1 he
      obtain ⟨y, x, h⟩ := rlineWrite_events w dir rev i j e hj
      rw [h]
      exact ⟨by simp, rfl⟩
    have hfil : ∀ rev, ((List.range' 0 (if dir < 2 then w.DimX else w.DimY)).flatMap
        (fun j => w.rlineWrite dir rev i j)).filter (fun e => e.cell.isNone) = [] := by
      intro rev
      rw [List.filter_eq_nil_iff]
      intro e he
      rw [(hnr rev e he).2]
      simp
    have hwait : ∀ b, ∀ e ∈ ([Event.wait millis b] : List Event), e ≠ Event.refresh := by
      intro b e he
      rw [List.mem_singleton.1 he]
      simp
    rw [rlineOuter, rlineOuter]
    simp only [rlineInner_full, Bool.false_eq_true, if_false]
    by_cases hs : (w.wait keys millis polls).1 = true
    · simp only [hs, if_true, List.append_assoc, List.cons_append, List.nil_append,
        List.filter_append, hfil, and_true]
      exact frames_perm_append hperm (fun e he => (hnr false e he).1)
        (frames_perm_refl _)
    · have ih := rlineOuter_rev hY hX keys dir millis n (i + 1) (w.wait keys millis polls).2
      simp only [hs, if_false, List.append_assoc, List.cons_append, List.nil_append,
        List.filter_append, hfil, Bool.false_eq_true]
      refine ⟨frames_perm_append hperm (fun e he => (hnr false e he).1)
        (frames_perm_refresh (frames_perm_append (List.Perm.refl [Event.wait millis false])
          (hwait false) ih.1)), ?_, ih.2.2⟩
      rw [List.filter_cons, List.filter_cons, List.filter_cons, List.filter_cons, ih.2.1]

/-- C33. When `full` is true, `rev` has no visible effect on `rline`: for every `dir`,
`millis` and every input source, the events of the run with `rev = true` and of the run
with `rev = false`, cut at their refreshes, hold pairwise the same events (the same cells
written between two consecutive refreshes, in another order); the refreshes and waits of
the two runs are the same, with the same outcomes and in the same order, and so are the
polls made; and every write, in either run, puts the cell of the grid on the screen, so
that the screen holds the same content at every refresh and at every wait. -/
theorem rline_rev_full (w : Window) (hY : w.DimY < 65536) (hX : w.DimX < 65536)
    (keys : Nat → Bool) (dir millis polls : Nat) :
    List.Forall₂ List.Perm (frames (w.rline keys dir true false millis polls).1)
      (frames (w.rline keys dir true true millis polls).1)
    ∧ (w.rline keys dir true false millis polls).1.filter (fun e => e.cell.isNone)
      = (w.rline keys dir true true millis polls).1.filter (fun e => e.cell.isNone)
    ∧ (w.rline keys dir true false millis polls).2 = (w.rline keys dir true true millis polls).2
    ∧ (∀ rev, ∀ e ∈ (w.rline keys dir true rev millis polls).1,
        ∀ y x c, e = Event.write y x c → c = w.cellAt y x) := by
  have hcells : ∀ rev, ∀ e ∈ (w.rline keys dir true rev millis polls).1,
      ∀ y x c, e = Event.write y x c → c = w.cellAt y x := by
    intro rev
    have hPw : ∀ y x, ∀ y' x' c, Event.write y x (w.cellAt y x) = Event.write y' x' c →
        c = w.cellAt y' x' := by
      intro y x y' x' c h
      simp only [Event.write.injEq] at h
      obtain ⟨h1, h2, h3⟩ := h
      rw [← h1, ← h2, ← h3]
    have hPr : ∀ y' x' c, Event.refresh = Event.write y' x' c → c = w.cellAt y' x' := by
      intro y' x' c h
      simp at h
    have hPt : ∀ m b, ∀ y' x' c, Event.wait m b = Event.write y' x' c → c = w.cellAt y' x' := by
      intro m b y' x' c h
      simp at h
    unfold rline
    by_cases hd : dir > 3
    · rw [if_pos hd]
      exact rinst_forall w (fun e => ∀ y x c, e = Event.write y x c → c = w.cellAt y x) hPw hPr
    · rw [if_neg hd]
      exact rlineOuter_forall w (fun e => ∀ y x c, e = Event.write y x c → c = w.cellAt y x)
        hPw hPr hPt keys dir true rev millis _ _ 0 polls
  by_cases hd : dir > 3
  · refine ⟨?_, ?_, ?_, hcells⟩
    · unfold rline
      rw [if_pos hd, if_pos hd]
      exact frames_perm_refl _
    · unfold rline
      rw [if_pos hd, if_pos hd]
    · unfold rline
      rw [if_pos hd, if_pos hd]
  · have h := rlineOuter_rev hY hX keys dir millis (if dir < 2 then w.DimY else w.DimX) 0 polls
    refine ⟨?_, ?_, ?_, hcells⟩
    · unfold rline
      rw [if_neg hd, if_neg hd]
      exact h.1
    · unfold rline
      rw [if_neg hd, if_neg hd]
      exact h.2.1
    · unfold rline
      rw [if_neg hd, if_neg hd]
      exact h.2.2

set_option maxRecDepth 1000000 in
/-- C33, instance: on a 2x2 window with no key pressed, `rline(0, true, rev, 1)` writes
row 0, refreshes and waits, then row 1; the frames of the two runs hold the same events,
and the writes of row 0 come in the two orders. -/
theorem rline_rev_full_witness :
    List.Forall₂ List.Perm
      (frames ((Window.create 24 80 0 0 2 2).rline (fun _ => false) 0 true false 1 0).1)
      (frames ((Window.create 24 80 0 0 2 2).rline (fun _ => false) 0 true true 1 0).1)
    ∧ frames ((Window.create 24 80 0 0 2 2).rline (fun _ => false) 0 true false 1 0).1
      = [[Event.write 0 0 {}, Event.write 0 1 {}],
         [Event.wait 1 false, Event.write 1 0 {}, Event.write 1 1 {}],
         [Event.wait 1 false]]
    ∧ frames ((Window.create 24 80 0 0 2 2).rline (fun _ => false) 0 true true 1 0).1
      = [[Event.write 0 1 {}, Event.write 0 0 {}],
         [Event.wait 1 false, Event.write 1 1 {}, Event.write 1 0 {}],
         [Event.wait 1 false]] :=
  ⟨(rline_rev_full (Window.create 24 80 0 0 2 2) (by decide) (by decide) (fun _ => false)
      0 1 0).1, by decide!, by decide!⟩

end Window

end npp

namespace npp

namespace Window

set_option maxRecDepth 1000000 in
/-- Every light glyph is a glyph of the key, not the blank, and its directions are light
or none. -/
theorem lightGlyphs_catalog : ∀ g ∈ lightGlyphs,
    g ≠ BLANK ∧ ∃ e ∈ Keys.LineDrawing, e.1 = g ∧ ∀ d ∈ List.range 4, e.2.getD d 0 ≤ 1 := by
  decide!

set_option maxRecDepth 1000000 in
/-- For neighbours that show light or nothing, a step of a line of the plain light style
that is not both the first and the last step gets a light glyph: at least two of the
directions asked for are light. -/
theorem light_step_glyph : ∀ a ∈ [0, 1], ∀ b ∈ [0, 1], ∀ c ∈ [0, 1], ∀ e ∈ [0, 1],
    ∀ v ∈ [true, false], ∀ r ∈ [true, false], ∀ k ∈ [0, 1, 2],
    dlinePiece (dlineDirs [a, b, c, e] k 3 v (dlineTdir1 v r) (dlineTdir2 v r) STYLE_LIGHT)
      (LIGHT_HARD, DASHED_NONE) ∈ lightGlyphs := by
  decide!

/-- The directions asked for at a step depend on the step only through whether it is
the first and whether it is the last. -/
theorem dlineDirs_class (dirs : List Nat) (k L k' L' : Nat) (vertical : Bool)
    (tdir1 tdir2 cs : Nat) (h0 : k = 0 ↔ k' = 0) (h1 : k = L - 1 ↔ k' = L' - 1) :
    dlineDirs dirs k L vertical tdir1 tdir2 cs = dlineDirs dirs k' L' vertical tdir1 tdir2 cs := by
  unfold dlineDirs
  simp only [show (k = 0) = (k' = 0) from propext h0,
    show (k = L - 1) = (k' = L' - 1) from propext h1]

/-- In a window whose mergeable cells hold light glyphs every connection is light or
none. -/
theorem getConnectStyle_light {w : Window}
    (hinv : ∀ y x, (w.cellAt y x).CanMerge = true → (w.cellAt y x).Char ∈ lightGlyphs)
    (y x dir : Nat) : w.getConnectStyle y x dir ≤ 1 := by
  by_cases hm : (w.cellAt y x).CanMerge = true
  · by_cases hin : w.checkCoord y x = true
    · by_cases hdir : dir ≤ 3
      · obtain ⟨_, e, he, heg, hev⟩ := lightGlyphs_catalog _ (hinv y x hm)
        rw [getConnectStyle_of_entry he hin hdir hm heg]
        exact hev dir (List.mem_range.2 (by omega))
      · unfold getConnectStyle
        rw [if_pos (by simp; right; omega)]
        exact Nat.zero_le _
    · rw [getConnectStyle_of_out (by simpa using hin)]
      exact Nat.zero_le _
  · rw [getConnectStyle_not_mergeable (by simpa using hm)]
    exact Nat.zero_le _

/-- One call of `dline` in the plain light style with merging, of a length other than
1, keeps the window well-formed and its mergeable cells light. -/
theorem light_line_step {w : Window} (hw : w.WF)
    (hinv : ∀ y x, (w.cellAt y x).CanMerge = true → (w.cellAt y x).Char ∈ lightGlyphs)
    (c : LightLine) (h1 : c.length ≠ 1) (hL : c.length < 65536) :
    (LightLine.draw w c).WF
    ∧ (LightLine.draw w c).DimY = w.DimY ∧ (LightLine.draw w c).DimX = w.DimX
    ∧ (∀ y x, ((LightLine.draw w c).cellAt y x).CanMerge = true →
        ((LightLine.draw w c).cellAt y x).Char ∈ lightGlyphs)
    ∧ (c.y < w.DimY → c.x < w.DimX →
        ∀ k, k < dlineCount w c.y c.x c.length c.vertical c.rev →
        ((LightLine.draw w c).cellAt (dlinePos c.y c.x c.vertical c.rev k).1
            (dlinePos c.y c.x c.vertical c.rev k).2).Char ∈ lightGlyphs
        ∧ ((LightLine.draw w c).cellAt (dlinePos c.y c.x c.vertical c.rev k).1
            (dlinePos c.y c.x c.vertical c.rev k).2).CanMerge = true) := by
  obtain ⟨y, x, L, vertical, rev, color⟩ := c
  simp only at h1 hL ⊢
  unfold LightLine.draw
  simp only
  have hWF := dline_WF hw y x L vertical rev (LIGHT_HARD, DASHED_NONE) color true true
  have hpath : y < w.DimY → x < w.DimX → ∀ k, k < dlineCount w y x L vertical rev →
      (w.dline y x L vertical rev (LIGHT_HARD, DASHED_NONE) color true true).cellAt
          (dlinePos y x vertical rev k).1 (dlinePos y x vertical rev k).2
        = lineCell (dlineGlyph w y x L vertical rev (LIGHT_HARD, DASHED_NONE) true k) color true
      ∧ dlineGlyph w y x L vertical rev (LIGHT_HARD, DASHED_NONE) true k ∈ lightGlyphs := by
    intro hy hx k hk
    refine ⟨dline_cellAt_path hw hy hx hL vertical rev (LIGHT_HARD, DASHED_NONE) color true true
      hk, ?_⟩
    have hkL : k < L := lt_of_lt_of_le hk (dlineCount_le w y x L vertical rev)
    unfold dlineGlyph
    have hst : dlineStyle (LIGHT_HARD, DASHED_NONE) = (LIGHT_HARD, DASHED_NONE) := rfl
    have hcs : dlineCstyle LIGHT_HARD vertical = STYLE_LIGHT := by cases vertical <;> rfl
    rw [hst, hcs]
    unfold dlineNeighbours
    simp only [if_true]
    have hcls : ∃ k', k' ∈ [0, 1, 2] ∧ (k = 0 ↔ k' = 0) ∧ (k = L - 1 ↔ k' = 3 - 1) := by
      by_cases h0 : k = 0
      · exact ⟨0, by simp, by simp [h0], by omega⟩
      · by_cases hl : k = L - 1
        · exact ⟨2, by simp, by omega, by omega⟩
        · exact ⟨1, by simp, by omega, by omega⟩
    obtain ⟨k', hk', e0, e1⟩ := hcls
    rw [dlineDirs_class _ k L k' 3 vertical _ _ _ e0 e1]
    have hmem : ∀ n : Nat, n ≤ 1 → n ∈ [0, 1] := by
      intro n hn
      have : n = 0 ∨ n = 1 := by omega
      rcases this with h | h <;> simp [h]
    exact light_step_glyph _ (hmem _ (getConnectStyle_light hinv _ _ _))
      _ (hmem _ (getConnectStyle_light hinv _ _ _))
      _ (hmem _ (getConnectStyle_light hinv _ _ _))
      _ (hmem _ (getConnectStyle_light hinv _ _ _))
      vertical (by cases vertical <;> simp) rev (by cases rev <;> simp) k' hk'
  refine ⟨hWF.1, hWF.2.1, hWF.2.2, fun y' x' hm => ?_, fun hy hx k hk => ?_⟩
  · by_cases hin : w.checkCoord y x = true ∧ 0 < L
    · obtain ⟨hc, _⟩ := hin
      have hyx := (checkCoord_iff w y x).1 hc
      by_cases hp : ∃ k, k < dlineCount w y x L vertical rev
          ∧ dlinePos y x vertical rev k = (y', x')
      · obtain ⟨k, hk, hpk⟩ := hp
        have h := hpath hyx.1 hyx.2 k hk
        rw [hpk] at h
        rw [h.1]
        exact h.2
      · have hoff := dline_cellAt_off hw hyx.1 hyx.2 vertical rev (LIGHT_HARD, DASHED_NONE)
          color true true (fun k hk hk' => hp ⟨k, hk, hk'⟩)
        rw [hoff] at hm ⊢
        exact hinv y' x' hm
    · have hrej : w.checkCoord y x = false ∨ L = 0 := by
        by_cases hc : w.checkCoord y x = true
        · right
          by_contra h0
          exact hin ⟨hc, Nat.pos_of_ne_zero h0⟩
        · left
          simpa using hc
      rw [dline_of_rejected w y x L vertical rev _ color true true hrej] at hm ⊢
      exact hinv y' x' hm
  · have h := hpath hy hx k hk
    rw [h.1]
    exact ⟨h.2, rfl⟩

/-- A sequence of calls of `dline` in the plain light style with merging, none of
length 1, keeps the window well-formed and its mergeable cells light. -/
theorem light_lines_inv : ∀ (calls : List LightLine) (w : Window), w.WF →
    (∀ y x, (w.cellAt y x).CanMerge = true → (w.cellAt y x).Char ∈ lightGlyphs) →
    (∀ c ∈ calls, c.length ≠ 1 ∧ c.length < 65536) →
    (calls.foldl LightLine.draw w).WF
    ∧ (calls.foldl LightLine.draw w).DimY = w.DimY
    ∧ (calls.foldl LightLine.draw w).DimX = w.DimX
    ∧ ∀ y x, ((calls.foldl LightLine.draw w).cellAt y x).CanMerge = true →
        ((calls.foldl LightLine.draw w).cellAt y x).Char ∈ lightGlyphs
  | [], w, hw, hinv, _ => ⟨hw, rfl, rfl, hinv⟩
  | c :: calls, w, hw, hinv, hall => by
    have hc := hall c (List.mem_cons_self _ _)
    have hs := light_line_step hw hinv c hc.1 hc.2
    have ih := light_lines_inv calls (LightLine.draw w c) hs.1 hs.2.2.2.1
      (fun c' hc' => hall c' (List.mem_cons_of_mem _ hc'))
    rw [List.foldl_cons]
    exact ⟨ih.1, ih.2.1.trans hs.2.1, ih.2.2.1.trans hs.2.2.1, ih.2.2.2⟩

set_option maxRecDepth 1000000 in
/-- C37, counterexample.  On a fresh 4x5 window, after the vertical light line
`dline(0, 2, 2, vertical)` the call `dline(2, 2, 1)` of length 1 finds a light
connection above and nothing on the other sides, asks for the directions (light, none,
none, none), for which the key has no glyph, and writes the blank into the cell (2, 2),
which it marks mergeable. -/
theorem light_line_blank_counterexample :
    (Window.create 24 80 0 0 4 5).WF
    ∧ (∀ y x, (Window.create 24 80 0 0 4 5).cellAt y x = {})
    ∧ dlineNeighbours (LightLine.draw (Window.create 24 80 0 0 4 5) ⟨0, 2, 2, true, false, 1⟩)
        2 2 true = [STYLE_LIGHT, STYLE_NONE, STYLE_NONE, STYLE_NONE]
    ∧ getPiece [STYLE_LIGHT, STYLE_NONE, STYLE_NONE, STYLE_NONE] (LIGHT_HARD, DASHED_NONE)
        = BLANK
    ∧ ([⟨0, 2, 2, true, false, 1⟩, ⟨2, 2, 1, false, false, 1⟩].foldl LightLine.draw
        (Window.create 24 80 0 0 4 5)).cellAt 2 2 = lineCell BLANK 1 true
    ∧ (∀ e ∈ Keys.LineDrawing, e.1 ≠ BLANK) := by
  refine ⟨by decide, fun y x => cellAt_create _ _ _ _ _ _ _ _, by decide!, by decide!,
    by decide!, by decide!⟩

/-- C37 (amended). A drawn line is never invisible when only light lines of a length
other than 1 are involved: in every window reached from a window without mergeable cells
(every fresh window is one) by calls of `dline` with the style (LIGHT_HARD, DASHED_NONE),
`mergeable = true`, `canMerge = true` and a length other than 1, every mergeable cell
holds one of the eleven light glyphs, each a glyph of the key and not the blank; and
every cell that one more such call writes holds such a glyph and is mergeable. -/
theorem light_lines_visible (w0 : Window) (hw0 : w0.WF)
    (hfresh : ∀ y x, (w0.cellAt y x).CanMerge = false) (calls : List LightLine)
    (hcalls : ∀ c ∈ calls, c.length ≠ 1 ∧ c.length < 65536) :
    (∀ y x, ((calls.foldl LightLine.draw w0).cellAt y x).CanMerge = true →
      ((calls.foldl LightLine.draw w0).cellAt y x).Char ∈ lightGlyphs)
    ∧ (∀ g ∈ lightGlyphs, g ≠ BLANK ∧ g ∈ Keys.LineDrawing.map Prod.fst)
    ∧ (∀ c : LightLine, c.length ≠ 1 → c.length < 65536 →
        c.y < w0.DimY → c.x < w0.DimX →
        ∀ k, k < dlineCount w0 c.y c.x c.length c.vertical c.rev →
        ((LightLine.draw (calls.foldl LightLine.draw w0) c).cellAt
            (dlinePos c.y c.x c.vertical c.rev k).1
            (dlinePos c.y c.x c.vertical c.rev k).2).Char ∈ lightGlyphs
        ∧ ((LightLine.draw (calls.foldl LightLine.draw w0) c).cellAt
            (dlinePos c.y c.x c.vertical c.rev k).1
            (dlinePos c.y c.x c.vertical c.rev k).2).CanMerge = true) := by
  have hinv := light_lines_inv calls w0 hw0
    (fun y x h => absurd h (by rw [hfresh y x]; exact Bool.false_ne_true)) hcalls
  refine ⟨hinv.2.2.2, fun g hg => ?_, fun c h1 hL hy hx k hk => ?_⟩
  · obtain ⟨hb, e, he, heg, _⟩ := lightGlyphs_catalog g hg
    exact ⟨hb, List.mem_map.2 ⟨e, he, heg⟩⟩
  · have hs := light_line_step hinv.1 hinv.2.2.2 c h1 hL
    exact hs.2.2.2.2 (by rw [hinv.2.1]; exact hy) (by rw [hinv.2.2.1]; exact hx) k
      (by rw [dlineCount_congr hinv.2.1 hinv.2.2.1]; exact hk)

set_option maxRecDepth 1000000 in
/-- C37 (amended), instance: on a fresh 4x5 window, after the vertical line of length 3
in column 2 and the horizontal line of length 2 from (3, 2), the cell (3, 2) is mergeable
and holds the light glyph U+2514. -/
theorem light_lines_visible_witness :
    (([⟨0, 2, 3, true, false, 1⟩, ⟨3, 2, 2, false, false, 1⟩].foldl LightLine.draw
        (Window.create 24 80 0 0 4 5)).cellAt 3 2).Char ∈ lightGlyphs
    ∧ ([⟨0, 2, 3, true, false, 1⟩, ⟨3, 2, 2, false, false, 1⟩].foldl LightLine.draw
        (Window.create 24 80 0 0 4 5)).cellAt 3 2 = lineCell 0x2514 1 true :=
  ⟨(light_lines_visible (Window.create 24 80 0 0 4 5) (by decide)
      (fun y x => by rw [cellAt_create])
      [⟨0, 2, 3, true, false, 1⟩, ⟨3, 2, 2, false, false, 1⟩] (by decide)).1 3 2 (by decide!),
   by decide!⟩

end Window

end npp
